import Mathlib

/-!
The QTCP send buffer (`src/tcp-tx-buffer.cc`)

A shallow embedding of `ns3::TcpTxBuffer` as modified for QTCP: every data
unit (`m_appList`) is queued together with an entanglement/redundancy unit
(`m_qidList`), and both are multiplexed into one sequence space and one sent
list (`m_sentList`).

Conventions of the embedding.

* `uint32_t` values are `Nat`s kept below `2^32`; every addition and
  subtraction of the source is written with an explicit reduction modulo
  `2^32` (`add32`, `sub32`).
* `SequenceNumber32` (ns-3, `sequence-number.h`) is a `uint32_t` compared in
  serial-number arithmetic; `seqGt` and friends transcribe its operators.
* A `Ptr<Packet>` is the list of its bytes, `GetSize` is `List.length`.
* A `std::list<TcpTxItem*>` is a `List TcpTxItem`; a pointer to an item of a
  list is the index of its node.
* `NS_ASSERT`, `NS_FATAL_ERROR`, `NS_ABORT_MSG_UNLESS`, behaviour that C++
  leaves undefined, and loops that never end are results of type `Fault`.
* Recursive functions take a `fuel : Nat` that bounds the recursion depth; it
  is reported as `Fault.fuel` when it runs out.
* `Simulator::Now ()` and `rand ()` are parameters (`now`, `rnd`).
-/

namespace QTcp

/-! ## Machine integers and sequence numbers -/

/-- Addition of two `uint32_t`. -/
def add32 (a b : Nat) : Nat := (a + b) % 4294967296

/-- Subtraction of two `uint32_t` (wrapping). -/
def sub32 (a b : Nat) : Nat := (a % 4294967296 + 4294967296 - b % 4294967296) % 4294967296

/-- `SequenceNumber32::operator>`: with `halfMaxValue = 0xffffffff / 2`,
`(a > b && a - b <= half) || (b > a && b - a > half)`. -/
def seqGt (a b : Nat) : Prop :=
  (b < a ∧ a - b ≤ 2147483647) ∨ (a < b ∧ 2147483647 < b - a)

instance (a b : Nat) : Decidable (seqGt a b) := by
  unfold seqGt; infer_instance

/-- `SequenceNumber32::operator>=`: `a > b || a == b`. -/
def seqGe (a b : Nat) : Prop := seqGt a b ∨ a = b

instance (a b : Nat) : Decidable (seqGe a b) := by
  unfold seqGe; infer_instance

/-- `SequenceNumber32::operator<=`: `!(a > b)`. -/
def seqLe (a b : Nat) : Prop := ¬ seqGt a b

instance (a b : Nat) : Decidable (seqLe a b) := by
  unfold seqLe; infer_instance

/-- `SequenceNumber32::operator<`: `!(a > b) && a != b`. -/
def seqLt (a b : Nat) : Prop := ¬ seqGt a b ∧ a ≠ b

instance (a b : Nat) : Decidable (seqLt a b) := by
  unfold seqLt; infer_instance

/-- `SequenceNumber32 + uint32_t`. -/
def seqAdd (s n : Nat) : Nat := (s + n) % 4294967296

/-- `SequenceNumber32 - SequenceNumber32`, the signed result converted to
`uint32_t` as every use in the buffer does. -/
def seqDiff (a b : Nat) : Nat := sub32 a b

/-! ## Faults -/

/-- The ways an operation of the buffer can fail to return. -/
inductive Fault where
  /-- `NS_FATAL_ERROR` or `NS_ABORT_MSG_UNLESS`. -/
  | fatal
  /-- A failed `NS_ASSERT`. -/
  | assertion
  /-- Undefined behaviour: a null or dangling pointer is dereferenced, an
  array is indexed out of bounds. -/
  | undefined
  /-- The source loops forever. -/
  | diverges
  /-- The recursion bound of the embedding ran out. -/
  | fuel
  deriving DecidableEq, Repr

instance {ε α : Type} [DecidableEq ε] [DecidableEq α] : DecidableEq (Except ε α) := by
  intro x y
  cases x with
  | error a =>
    cases y with
    | error b =>
      by_cases h : a = b
      · exact isTrue (by rw [h])
      · exact isFalse (fun hh => h (by injection hh))
    | ok b => exact isFalse (fun hh => by cases hh)
  | ok a =>
    cases y with
    | error b => exact isFalse (fun hh => by cases hh)
    | ok b =>
      by_cases h : a = b
      · exact isTrue (by rw [h])
      · exact isFalse (fun hh => h (by injection hh))

/-! ## Items -/

/-- `Time::Min ()`, the value a fresh item's `m_lastSent` holds. -/
def timeMin : Int := -9223372036854775808

/-- `TcpTxItem`: a packet with its transmission state. `m_qided` is the stream
tag: `true` for a unit of `m_qidList`, `false` for a unit of `m_appList`. -/
structure TcpTxItem where
  m_packet : List Nat
  m_lost : Bool
  m_retrans : Bool
  m_lastSent : Int
  m_sacked : Bool
  m_qided : Bool
  deriving DecidableEq, Repr

/-- `TcpTxItem::TcpTxItem ()`. -/
def TcpTxItem.new : TcpTxItem :=
  { m_packet := [], m_lost := false, m_retrans := false, m_lastSent := timeMin,
    m_sacked := false, m_qided := false }

/-- `GetSize ()` of the item's packet. -/
def TcpTxItem.size (t : TcpTxItem) : Nat := t.m_packet.length

/-- `TcpTxBuffer::SplitItems (t1, t2, size)`: `t1` receives the first `size`
bytes of `t2` and a copy of its flags, `t2` keeps the rest. Returns
`(t1, t2)`. -/
def SplitItems (t1 t2 : TcpTxItem) (size : Nat) : TcpTxItem × TcpTxItem :=
  ({ t1 with
      m_packet := t2.m_packet.take size
      m_qided := t2.m_qided
      m_sacked := t2.m_sacked
      m_lastSent := t2.m_lastSent
      m_retrans := t2.m_retrans
      m_lost := t2.m_lost },
   { t2 with m_packet := t2.m_packet.drop size })

/-- `TcpTxBuffer::MergeItems (t1, t2)`: the new value of `t1`. -/
def MergeItems (t1 t2 : TcpTxItem) : TcpTxItem :=
  let t1 := if t1.m_sacked = true ∧ t2.m_sacked = true then { t1 with m_sacked := true }
            else { t1 with m_sacked := false }
  let t1 := if t2.m_retrans = true ∧ t1.m_retrans = false then { t1 with m_retrans := true }
            else t1
  let t1 := if t1.m_lastSent < t2.m_lastSent then { t1 with m_lastSent := t2.m_lastSent }
            else t1
  let t1 := if t2.m_lost = true then { t1 with m_lost := true } else t1
  { t1 with m_packet := t1.m_packet ++ t2.m_packet }

/-! ## Iterators into the sent list -/

/-- A `PacketList::const_iterator` into `m_sentList`, as `m_highestSack.first`
holds one: the past-the-end iterator, the node at a position, or an iterator
that designates no node of the list, because its node has been erased or
because it was never assigned. -/
inductive SentIter where
  | atEnd
  | atNode (i : Nat)
  | invalid
  deriving DecidableEq, Repr

/-- A structural change of a `std::list`: a node inserted before the node at
position `i`, or the node at position `i` erased. -/
inductive ListEdit where
  | insertBefore (i : Nat)
  | erase (i : Nat)
  deriving DecidableEq, Repr

/-- What a `std::list` iterator designates after an edit of the list: nodes
keep their identity, so a node behind the edit moves by one position, the
erased node is gone, and `end ()` stays `end ()`. -/
def SentIter.afterEdit : SentIter → ListEdit → SentIter
  | .atNode j, .insertBefore i => if i ≤ j then .atNode (j + 1) else .atNode j
  | .atNode j, .erase i =>
    if j = i then .invalid else if i < j then .atNode (j - 1) else .atNode j
  | it, _ => it

/-! ## The buffer -/

/-- The members of `TcpTxBuffer`. `m_size` counts the bytes of the data stream
(pending and sent), `m_stageSize` those of the redundancy stream;
`m_sentSize = m_appsentSize + m_stagesentSize` is meant to count the bytes of
`m_sentList`. `m_highestSack` is the pair (iterator, sequence). -/
structure TcpTxBuffer where
  m_maxBuffer : Nat
  m_size : Nat
  m_sentSize : Nat
  m_appsentSize : Nat
  m_stageSize : Nat
  m_stagesentSize : Nat
  m_stage : Nat
  m_sendQseq : Nat
  m_stageQseq : Nat
  m_esQseq : Nat
  m_qednum : Nat
  m_appnum : Nat
  m_qheader : Nat
  m_red : Nat
  m_firstByteSeq : Nat
  m_highestSack : SentIter × Nat
  m_sentList : List TcpTxItem
  m_appList : List TcpTxItem
  m_qidList : List TcpTxItem
  deriving DecidableEq, Repr

/-- `TcpTxBuffer::TcpTxBuffer (n)` followed by the attribute initialisation of
`GetTypeId` (`HEADERSIZE`, `REDSIZE`), here the parameters `qheader` and
`red`. The constructor does not assign `m_highestSack`: the pair holds a
default-constructed iterator, which is not `m_sentList.end ()` and designates
no node, and the sequence number 0. `SetHeadSequence` assigns it
`(m_sentList.end (), 0)`. -/
def TcpTxBuffer.create (n qheader red : Nat) : TcpTxBuffer :=
  { m_maxBuffer := 32768, m_size := 0, m_sentSize := 0, m_appsentSize := 0,
    m_stageSize := 0, m_stagesentSize := 0, m_stage := 1, m_sendQseq := 0,
    m_stageQseq := 0, m_esQseq := 0, m_qednum := 0, m_appnum := 0,
    m_qheader := qheader, m_red := red, m_firstByteSeq := n,
    m_highestSack := (.invalid, 0), m_sentList := [], m_appList := [], m_qidList := [] }

/-- `TcpTxBuffer::HeadSequence`. -/
def HeadSequence (b : TcpTxBuffer) : Nat := b.m_firstByteSeq

/-- `TcpTxBuffer::TailSequence`. -/
def TailSequence (b : TcpTxBuffer) : Nat :=
  seqAdd (seqAdd b.m_firstByteSeq b.m_size) b.m_stageSize

/-- `TcpTxBuffer::Available`. -/
def Available (b : TcpTxBuffer) : Nat :=
  sub32 (sub32 b.m_maxBuffer b.m_size) b.m_stageSize

/-- `TcpTxBuffer::SetMaxBufferSize`. -/
def SetMaxBufferSize (n : Nat) (b : TcpTxBuffer) : TcpTxBuffer :=
  { b with m_maxBuffer := n }

/-- `TcpTxBuffer::SizeFromSequence`. -/
def SizeFromSequence (b : TcpTxBuffer) (seq : Nat) : Nat :=
  if seqGe (TailSequence b) seq then seqDiff (TailSequence b) seq else 0

/-! ## Enqueue -/

/-- `TcpTxBuffer::Encode (p, q)`: the new content of `q`. The first
`q->GetSize ()` bytes of `p` are copied into a zeroed array of that length and
49 is added to every byte of the array. -/
def Encode (p q : List Nat) : List Nat :=
  (p.take q.length ++ List.replicate (q.length - p.length) 0).map (fun x => (x + 49) % 256)

/-- The sixteen bytes both `Addapp` and `Addqed` write at the front of
`packet1`: the tag `QTCS`, two counters in big-endian order, the flag byte and
three zero bytes. -/
def headerStamp (c1 c2 flag : Nat) : List Nat :=
  [81, 84, 67, 83,
   c1 / 16777216 % 256, c1 / 65536 % 256, c1 / 256 % 256, c1 % 256,
   c2 / 16777216 % 256, c2 / 65536 % 256, c2 / 256 % 256, c2 % 256,
   flag % 256, 0, 0, 0]

/-- The array `uint8_t packet1[len] = {0}` after the sixteen header bytes have
been written. (For `len < 16` the source writes past the array; the embedding
keeps the bytes that fit.) -/
def headerArray (len c1 c2 flag : Nat) : List Nat :=
  (headerStamp c1 c2 flag ++ List.replicate (len - 16) 0).take len

/-- `TcpTxBuffer::Addapp`: queue `p` on `m_appList` between a header and
`m_red` zero bytes. -/
def Addapp (p : List Nat) (b : TcpTxBuffer) : Bool × TcpTxBuffer :=
  if (p.length + b.m_qheader + b.m_red) % 4294967296 ≤ Available b then
    if 0 < p.length then
      let packnum := (p.length + b.m_qheader + b.m_red) % 4294967296
      let packet1 := headerArray packnum b.m_stageQseq b.m_sendQseq (128 + 64 + b.m_qheader / 4)
      let it := packet1.take b.m_qheader ++ p ++ (List.replicate packnum 0).take b.m_red
      let item := { TcpTxItem.new with m_qided := false, m_packet := it }
      (true, { b with m_appList := b.m_appList ++ [item], m_size := add32 b.m_size it.length })
    else (true, b)
  else (false, b)

/-- `TcpTxBuffer::Addqed`: queue `p` on `m_qidList` behind a header. -/
def Addqed (p : List Nat) (b : TcpTxBuffer) : Bool × TcpTxBuffer :=
  if (p.length + b.m_qheader + b.m_red) % 4294967296 ≤ Available b then
    if 0 < p.length then
      let packet1 := headerArray b.m_qheader b.m_esQseq b.m_stageQseq (128 + b.m_qheader / 4)
      let pqid := packet1.take b.m_qheader ++ p
      let item := { TcpTxItem.new with m_qided := true, m_packet := pqid }
      (true, { b with m_qidList := b.m_qidList ++ [item],
                      m_stageSize := add32 b.m_stageSize pqid.length })
    else (true, b)
  else (false, b)

/-- The first statement of `Add`: `if (m_esQseq == 0) { m_esQseq = rand (); }`,
with `rnd` the value `rand ()` returns. -/
def seedEsQseq (rnd : Nat) (b : TcpTxBuffer) : TcpTxBuffer :=
  if b.m_esQseq = 0 then { b with m_esQseq := rnd } else b

/-- The last statements of the accepting branch of `Add`:
`m_sendQseq += 1; m_stageQseq += 1; m_esQseq += 1`. -/
def advanceQseq (b : TcpTxBuffer) : TcpTxBuffer :=
  { b with m_sendQseq := add32 b.m_sendQseq 1,
           m_stageQseq := add32 b.m_stageQseq 1,
           m_esQseq := add32 b.m_esQseq 1 }

/-- `TcpTxBuffer::Add`. The packet `q` is created with `p->GetSize () + m_red`
bytes and then overwritten by `Encode`; the results of `Addqed` and `Addapp`
are dropped, as in the source. The arrays `ccc` (here), `aaa` and `bbb`
(`Encode`) and `packet1` (`Addqed`, `Addapp`) are variable-length arrays of
the size of the packet on the stack; they are lists here, which is what the
source computes as long as the stack holds them. A payload of nearly `2^32`
bytes is beyond that on every platform: the call ends at the array. -/
def Add (rnd : Nat) (p : List Nat) (b : TcpTxBuffer) : Bool × TcpTxBuffer :=
  let b := seedEsQseq rnd b
  if (5 * (p.length + b.m_qheader + b.m_red)) % 4294967296 ≤ Available b then
    let b := { b with m_appnum := add32 b.m_appnum 1 }
    let q := Encode p (List.replicate (add32 p.length b.m_red) 0)
    let b := (Addqed q b).2
    let b := (Addapp p b).2
    (true, advanceQseq b)
  else (false, b)

/-- `TcpTxBuffer::Addqednew (p)`: the item `p` of the sent list receives a
fresh header and a fresh encoded body of the same total length; the two
counters advance. The arrays of the source have `p->m_packet->GetSize ()`
entries, so a packet shorter than sixteen bytes or shorter than the header is
undefined behaviour. -/
def Addqednew (p : TcpTxItem) (b : TcpTxBuffer) : Except Fault (TcpTxItem × TcpTxBuffer) :=
  if 0 < p.size then
    let packnum := p.size
    if packnum < 16 ∨ packnum < b.m_qheader then .error .undefined
    else
      let packet1 := headerArray packnum b.m_esQseq b.m_stageQseq (128 + b.m_qheader / 4)
      let pqid := packet1.take b.m_qheader
      let pqidp := List.replicate (packnum - b.m_qheader) 1
      let pqidq := Encode pqidp (List.replicate (packnum - b.m_qheader) 0)
      .ok ({ p with m_packet := pqid ++ pqidq },
           { b with m_esQseq := add32 b.m_esQseq 1, m_stageQseq := add32 b.m_stageQseq 1 })
  else .ok (p, b)

/-! ## Locating a range in a list -/

/-- The scan at the top of the `while` loop of `GetPacketFromList`: skip every
item with `!(seq < beginOfCurrentPacket + size)`; the result is the position
of the first item that contains `seq` together with the sequence it begins
at, or `none` when the loop leaves the list. -/
def findItem (seq : Nat) : List TcpTxItem → Nat → Nat → Option (Nat × Nat)
  | [], _, _ => none
  | x :: xs, beginOfCurrentPacket, i =>
    if seqLt seq (seqAdd beginOfCurrentPacket x.size) then some (i, beginOfCurrentPacket)
    else findItem seq xs (seqAdd beginOfCurrentPacket x.size) (i + 1)

/-- `TcpTxBuffer::GetPacketFromList (list, listStartFrom, numBytes, seq,
listEdited)`. The result is the list as the call leaves it, the position of
the returned item, and the edits made so far (`*listEdited` is
`edits ≠ []`).

In the source, `outItem` is assigned `currentItem` in the very iteration that
reaches the test `currentItem->m_packet == outItem->m_packet`, so the test
holds and the branch that merges with the previous item is never taken.
When `seq + numBytes <= begin + size` holds in serial arithmetic although
`numBytes > size`, no branch of the loop body returns or advances: the loop
spins. -/
def GetPacketFromList : (fuel : Nat) → List TcpTxItem → (listStartFrom numBytes seq : Nat) →
    List ListEdit → Except Fault (List TcpTxItem × Nat × List ListEdit)
  | 0, _, _, _, _, _ => .error .fuel
  | fuel + 1, list, listStartFrom, numBytes, seq, edits =>
    match findItem seq list listStartFrom 0 with
    | none => .error .fatal
    | some (i, beginOfCurrentPacket) =>
      match list[i]? with
      | none => .error .undefined
      | some currentItem =>
        if seq = beginOfCurrentPacket then
          if seqLe (seqAdd seq numBytes) (seqAdd beginOfCurrentPacket currentItem.size) then
            if numBytes = currentItem.size then .ok (list, i, edits)
            else if numBytes < currentItem.size then
              let (firstPart, rest) := SplitItems TcpTxItem.new currentItem numBytes
              .ok (list.take i ++ firstPart :: rest :: list.drop (i + 1), i,
                   edits ++ [.insertBefore i])
            else .error .diverges
          else
            match list[i + 1]? with
            | none => .ok (list, i, edits)
            | some next =>
              GetPacketFromList fuel
                (list.take i ++ MergeItems currentItem next :: list.drop (i + 2))
                listStartFrom numBytes seq (edits ++ [.erase (i + 1)])
        else if seqGt seq beginOfCurrentPacket then
          let (firstPart, rest) :=
            SplitItems TcpTxItem.new currentItem (seqDiff seq beginOfCurrentPacket)
          GetPacketFromList fuel
            (list.take i ++ firstPart :: rest :: list.drop (i + 1))
            listStartFrom numBytes seq (edits ++ [.insertBefore i])
        else .error .fatal

/-- The loop of `GetHighestSacked` over the rest of the sent list. -/
def highestSackedFrom : List TcpTxItem → Nat → Nat → SentIter × Nat → SentIter × Nat
  | [], _, _, ret => ret
  | item :: rest, beginOfCurrentPacket, i, ret =>
    highestSackedFrom rest (seqAdd beginOfCurrentPacket item.size) (i + 1)
      (if item.m_sacked = true then (.atNode i, beginOfCurrentPacket) else ret)

/-- `TcpTxBuffer::GetHighestSacked`. -/
def GetHighestSacked (b : TcpTxBuffer) : SentIter × Nat :=
  highestSackedFrom b.m_sentList b.m_firstByteSeq 0 (.atEnd, 0)

/-! ## Extraction -/

/-- `TcpTxBuffer::GetNewSegment (numBytes)`: move `numBytes` bytes from the
front of `m_qidList` (when `m_stage == 1`) or of `m_appList` to the end of the
sent list. The result is the position of the moved item in `m_sentList`. -/
def GetNewSegment (fuel numBytes : Nat) (b : TcpTxBuffer) : Except Fault (Nat × TcpTxBuffer) :=
  if b.m_stage = 1 then
    let startOfQidList := seqAdd b.m_firstByteSeq b.m_stagesentSize
    match GetPacketFromList fuel b.m_qidList startOfQidList numBytes startOfQidList [] with
    | .error e => .error e
    | .ok (list, i, _) =>
      match list[i]? with
      | none => .error .assertion
      | some itemqid =>
        let itemqid := { itemqid with m_qided := true }
        .ok (b.m_sentList.length,
          { b with
            m_qidList := list.eraseIdx i
            m_sentList := b.m_sentList ++ [itemqid]
            m_sentSize := add32 b.m_sentSize itemqid.size
            m_stagesentSize := add32 b.m_stagesentSize itemqid.size
            m_stage := 0 })
  else
    let startOfAppList := seqAdd b.m_firstByteSeq b.m_appsentSize
    match GetPacketFromList fuel b.m_appList startOfAppList numBytes startOfAppList [] with
    | .error e => .error e
    | .ok (list, i, _) =>
      match list[i]? with
      | none => .error .assertion
      | some item =>
        let item := { item with m_qided := false }
        .ok (b.m_sentList.length,
          { b with
            m_appList := list.eraseIdx i
            m_sentList := b.m_sentList ++ [item]
            m_sentSize := add32 b.m_sentSize item.size
            m_appsentSize := add32 b.m_appsentSize item.size
            m_qednum := sub32 b.m_qednum 1
            m_stage := 1
            m_appnum := sub32 b.m_appnum 1 })

/-- The sent list after `GetPacketFromList` has worked on it, and
`if (listEdited && m_highestSack.second >= m_firstByteSeq) m_highestSack =
GetHighestSacked ()`. When `m_highestSack` is not recomputed, its iterator
follows the edits of the list. -/
def resegmented (list : List TcpTxItem) (edits : List ListEdit) (b : TcpTxBuffer) :
    TcpTxBuffer :=
  let b := { b with m_sentList := list,
                    m_highestSack := (edits.foldl SentIter.afterEdit b.m_highestSack.1,
                                      b.m_highestSack.2) }
  if edits ≠ [] ∧ seqGe b.m_highestSack.2 b.m_firstByteSeq then
    { b with m_highestSack := GetHighestSacked b }
  else b

/-- `TcpTxBuffer::GetTransmittedSegment (numBytes, seq)`: the position in
`m_sentList` of the item that spans the range. -/
def GetTransmittedSegment (fuel numBytes seq : Nat) (b : TcpTxBuffer) :
    Except Fault (Nat × TcpTxBuffer) :=
  if ¬ seqGe seq b.m_firstByteSeq then .error .assertion
  else if ¬ numBytes ≤ b.m_sentSize then .error .assertion
  else
    match GetPacketFromList fuel b.m_sentList b.m_firstByteSeq numBytes seq [] with
    | .error e => .error e
    | .ok (list, i, edits) =>
      match list[i]? with
      | none => .error .undefined
      | some item =>
        if item.m_qided = true ∧ item.m_lost = true ∧ item.m_retrans = true then
          match Addqednew item (resegmented list edits b) with
          | .error e => .error e
          | .ok (item, b) => .ok (i, { b with m_sentList := b.m_sentList.set i item })
        else .ok (i, resegmented list edits b)

/-- The stream choice of `CopyFromSequence` before it takes new data:
`if (m_qednum > 0) { m_stage = 0; ... } else { m_stage = 1; ... }`. -/
def chooseStage (b : TcpTxBuffer) : TcpTxBuffer :=
  { b with m_stage := if 0 < b.m_qednum then 0 else 1 }

/-- The tail of `CopyFromSequence`: `outItem->m_lost = false`, the time stamp,
the copy of the packet and `NS_ASSERT (toRet->GetSize () == s)`. -/
def finishCopy (s i : Nat) (now : Int) (b : TcpTxBuffer) : Except Fault (List Nat × TcpTxBuffer) :=
  match b.m_sentList[i]? with
  | none => .error .undefined
  | some outItem =>
    let outItem := { outItem with m_lost := false, m_lastSent := now }
    if outItem.size = s then
      .ok (outItem.m_packet, { b with m_sentList := b.m_sentList.set i outItem })
    else .error .assertion

/-- `TcpTxBuffer::CopyFromSequence (numBytes, seq)`: the bytes returned and
the buffer afterwards. When the range is neither sent, nor new, nor across the
boundary (possible once `s` has been cut to the served stream), `outItem` is
still null where the source dereferences it. -/
def CopyFromSequence : (fuel numBytes seq : Nat) → (now : Int) → TcpTxBuffer →
    Except Fault (List Nat × TcpTxBuffer)
  | 0, _, _, _, _ => .error .fuel
  | fuel + 1, numBytes, seq, now, b =>
    if seqGt b.m_firstByteSeq seq then .ok ([], b)
    else
      let s := min numBytes (SizeFromSequence b seq)
      let s1 := min s (sub32 b.m_stageSize b.m_stagesentSize)
      let s3 := min s (sub32 b.m_size b.m_appsentSize)
      if s = 0 then .ok ([], b)
      else if seqGe (seqAdd b.m_firstByteSeq b.m_sentSize) (seqAdd seq s) then
        match GetTransmittedSegment fuel s seq b with
        | .error e => .error e
        | .ok (i, b) =>
          match b.m_sentList[i]? with
          | none => .error .undefined
          | some outItem =>
            finishCopy s i now
              { b with m_sentList := b.m_sentList.set i { outItem with m_retrans := true } }
      else
        let s := if 0 < b.m_qednum then s3 else s1
        let b := chooseStage b
        if seqLe (seqAdd b.m_firstByteSeq b.m_sentSize) seq then
          if seqAdd b.m_firstByteSeq b.m_sentSize ≠ seq then .error .fatal
          else
            match GetNewSegment fuel s b with
            | .error e => .error e
            | .ok (i, b) =>
              match b.m_sentList[i]? with
              | none => .error .undefined
              | some outItem =>
                if outItem.m_retrans = false then finishCopy s i now b
                else .error .assertion
        else if seqGt (seqAdd b.m_firstByteSeq b.m_sentSize) seq
            ∧ seqLt (seqAdd b.m_firstByteSeq b.m_sentSize) (seqAdd seq s) then
          let amount := sub32 (seqDiff (seqAdd seq s) b.m_firstByteSeq) b.m_sentSize
          match GetNewSegment fuel amount b with
          | .error e => .error e
          | .ok (_, b) => CopyFromSequence fuel numBytes seq now b
        else .error .undefined

/-! ## Acknowledgement -/

/-- The `while` loop of `DiscardUpTo`. The iterator `i` of the source is
always `m_sentList.begin ()`, so `i == m_sentList.end ()` is the test that
the sent list is empty. -/
def discardLoop : (fuel : Nat) → (now : Int) → (offset : Nat) → TcpTxBuffer →
    Except Fault TcpTxBuffer
  | 0, _, _, _ => .error .fuel
  | fuel + 1, now, offset, b =>
    if 0 < b.m_size ∧ 0 < add32 b.m_size b.m_stageSize ∧ 0 < offset then
      let filled : Except Fault TcpTxBuffer :=
        if b.m_sentList = [] then
          match CopyFromSequence fuel offset b.m_firstByteSeq now b with
          | .error e => .error e
          | .ok (_, b) => if b.m_sentList = [] then .error .assertion else .ok b
        else .ok b
      match filled with
      | .error e => .error e
      | .ok b =>
        match b.m_sentList with
        | [] => .error .undefined
        | item :: rest =>
          let pktSize := item.size
          if pktSize ≤ offset then
            let b := { b with m_sentSize := sub32 b.m_sentSize pktSize }
            let b := if item.m_qided = true then
                       { b with m_qednum := add32 b.m_qednum 1,
                                m_stageSize := sub32 b.m_stageSize pktSize,
                                m_stagesentSize := sub32 b.m_stagesentSize pktSize }
                     else
                       { b with m_size := sub32 b.m_size pktSize,
                                m_appsentSize := sub32 b.m_appsentSize pktSize }
            discardLoop fuel now (sub32 offset pktSize)
              { b with m_firstByteSeq := seqAdd b.m_firstByteSeq pktSize,
                       m_sentList := rest,
                       m_highestSack := (b.m_highestSack.1.afterEdit (.erase 0),
                                         b.m_highestSack.2) }
          else
            let item := { item with m_packet := item.m_packet.drop offset }
            let b := { b with m_sentList := item :: rest,
                              m_sentSize := sub32 b.m_sentSize offset }
            let b := if item.m_qided = true then
                       { b with m_qednum := add32 b.m_qednum 1,
                                m_stageSize := sub32 b.m_stageSize offset,
                                m_stagesentSize := sub32 b.m_stagesentSize offset }
                     else
                       { b with m_size := sub32 b.m_size offset,
                                m_appsentSize := sub32 b.m_appsentSize offset }
            .ok { b with m_firstByteSeq := seqAdd b.m_firstByteSeq offset }
    else .ok b

/-- The statements of `DiscardUpTo` between its loop and its closing
assertion. -/
def discardTail (seq : Nat) (b : TcpTxBuffer) : TcpTxBuffer :=
  let b := if b.m_size = 0 ∧ b.m_stageSize = 0 then { b with m_firstByteSeq := seq } else b
  let b := match b.m_sentList with
    | [] => b
    | head :: rest =>
      if head.m_sacked = true then { b with m_sentList := { head with m_sacked := false } :: rest }
      else b
  if seqLe b.m_highestSack.2 b.m_firstByteSeq then { b with m_highestSack := (.atEnd, 0) }
  else b

/-- `DiscardUpTo` without its closing `NS_ASSERT (m_firstByteSeq >= seq)`:
the state the assertion inspects. -/
def DiscardUpToBody (fuel seq : Nat) (now : Int) (b : TcpTxBuffer) : Except Fault TcpTxBuffer :=
  if seqGe b.m_firstByteSeq seq then .ok b
  else
    match discardLoop fuel now (seqDiff seq b.m_firstByteSeq) b with
    | .error e => .error e
    | .ok b => .ok (discardTail seq b)

/-- `TcpTxBuffer::DiscardUpTo (seq)`. -/
def DiscardUpTo (fuel seq : Nat) (now : Int) (b : TcpTxBuffer) : Except Fault TcpTxBuffer :=
  if seqGe b.m_firstByteSeq seq then .ok b
  else
    match DiscardUpToBody fuel seq now b with
    | .error e => .error e
    | .ok b => if seqGe b.m_firstByteSeq seq then .ok b else .error .assertion

/-! ## Scoreboard -/

/-- The `while` loop of `Update` for one SACK block `b = (b.first, b.second)`,
from the item at position `i` that begins at `beginOfCurrentPacket`. The
result is the rest of the sent list, `m_highestSack` and `modified` as the
loop leaves them. `++new_it` is `end ()` when the item is the last one. -/
def updateScan (blk : Nat × Nat) : List TcpTxItem → Nat → Nat → SentIter × Nat → Bool →
    List TcpTxItem × (SentIter × Nat) × Bool
  | [], _, _, hs, modified => ([], hs, modified)
  | item :: rest, i, beginOfCurrentPacket, hs, modified =>
    if seqGe beginOfCurrentPacket blk.1
        ∧ seqLe (seqAdd beginOfCurrentPacket item.size) blk.2 then
      if item.m_sacked = true then
        let r := updateScan blk rest (i + 1) (seqAdd beginOfCurrentPacket item.size) hs true
        (item :: r.1, r.2)
      else
        let hs := if seqLe hs.2 (seqAdd beginOfCurrentPacket item.size) then
                    ((if rest = [] then SentIter.atEnd else SentIter.atNode (i + 1)),
                     seqAdd beginOfCurrentPacket item.size)
                  else hs
        let r := updateScan blk rest (i + 1) (seqAdd beginOfCurrentPacket item.size) hs true
        ({ item with m_sacked := true } :: r.1, r.2)
    else if seqGt (seqAdd beginOfCurrentPacket item.size) blk.2 then
      (item :: rest, hs, modified)
    else
      let r := updateScan blk rest (i + 1) (seqAdd beginOfCurrentPacket item.size) hs modified
      (item :: r.1, r.2)

/-- The `for` loop of `Update` over the SACK blocks: every block is scanned
from the head of the sent list. -/
def updateBlocks (first : Nat) : List (Nat × Nat) → List TcpTxItem × (SentIter × Nat) × Bool →
    List TcpTxItem × (SentIter × Nat) × Bool
  | [], acc => acc
  | blk :: blocks, acc =>
    updateBlocks first blocks (updateScan blk acc.1 0 first acc.2.1 acc.2.2)

/-- `TcpTxBuffer::Update (list)`: the value returned and the buffer afterwards.
The closing `NS_ASSERT` reads the head of the sent list, which an empty list
does not have. -/
def Update (list : List (Nat × Nat)) (b : TcpTxBuffer) : Except Fault (Bool × TcpTxBuffer) :=
  let r := updateBlocks b.m_firstByteSeq list (b.m_sentList, b.m_highestSack, false)
  match r.1 with
  | [] => .error .undefined
  | head :: _ =>
    if head.m_sacked = false then
      .ok (r.2.2, { b with m_sentList := r.1, m_highestSack := r.2.1 })
    else .error .assertion

/-- The `for` loop of `IsLost (seq, segment, dupThresh, segmentSize)`: `it` is
at position `i`, the list is the sent list from `it` on. Comparing `it` with
an iterator whose node is gone, and reading `*it` at `end ()`, are
undefined. -/
def isLostLoop (hs : SentIter × Nat) (dupThresh segmentSize : Nat) :
    List TcpTxItem → Nat → Nat → Nat → Nat → Except Fault Bool
  | [], _, beginOfCurrentPacket, _, _ =>
    match hs.1 with
    | .atEnd => .ok false
    | .invalid => .error .undefined
    | .atNode _ => if seqGe beginOfCurrentPacket hs.2 then .ok false else .error .undefined
  | item :: rest, i, beginOfCurrentPacket, count, bytes =>
    if hs.1 = .invalid then .error .undefined
    else if hs.1 = .atNode i then .ok false
    else if seqGe beginOfCurrentPacket hs.2 then .ok false
    else if item.m_sacked = true then
      let count := add32 count 1
      let bytes := add32 bytes item.size
      if dupThresh ≤ count ∨ (sub32 dupThresh 1 * segmentSize) % 4294967296 < bytes then .ok true
      else isLostLoop hs dupThresh segmentSize rest (i + 1)
        (seqAdd beginOfCurrentPacket item.size) count bytes
    else isLostLoop hs dupThresh segmentSize rest (i + 1)
      (seqAdd beginOfCurrentPacket item.size) count bytes

/-- `TcpTxBuffer::IsLost (seq, segment, dupThresh, segmentSize)`, the overload
that is given the iterator: `segment` is the position `k` of the sent list. -/
def IsLostAt (b : TcpTxBuffer) (seq k dupThresh segmentSize : Nat) : Except Fault Bool :=
  match b.m_sentList[k]? with
  | none => .error .undefined
  | some segment =>
    if segment.m_lost = true then .ok true
    else if segment.m_sacked = true then .ok false
    else isLostLoop b.m_highestSack dupThresh segmentSize (b.m_sentList.drop k) k seq 0 0

/-- The search loop of `IsLost (seq, dupThresh, segmentSize)`: the first item
that begins at or behind `seq` is handed to the other overload. -/
def isLostSearch (b : TcpTxBuffer) (seq dupThresh segmentSize : Nat) :
    List TcpTxItem → Nat → Nat → Except Fault Bool
  | [], _, _ => .ok false
  | item :: rest, i, beginOfCurrentPacket =>
    if seqGe beginOfCurrentPacket seq then
      IsLostAt b beginOfCurrentPacket i dupThresh segmentSize
    else isLostSearch b seq dupThresh segmentSize rest (i + 1)
      (seqAdd beginOfCurrentPacket item.size)

/-- `TcpTxBuffer::IsLost (seq, dupThresh, segmentSize)`. -/
def IsLost (b : TcpTxBuffer) (seq dupThresh segmentSize : Nat) : Except Fault Bool :=
  if seqGe seq b.m_highestSack.2 then .ok false
  else isLostSearch b seq dupThresh segmentSize b.m_sentList 0 b.m_firstByteSeq

/-- The `for` loop of `NextSeg`: the sequence found by rule (1), if any, and
`seqPerRule3`, `isSeqPerRule3Valid` as the loop leaves them. -/
def nextSegScan (b : TcpTxBuffer) (dupThresh segmentSize : Nat) (isRecovery : Bool) :
    List TcpTxItem → Nat → Nat → Nat → Bool → Except Fault (Option Nat × Nat × Bool)
  | [], _, _, seqPerRule3, isSeqPerRule3Valid => .ok (none, seqPerRule3, isSeqPerRule3Valid)
  | item :: rest, i, beginOfCurrentPkt, seqPerRule3, isSeqPerRule3Valid =>
    if item.m_retrans = false ∧ item.m_sacked = false then
      match IsLostAt b beginOfCurrentPkt i dupThresh segmentSize with
      | .error e => .error e
      | .ok true => .ok (some beginOfCurrentPkt, seqPerRule3, isSeqPerRule3Valid)
      | .ok false =>
        if seqPerRule3 = 0 ∧ isRecovery = true then
          nextSegScan b dupThresh segmentSize isRecovery rest (i + 1)
            (seqAdd beginOfCurrentPkt item.size) beginOfCurrentPkt true
        else
          nextSegScan b dupThresh segmentSize isRecovery rest (i + 1)
            (seqAdd beginOfCurrentPkt item.size) seqPerRule3 isSeqPerRule3Valid
    else
      nextSegScan b dupThresh segmentSize isRecovery rest (i + 1)
        (seqAdd beginOfCurrentPkt item.size) seqPerRule3 isSeqPerRule3Valid

/-- `TcpTxBuffer::NextSeg (seq, dupThresh, segmentSize, isRecovery)`: `some s`
when the source stores `s` in `*seq` and returns `true`, `none` when it
returns `false`. The method is `const`: there is no buffer afterwards other
than the one it was given. -/
def NextSeg (dupThresh segmentSize : Nat) (isRecovery : Bool) (b : TcpTxBuffer) :
    Except Fault (Option Nat) :=
  match nextSegScan b dupThresh segmentSize isRecovery b.m_sentList 0 b.m_firstByteSeq 0 false with
  | .error e => .error e
  | .ok (some seq, _, _) => .ok (some seq)
  | .ok (none, seqPerRule3, isSeqPerRule3Valid) =>
    if 0 < SizeFromSequence b (seqAdd b.m_firstByteSeq b.m_sentSize) then
      .ok (some (seqAdd b.m_firstByteSeq b.m_sentSize))
    else if isSeqPerRule3Valid = true then .ok (some seqPerRule3)
    else .ok none

/-! ## Timeout and loss recovery -/

/-- `TcpTxBuffer::SetSentListLost`. -/
def SetSentListLost (b : TcpTxBuffer) : TcpTxBuffer :=
  { b with m_sentList := b.m_sentList.map (fun item => { item with m_lost := true }) }

/-- `TcpTxBuffer::ResetLastSegmentSent`. -/
def ResetLastSegmentSent (b : TcpTxBuffer) : TcpTxBuffer :=
  match b.m_sentList.getLast? with
  | none => b
  | some item =>
    let b := { b with
      m_sentList := b.m_sentList.dropLast
      m_highestSack := (b.m_highestSack.1.afterEdit (.erase (b.m_sentList.length - 1)),
                        b.m_highestSack.2)
      m_sentSize := sub32 b.m_sentSize item.size }
    if item.m_qided = false then
      { b with m_appsentSize := sub32 b.m_appsentSize item.size,
               m_appList := item :: b.m_appList }
    else
      { b with m_stagesentSize := sub32 b.m_stagesentSize item.size,
               m_qidList := item :: b.m_qidList }

/-- One turn of the `while` loop of `ResetSentList`: the last item of the sent
list goes back to the front of its pending list; the item that is the last
one afterwards is flagged lost, and the size of that item (not of the one moved)
is taken from the sent counters. -/
def resetSentStep (b : TcpTxBuffer) : TcpTxBuffer :=
  match b.m_sentList.getLast? with
  | none => b
  | some item =>
    let item := { item with m_retrans := false, m_sacked := false }
    let sent := b.m_sentList.dropLast
    if item.m_qided = true then
      let b := { b with m_qidList := item :: b.m_qidList, m_sentList := sent }
      match sent.getLast? with
      | some back =>
        { b with
          m_sentList := sent.dropLast ++
            [{ back with m_lost := true, m_sacked := false, m_retrans := false }]
          m_stagesentSize := sub32 b.m_stagesentSize back.size
          m_sentSize := sub32 b.m_sentSize back.size }
      | none => { b with m_sentSize := 0, m_stagesentSize := 0 }
    else
      let b := { b with m_appnum := add32 b.m_appnum 1, m_qednum := add32 b.m_qednum 1,
                        m_appList := item :: b.m_appList, m_sentList := sent }
      match sent.getLast? with
      | some back =>
        { b with
          m_sentList := sent.dropLast ++
            [{ back with m_lost := true, m_sacked := false, m_retrans := false }]
          m_appsentSize := sub32 b.m_appsentSize back.size
          m_sentSize := sub32 b.m_sentSize back.size }
      | none => { b with m_appsentSize := 0, m_sentSize := 0 }

/-- The `while (m_sentList.size () > keepItems)` loop of `ResetSentList`.
Every turn shortens the sent list by one item, so `n` turns are enough for a
list of `n` items. -/
def resetSentLoop : Nat → Nat → TcpTxBuffer → TcpTxBuffer
  | 0, _, b => b
  | n + 1, keepItems, b =>
    if keepItems < b.m_sentList.length then resetSentLoop n keepItems (resetSentStep b)
    else b

/-- `TcpTxBuffer::ResetSentList (keepItems)`. -/
def ResetSentList (keepItems : Nat) (b : TcpTxBuffer) : TcpTxBuffer :=
  let b := resetSentLoop b.m_sentList.length keepItems b
  { b with m_highestSack := (.atEnd, 0) }

/-! ## Head sequence and bytes in flight -/

/-- `TcpTxBuffer::SetHeadSequence (seq)`: the head is moved first, then
`NS_ASSERT (m_sentList.size () == 0)` is checked and `m_highestSack` reset. -/
def SetHeadSequence (seq : Nat) (b : TcpTxBuffer) : Except Fault TcpTxBuffer :=
  let b := { b with m_firstByteSeq := seq }
  if b.m_sentList.length = 0 then .ok { b with m_highestSack := (.atEnd, 0) }
  else .error .assertion

/-- The `for` loop of `BytesInFlight`: `it` is at position `i` of the sent
list, `size` is the "pipe" counted so far. -/
def bytesInFlightLoop (b : TcpTxBuffer) (dupThresh segmentSize : Nat) :
    List TcpTxItem → Nat → Nat → Nat → Except Fault Nat
  | [], _, _, size => .ok size
  | item :: rest, i, beginOfCurrentPkt, size =>
    if item.m_sacked = false then
      match IsLostAt b beginOfCurrentPkt i dupThresh segmentSize with
      | .error e => .error e
      | .ok false =>
        bytesInFlightLoop b dupThresh segmentSize rest (i + 1)
          (seqAdd beginOfCurrentPkt item.size) (add32 size item.size)
      | .ok true =>
        if item.m_retrans = true ∧ item.m_lost = false then
          bytesInFlightLoop b dupThresh segmentSize rest (i + 1)
            (seqAdd beginOfCurrentPkt item.size) (add32 size item.size)
        else
          bytesInFlightLoop b dupThresh segmentSize rest (i + 1)
            (seqAdd beginOfCurrentPkt item.size) size
    else
      bytesInFlightLoop b dupThresh segmentSize rest (i + 1)
        (seqAdd beginOfCurrentPkt item.size) size

/-- `TcpTxBuffer::BytesInFlight (dupThresh, segmentSize)`. -/
def BytesInFlight (dupThresh segmentSize : Nat) (b : TcpTxBuffer) : Except Fault Nat :=
  bytesInFlightLoop b dupThresh segmentSize b.m_sentList 0 b.m_firstByteSeq 0

/-! ## Crafting a SACK option -/

/-- The inner `while` loop of `CraftSackOption`, which walks backward from the
item at position `it`: `blocks` are the blocks added so far (in the order of
`AddSackBlock`), `beginOfCurrentPacket` the sequence at which the item at `it`
begins. `optSize n` is `GetSerializedSize ()` of a `TcpOptionSack` with `n`
blocks. Decrementing `begin ()` is undefined. -/
def craftBackward (list : List TcpTxItem) (first available : Nat) (optSize : Nat → Nat) :
    Nat → Nat → List (Nat × Nat) → Except Fault (List (Nat × Nat))
  | 0, _, blocks =>
    if optSize blocks.length + 8 < available then .error .undefined else .ok blocks
  | it + 1, beginOfCurrentPacket, blocks =>
    if optSize blocks.length + 8 < available then
      if it = 0 then .ok blocks
      else
        match list[it]? with
        | none => .error .undefined
        | some item =>
          let endOfCurrentPacket := beginOfCurrentPacket
          let beginOfCurrentPacket := sub32 beginOfCurrentPacket item.size
          let blocks := blocks ++ [(beginOfCurrentPacket, endOfCurrentPacket)]
          if seqGt beginOfCurrentPacket first then
            craftBackward list first available optSize it beginOfCurrentPacket blocks
          else .error .assertion
    else .ok blocks

/-- The outer `while` loop of `CraftSackOption` over the sent list from the
position `it` on; `none` is the null pointer the source returns when it finds
no usable item. -/
def craftScan (list : List TcpTxItem) (first seq available : Nat) (optSize : Nat → Nat) :
    List TcpTxItem → Nat → Nat → Except Fault (Option (List (Nat × Nat)))
  | [], _, _ => .ok none
  | item :: rest, it, beginOfCurrentPacket =>
    let endOfCurrentPacket := seqAdd beginOfCurrentPacket item.size
    if item.m_sacked = true ∨ it = 0 then
      craftScan list first seq available optSize rest (it + 1)
        (seqAdd beginOfCurrentPacket item.size)
    else if seqGt seq beginOfCurrentPacket then
      craftScan list first seq available optSize rest (it + 1)
        (seqAdd beginOfCurrentPacket item.size)
    else
      match craftBackward list first available optSize it beginOfCurrentPacket
          [(beginOfCurrentPacket, endOfCurrentPacket)] with
      | .error e => .error e
      | .ok blocks => .ok (some blocks)

/-- `TcpTxBuffer::CraftSackOption (seq, available)`: the blocks of the option
in the order they were added, or `none` for the null pointer. `available` is a
`uint8_t`. The class `TcpOptionSack` is not part of the file: `optSize n`
stands for `GetSerializedSize ()` of an option with `n` blocks. -/
def CraftSackOption (optSize : Nat → Nat) (seq available : Nat) (b : TcpTxBuffer) :
    Except Fault (Option (List (Nat × Nat))) :=
  match b.m_highestSack.1 with
  | .atEnd =>
    craftScan b.m_sentList b.m_firstByteSeq seq available optSize b.m_sentList 0
      b.m_firstByteSeq
  | .atNode i =>
    if i < b.m_sentList.length then
      craftScan b.m_sentList b.m_firstByteSeq seq available optSize (b.m_sentList.drop i) i
        b.m_highestSack.2
    else .error .undefined
  | .invalid => .error .undefined


/-! ## Auxiliary definitions used by the statements and proofs -/

/-- The buffer `Add` hands to `Addqed`: `m_esQseq` seeded, `m_appnum` incremented. -/
def addEntry (rnd : Nat) (b : TcpTxBuffer) : TcpTxBuffer :=
  { seedEsQseq rnd b with m_appnum := add32 (seedEsQseq rnd b).m_appnum 1 }

/-- The effect of an accepting `Addqed` on a non-empty packet: item `y` of `n` bytes
appended to `m_qidList`. -/
def pushQid (y : TcpTxItem) (n : Nat) (b : TcpTxBuffer) : TcpTxBuffer :=
  { b with m_qidList := b.m_qidList ++ [y], m_stageSize := add32 b.m_stageSize n }

/-- The effect of an accepting `Addapp` on a non-empty packet: item `x` of `n` bytes
appended to `m_appList`. -/
def pushApp (x : TcpTxItem) (n : Nat) (b : TcpTxBuffer) : TcpTxBuffer :=
  { b with m_appList := b.m_appList ++ [x], m_size := add32 b.m_size n }

/-- An empty buffer of capacity 100 with a 16-byte header and 24 redundancy bytes. -/
def smallBuffer : TcpTxBuffer := SetMaxBufferSize 100 (TcpTxBuffer.create 0 16 24)

/-- A fresh buffer (head sequence 1000, header 16, redundancy 24) after one `Add` of a
ten-byte payload: one 50-byte unit on each pending list. -/
def oneUnit : TcpTxBuffer :=
  (Add 7 [1, 2, 3, 4, 5, 6, 7, 8, 9, 10] (TcpTxBuffer.create 1000 16 24)).2

/-- The bytes a list of items holds, in order. -/
def listBytes : List TcpTxItem → List Nat
  | [] => []
  | x :: xs => x.m_packet ++ listBytes xs

/-- The number of bytes held by the three lists of the buffer. -/
def totalBytes (b : TcpTxBuffer) : Nat :=
  (listBytes b.m_sentList).length + (listBytes b.m_appList).length
    + (listBytes b.m_qidList).length

/-- The accounting facts that hold in every state the buffer reaches from its
constructor: `m_sentSize` is the size of the sent list, the three lists fit in
the buffer, and `m_size + m_stageSize` counts their bytes modulo `2^32`. -/
structure Inv (b : TcpTxBuffer) : Prop where
  sent : (listBytes b.m_sentList).length = b.m_sentSize
  cap : totalBytes b ≤ b.m_maxBuffer
  max : b.m_maxBuffer < 2147483648
  count : (b.m_size + b.m_stageSize) % 4294967296 = totalBytes b
  hdr : b.m_qheader < 65536 ∧ b.m_red < 65536

/-- What a successful `GetNewSegment` does: the item `x` is appended to the
sent list and leaves the pending lists; no byte counter but the sent ones
moves. -/
structure NewSegment (b : TcpTxBuffer) (x : TcpTxItem) (b' : TcpTxBuffer) : Prop where
  sentList : b'.m_sentList = b.m_sentList ++ [x]
  tag : x.m_qided = decide (b.m_stage = 1)
  sentSize : b'.m_sentSize = add32 b.m_sentSize x.size
  pending : (listBytes b'.m_appList).length + (listBytes b'.m_qidList).length + x.size
    = (listBytes b.m_appList).length + (listBytes b.m_qidList).length
  first : b'.m_firstByteSeq = b.m_firstByteSeq
  size : b'.m_size = b.m_size
  stageSize : b'.m_stageSize = b.m_stageSize
  maxBuffer : b'.m_maxBuffer = b.m_maxBuffer
  qheader : b'.m_qheader = b.m_qheader
  red : b'.m_red = b.m_red
  qednum : b'.m_qednum = if b.m_stage = 1 then b.m_qednum else sub32 b.m_qednum 1
  highestSack : b'.m_highestSack = b.m_highestSack

/-- The states the buffer reaches from its constructor (with a 32-bit head
sequence, 16-bit attribute values, as `GetTypeId` checks them, and a capacity
below `2^31` set once by `SetMaxBufferSize`) by `Add` of payloads shorter than
`2^31` bytes, by `CopyFromSequence` and by `DiscardUpTo` of a 32-bit sequence
number, each call having returned. -/
inductive Reachable : TcpTxBuffer → Prop where
  | create (n qheader red maxBuffer : Nat) (hn : n < 4294967296) (hq : qheader < 65536)
      (hr : red < 65536) (hm : maxBuffer < 2147483648) :
      Reachable (SetMaxBufferSize maxBuffer (TcpTxBuffer.create n qheader red))
  | add (rnd : Nat) (p : List Nat) (b : TcpTxBuffer) (hp : p.length < 2147483648) :
      Reachable b → Reachable (Add rnd p b).2
  | copy (fuel numBytes seq : Nat) (now : Int) (b : TcpTxBuffer) (p : List Nat)
      (b' : TcpTxBuffer) :
      Reachable b → CopyFromSequence fuel numBytes seq now b = .ok (p, b') → Reachable b'
  | discard (fuel seq : Nat) (now : Int) (b b' : TcpTxBuffer) (hseq : seq < 4294967296) :
      Reachable b → DiscardUpTo fuel seq now b = .ok b' → Reachable b'

/-! ## Concrete runs -/

/-- Two units queued on a fresh buffer (head sequence 1000, header 16,
redundancy 24): two 43-byte items on each pending list. -/
def twoUnits : TcpTxBuffer :=
  (Add 7 [11, 12, 13] (Add 7 [1, 2, 3] (TcpTxBuffer.create 1000 16 24)).2).2

/-- The two consecutive extractions of 43 new bytes from `twoUnits`: the
payload sizes, the stream tags of the sent list afterwards, and the lengths of
the two pending lists between the two calls. -/
def twoUnitsRun : Except Fault (Nat × Nat × List Bool × Nat × Nat) := do
  let (p1, b1) ← CopyFromSequence 10 43 (seqAdd twoUnits.m_firstByteSeq twoUnits.m_sentSize) 5
    twoUnits
  let (p2, b2) ← CopyFromSequence 10 43 (seqAdd b1.m_firstByteSeq b1.m_sentSize) 6 b1
  pure (p1.length, p2.length, b2.m_sentList.map (fun x => x.m_qided),
    b1.m_appList.length, b1.m_qidList.length)

/-- From `oneUnit`: ten bytes are extracted (the head of the redundancy unit)
and acknowledged, which raises `m_qednum` to one. -/
def creditRun : Except Fault TcpTxBuffer := do
  let (_, b) ← CopyFromSequence 10 10 1000 1 oneUnit
  DiscardUpTo 10 1010 2 b

/-- The state `creditRun` ends in: head sequence 1010, `m_qednum = 1`, the
50-byte data unit and the remaining 40 redundancy bytes pending. -/
def creditState : TcpTxBuffer :=
  match creditRun with
  | .ok b => b
  | .error _ => oneUnit

/-- From `creditState`: the data unit is extracted. -/
def dataSent : List Nat × TcpTxBuffer :=
  match CopyFromSequence 10 200 1010 3 creditState with
  | .ok r => r
  | .error _ => ([], creditState)

/-- From `dataSent`: the rest of the redundancy unit is extracted. The sent
list now holds the 50-byte data unit and 40 redundancy bytes behind it. -/
def bothSent : List Nat × TcpTxBuffer :=
  match CopyFromSequence 10 200 1060 4 dataSent.2 with
  | .ok r => r
  | .error _ => ([], dataSent.2)

/-- The first extraction of new data from `oneUnit`. -/
def oneUnitSent : List Nat × TcpTxBuffer :=
  match CopyFromSequence 10 200 1000 5 oneUnit with
  | .ok r => r
  | .error _ => ([], oneUnit)

/-- An item with every flag set, used to exercise `SplitItems` and
`MergeItems`. -/
def sampleItem : TcpTxItem :=
  { m_packet := [1, 2, 3, 4, 5], m_lost := true, m_retrans := true, m_lastSent := 17,
    m_sacked := true, m_qided := true }

/-! ## Positions in the sent list and further runs -/

/-- The sequence number at which the item at position `i` of the sent list
begins, as every loop over the list computes it: the head sequence plus the
sizes of the items in front. -/
def beginSeq (b : TcpTxBuffer) (i : Nat) : Nat :=
  seqAdd b.m_firstByteSeq (listBytes (b.m_sentList.take i)).length

/-- Two units of different sizes queued on a fresh buffer (head sequence 1000,
header 16, redundancy 24): a 50-byte and a 43-byte item on each pending
list. -/
def unequalUnits : TcpTxBuffer := (Add 7 [11, 12, 13] oneUnit).2

/-- From `unequalUnits`: the two redundancy units are extracted, one call
each. -/
def unequalRun : Except Fault TcpTxBuffer := do
  let (_, b) ← CopyFromSequence 10 50 1000 1 unequalUnits
  let (_, b) ← CopyFromSequence 10 43 1050 2 b
  pure b

/-- The state `unequalRun` ends in: head sequence 1000, the sent list holds a
50-byte item and a 43-byte item, `m_sentSize = 93`. -/
def unequalSent : TcpTxBuffer :=
  match unequalRun with
  | .ok b => b
  | .error _ => unequalUnits

/-- One SACK block applied to a list of items that begins at `begin`, in plain
arithmetic: an item is flagged when it was flagged or lies inside the block. -/
def markList (blk : Nat × Nat) : List TcpTxItem → Nat → List TcpTxItem
  | [], _ => []
  | x :: xs, begin =>
    { x with m_sacked := x.m_sacked || decide (blk.1 ≤ begin ∧ begin + x.size ≤ blk.2) }
      :: markList blk xs (begin + x.size)

/-- Whether some item of a list that begins at `begin` lies inside the block. -/
def anyInside (blk : Nat × Nat) : List TcpTxItem → Nat → Bool
  | [], _ => false
  | x :: xs, begin =>
    decide (blk.1 ≤ begin ∧ begin + x.size ≤ blk.2) || anyInside blk xs (begin + x.size)

/-- The sent list after `Update`, in plain arithmetic: an item is flagged when
it was flagged or lies inside one of the blocks. -/
def sackMarks (blocks : List (Nat × Nat)) : List TcpTxItem → Nat → List TcpTxItem
  | [], _ => []
  | x :: xs, begin =>
    { x with m_sacked := x.m_sacked
        || blocks.any (fun blk => decide (blk.1 ≤ begin ∧ begin + x.size ≤ blk.2)) }
      :: sackMarks blocks xs (begin + x.size)

/-- The state of `unequalSent` after the SACK block `[1050, 1093)`, which covers
its second item, has been applied. -/
def sackedOnce : TcpTxBuffer :=
  match Update [(1050, 1093)] unequalSent with
  | .ok r => r.2
  | .error _ => unequalSent

/-- A buffer set up as a socket does it: the constructor, then
`SetHeadSequence (1000)`, which assigns `m_highestSack = (end (), 0)`; then
one `Add` of a ten-byte payload and the first extraction of new data. -/
def startedRun : Except Fault (List Nat × TcpTxBuffer) := do
  let b ← SetHeadSequence 1000 (TcpTxBuffer.create 1000 16 24)
  CopyFromSequence 10 200 1000 5 (Add 7 [1, 2, 3, 4, 5, 6, 7, 8, 9, 10] b).2

/-- The state `startedRun` ends in: head sequence 1000, one 50-byte item sent,
one 50-byte item pending, `m_highestSack = (end (), 0)`. -/
def started : TcpTxBuffer :=
  match startedRun with
  | .ok r => r.2
  | .error _ => TcpTxBuffer.create 1000 16 24

/-- The state of `started` after a retransmission timeout has flagged every
item of the sent list lost. No SACK block has arrived: `m_highestSack` is
still `(end (), 0)`, as `SetHeadSequence` left it. -/
def allLost : TcpTxBuffer := SetSentListLost started

/-- Two three-byte payloads queued on a fresh buffer whose head sequence is
`n`; the two redundancy units are extracted and acknowledged, which raises
`m_qednum` to two and moves the head to `n + 86`; then the two data units are
extracted. Every byte of the buffer is now in the sent list. -/
def drainRun (n : Nat) : Except Fault TcpTxBuffer := do
  let b := (Add 7 [11, 12, 13] (Add 7 [1, 2, 3] (TcpTxBuffer.create n 16 24)).2).2
  let (_, b) ← CopyFromSequence 10 43 n 1 b
  let (_, b) ← CopyFromSequence 10 43 (seqAdd n 43) 2 b
  let b ← DiscardUpTo 10 (seqAdd n 86) 3 b
  let (_, b) ← CopyFromSequence 10 43 (seqAdd n 86) 4 b
  let (_, b) ← CopyFromSequence 10 43 (seqAdd n 129) 5 b
  pure b

/-- The state `drainRun` ends in when the head sequence, after the
acknowledgement, is `2^32`, that is 0: two data items of 43 bytes in the sent
list, at sequences 0 and 43, and nothing unsent. -/
def zeroHead : TcpTxBuffer :=
  match drainRun 4294967210 with
  | .ok b => b
  | .error _ => TcpTxBuffer.create 0 16 24

/-- The same run one sequence number later: the two sent items begin at 1 and
44. -/
def oneHead : TcpTxBuffer :=
  match drainRun 4294967211 with
  | .ok b => b
  | .error _ => TcpTxBuffer.create 1 16 24

/-- The state of `unequalSent` after a retransmission timeout (every sent item
flagged lost) and the SACK block `[1050, 1093)`. -/
def lostSacked : TcpTxBuffer :=
  match Update [(1050, 1093)] (SetSentListLost unequalSent) with
  | .ok r => r.2
  | .error _ => unequalSent

/-- From `unequalUnits`: the first redundancy unit is extracted in three pieces
(10, 10 and 30 bytes) and the SACK block `[1020, 1050)`, which covers the
third piece, is applied. The second redundancy unit is still pending. -/
def threeRun : Except Fault TcpTxBuffer := do
  let (_, b) ← CopyFromSequence 10 10 1000 1 unequalUnits
  let (_, b) ← CopyFromSequence 10 10 1010 2 b
  let (_, b) ← CopyFromSequence 10 30 1020 3 b
  let (_, b) ← Update [(1020, 1050)] b
  pure b

/-- The state `threeRun` ends in: head sequence 1000, three sent items of 10,
10 and 30 bytes, the third one SACKed, `m_highestSack = (end (), 1050)`. -/
def threeSacked : TcpTxBuffer :=
  match threeRun with
  | .ok b => b
  | .error _ => unequalUnits

/-- The equation between the three sent counters, as the source would compute
it: `m_sentSize == m_appsentSize + m_stagesentSize` in `uint32_t`. -/
def SentBalanced (b : TcpTxBuffer) : Prop :=
  b.m_sentSize = add32 b.m_appsentSize b.m_stagesentSize

/-! ## Definitions for acknowledgement after SACK and for the reset of the sent list -/

/-- Three units queued on a fresh buffer (head sequence 1000, header 16,
redundancy 24): items of 50, 43 and 45 bytes on each pending list. -/
def threeUnits : TcpTxBuffer := (Add 7 [21, 22, 23, 24, 25] unequalUnits).2

/-- From `threeUnits`: the three redundancy units are extracted, one call each,
and the SACK block `[1050, 1093)`, which covers the second one, is applied. -/
def midSackRun : Except Fault TcpTxBuffer := do
  let (_, b) ← CopyFromSequence 10 50 1000 1 threeUnits
  let (_, b) ← CopyFromSequence 10 43 1050 2 b
  let (_, b) ← CopyFromSequence 10 45 1093 3 b
  let (_, b) ← Update [(1050, 1093)] b
  pure b

/-- The state `midSackRun` ends in: head sequence 1000, three sent items of
50, 43 and 45 bytes, the second one SACKed. -/
def midSacked : TcpTxBuffer :=
  match midSackRun with
  | .ok b => b
  | .error _ => threeUnits

/-- The state after `DiscardUpTo (1050)` on `midSacked`: the first item is
acknowledged. -/
def midAcked : TcpTxBuffer :=
  match DiscardUpTo 10 1050 4 midSacked with
  | .ok b => b
  | .error _ => midSacked

/-- The item that is last in the sent list after a turn of the loop of
`ResetSentList`: flagged lost, neither SACKed nor retransmitted. -/
def markBack (x : TcpTxItem) : TcpTxItem :=
  { x with m_lost := true, m_sacked := false, m_retrans := false }

/-- The item `ResetSentList` moves to a pending list:
`item->m_retrans = item->m_sacked = false`. -/
def clearMoved (x : TcpTxItem) : TcpTxItem :=
  { x with m_retrans := false, m_sacked := false }

/-- A list of items whose last item, if any, is replaced by `markBack` of it. -/
def markLast (l : List TcpTxItem) : List TcpTxItem :=
  match l.getLast? with
  | none => []
  | some back => l.dropLast ++ [markBack back]

/-- The items `ResetSentList` takes off a sent list that ends in `l`, in the
order of `l`, as they reach the pending lists: the last one with `m_retrans`
and `m_sacked` cleared, the others, each of which has been the last item of
the sent list after a turn of the loop, flagged lost as well. -/
def trimmedBack (l : List TcpTxItem) : List TcpTxItem :=
  match l.getLast? with
  | none => []
  | some last => l.dropLast.map markBack ++ [clearMoved last]

/-- A fresh buffer with a 256-byte header (head sequence 1000, redundancy 24)
after one `Add` of a three-byte payload. -/
def wideHeaderUnit : TcpTxBuffer := (Add 7 [1, 2, 3] (TcpTxBuffer.create 1000 256 24)).2

/-- No credit and no data item in the sent list: `m_qednum` is 0 and every
item of `m_sentList` carries the tag of the redundancy stream. -/
def AllAux (b : TcpTxBuffer) : Prop :=
  b.m_qednum = 0 ∧ ∀ x ∈ b.m_sentList, x.m_qided = true

/-- The states the buffer reaches from its constructor without `DiscardUpTo`
and without `ResetSentList`: by `SetMaxBufferSize`, `SetHeadSequence`, `Add`,
`CopyFromSequence`, `Update`, `SetSentListLost` and `ResetLastSegmentSent`,
each call having returned. -/
inductive NeverAcked : TcpTxBuffer → Prop where
  | create (n qheader red : Nat) : NeverAcked (TcpTxBuffer.create n qheader red)
  | setMax (n : Nat) (b : TcpTxBuffer) : NeverAcked b → NeverAcked (SetMaxBufferSize n b)
  | setHead (seq : Nat) (b b' : TcpTxBuffer) :
      NeverAcked b → SetHeadSequence seq b = .ok b' → NeverAcked b'
  | add (rnd : Nat) (p : List Nat) (b : TcpTxBuffer) :
      NeverAcked b → NeverAcked (Add rnd p b).2
  | copy (fuel numBytes seq : Nat) (now : Int) (b : TcpTxBuffer) (p : List Nat)
      (b' : TcpTxBuffer) :
      NeverAcked b → CopyFromSequence fuel numBytes seq now b = .ok (p, b') → NeverAcked b'
  | update (blocks : List (Nat × Nat)) (b : TcpTxBuffer) (modified : Bool) (b' : TcpTxBuffer) :
      NeverAcked b → Update blocks b = .ok (modified, b') → NeverAcked b'
  | lost (b : TcpTxBuffer) : NeverAcked b → NeverAcked (SetSentListLost b)
  | resetLast (b : TcpTxBuffer) : NeverAcked b → NeverAcked (ResetLastSegmentSent b)

/-- The big-endian encoding of a 32-bit counter in four bytes. -/
def bigEndian32 (c : Nat) : List Nat :=
  [c / 16777216 % 256, c / 65536 % 256, c / 256 % 256, c % 256]

/-- The flag byte of the wire header as the specification writes it:
`0x80 | (streamFlag << 6) | (headerSize / 4)`. -/
def flagByte (streamFlag headerSize : Nat) : Nat :=
  128 ||| (streamFlag <<< 6) ||| (headerSize / 4)

/-- What `Addqednew` would make of the one item in the sent list of
`oneUnitSent`: whether the bytes are those the item holds, and the counters
`m_esQseq` and `m_stageQseq` afterwards. -/
def regeneratedUnit : Except Fault (Bool × Nat × Nat) :=
  match oneUnitSent.2.m_sentList with
  | [x] =>
    (Addqednew x oneUnitSent.2).map
      (fun r => (decide (r.1.m_packet = x.m_packet), r.2.m_esQseq, r.2.m_stageQseq))
  | _ => .error .undefined
/-! ## Definitions for the last claims -/

/-- `GetSerializedSize ()` of a `TcpOptionSack` with `n` blocks in ns-3: the
kind and length bytes and eight bytes for each block. -/
def sackOptionSize (n : Nat) : Nat := 2 + 8 * n

/-- Four units queued on a fresh buffer (head sequence 1000, header 16,
redundancy 24): items of 50, 43, 45 and 42 bytes on each pending list. -/
def fourUnits : TcpTxBuffer := (Add 7 [31, 32] threeUnits).2

/-- From `fourUnits`: the four redundancy units are extracted, one call each,
and the SACK block `[1093, 1138)`, which covers the third one, is applied. -/
def fourRun : Except Fault TcpTxBuffer := do
  let (_, b) ← CopyFromSequence 10 50 1000 1 fourUnits
  let (_, b) ← CopyFromSequence 10 43 1050 2 b
  let (_, b) ← CopyFromSequence 10 45 1093 3 b
  let (_, b) ← CopyFromSequence 10 42 1138 4 b
  let (_, b) ← Update [(1093, 1138)] b
  pure b

/-- The state `fourRun` ends in: head sequence 1000, four sent items of 50,
43, 45 and 42 bytes, the third one SACKed. -/
def fourSacked : TcpTxBuffer :=
  match fourRun with
  | .ok b => b
  | .error _ => fourUnits

/-- From `oneUnit`: the 50-byte redundancy unit is extracted and extracted
again, which flags it `m_retrans`. -/
def retransmittedRun : Except Fault TcpTxBuffer := do
  let (_, b) ← CopyFromSequence 10 50 1000 1 oneUnit
  let (_, b) ← CopyFromSequence 10 50 1000 2 b
  pure b

/-- The state `retransmittedRun` ends in: one retransmitted item in the sent
list. -/
def retransmitted : TcpTxBuffer :=
  match retransmittedRun with
  | .ok b => b
  | .error _ => oneUnit

/-- From `bothSent` (a 50-byte data item and a 40-byte redundancy item in the
sent list, head sequence 1010): the 90 bytes are extracted again in one call,
which merges the two items. -/
def mergedSent : TcpTxBuffer :=
  match CopyFromSequence 10 90 1010 7 bothSent.2 with
  | .ok r => r.2
  | .error _ => bothSent.2

/-- The state of `mergedSent` after `DiscardUpTo (1100)`: every byte is
acknowledged. -/
def mergedAcked : TcpTxBuffer :=
  match DiscardUpTo 10 1100 8 mergedSent with
  | .ok b => b
  | .error _ => mergedSent

/-- The state of `sackedOnce` after the first ten bytes of the sent list have
been extracted again, which splits the first item. -/
def resplit : TcpTxBuffer :=
  match CopyFromSequence 10 10 1000 7 sackedOnce with
  | .ok r => r.2
  | .error _ => sackedOnce

/-- An empty buffer of the default capacity with a 16-byte header and 24
redundancy bytes. -/
def freshBuffer : TcpTxBuffer := TcpTxBuffer.create 0 16 24

/-- The sequence at which `CraftSackOption` starts its scan of the sent list
and the position of the item it starts at: the head, or `m_highestSack`. -/
def scanStart (b : TcpTxBuffer) : Nat × Nat :=
  match b.m_highestSack.1 with
  | .atNode i => (i, b.m_highestSack.2)
  | _ => (0, b.m_firstByteSeq)

/-- The sequence `CraftSackOption` has in `beginOfCurrentPacket` when its scan
is at position `j` of the sent list. -/
def scanBegin (b : TcpTxBuffer) (j : Nat) : Nat :=
  seqAdd (scanStart b).2
    (listBytes ((b.m_sentList.drop (scanStart b).1).take (j - (scanStart b).1))).length

/-- The counters `m_size` and `m_stageSize` count, together and modulo `2^32`, the
bytes held by the three lists of the buffer. -/
def Counted (b : TcpTxBuffer) : Prop :=
  (b.m_size + b.m_stageSize) % 4294967296 = totalBytes b % 4294967296

/-- The state `b'` holds as many bytes in its three lists as `b`, with the same
head sequence and the same two byte counters. -/
structure SameBytes (b b' : TcpTxBuffer) : Prop where
  total : totalBytes b' = totalBytes b
  size : b'.m_size = b.m_size
  stageSize : b'.m_stageSize = b.m_stageSize
  first : b'.m_firstByteSeq = b.m_firstByteSeq

/-- The states the buffer reaches from its constructor by `Add`,
`CopyFromSequence`, `DiscardUpTo`, `Update`, `SetSentListLost`,
`ResetLastSegmentSent` and `ResetSentList`, each call having returned; no
bound is put on any argument. -/
inductive Exercised : TcpTxBuffer → Prop where
  | create (n qheader red : Nat) : Exercised (TcpTxBuffer.create n qheader red)
  | add (rnd : Nat) (p : List Nat) (b : TcpTxBuffer) :
      Exercised b → Exercised (Add rnd p b).2
  | copy (fuel numBytes seq : Nat) (now : Int) (b : TcpTxBuffer) (p : List Nat)
      (b' : TcpTxBuffer) :
      Exercised b → CopyFromSequence fuel numBytes seq now b = .ok (p, b') → Exercised b'
  | discard (fuel seq : Nat) (now : Int) (b b' : TcpTxBuffer) :
      Exercised b → DiscardUpTo fuel seq now b = .ok b' → Exercised b'
  | update (blocks : List (Nat × Nat)) (b : TcpTxBuffer) (modified : Bool) (b' : TcpTxBuffer) :
      Exercised b → Update blocks b = .ok (modified, b') → Exercised b'
  | lost (b : TcpTxBuffer) : Exercised b → Exercised (SetSentListLost b)
  | resetLast (b : TcpTxBuffer) : Exercised b → Exercised (ResetLastSegmentSent b)
  | resetSent (keepItems : Nat) (b : TcpTxBuffer) :
      Exercised b → Exercised (ResetSentList keepItems b)

/-- From `dataSent` (head sequence 1010, a 50-byte item sent, 40 bytes pending):
30 bytes are asked for at 1050, ten bytes in front of the first unsent byte. -/
def straddled : List Nat × TcpTxBuffer :=
  match CopyFromSequence 10 30 1050 9 dataSent.2 with
  | .ok r => r
  | .error _ => ([], dataSent.2)

/-! # Theorems -/

/-! ## Arithmetic modulo `2^32` -/

theorem sub32_lt (a b : Nat) : sub32 a b < 4294967296 := by
  unfold sub32; omega

theorem sub32_add32 (w st A : Nat) : sub32 w (add32 st A) = sub32 (sub32 w st) A := by
  unfold sub32 add32
  omega

theorem sub32_swap (w a b : Nat) : sub32 (sub32 w a) b = sub32 (sub32 w b) a := by
  unfold sub32
  omega

theorem sub32_of_le (v A : Nat) (hv : v < 4294967296) (h : A ≤ v) : sub32 v A = v - A := by
  unfold sub32; omega

theorem sub32_comm_add (mx sz st A : Nat) :
    sub32 (sub32 mx (add32 sz A)) (add32 st A) = sub32 (sub32 (sub32 (sub32 mx sz) st) A) A := by
  rw [sub32_add32, sub32_add32, sub32_swap (sub32 mx sz) A st]

theorem tail_two (f sz st A : Nat) :
    seqAdd (seqAdd f (add32 sz A)) (add32 st A) = seqAdd (seqAdd (seqAdd f sz) st) (2 * A) := by
  unfold seqAdd add32; omega

/-- The serial order is total: `seq <= head` gives `head >= seq`. -/
theorem seqGe_of_seqLe (a b : Nat) (h : seqLe a b) : seqGe b a := by
  unfold seqLe seqGt at h
  unfold seqGe seqGt
  omega

/-! ## Enqueue -/

theorem headerArray_length (len c1 c2 f : Nat) : (headerArray len c1 c2 f).length = len := by
  simp [headerArray, headerStamp]; omega

theorem Encode_length (p q : List Nat) : (Encode p q).length = q.length := by
  simp [Encode]; omega

theorem seedEsQseq_frame (rnd : Nat) (b : TcpTxBuffer) :
    (seedEsQseq rnd b).m_maxBuffer = b.m_maxBuffer ∧ (seedEsQseq rnd b).m_size = b.m_size ∧
    (seedEsQseq rnd b).m_stageSize = b.m_stageSize ∧ (seedEsQseq rnd b).m_qheader = b.m_qheader ∧
    (seedEsQseq rnd b).m_red = b.m_red ∧ (seedEsQseq rnd b).m_firstByteSeq = b.m_firstByteSeq ∧
    (seedEsQseq rnd b).m_sentList = b.m_sentList ∧ (seedEsQseq rnd b).m_appList = b.m_appList ∧
    (seedEsQseq rnd b).m_qidList = b.m_qidList ∧ (seedEsQseq rnd b).m_sentSize = b.m_sentSize := by
  unfold seedEsQseq; split <;> simp

theorem Add_eq (rnd : Nat) (p : List Nat) (b : TcpTxBuffer) :
    Add rnd p b =
      if (5 * (p.length + b.m_qheader + b.m_red)) % 4294967296 ≤ Available b then
        (true, advanceQseq (Addapp p (Addqed
          (Encode p (List.replicate (add32 p.length b.m_red) 0)) (addEntry rnd b)).2).2)
      else (false, seedEsQseq rnd b) := by
  obtain ⟨h1, h2, h3, h4, h5, -⟩ := seedEsQseq_frame rnd b
  have hA : Available (seedEsQseq rnd b) = Available b := by
    simp only [Available, h1, h2, h3]
  simp only [Add, addEntry, h4, h5, hA]

theorem Add_fst_iff (rnd : Nat) (p : List Nat) (b : TcpTxBuffer) :
    (Add rnd p b).1 = true ↔
      (5 * (p.length + b.m_qheader + b.m_red)) % 4294967296 ≤ Available b := by
  rw [Add_eq]; split <;> simp_all

theorem Addqed_accept (q : List Nat) (b : TcpTxBuffer) (hq : 0 < q.length)
    (hg : (q.length + b.m_qheader + b.m_red) % 4294967296 ≤ Available b) :
    ∃ y : TcpTxItem, y.m_qided = true ∧ y.size = b.m_qheader + q.length ∧
      Addqed q b = (true, pushQid y (b.m_qheader + q.length) b) := by
  refine ⟨{ TcpTxItem.new with m_qided := true, m_packet :=
      (headerArray b.m_qheader b.m_esQseq b.m_stageQseq (128 + b.m_qheader / 4)).take b.m_qheader ++ q },
      rfl, ?_, ?_⟩
  · simp [TcpTxItem.size, headerArray_length]
  · simp [Addqed, pushQid, hg, hq, headerArray_length]

theorem Addapp_accept (p : List Nat) (b : TcpTxBuffer) (hp : 0 < p.length)
    (hlt : p.length + b.m_qheader + b.m_red < 4294967296)
    (hg : p.length + b.m_qheader + b.m_red ≤ Available b) :
    ∃ x : TcpTxItem, x.m_qided = false ∧ x.size = p.length + b.m_qheader + b.m_red ∧
      Addapp p b = (true, pushApp x (p.length + b.m_qheader + b.m_red) b) := by
  have hm : (p.length + b.m_qheader + b.m_red) % 4294967296 = p.length + b.m_qheader + b.m_red :=
    Nat.mod_eq_of_lt hlt
  refine ⟨{ TcpTxItem.new with m_qided := false, m_packet :=
      (headerArray (p.length + b.m_qheader + b.m_red) b.m_stageQseq b.m_sendQseq
        (128 + 64 + b.m_qheader / 4)).take b.m_qheader ++ p
        ++ (List.replicate (p.length + b.m_qheader + b.m_red) 0).take b.m_red },
      rfl, ?_, ?_⟩
  · simp [TcpTxItem.size, headerArray_length]; omega
  · have h1 : min b.m_qheader (p.length + b.m_qheader + b.m_red) = b.m_qheader := by omega
    have h2 : min b.m_red (p.length + b.m_qheader + b.m_red) = b.m_red := by omega
    simp [Addapp, pushApp, hm, hg, hp, headerArray_length, h1, h2]
    congr 1; omega

/-- What an accepted `Add` of a non-empty payload does when nothing wraps: one item on each
pending list, both byte counters advanced by the unit size. -/
theorem Add_accept_shape (rnd : Nat) (p : List Nat) (b : TcpTxBuffer)
    (hp : 0 < p.length)
    (hlt : 5 * (p.length + b.m_qheader + b.m_red) < 4294967296)
    (hacc : (Add rnd p b).1 = true) :
    ∃ x y : TcpTxItem,
      x.m_qided = false ∧ y.m_qided = true ∧
      x.size = p.length + b.m_qheader + b.m_red ∧
      y.size = p.length + b.m_qheader + b.m_red ∧
      (Add rnd p b).2 = advanceQseq
        (pushApp x (p.length + b.m_qheader + b.m_red)
          (pushQid y (p.length + b.m_qheader + b.m_red) (addEntry rnd b))) := by
  have hg := (Add_fst_iff rnd p b).1 hacc
  obtain ⟨h1, h2, h3, h4, h5, h6, h7, h8, h9, h10⟩ := seedEsQseq_frame rnd b
  have hA : Available (addEntry rnd b) = Available b := by
    simp only [Available, addEntry, h1, h2, h3]
  have hqh : (addEntry rnd b).m_qheader = b.m_qheader := h4
  have hrd : (addEntry rnd b).m_red = b.m_red := h5
  have hg' := hg
  rw [Nat.mod_eq_of_lt hlt] at hg'
  have hqlen : (Encode p (List.replicate (add32 p.length b.m_red) 0)).length
      = p.length + b.m_red := by
    rw [Encode_length, List.length_replicate]; unfold add32; omega
  obtain ⟨y, hy1, hy2, hy3⟩ := Addqed_accept
    (Encode p (List.replicate (add32 p.length b.m_red) 0)) (addEntry rnd b) (by omega)
    (by rw [hqlen, hqh, hrd, hA]; omega)
  have hsum : b.m_qheader + (p.length + b.m_red) = p.length + b.m_qheader + b.m_red := by omega
  rw [hqlen, hqh, hsum] at hy3 hy2
  have hq2 : (pushQid y (p.length + b.m_qheader + b.m_red) (addEntry rnd b)).m_qheader
      = b.m_qheader := h4
  have hr2 : (pushQid y (p.length + b.m_qheader + b.m_red) (addEntry rnd b)).m_red
      = b.m_red := h5
  obtain ⟨x, hx1, hx2, hx3⟩ := Addapp_accept p
    (pushQid y (p.length + b.m_qheader + b.m_red) (addEntry rnd b))
    hp (by rw [hq2, hr2]; omega)
    (by
      rw [hq2, hr2]
      have : Available (pushQid y (p.length + b.m_qheader + b.m_red) (addEntry rnd b))
          = sub32 (sub32 b.m_maxBuffer b.m_size)
              (add32 b.m_stageSize (p.length + b.m_qheader + b.m_red)) := by
        simp only [Available, pushQid, addEntry, h1, h2, h3]
      rw [this, sub32_add32, sub32_of_le _ _ (sub32_lt _ _) (by unfold Available at hg'; omega)]
      unfold Available at hg'; omega)
  rw [hq2, hr2] at hx2 hx3
  refine ⟨x, y, hx1, hy1, hx2, hy2, ?_⟩
  rw [Add_eq, if_pos hg, hy3]
  dsimp only
  rw [hx3]

theorem Addapp_reject (p : List Nat) (b : TcpTxBuffer)
    (hg : ¬ (p.length + b.m_qheader + b.m_red) % 4294967296 ≤ Available b) :
    Addapp p b = (false, b) := by
  simp [Addapp, hg]

theorem Add_accept_delta (rnd : Nat) (p : List Nat) (b : TcpTxBuffer)
    (hp : 0 < p.length)
    (hlt : 5 * (p.length + b.m_qheader + b.m_red) < 4294967296)
    (hacc : (Add rnd p b).1 = true) :
    Available (Add rnd p b).2 + 2 * (p.length + b.m_qheader + b.m_red) = Available b ∧
    TailSequence (Add rnd p b).2
      = seqAdd (TailSequence b) (2 * (p.length + b.m_qheader + b.m_red)) ∧
    HeadSequence (Add rnd p b).2 = HeadSequence b := by
  have hg := (Add_fst_iff rnd p b).1 hacc
  rw [Nat.mod_eq_of_lt hlt] at hg
  obtain ⟨h1, h2, h3, h4, h5, h6, -⟩ := seedEsQseq_frame rnd b
  obtain ⟨x, y, -, -, -, -, e⟩ := Add_accept_shape rnd p b hp hlt hacc
  rw [e]
  refine ⟨?_, ?_, ?_⟩
  · simp only [Available, advanceQseq, pushApp, pushQid, addEntry, h1, h2, h3]
    rw [sub32_comm_add]
    unfold Available at hg
    have hv := sub32_lt (sub32 b.m_maxBuffer b.m_size) b.m_stageSize
    rw [sub32_of_le (sub32 (sub32 b.m_maxBuffer b.m_size) b.m_stageSize) _ hv (by omega)]
    rw [sub32_of_le _ _ (by omega) (by omega)]
    omega
  · simp only [TailSequence, advanceQseq, pushApp, pushQid, addEntry, h2, h3, h6]
    exact tail_two _ _ _ _
  · simp only [HeadSequence, advanceQseq, pushApp, pushQid, addEntry, h6]

theorem Add_accept_lists (rnd : Nat) (p : List Nat) (b : TcpTxBuffer)
    (hp : 0 < p.length)
    (hlt : 5 * (p.length + b.m_qheader + b.m_red) < 4294967296)
    (hacc : (Add rnd p b).1 = true) :
    ∃ x y : TcpTxItem, x.m_qided = false ∧ y.m_qided = true ∧
      (Add rnd p b).2.m_appList = b.m_appList ++ [x] ∧
      (Add rnd p b).2.m_qidList = b.m_qidList ++ [y] := by
  obtain ⟨h1, h2, h3, h4, h5, h6, h7, h8, h9, -⟩ := seedEsQseq_frame rnd b
  obtain ⟨x, y, hx, hy, -, -, e⟩ := Add_accept_shape rnd p b hp hlt hacc
  refine ⟨x, y, hx, hy, ?_, ?_⟩
  · rw [e]; simp only [advanceQseq, pushApp, pushQid, addEntry, h8]
  · rw [e]; simp only [advanceQseq, pushApp, pushQid, addEntry, h9]

/-! ## Lists of items, `GetPacketFromList` and `GetNewSegment` -/

theorem listBytes_append (l₁ l₂ : List TcpTxItem) :
    listBytes (l₁ ++ l₂) = listBytes l₁ ++ listBytes l₂ := by
  induction l₁ with
  | nil => rfl
  | cons x xs ih => simp [listBytes, ih]

theorem listBytes_split_at (l : List TcpTxItem) (i : Nat) (x : TcpTxItem) (h : l[i]? = some x) :
    l = l.take i ++ x :: l.drop (i + 1) := by
  induction l generalizing i with
  | nil => simp at h
  | cons a as ih =>
    cases i with
    | zero => simp at h; simp [h]
    | succ j =>
      simp at h
      simp
      exact ih j h

theorem MergeItems_packet (t1 t2 : TcpTxItem) :
    (MergeItems t1 t2).m_packet = t1.m_packet ++ t2.m_packet := by
  unfold MergeItems
  simp only []
  split <;> split <;> split <;> split <;> rfl

/-- `GetPacketFromList` splits and merges items but keeps the bytes of the list, and the
position it returns is a position of the list. -/
theorem GetPacketFromList_bytes : ∀ (fuel : Nat) (list : List TcpTxItem)
    (start n seq : Nat) (edits : List ListEdit) (list' : List TcpTxItem) (i : Nat)
    (edits' : List ListEdit),
    GetPacketFromList fuel list start n seq edits = .ok (list', i, edits') →
    listBytes list' = listBytes list ∧ i < list'.length ∧ 0 < fuel := by
  intro fuel
  induction fuel with
  | zero => intro list start n seq edits list' i edits' h; simp [GetPacketFromList] at h
  | succ k ih =>
    intro list start n seq edits list' i edits' h
    unfold GetPacketFromList at h
    cases hfind : findItem seq list start 0 with
    | none => simp [hfind] at h
    | some r =>
      obtain ⟨j, bg⟩ := r
      simp only [hfind] at h
      cases hcur : list[j]? with
      | none => simp [hcur] at h
      | some cur =>
        simp only [hcur] at h
        have hl := listBytes_split_at list j cur hcur
        have hj : j < list.length := by
          rcases Nat.lt_or_ge j list.length with h1 | h1
          · exact h1
          · rw [List.getElem?_eq_none h1] at hcur; simp at hcur
        split at h
        · split at h
          · split at h
            · simp at h
              obtain ⟨h1, h2, -⟩ := h
              subst h1; subst h2
              exact ⟨rfl, hj, Nat.succ_pos _⟩
            · split at h
              · simp [SplitItems] at h
                obtain ⟨h1, h2, -⟩ := h
                subst h1; subst h2
                refine ⟨?_, ?_, Nat.succ_pos _⟩
                · conv_rhs => rw [hl]
                  simp [listBytes_append, listBytes]
                  rw [← List.append_assoc, List.take_append_drop]
                · simp; omega
              · simp at h
          · cases hnext : list[j + 1]? with
            | none =>
              simp [hnext] at h
              obtain ⟨h1, h2, -⟩ := h
              subst h1; subst h2
              exact ⟨rfl, hj, Nat.succ_pos _⟩
            | some next =>
              simp only [hnext] at h
              obtain ⟨e1, e2, -⟩ := ih _ _ _ _ _ _ _ _ h
              refine ⟨?_, e2, Nat.succ_pos _⟩
              rw [e1]
              have hd : list.drop (j + 1) = next :: list.drop (j + 2) := by
                have := listBytes_split_at (list.drop (j + 1)) 0 next (by simpa using hnext)
                simpa using this
              conv_rhs => rw [hl, hd]
              simp [listBytes_append, listBytes, MergeItems_packet]
        · split at h
          · simp only [SplitItems] at h
            obtain ⟨e1, e2, -⟩ := ih _ _ _ _ _ _ _ _ h
            refine ⟨?_, e2, Nat.succ_pos _⟩
            rw [e1]
            conv_rhs => rw [hl]
            simp [listBytes_append, listBytes]
            rw [← List.append_assoc, List.take_append_drop]
          · simp at h
theorem listBytes_eraseIdx (l : List TcpTxItem) (i : Nat) (x : TcpTxItem) (h : l[i]? = some x) :
    (listBytes (l.eraseIdx i)).length + x.size = (listBytes l).length := by
  have hl := listBytes_split_at l i x h
  rw [List.eraseIdx_eq_take_drop_succ]
  conv_rhs => rw [hl]
  simp [listBytes_append, listBytes, TcpTxItem.size]
  omega

/-- A `GetNewSegment` that returns has appended one item to the sent list. -/
theorem GetNewSegment_ok (fuel s : Nat) (b : TcpTxBuffer) (i : Nat) (b' : TcpTxBuffer)
    (h : GetNewSegment fuel s b = .ok (i, b')) :
    i = b.m_sentList.length ∧ 0 < fuel ∧ ∃ x, NewSegment b x b' := by
  unfold GetNewSegment at h
  by_cases hs : b.m_stage = 1
  · simp only [hs, if_true] at h
    cases hg : GetPacketFromList fuel b.m_qidList (seqAdd b.m_firstByteSeq b.m_stagesentSize) s
        (seqAdd b.m_firstByteSeq b.m_stagesentSize) [] with
    | error e => simp [hg] at h
    | ok r =>
      obtain ⟨list, j, ed⟩ := r
      simp only [hg] at h
      obtain ⟨hb, -, hf⟩ := GetPacketFromList_bytes _ _ _ _ _ _ _ _ _ hg
      cases hx : list[j]? with
      | none => simp [hx] at h
      | some x =>
        simp only [hx] at h
        have he := listBytes_eraseIdx list j x hx
        simp only [Except.ok.injEq, Prod.mk.injEq] at h
        obtain ⟨h1, h2⟩ := h
        subst h2
        refine ⟨h1.symm, hf, { x with m_qided := true }, ?_⟩
        constructor <;> simp [hs, TcpTxItem.size]
        simp [TcpTxItem.size] at he
        rw [← hb]; omega
  · simp only [hs, if_false] at h
    cases hg : GetPacketFromList fuel b.m_appList (seqAdd b.m_firstByteSeq b.m_appsentSize) s
        (seqAdd b.m_firstByteSeq b.m_appsentSize) [] with
    | error e => simp [hg] at h
    | ok r =>
      obtain ⟨list, j, ed⟩ := r
      simp only [hg] at h
      obtain ⟨hb, -, hf⟩ := GetPacketFromList_bytes _ _ _ _ _ _ _ _ _ hg
      cases hx : list[j]? with
      | none => simp [hx] at h
      | some x =>
        simp only [hx] at h
        have he := listBytes_eraseIdx list j x hx
        simp only [Except.ok.injEq, Prod.mk.injEq] at h
        obtain ⟨h1, h2⟩ := h
        subst h2
        refine ⟨h1.symm, hf, { x with m_qided := false }, ?_⟩
        constructor <;> simp [hs, TcpTxItem.size]
        simp [TcpTxItem.size] at he
        rw [← hb]; omega
theorem finishCopy_ok (s i : Nat) (now : Int) (b : TcpTxBuffer) (p : List Nat)
    (b' : TcpTxBuffer) (h : finishCopy s i now b = .ok (p, b')) :
    ∃ x, b.m_sentList[i]? = some x ∧ x.size = s ∧ p = x.m_packet ∧
      b' = { b with m_sentList :=
              b.m_sentList.set i { x with m_lost := false, m_lastSent := now } } := by
  unfold finishCopy at h
  cases hx : b.m_sentList[i]? with
  | none => simp [hx] at h
  | some x =>
    simp only [hx] at h
    split at h
    · rename_i hsz
      simp only [Except.ok.injEq, Prod.mk.injEq] at h
      exact ⟨x, rfl, hsz, h.1.symm, h.2.symm⟩
    · simp at h

theorem set_append_last (l : List TcpTxItem) (x y : TcpTxItem) :
    (l ++ [x]).set l.length y = l ++ [y] := by
  induction l with
  | nil => rfl
  | cons a as ih => simp [ih]

theorem getElem?_append_last (l : List TcpTxItem) (x : TcpTxItem) :
    (l ++ [x])[l.length]? = some x := by
  simp

/-- Serial comparison of `seq` with `seq + s` for a positive `s` below `2^31`. -/
theorem not_seqGe_add (seq s : Nat) (hseq : seq < 4294967296) (h0 : 0 < s)
    (hs : s < 2147483648) : ¬ seqGe seq (seqAdd seq s) := by
  unfold seqGe seqGt seqAdd
  omega

/-! ## Extraction of new data -/

/-- A successful extraction of new data (`seq` is the first unsent byte, at or after the
head, and the clamped range is not already sent): one item leaves a pending list for the
end of the sent list and its bytes are returned. -/
theorem CopyFromSequence_new_of (fuel n : Nat) (now : Int) (b : TcpTxBuffer) (p : List Nat)
    (b1 : TcpTxBuffer)
    (hge : ¬ seqGt b.m_firstByteSeq (seqAdd b.m_firstByteSeq b.m_sentSize))
    (hnew : ¬ seqGe (seqAdd b.m_firstByteSeq b.m_sentSize)
      (seqAdd (seqAdd b.m_firstByteSeq b.m_sentSize)
        (min n (SizeFromSequence b (seqAdd b.m_firstByteSeq b.m_sentSize)))))
    (h : CopyFromSequence fuel n (seqAdd b.m_firstByteSeq b.m_sentSize) now b = .ok (p, b1)) :
    ∃ (x : TcpTxItem) (bm : TcpTxBuffer),
      NewSegment (chooseStage b) x bm ∧ x.m_retrans = false ∧ x.m_packet = p ∧
      b1 = { bm with m_sentList :=
              b.m_sentList ++ [{ x with m_lost := false, m_lastSent := now }] } ∧
      x.size = (if 0 < b.m_qednum then
          min (min n (SizeFromSequence b (seqAdd b.m_firstByteSeq b.m_sentSize)))
            (sub32 b.m_size b.m_appsentSize)
        else
          min (min n (SizeFromSequence b (seqAdd b.m_firstByteSeq b.m_sentSize)))
            (sub32 b.m_stageSize b.m_stagesentSize)) ∧
      2 ≤ fuel := by
  cases fuel with
  | zero => simp [CopyFromSequence] at h
  | succ k =>
    unfold CopyFromSequence at h
    simp only [hge, if_false] at h
    have hz : ¬ min n (SizeFromSequence b (seqAdd b.m_firstByteSeq b.m_sentSize)) = 0 := by
      intro hz
      apply hnew
      rw [hz]
      right
      unfold seqAdd; omega
    simp only [hz, if_false, hnew] at h
    have hf : (chooseStage b).m_firstByteSeq = b.m_firstByteSeq := rfl
    have hss : (chooseStage b).m_sentSize = b.m_sentSize := rfl
    have hle : seqLe (seqAdd b.m_firstByteSeq b.m_sentSize)
        (seqAdd b.m_firstByteSeq b.m_sentSize) := by
      unfold seqLe seqGt; omega
    simp only [hf, hss, hle, if_true, ne_eq, not_true_eq_false, if_false] at h
    split at h
    · simp at h
    · rename_i i bm hg
      obtain ⟨hi, hk, x, hx⟩ := GetNewSegment_ok _ _ _ _ _ hg
      have hsl : bm.m_sentList = b.m_sentList ++ [x] := hx.sentList
      have hxi : bm.m_sentList[i]? = some x := by
        rw [hsl, hi]; exact getElem?_append_last _ _
      simp only [hxi] at h
      split at h
      · rename_i hret
        obtain ⟨y, hy1, hy2, hy3, hy4⟩ := finishCopy_ok _ _ _ _ _ _ h
        rw [hxi] at hy1
        have hyx : y = x := (Option.some.inj hy1).symm
        subst hyx
        refine ⟨y, bm, hx, hret, hy3.symm, ?_, ?_, by omega⟩
        · rw [hy4, hsl, hi]
          have := set_append_last b.m_sentList y { y with m_lost := false, m_lastSent := now }
          show { bm with m_sentList :=
            (b.m_sentList ++ [y]).set (chooseStage b).m_sentList.length _ } = _
          rw [show (chooseStage b).m_sentList.length = b.m_sentList.length from rfl, this]
        · rw [hy2]
      · simp at h

/-- The same for a call that requests fewer than `2^31` bytes and returns a non-empty
payload. -/
theorem CopyFromSequence_new (fuel n : Nat) (now : Int) (b : TcpTxBuffer) (p : List Nat)
    (b1 : TcpTxBuffer)
    (hs : min n (SizeFromSequence b (seqAdd b.m_firstByteSeq b.m_sentSize)) < 2147483648)
    (h : CopyFromSequence fuel n (seqAdd b.m_firstByteSeq b.m_sentSize) now b = .ok (p, b1))
    (hp : p ≠ []) :
    ∃ (x : TcpTxItem) (bm : TcpTxBuffer),
      NewSegment (chooseStage b) x bm ∧ x.m_retrans = false ∧ x.m_packet = p ∧
      b1 = { bm with m_sentList :=
              b.m_sentList ++ [{ x with m_lost := false, m_lastSent := now }] } ∧
      p.length ≤ SizeFromSequence b (seqAdd b.m_firstByteSeq b.m_sentSize) ∧
      ¬ seqGt b.m_firstByteSeq (seqAdd b.m_firstByteSeq b.m_sentSize) ∧ 2 ≤ fuel := by
  have hge : ¬ seqGt b.m_firstByteSeq (seqAdd b.m_firstByteSeq b.m_sentSize) := by
    intro hgt
    cases fuel with
    | zero => simp [CopyFromSequence] at h
    | succ k =>
      unfold CopyFromSequence at h
      simp only [hgt, if_true, Except.ok.injEq, Prod.mk.injEq] at h
      exact hp h.1.symm
  have hz : ¬ min n (SizeFromSequence b (seqAdd b.m_firstByteSeq b.m_sentSize)) = 0 := by
    intro hz
    cases fuel with
    | zero => simp [CopyFromSequence] at h
    | succ k =>
      unfold CopyFromSequence at h
      simp only [hge, if_false, hz, if_true, Except.ok.injEq, Prod.mk.injEq] at h
      exact hp h.1.symm
  have hnew := not_seqGe_add (seqAdd b.m_firstByteSeq b.m_sentSize) _
    (by unfold seqAdd; omega) (Nat.pos_of_ne_zero hz) hs
  obtain ⟨x, bm, hx, hret, hpk, hb1, hsz, hfu⟩ :=
    CopyFromSequence_new_of fuel n now b p b1 hge hnew h
  refine ⟨x, bm, hx, hret, hpk, hb1, ?_, hge, hfu⟩
  rw [← hpk]
  show x.size ≤ _
  rw [hsz]
  split <;> omega

/-! ## The size of what `CopyFromSequence` returns -/

theorem SizeFromSequence_congr (b b' : TcpTxBuffer) (seq : Nat)
    (h1 : b'.m_firstByteSeq = b.m_firstByteSeq) (h2 : b'.m_size = b.m_size)
    (h3 : b'.m_stageSize = b.m_stageSize) :
    SizeFromSequence b' seq = SizeFromSequence b seq := by
  simp only [SizeFromSequence, TailSequence, h1, h2, h3]

theorem finishCopy_length (s i : Nat) (now : Int) (b : TcpTxBuffer) (p : List Nat)
    (b' : TcpTxBuffer) (h : finishCopy s i now b = .ok (p, b')) : p.length = s := by
  obtain ⟨x, -, h2, h3, -⟩ := finishCopy_ok _ _ _ _ _ _ h
  rw [h3]; exact h2

/-- A range that is already sent in full is returned in full. -/
theorem CopyFromSequence_sent (fuel n seq : Nat) (now : Int) (b : TcpTxBuffer) (p : List Nat)
    (b' : TcpTxBuffer)
    (hsent : seqGe (seqAdd b.m_firstByteSeq b.m_sentSize)
      (seqAdd seq (min n (SizeFromSequence b seq))))
    (hge : ¬ seqGt b.m_firstByteSeq seq)
    (h : CopyFromSequence fuel n seq now b = .ok (p, b')) :
    p.length = min n (SizeFromSequence b seq) := by
  cases fuel with
  | zero => simp [CopyFromSequence] at h
  | succ k =>
    unfold CopyFromSequence at h
    simp only [hge, if_false] at h
    by_cases hz : min n (SizeFromSequence b seq) = 0
    · simp only [hz, if_true, Except.ok.injEq, Prod.mk.injEq] at h
      rw [hz, ← h.1]; rfl
    · simp only [hz, if_false, hsent, if_true] at h
      split at h
      · simp at h
      · split at h
        · simp at h
        · exact finishCopy_length _ _ _ _ _ _ h

/-- `CopyFromSequence` never returns more than the request clamped to the buffered
data. -/
theorem CopyFromSequence_le : ∀ (fuel n seq : Nat) (now : Int) (b : TcpTxBuffer)
    (p : List Nat) (b' : TcpTxBuffer),
    CopyFromSequence fuel n seq now b = .ok (p, b') →
    p.length ≤ min n (SizeFromSequence b seq) := by
  intro fuel
  induction fuel with
  | zero => intro n seq now b p b' h; simp [CopyFromSequence] at h
  | succ k ih =>
    intro n seq now b p b' h
    unfold CopyFromSequence at h
    by_cases hgt : seqGt b.m_firstByteSeq seq
    · simp only [hgt, if_true, Except.ok.injEq, Prod.mk.injEq] at h
      rw [← h.1]; simp
    · simp only [hgt, if_false] at h
      by_cases hz : min n (SizeFromSequence b seq) = 0
      · simp only [hz, if_true, Except.ok.injEq, Prod.mk.injEq] at h
        rw [← h.1]; simp
      · simp only [hz, if_false] at h
        by_cases hsent : seqGe (seqAdd b.m_firstByteSeq b.m_sentSize)
            (seqAdd seq (min n (SizeFromSequence b seq)))
        · simp only [hsent, if_true] at h
          split at h
          · simp at h
          · split at h
            · simp at h
            · rw [finishCopy_length _ _ _ _ _ _ h]
        · simp only [hsent, if_false] at h
          generalize hs' : (if 0 < b.m_qednum then
              min (min n (SizeFromSequence b seq)) (sub32 b.m_size b.m_appsentSize)
            else min (min n (SizeFromSequence b seq)) (sub32 b.m_stageSize b.m_stagesentSize))
            = s' at h
          have hs'le : s' ≤ min n (SizeFromSequence b seq) := by
            rw [← hs']; split <;> omega
          by_cases hle : seqLe (seqAdd (chooseStage b).m_firstByteSeq (chooseStage b).m_sentSize)
              seq
          · simp only [hle, if_true] at h
            split at h
            · simp at h
            · split at h
              · simp at h
              · split at h
                · simp at h
                · split at h
                  · rw [finishCopy_length _ _ _ _ _ _ h]; exact hs'le
                  · simp at h
          · simp only [hle, if_false] at h
            split at h
            · split at h
              · simp at h
              · rename_i i bm hg
                obtain ⟨-, -, x, hx⟩ := GetNewSegment_ok _ _ _ _ _ hg
                have := ih _ _ _ _ _ _ h
                rw [SizeFromSequence_congr b bm seq hx.first hx.size hx.stageSize] at this
                exact this
            · simp at h

/-! ## The accounting invariant -/

theorem Inv.congr {b b' : TcpTxBuffer} (h : Inv b)
    (e1 : (listBytes b'.m_sentList).length = (listBytes b.m_sentList).length)
    (e2 : (listBytes b'.m_appList).length = (listBytes b.m_appList).length)
    (e3 : (listBytes b'.m_qidList).length = (listBytes b.m_qidList).length)
    (e4 : b'.m_sentSize = b.m_sentSize) (e5 : b'.m_maxBuffer = b.m_maxBuffer)
    (e6 : b'.m_size = b.m_size) (e7 : b'.m_stageSize = b.m_stageSize)
    (e8 : b'.m_qheader = b.m_qheader) (e9 : b'.m_red = b.m_red) : Inv b' := by
  obtain ⟨h1, h2, h3, h4, h5⟩ := h
  constructor
  · rw [e1, e4]; exact h1
  · unfold totalBytes at *; rw [e1, e2, e3, e5]; exact h2
  · rw [e5]; exact h3
  · unfold totalBytes at *; rw [e1, e2, e3, e6, e7]; exact h4
  · rw [e8, e9]; exact h5

theorem listBytes_set_length (l : List TcpTxItem) (i : Nat) (x y : TcpTxItem)
    (h : l[i]? = some x) (hs : y.size = x.size) :
    (listBytes (l.set i y)).length = (listBytes l).length := by
  induction l generalizing i with
  | nil => simp
  | cons a as ih =>
    cases i with
    | zero =>
      simp at h
      subst h
      simp [listBytes, TcpTxItem.size] at *
      omega
    | succ j =>
      simp at h
      simp [listBytes, ih j h]

theorem NewSegment.keepsInv {b : TcpTxBuffer} {x : TcpTxItem} {b' : TcpTxBuffer}
    (h : NewSegment b x b') (hI : Inv b) : Inv b' := by
  obtain ⟨h1, h2, h3, h4, h5⟩ := hI
  have hs : (listBytes b'.m_sentList).length = (listBytes b.m_sentList).length + x.size := by
    rw [h.sentList, listBytes_append]; simp [listBytes, TcpTxItem.size]
  have hp := h.pending
  unfold totalBytes at *
  constructor
  · rw [hs, h.sentSize, h1]; unfold add32; omega
  · unfold totalBytes; rw [hs, h.maxBuffer]; omega
  · rw [h.maxBuffer]; exact h3
  · unfold totalBytes; rw [hs, h.size, h.stageSize, h4]; omega
  · rw [h.qheader, h.red]; exact h5

theorem Inv.chooseStage {b : TcpTxBuffer} (h : Inv b) : Inv (chooseStage b) :=
  h.congr rfl rfl rfl rfl rfl rfl rfl rfl rfl

theorem Addqednew_ok (item : TcpTxItem) (b : TcpTxBuffer) (item' : TcpTxItem)
    (b' : TcpTxBuffer) (h : Addqednew item b = .ok (item', b')) :
    item'.size = item.size ∧ b'.m_sentList = b.m_sentList ∧ b'.m_appList = b.m_appList ∧
    b'.m_qidList = b.m_qidList ∧ b'.m_sentSize = b.m_sentSize ∧
    b'.m_maxBuffer = b.m_maxBuffer ∧ b'.m_size = b.m_size ∧ b'.m_stageSize = b.m_stageSize ∧
    b'.m_qheader = b.m_qheader ∧ b'.m_red = b.m_red ∧
    b'.m_firstByteSeq = b.m_firstByteSeq := by
  unfold Addqednew at h
  split at h
  · dsimp only at h
    split at h
    · simp at h
    · rename_i hlt
      simp only [Except.ok.injEq, Prod.mk.injEq] at h
      obtain ⟨h1, h2⟩ := h
      subst h1; subst h2
      refine ⟨?_, rfl, rfl, rfl, rfl, rfl, rfl, rfl, rfl, rfl, rfl⟩
      simp [TcpTxItem.size, headerArray_length, Encode_length] at *
      omega
  · simp only [Except.ok.injEq, Prod.mk.injEq] at h
    obtain ⟨h1, h2⟩ := h
    subst h1; subst h2
    exact ⟨rfl, rfl, rfl, rfl, rfl, rfl, rfl, rfl, rfl, rfl, rfl⟩

theorem resegmented_frame (list : List TcpTxItem) (edits : List ListEdit) (b : TcpTxBuffer) :
    (resegmented list edits b).m_sentList = list ∧
    (resegmented list edits b).m_appList = b.m_appList ∧
    (resegmented list edits b).m_qidList = b.m_qidList ∧
    (resegmented list edits b).m_sentSize = b.m_sentSize ∧
    (resegmented list edits b).m_maxBuffer = b.m_maxBuffer ∧
    (resegmented list edits b).m_size = b.m_size ∧
    (resegmented list edits b).m_stageSize = b.m_stageSize ∧
    (resegmented list edits b).m_qheader = b.m_qheader ∧
    (resegmented list edits b).m_red = b.m_red ∧
    (resegmented list edits b).m_firstByteSeq = b.m_firstByteSeq := by
  unfold resegmented
  dsimp only
  split <;> exact ⟨rfl, rfl, rfl, rfl, rfl, rfl, rfl, rfl, rfl, rfl⟩

theorem resegmented_inv (list : List TcpTxItem) (edits : List ListEdit) (b : TcpTxBuffer)
    (hI : Inv b) (hb : listBytes list = listBytes b.m_sentList) :
    Inv (resegmented list edits b) := by
  obtain ⟨r1, r2, r3, r4, r5, r6, r7, r8, r9, -⟩ := resegmented_frame list edits b
  exact hI.congr (by rw [r1, hb]) (by rw [r2]) (by rw [r3]) r4 r5 r6 r7 r8 r9

theorem GetTransmittedSegment_inv (fuel n seq : Nat) (b : TcpTxBuffer) (i : Nat)
    (b' : TcpTxBuffer) (h : GetTransmittedSegment fuel n seq b = .ok (i, b')) (hI : Inv b) :
    Inv b' ∧ b'.m_firstByteSeq = b.m_firstByteSeq ∧ i < b'.m_sentList.length := by
  unfold GetTransmittedSegment at h
  split at h
  · simp at h
  · split at h
    · simp at h
    · split at h
      · simp at h
      · rename_i list j edits hg
        obtain ⟨hb, hj, -⟩ := GetPacketFromList_bytes _ _ _ _ _ _ _ _ _ hg
        obtain ⟨r1, r2, r3, r4, r5, r6, r7, r8, r9, r10⟩ := resegmented_frame list edits b
        have hR := resegmented_inv list edits b hI hb
        split at h
        · simp at h
        · rename_i item hitem
          split at h
          · split at h
            · simp at h
            · rename_i item' b2 ha
              obtain ⟨a1, a2, a3, a4, a5, a6, a7, a8, a9, a10, a11⟩ := Addqednew_ok _ _ _ _ ha
              simp only [Except.ok.injEq, Prod.mk.injEq] at h
              obtain ⟨h1, h2⟩ := h
              subst h2; subst h1
              refine ⟨?_, ?_, ?_⟩
              · apply hR.congr
                · show (listBytes (b2.m_sentList.set j item')).length = _
                  rw [a2, r1]
                  exact listBytes_set_length _ _ _ _ hitem a1
                · show (listBytes b2.m_appList).length = _
                  rw [a3]
                · show (listBytes b2.m_qidList).length = _
                  rw [a4]
                · exact a5
                · exact a6
                · exact a7
                · exact a8
                · exact a9
                · exact a10
              · show b2.m_firstByteSeq = _
                rw [a11, r10]
              · show j < (b2.m_sentList.set j item').length
                rw [List.length_set, a2, r1]; exact hj
          · simp only [Except.ok.injEq, Prod.mk.injEq] at h
            obtain ⟨h1, h2⟩ := h
            subst h2; subst h1
            exact ⟨hR, r10, by rw [r1]; exact hj⟩

theorem count_sub_right (a b k t : Nat) (h : (a + b) % 4294967296 = t) (hk : k ≤ t) :
    (a + sub32 b k) % 4294967296 = t - k := by
  unfold sub32; omega

theorem count_sub_left (a b k t : Nat) (h : (a + b) % 4294967296 = t) (hk : k ≤ t) :
    (sub32 a k + b) % 4294967296 = t - k := by
  unfold sub32; omega

theorem finishCopy_inv (s i : Nat) (now : Int) (b : TcpTxBuffer) (p : List Nat)
    (b' : TcpTxBuffer) (h : finishCopy s i now b = .ok (p, b')) (hI : Inv b) :
    Inv b' ∧ b'.m_firstByteSeq = b.m_firstByteSeq := by
  obtain ⟨x, hx, -, -, hb⟩ := finishCopy_ok _ _ _ _ _ _ h
  subst hb
  exact ⟨hI.congr (listBytes_set_length _ _ _ _ hx rfl) rfl rfl rfl rfl rfl rfl rfl rfl, rfl⟩

theorem CopyFromSequence_inv : ∀ (fuel n seq : Nat) (now : Int) (b : TcpTxBuffer)
    (p : List Nat) (b' : TcpTxBuffer),
    CopyFromSequence fuel n seq now b = .ok (p, b') → Inv b →
    Inv b' ∧ b'.m_firstByteSeq = b.m_firstByteSeq := by
  intro fuel
  induction fuel with
  | zero => intro n seq now b p b' h; simp [CopyFromSequence] at h
  | succ k ih =>
    intro n seq now b p b' h hI
    unfold CopyFromSequence at h
    by_cases hgt : seqGt b.m_firstByteSeq seq
    · simp only [hgt, if_true, Except.ok.injEq, Prod.mk.injEq] at h
      rw [← h.2]; exact ⟨hI, rfl⟩
    · simp only [hgt, if_false] at h
      by_cases hz : min n (SizeFromSequence b seq) = 0
      · simp only [hz, if_true, Except.ok.injEq, Prod.mk.injEq] at h
        rw [← h.2]; exact ⟨hI, rfl⟩
      · simp only [hz, if_false] at h
        by_cases hsent : seqGe (seqAdd b.m_firstByteSeq b.m_sentSize)
            (seqAdd seq (min n (SizeFromSequence b seq)))
        · simp only [hsent, if_true] at h
          split at h
          · simp at h
          · rename_i i b2 hg
            obtain ⟨g1, g2, -⟩ := GetTransmittedSegment_inv _ _ _ _ _ _ hg hI
            split at h
            · simp at h
            · rename_i outItem hout
              obtain ⟨f1, f2⟩ := finishCopy_inv _ _ _ _ _ _ h
                (g1.congr (listBytes_set_length _ _ _ _ hout rfl) rfl rfl rfl rfl rfl rfl rfl rfl)
              exact ⟨f1, by rw [f2]; exact g2⟩
        · simp only [hsent, if_false] at h
          generalize (if 0 < b.m_qednum then
              min (min n (SizeFromSequence b seq)) (sub32 b.m_size b.m_appsentSize)
            else min (min n (SizeFromSequence b seq)) (sub32 b.m_stageSize b.m_stagesentSize))
            = s' at h
          by_cases hle : seqLe (seqAdd (chooseStage b).m_firstByteSeq (chooseStage b).m_sentSize)
              seq
          · simp only [hle, if_true] at h
            split at h
            · simp at h
            · split at h
              · simp at h
              · rename_i i bm hg
                obtain ⟨-, -, x, hx⟩ := GetNewSegment_ok _ _ _ _ _ hg
                split at h
                · simp at h
                · split at h
                  · obtain ⟨f1, f2⟩ := finishCopy_inv _ _ _ _ _ _ h (hx.keepsInv hI.chooseStage)
                    exact ⟨f1, by rw [f2, hx.first]; rfl⟩
                  · simp at h
          · simp only [hle, if_false] at h
            split at h
            · split at h
              · simp at h
              · rename_i i bm hg
                obtain ⟨-, -, x, hx⟩ := GetNewSegment_ok _ _ _ _ _ hg
                obtain ⟨f1, f2⟩ := ih _ _ _ _ _ _ h (hx.keepsInv hI.chooseStage)
                exact ⟨f1, by rw [f2, hx.first]; rfl⟩
            · simp at h

theorem Inv.discard {b b' : TcpTxBuffer} (hI : Inv b) (k : Nat)
    (hs : (listBytes b'.m_sentList).length + k = (listBytes b.m_sentList).length)
    (ha : b'.m_appList = b.m_appList) (hq : b'.m_qidList = b.m_qidList)
    (hss : b'.m_sentSize = sub32 b.m_sentSize k) (hm : b'.m_maxBuffer = b.m_maxBuffer)
    (hc : (b'.m_size = b.m_size ∧ b'.m_stageSize = sub32 b.m_stageSize k) ∨
          (b'.m_size = sub32 b.m_size k ∧ b'.m_stageSize = b.m_stageSize))
    (hh : b'.m_qheader = b.m_qheader) (hr : b'.m_red = b.m_red) : Inv b' := by
  obtain ⟨i1, i2, i3, i4, i5⟩ := hI
  unfold totalBytes at i2 i4
  constructor
  · rw [hss, sub32_of_le _ _ (by omega) (by omega)]; omega
  · unfold totalBytes; rw [ha, hq, hm]; omega
  · rw [hm]; exact i3
  · unfold totalBytes
    rw [ha, hq]
    rcases hc with ⟨c1, c2⟩ | ⟨c1, c2⟩
    · rw [c1, c2, count_sub_right _ _ _ _ i4 (by omega)]; omega
    · rw [c1, c2, count_sub_left _ _ _ _ i4 (by omega)]; omega
  · rw [hh, hr]; exact i5

theorem discardLoop_inv : ∀ (fuel : Nat) (now : Int) (offset : Nat) (b b' : TcpTxBuffer),
    discardLoop fuel now offset b = .ok b' → Inv b → Inv b' := by
  intro fuel
  induction fuel with
  | zero => intro now offset b b' h; simp [discardLoop] at h
  | succ k ih =>
    intro now offset b b' h hI
    unfold discardLoop at h
    split at h
    · dsimp only at h
      split at h
      · simp at h
      · rename_i b2 hfill
        have hI2 : Inv b2 := by
          split at hfill
          · split at hfill
            · simp at hfill
            · rename_i pp b3 hc
              split at hfill
              · simp at hfill
              · simp only [Except.ok.injEq] at hfill
                subst hfill
                exact (CopyFromSequence_inv _ _ _ _ _ _ _ hc hI).1
          · simp only [Except.ok.injEq] at hfill
            subst hfill; exact hI
        split at h
        · simp at h
        · rename_i item rest hlist
          have hsz : (listBytes b2.m_sentList).length = item.size + (listBytes rest).length := by
            rw [hlist]; simp [listBytes, TcpTxItem.size]
          split at h
          · rename_i hle
            apply ih _ _ _ _ h
            by_cases hq : item.m_qided = true
            · simp only [hq, if_true]
              exact hI2.discard item.size (by rw [hsz]; show (listBytes rest).length + _ = _; omega)
                rfl rfl rfl rfl (Or.inl ⟨rfl, rfl⟩) rfl rfl
            · simp only [hq, if_false]
              exact hI2.discard item.size (by rw [hsz]; show (listBytes rest).length + _ = _; omega)
                rfl rfl rfl rfl (Or.inr ⟨rfl, rfl⟩) rfl rfl
          · rename_i hnle
            simp only [Except.ok.injEq] at h
            subst h
            have hd : (listBytes ({ item with m_packet := item.m_packet.drop offset } :: rest)).length
                + offset = (listBytes b2.m_sentList).length := by
              rw [hsz]; simp [listBytes, TcpTxItem.size] at *; omega
            by_cases hq : item.m_qided = true
            · simp only [hq, if_true]
              exact hI2.discard offset hd rfl rfl rfl rfl (Or.inl ⟨rfl, rfl⟩) rfl rfl
            · simp only [hq, if_false]
              exact hI2.discard offset hd rfl rfl rfl rfl (Or.inr ⟨rfl, rfl⟩) rfl rfl
    · simp only [Except.ok.injEq] at h
      subst h; exact hI

theorem discardTail_inv (seq : Nat) (b : TcpTxBuffer) (hI : Inv b) : Inv (discardTail seq b) := by
  unfold discardTail
  dsimp only
  have h1 : Inv (if b.m_size = 0 ∧ b.m_stageSize = 0 then { b with m_firstByteSeq := seq }
      else b) := by
    split
    · exact hI.congr rfl rfl rfl rfl rfl rfl rfl rfl rfl
    · exact hI
  generalize (if b.m_size = 0 ∧ b.m_stageSize = 0 then { b with m_firstByteSeq := seq }
      else b) = c at h1
  have h2 : Inv (match c.m_sentList with
      | [] => c
      | head :: rest =>
        if head.m_sacked = true then
          { c with m_sentList := { head with m_sacked := false } :: rest }
        else c) := by
    split
    · exact h1
    · rename_i head rest hl
      split
      · exact h1.congr (by rw [hl]; simp [listBytes]) rfl rfl rfl rfl rfl rfl rfl rfl
      · exact h1
  generalize (match c.m_sentList with
      | [] => c
      | head :: rest =>
        if head.m_sacked = true then
          { c with m_sentList := { head with m_sacked := false } :: rest }
        else c) = d at h2
  split
  · exact h2.congr rfl rfl rfl rfl rfl rfl rfl rfl rfl
  · exact h2

theorem DiscardUpTo_inv (fuel seq : Nat) (now : Int) (b b' : TcpTxBuffer)
    (h : DiscardUpTo fuel seq now b = .ok b') (hI : Inv b) : Inv b' := by
  unfold DiscardUpTo at h
  split at h
  · simp only [Except.ok.injEq] at h; subst h; exact hI
  · split at h
    · simp at h
    · rename_i b2 hbody
      split at h
      · simp only [Except.ok.injEq] at h
        subst h
        unfold DiscardUpToBody at hbody
        split at hbody
        · simp only [Except.ok.injEq] at hbody; subst hbody; exact hI
        · split at hbody
          · simp at hbody
          · rename_i b3 hloop
            simp only [Except.ok.injEq] at hbody
            subst hbody
            exact discardTail_inv _ _ (discardLoop_inv _ _ _ _ _ hloop hI)
      · simp at h

/-! ## A range that begins in the sent list -/

theorem seqGt_grow (f S xs seq : Nat) (hf : f < 4294967296) (hS : S + xs < 2147483648)
    (hge : ¬ seqGt f seq) (hin : seqGt (seqAdd f S) seq) : seqGt (seqAdd f (S + xs)) seq := by
  unfold seqGt seqAdd at *
  omega

/-- A range that begins in front of the first unsent byte is returned in full, whether it
ends in the sent list or reaches into the unsent data: `CopyFromSequence` moves the unsent
part to the sent list and calls itself, and the call that returns is the one that finds
the whole range sent. -/
theorem CopyFromSequence_inside : ∀ (fuel n seq : Nat) (now : Int) (b : TcpTxBuffer)
    (p : List Nat) (b' : TcpTxBuffer), Inv b → b.m_firstByteSeq < 4294967296 →
    ¬ seqGt b.m_firstByteSeq seq →
    seqGt (seqAdd b.m_firstByteSeq b.m_sentSize) seq →
    CopyFromSequence fuel n seq now b = .ok (p, b') →
    p.length = min n (SizeFromSequence b seq) := by
  intro fuel
  induction fuel with
  | zero => intro n seq now b p b' _ _ _ _ h; simp [CopyFromSequence] at h
  | succ k ih =>
    intro n seq now b p b' hI hf hge hin h
    by_cases hsent : seqGe (seqAdd b.m_firstByteSeq b.m_sentSize)
        (seqAdd seq (min n (SizeFromSequence b seq)))
    · exact CopyFromSequence_sent _ _ _ _ _ _ _ hsent hge h
    · unfold CopyFromSequence at h
      simp only [hge, if_false] at h
      by_cases hz : min n (SizeFromSequence b seq) = 0
      · simp only [hz, if_true, Except.ok.injEq, Prod.mk.injEq] at h
        rw [← h.1, hz]; rfl
      · simp only [hz, if_false, hsent] at h
        generalize (if 0 < b.m_qednum then
            min (min n (SizeFromSequence b seq)) (sub32 b.m_size b.m_appsentSize)
          else min (min n (SizeFromSequence b seq)) (sub32 b.m_stageSize b.m_stagesentSize))
          = s' at h
        have hle : ¬ seqLe (seqAdd (chooseStage b).m_firstByteSeq (chooseStage b).m_sentSize)
            seq := fun hc => hc hin
        simp only [hle, if_false] at h
        split at h
        · split at h
          · simp at h
          · rename_i i bm hg
            obtain ⟨-, -, x, hx⟩ := GetNewSegment_ok _ _ _ _ _ hg
            have hIm := hx.keepsInv hI.chooseStage
            have hfirst : bm.m_firstByteSeq = b.m_firstByteSeq := hx.first
            have hsize : bm.m_size = b.m_size := hx.size
            have hstage : bm.m_stageSize = b.m_stageSize := hx.stageSize
            have hs1 := hI.sent
            have hs2 := hIm.sent
            have hc2 := hIm.cap
            have hm2 := hIm.max
            have hl : (listBytes bm.m_sentList).length
                = (listBytes b.m_sentList).length + x.size := by
              rw [hx.sentList, listBytes_append]
              show (listBytes (chooseStage b).m_sentList ++ listBytes [x]).length = _
              simp [listBytes, TcpTxItem.size, chooseStage]
            have ht : (listBytes bm.m_sentList).length ≤ totalBytes bm := by
              unfold totalBytes; omega
            have hin2 : seqGt (seqAdd bm.m_firstByteSeq bm.m_sentSize) seq := by
              rw [hfirst, ← hs2, hl, hs1]
              rw [hl, hs1] at ht
              exact seqGt_grow _ _ _ _ hf (by omega) hge hin
            have := ih n seq now bm p b' hIm (by rw [hfirst]; exact hf)
              (by rw [hfirst]; exact hge) hin2 h
            rw [this, SizeFromSequence_congr b bm seq hfirst hsize hstage]
        · simp at h

theorem Inv.available {b : TcpTxBuffer} (hI : Inv b) :
    Available b = b.m_maxBuffer - totalBytes b := by
  obtain ⟨i1, i2, i3, i4, i5⟩ := hI
  unfold Available
  have h : sub32 (sub32 b.m_maxBuffer b.m_size) b.m_stageSize
      = sub32 b.m_maxBuffer ((b.m_size + b.m_stageSize) % 4294967296) := by
    unfold sub32; omega
  rw [h, i4, sub32_of_le _ _ (by omega) i2]

theorem Addqed_inv (q : List Nat) (b : TcpTxBuffer) (hI : Inv b)
    (hlt : q.length + b.m_qheader + b.m_red < 4294967296) :
    Inv (Addqed q b).2 ∧ (Addqed q b).2.m_qheader = b.m_qheader ∧
    (Addqed q b).2.m_red = b.m_red := by
  have hA := hI.available
  obtain ⟨i1, i2, i3, i4, i5⟩ := hI
  unfold Addqed
  rw [Nat.mod_eq_of_lt hlt]
  split
  · split
    · refine ⟨?_, rfl, rfl⟩
      unfold totalBytes at *
      constructor
      · exact i1
      · simp only [totalBytes, listBytes_append, listBytes, List.length_append, List.length_take,
          headerArray_length, List.append_nil, List.length_nil]
        omega
      · exact i3
      · simp only [totalBytes, listBytes_append, listBytes, List.length_append, List.length_take,
          headerArray_length, List.append_nil, List.length_nil, add32]
        omega
      · exact i5
    · exact ⟨⟨i1, i2, i3, i4, i5⟩, rfl, rfl⟩
  · exact ⟨⟨i1, i2, i3, i4, i5⟩, rfl, rfl⟩

theorem Addapp_inv (p : List Nat) (b : TcpTxBuffer) (hI : Inv b)
    (hlt : p.length + b.m_qheader + b.m_red < 4294967296) :
    Inv (Addapp p b).2 := by
  have hA := hI.available
  obtain ⟨i1, i2, i3, i4, i5⟩ := hI
  unfold Addapp
  rw [Nat.mod_eq_of_lt hlt]
  split
  · split
    · unfold totalBytes at *
      constructor
      · exact i1
      · simp only [totalBytes, listBytes_append, listBytes, List.length_append, List.length_take,
          headerArray_length, List.append_nil, List.length_nil, List.length_replicate]
        omega
      · exact i3
      · simp only [totalBytes, listBytes_append, listBytes, List.length_append, List.length_take,
          headerArray_length, List.append_nil, List.length_nil, List.length_replicate, add32]
        omega
      · exact i5
    · exact ⟨i1, i2, i3, i4, i5⟩
  · exact ⟨i1, i2, i3, i4, i5⟩

theorem Add_inv (rnd : Nat) (p : List Nat) (b : TcpTxBuffer) (hp : p.length < 2147483648)
    (hI : Inv b) : Inv (Add rnd p b).2 := by
  obtain ⟨h1, h2, h3, h4, h5, h6, h7, h8, h9, h10⟩ := seedEsQseq_frame rnd b
  have hh := hI.hdr
  rw [Add_eq]
  split
  · have hE : Inv (addEntry rnd b) :=
      hI.congr (by rw [show (addEntry rnd b).m_sentList = b.m_sentList from h7])
        (by rw [show (addEntry rnd b).m_appList = b.m_appList from h8])
        (by rw [show (addEntry rnd b).m_qidList = b.m_qidList from h9])
        h10 h1 h2 h3 h4 h5
    have hqlen : (Encode p (List.replicate (add32 p.length b.m_red) 0)).length
        = p.length + b.m_red := by
      rw [Encode_length, List.length_replicate]; unfold add32; omega
    have e4 : (addEntry rnd b).m_qheader = b.m_qheader := h4
    have e5 : (addEntry rnd b).m_red = b.m_red := h5
    obtain ⟨c1, c2, c3⟩ := Addqed_inv
      (Encode p (List.replicate (add32 p.length b.m_red) 0)) (addEntry rnd b) hE
      (by rw [hqlen, e4, e5]; omega)
    have d1 := Addapp_inv p
      (Addqed (Encode p (List.replicate (add32 p.length b.m_red) 0)) (addEntry rnd b)).2
      c1 (by rw [c2, c3, e4, e5]; omega)
    exact d1.congr rfl rfl rfl rfl rfl rfl rfl rfl rfl
  · exact hI.congr (by rw [h7]) (by rw [h8]) (by rw [h9]) h10 h1 h2 h3 h4 h5

theorem create_inv (n qheader red maxBuffer : Nat) (hq : qheader < 65536) (hr : red < 65536)
    (hm : maxBuffer < 2147483648) :
    Inv (SetMaxBufferSize maxBuffer (TcpTxBuffer.create n qheader red)) := by
  constructor
  · rfl
  · show 0 ≤ maxBuffer; omega
  · exact hm
  · rfl
  · exact ⟨hq, hr⟩

/-- Every reachable state satisfies the accounting invariant. -/
theorem Reachable.toInv {b : TcpTxBuffer} (h : Reachable b) : Inv b := by
  induction h with
  | create n qheader red maxBuffer hn hq hr hm => exact create_inv n qheader red maxBuffer hq hr hm
  | add rnd p b hp _ ih => exact Add_inv rnd p b hp ih
  | copy fuel numBytes seq now b p b' _ hc ih => exact (CopyFromSequence_inv _ _ _ _ _ _ _ hc ih).1
  | discard fuel seq now b b' _ _ hd ih => exact DiscardUpTo_inv _ _ _ _ _ hd ih

/-! ## The head sequence stays a 32-bit value -/

theorem Add_first (rnd : Nat) (p : List Nat) (b : TcpTxBuffer) :
    (Add rnd p b).2.m_firstByteSeq = b.m_firstByteSeq := by
  obtain ⟨-, -, -, -, -, h6, -⟩ := seedEsQseq_frame rnd b
  rw [Add_eq]
  split
  · have e : (addEntry rnd b).m_firstByteSeq = b.m_firstByteSeq := h6
    have hq : ∀ q c, (Addqed q c).2.m_firstByteSeq = c.m_firstByteSeq := by
      intro q c; unfold Addqed; split <;> [split; skip] <;> rfl
    have ha : ∀ q c, (Addapp q c).2.m_firstByteSeq = c.m_firstByteSeq := by
      intro q c; unfold Addapp; split <;> [split; skip] <;> rfl
    show (Addapp p _).2.m_firstByteSeq = _
    rw [ha, hq, e]
  · exact h6

theorem discardLoop_first : ∀ (fuel : Nat) (now : Int) (offset : Nat) (b b' : TcpTxBuffer),
    discardLoop fuel now offset b = .ok b' → Inv b → b.m_firstByteSeq < 4294967296 →
    b'.m_firstByteSeq < 4294967296 := by
  intro fuel
  induction fuel with
  | zero => intro now offset b b' h; simp [discardLoop] at h
  | succ k ih =>
    intro now offset b b' h hI hf
    unfold discardLoop at h
    split at h
    · dsimp only at h
      split at h
      · simp at h
      · rename_i b2 hfill
        have hI2 : Inv b2 ∧ b2.m_firstByteSeq = b.m_firstByteSeq := by
          split at hfill
          · split at hfill
            · simp at hfill
            · rename_i pp b3 hc
              split at hfill
              · simp at hfill
              · simp only [Except.ok.injEq] at hfill
                subst hfill
                exact CopyFromSequence_inv _ _ _ _ _ _ _ hc hI
          · simp only [Except.ok.injEq] at hfill
            subst hfill; exact ⟨hI, rfl⟩
        split at h
        · simp at h
        · rename_i item rest hlist
          have hsz : (listBytes b2.m_sentList).length = item.size + (listBytes rest).length := by
            rw [hlist]; simp [listBytes, TcpTxItem.size]
          split at h
          · rename_i hle
            apply ih _ _ _ _ h
            · by_cases hq : item.m_qided = true
              · simp only [hq, if_true]
                exact hI2.1.discard item.size
                  (by rw [hsz]; show (listBytes rest).length + _ = _; omega)
                  rfl rfl rfl rfl (Or.inl ⟨rfl, rfl⟩) rfl rfl
              · simp only [hq, if_false]
                exact hI2.1.discard item.size
                  (by rw [hsz]; show (listBytes rest).length + _ = _; omega)
                  rfl rfl rfl rfl (Or.inr ⟨rfl, rfl⟩) rfl rfl
            · show seqAdd _ _ < 4294967296
              unfold seqAdd; omega
          · simp only [Except.ok.injEq] at h
            subst h
            show seqAdd _ _ < 4294967296
            unfold seqAdd; omega
    · simp only [Except.ok.injEq] at h
      subst h; exact hf

theorem discardTail_first (seq : Nat) (b : TcpTxBuffer) :
    (discardTail seq b).m_firstByteSeq
      = if b.m_size = 0 ∧ b.m_stageSize = 0 then seq else b.m_firstByteSeq := by
  unfold discardTail
  dsimp only
  split <;> split <;> split <;> first | rfl | (split <;> rfl)

theorem DiscardUpTo_first (fuel seq : Nat) (now : Int) (b b' : TcpTxBuffer)
    (hseq : seq < 4294967296)
    (h : DiscardUpTo fuel seq now b = .ok b') (hI : Inv b)
    (hf : b.m_firstByteSeq < 4294967296) : b'.m_firstByteSeq < 4294967296 := by
  unfold DiscardUpTo at h
  split at h
  · simp only [Except.ok.injEq] at h; subst h; exact hf
  · split at h
    · simp at h
    · rename_i b2 hbody
      split at h
      · simp only [Except.ok.injEq] at h
        subst h
        unfold DiscardUpToBody at hbody
        split at hbody
        · simp only [Except.ok.injEq] at hbody; subst hbody; exact hf
        · split at hbody
          · simp at hbody
          · rename_i b3 hloop
            simp only [Except.ok.injEq] at hbody
            subst hbody
            rw [discardTail_first]
            split
            · exact hseq
            · exact discardLoop_first _ _ _ _ _ hloop hI hf
      · simp at h

theorem Reachable.first_lt {b : TcpTxBuffer} (h : Reachable b) :
    b.m_firstByteSeq < 4294967296 := by
  induction h with
  | create n qheader red maxBuffer hn hq hr hm => exact hn
  | add rnd p b hp _ ih => rw [Add_first]; exact ih
  | copy fuel numBytes seq now b p b' hr hc ih =>
    rw [(CopyFromSequence_inv _ _ _ _ _ _ _ hc hr.toInv).2]; exact ih
  | discard fuel seq now b b' hseq hr hd ih => exact DiscardUpTo_first _ _ _ _ _ hseq hd hr.toInv ih

/-! ## Extracting the last sent item again -/

theorem findItem_last (x : TcpTxItem) (hx0 : 0 < x.size) :
    ∀ (l : List TcpTxItem) (bg i : Nat), bg < 4294967296 →
      (listBytes l).length + x.size < 2147483648 →
      findItem (seqAdd bg (listBytes l).length) (l ++ [x]) bg i
        = some (i + l.length, seqAdd bg (listBytes l).length) := by
  intro l
  induction l with
  | nil =>
    intro bg i hbg hlen
    simp only [listBytes, List.length_nil, List.nil_append, findItem, Nat.add_zero]
    have h1 : seqAdd bg 0 = bg := by unfold seqAdd; omega
    rw [h1]
    have h2 : seqLt bg (seqAdd bg x.size) := by
      simp only [listBytes, List.length_nil, Nat.zero_add] at hlen
      unfold seqLt seqGt seqAdd; omega
    rw [if_pos h2]
  | cons a as ih =>
    intro bg i hbg hlen
    have hl : (listBytes (a :: as)).length = a.size + (listBytes as).length := by
      simp [listBytes, TcpTxItem.size]
    rw [hl] at hlen ⊢
    have h2 : ¬ seqLt (seqAdd bg (a.size + (listBytes as).length)) (seqAdd bg a.size) := by
      unfold seqLt seqGt seqAdd; omega
    rw [List.cons_append]
    unfold findItem
    rw [if_neg h2]
    have h3 : seqAdd bg (a.size + (listBytes as).length)
        = seqAdd (seqAdd bg a.size) (listBytes as).length := by
      unfold seqAdd; omega
    rw [h3, ih (seqAdd bg a.size) (i + 1) (by unfold seqAdd; omega) (by omega)]
    simp only [List.length_cons]
    congr 2
    omega

theorem resegmented_nil (b : TcpTxBuffer) : resegmented b.m_sentList [] b = b := by
  unfold resegmented
  simp

theorem GetPacketFromList_last (k : Nat) (l : List TcpTxItem) (x : TcpTxItem) (bg : Nat)
    (hbg : bg < 4294967296) (hx0 : 0 < x.size)
    (hlen : (listBytes l).length + x.size < 2147483648) :
    GetPacketFromList (k + 1) (l ++ [x]) bg x.size (seqAdd bg (listBytes l).length) []
      = .ok (l ++ [x], l.length, []) := by
  unfold GetPacketFromList
  rw [findItem_last x hx0 l bg 0 hbg hlen]
  simp only [Nat.zero_add, getElem?_append_last, if_true]
  have h : seqLe (seqAdd (seqAdd bg (listBytes l).length) x.size)
      (seqAdd (seqAdd bg (listBytes l).length) x.size) := by
    unfold seqLe seqGt; omega
  rw [if_pos h]

theorem GetTransmittedSegment_last (k : Nat) (c : TcpTxBuffer) (l : List TcpTxItem)
    (x : TcpTxItem) (hl : c.m_sentList = l ++ [x]) (hfirst : c.m_firstByteSeq < 4294967296)
    (hsum : (listBytes l).length + x.size = c.m_sentSize)
    (hbound : c.m_sentSize < 2147483648) (hx0 : 0 < x.size) (hlost : x.m_lost = false) :
    GetTransmittedSegment (k + 1) x.size (seqAdd c.m_firstByteSeq (listBytes l).length) c
      = .ok (l.length, c) := by
  unfold GetTransmittedSegment
  have h1 : seqGe (seqAdd c.m_firstByteSeq (listBytes l).length) c.m_firstByteSeq := by
    unfold seqGe seqGt seqAdd; omega
  have h2 : x.size ≤ c.m_sentSize := by omega
  simp only [h1, not_true_eq_false, if_false, h2]
  rw [hl, GetPacketFromList_last k l x _ hfirst hx0 (by omega)]
  simp only [getElem?_append_last, hlost, Bool.false_eq_true, false_and, and_false, if_false]
  rw [← hl, resegmented_nil]

/-- Extracting again exactly the range of the last item of the sent list returns the
bytes of that item and flags it as retransmitted. -/
theorem CopyFromSequence_last (k : Nat) (now : Int) (c : TcpTxBuffer) (l : List TcpTxItem)
    (x : TcpTxItem) (hl : c.m_sentList = l ++ [x]) (hfirst : c.m_firstByteSeq < 4294967296)
    (hsum : (listBytes l).length + x.size = c.m_sentSize)
    (hbound : c.m_sentSize < 2147483648) (hx0 : 0 < x.size) (hlost : x.m_lost = false)
    (hsfs : x.size ≤ SizeFromSequence c (seqAdd c.m_firstByteSeq (listBytes l).length)) :
    CopyFromSequence (k + 2) x.size (seqAdd c.m_firstByteSeq (listBytes l).length) now c
      = .ok (x.m_packet,
          { c with m_sentList :=
              l ++ [{ x with m_retrans := true, m_lost := false, m_lastSent := now }] }) := by
  unfold CopyFromSequence
  have hgt : ¬ seqGt c.m_firstByteSeq (seqAdd c.m_firstByteSeq (listBytes l).length) := by
    unfold seqGt seqAdd; omega
  have hmin : min x.size (SizeFromSequence c (seqAdd c.m_firstByteSeq (listBytes l).length))
      = x.size := by omega
  have hz : ¬ x.size = 0 := by omega
  have hsent : seqGe (seqAdd c.m_firstByteSeq c.m_sentSize)
      (seqAdd (seqAdd c.m_firstByteSeq (listBytes l).length) x.size) := by
    right
    rw [← hsum]; unfold seqAdd; omega
  simp only [hgt, if_false, hmin, hz, hsent, if_true]
  rw [GetTransmittedSegment_last k c l x hl hfirst hsum hbound hx0 hlost]
  simp only [hl, getElem?_append_last, set_append_last]
  unfold finishCopy
  simp only [getElem?_append_last, set_append_last, TcpTxItem.size, if_true]

/-! ## Extract twice -/

theorem tail_diff (f sz st sent t : Nat) (hc : (sz + st) % 4294967296 = t) (hs : sent ≤ t) :
    sub32 (seqAdd (seqAdd f sz) st) (seqAdd f sent) = t - sent := by
  unfold sub32 seqAdd
  omega

theorem Inv.sizeFromSent {b : TcpTxBuffer} (hI : Inv b) :
    SizeFromSequence b (seqAdd b.m_firstByteSeq b.m_sentSize) < 2147483648 := by
  obtain ⟨i1, i2, i3, i4, i5⟩ := hI
  unfold SizeFromSequence
  split
  · unfold seqDiff TailSequence
    rw [tail_diff _ _ _ _ _ i4 (by unfold totalBytes; omega)]
    omega
  · omega

/-- In a reachable state, extracting again what a new-data extraction has just returned
gives the same bytes and flags the item as retransmitted. -/
theorem extract_twice (b : TcpTxBuffer) (hR : Reachable b) (fuel n : Nat) (now now2 : Int)
    (p : List Nat) (b1 : TcpTxBuffer)
    (h1 : CopyFromSequence fuel n (seqAdd b.m_firstByteSeq b.m_sentSize) now b = .ok (p, b1))
    (hp : p ≠ []) :
    ∃ x : TcpTxItem,
      CopyFromSequence fuel p.length (seqAdd b.m_firstByteSeq b.m_sentSize) now2 b1
        = .ok (p, { b1 with m_sentList := b.m_sentList ++ [x] }) ∧
      x.m_packet = p ∧ x.m_retrans = true ∧
      (listBytes b.m_sentList).length = b.m_sentSize := by
  have hI := hR.toInv
  have hI1 : Inv b1 := (Reachable.copy _ _ _ _ _ _ _ hR h1).toInv
  have hf := hR.first_lt
  obtain ⟨x, bm, hx, hret, hpk, hb1, hle, hge, hfuel⟩ :=
    CopyFromSequence_new fuel n now b p b1 (by have := hI.sizeFromSent; omega) h1 hp
  obtain ⟨k, rfl⟩ : ∃ k, fuel = k + 2 := ⟨fuel - 2, by omega⟩
  have hsl : b1.m_sentList = b.m_sentList ++ [{ x with m_lost := false, m_lastSent := now }] := by
    rw [hb1]
  have hfirst1 : b1.m_firstByteSeq = b.m_firstByteSeq := by
    rw [hb1]; exact hx.first
  have hss1 : b1.m_sentSize = add32 b.m_sentSize x.size := by
    rw [hb1]; exact hx.sentSize
  have hplen : p.length = x.size := by rw [← hpk]; rfl
  have hx0 : 0 < x.size := by
    rw [← hplen]; exact List.length_pos.mpr hp
  have hs1 := hI1.sent
  rw [hsl, listBytes_append] at hs1
  simp only [listBytes, List.append_nil, List.length_append] at hs1
  have hs0 := hI.sent
  have hb1max := hI1.cap
  have hmax1 := hI1.max
  unfold totalBytes at hb1max
  rw [hsl, listBytes_append] at hb1max
  simp only [listBytes, List.append_nil, List.length_append] at hb1max
  have hsfs1 : SizeFromSequence b1 (seqAdd b.m_firstByteSeq b.m_sentSize)
      = SizeFromSequence b (seqAdd b.m_firstByteSeq b.m_sentSize) := by
    apply SizeFromSequence_congr
    · exact hfirst1
    · rw [hb1]; exact hx.size
    · rw [hb1]; exact hx.stageSize
  have key := CopyFromSequence_last k now2 b1 b.m_sentList
    { x with m_lost := false, m_lastSent := now } hsl (by rw [hfirst1]; exact hf)
    (by show _ + x.size = _; rw [← hs1]; rfl)
    (by rw [← hs1]; omega) hx0 rfl
    (by
      show x.size ≤ _
      rw [hfirst1, hs0, hsfs1, ← hplen]; exact hle)
  have hseq : seqAdd b.m_firstByteSeq b.m_sentSize
      = seqAdd b1.m_firstByteSeq (listBytes b.m_sentList).length := by
    rw [hfirst1, hs0]
  refine ⟨{ x with m_retrans := true, m_lost := false, m_lastSent := now2 }, ?_, hpk, rfl, hs0⟩
  rw [hplen, hseq, ← hpk]
  exact key

/-! ## The scoreboard: SACK marks, loss detection, the next segment -/

theorem seqGe_iff_of_window (lo a c : Nat) (ha : lo ≤ a) (ha' : a < lo + 2147483648)
    (hc : lo ≤ c) (hc' : c < lo + 2147483648) : seqGe a c ↔ c ≤ a := by
  unfold seqGe seqGt; omega

theorem seqGt_iff_of_window (lo a c : Nat) (ha : lo ≤ a) (ha' : a < lo + 2147483648)
    (hc : lo ≤ c) (hc' : c < lo + 2147483648) : seqGt a c ↔ c < a := by
  unfold seqGt; omega

theorem seqLe_iff_of_window (lo a c : Nat) (ha : lo ≤ a) (ha' : a < lo + 2147483648)
    (hc : lo ≤ c) (hc' : c < lo + 2147483648) : seqLe a c ↔ a ≤ c := by
  unfold seqLe seqGt; omega

theorem TcpTxItem.sacked_or_false (x : TcpTxItem) :
    { x with m_sacked := x.m_sacked || false } = x := by
  cases x; simp

theorem TcpTxItem.sacked_or_true (x : TcpTxItem) :
    { x with m_sacked := x.m_sacked || true } = { x with m_sacked := true } := by
  cases x; simp

theorem TcpTxItem.sacked_self (x : TcpTxItem) (h : x.m_sacked = true) :
    { x with m_sacked := true } = x := by
  cases x; simp at h; simp [h]

theorem markList_past (blk : Nat × Nat) : ∀ (l : List TcpTxItem) (begin : Nat),
    blk.2 < begin → markList blk l begin = l ∧ anyInside blk l begin = false := by
  intro l
  induction l with
  | nil => intro begin _; exact ⟨rfl, rfl⟩
  | cons x xs ih =>
    intro begin h
    have hn : ¬ (blk.1 ≤ begin ∧ begin + x.size ≤ blk.2) := by omega
    obtain ⟨h1, h2⟩ := ih (begin + x.size) (by omega)
    simp only [markList, anyInside, hn, decide_False, Bool.false_or, h1, h2,
      TcpTxItem.sacked_or_false, and_self]

theorem updateScan_eq (blk : Nat × Nat) (lo : Nat) (hlo : lo + 2147483648 ≤ 4294967296)
    (hb1 : lo ≤ blk.1) (hb1' : blk.1 < lo + 2147483648)
    (hb2 : lo ≤ blk.2) (hb2' : blk.2 < lo + 2147483648) :
    ∀ (l : List TcpTxItem) (i begin : Nat) (hs : SentIter × Nat) (m : Bool),
      lo ≤ begin → begin + (listBytes l).length < lo + 2147483648 →
      (updateScan blk l i begin hs m).1 = markList blk l begin ∧
      (updateScan blk l i begin hs m).2.2 = (m || anyInside blk l begin) := by
  intro l
  induction l with
  | nil => intro i begin hs m _ _; simp [updateScan, markList, anyInside]
  | cons x xs ih =>
    intro i begin hs m hb hlen
    have hl : (listBytes (x :: xs)).length = x.size + (listBytes xs).length := by
      simp [listBytes, TcpTxItem.size]
    rw [hl] at hlen
    have e : seqAdd begin x.size = begin + x.size := by unfold seqAdd; omega
    have c1 : seqGe begin blk.1 ↔ blk.1 ≤ begin :=
      seqGe_iff_of_window lo _ _ hb (by omega) hb1 hb1'
    have c2 : seqLe (begin + x.size) blk.2 ↔ begin + x.size ≤ blk.2 :=
      seqLe_iff_of_window lo _ _ (by omega) (by omega) hb2 hb2'
    have c3 : seqGt (begin + x.size) blk.2 ↔ blk.2 < begin + x.size :=
      seqGt_iff_of_window lo _ _ (by omega) (by omega) hb2 hb2'
    unfold updateScan
    rw [e]
    simp only [c1, c2, c3]
    by_cases hin : blk.1 ≤ begin ∧ begin + x.size ≤ blk.2
    · rw [if_pos hin]
      by_cases hsk : x.m_sacked = true
      · rw [if_pos hsk]
        obtain ⟨h1, h2⟩ := ih (i + 1) (begin + x.size) hs true (by omega) (by omega)
        simp only [h1, h2, markList, anyInside, hin, decide_True, Bool.true_or, Bool.or_true,
          TcpTxItem.sacked_or_true, TcpTxItem.sacked_self x hsk, and_self]
      · rw [if_neg hsk]
        dsimp only
        generalize (if seqLe hs.2 (begin + x.size) then
            ((if xs = [] then SentIter.atEnd else SentIter.atNode (i + 1)), begin + x.size)
          else hs) = hs'
        obtain ⟨h1, h2⟩ := ih (i + 1) (begin + x.size) hs' true (by omega) (by omega)
        simp only [h1, h2, markList, anyInside, hin, decide_True, Bool.true_or, Bool.or_true,
          TcpTxItem.sacked_or_true, and_self]
    · rw [if_neg hin]
      by_cases hgt : blk.2 < begin + x.size
      · rw [if_pos hgt]
        obtain ⟨h1, h2⟩ := markList_past blk xs (begin + x.size) hgt
        simp only [markList, anyInside, hin, decide_False, Bool.false_or, h1, h2,
          TcpTxItem.sacked_or_false, Bool.or_false, and_self]
      · rw [if_neg hgt]
        obtain ⟨h1, h2⟩ := ih (i + 1) (begin + x.size) hs m (by omega) (by omega)
        simp only [h1, h2, markList, anyInside, hin, decide_False, Bool.false_or,
          TcpTxItem.sacked_or_false, and_self]

theorem listBytes_markList (blk : Nat × Nat) : ∀ (l : List TcpTxItem) (begin : Nat),
    listBytes (markList blk l begin) = listBytes l := by
  intro l
  induction l with
  | nil => intro _; rfl
  | cons x xs ih => intro begin; simp only [markList, listBytes, ih]

theorem anyInside_markList (blk blk' : Nat × Nat) : ∀ (l : List TcpTxItem) (begin : Nat),
    anyInside blk (markList blk' l begin) begin = anyInside blk l begin := by
  intro l
  induction l with
  | nil => intro _; rfl
  | cons x xs ih =>
    intro begin
    simp only [markList, anyInside, TcpTxItem.size, ih]

theorem sackMarks_nil : ∀ (l : List TcpTxItem) (begin : Nat), sackMarks [] l begin = l := by
  intro l
  induction l with
  | nil => intro _; rfl
  | cons x xs ih =>
    intro begin
    simp only [sackMarks, List.any_nil, ih, TcpTxItem.sacked_or_false]

theorem sackMarks_cons (blk : Nat × Nat) (blocks : List (Nat × Nat)) :
    ∀ (l : List TcpTxItem) (begin : Nat),
      sackMarks (blk :: blocks) l begin = sackMarks blocks (markList blk l begin) begin := by
  intro l
  induction l with
  | nil => intro _; rfl
  | cons x xs ih =>
    intro begin
    simp only [sackMarks, markList, List.any_cons, TcpTxItem.size, ih, Bool.or_assoc]

theorem updateBlocks_eq (lo : Nat) (hlo : lo + 2147483648 ≤ 4294967296) (first : Nat)
    (hfirst : lo ≤ first) :
    ∀ (blocks : List (Nat × Nat)) (l : List TcpTxItem) (hs : SentIter × Nat) (m : Bool),
      (∀ blk ∈ blocks, lo ≤ blk.1 ∧ blk.1 < lo + 2147483648 ∧ lo ≤ blk.2
        ∧ blk.2 < lo + 2147483648) →
      first + (listBytes l).length < lo + 2147483648 →
      (updateBlocks first blocks (l, hs, m)).1 = sackMarks blocks l first ∧
      (updateBlocks first blocks (l, hs, m)).2.2
        = (m || blocks.any (fun blk => anyInside blk l first)) := by
  intro blocks
  induction blocks with
  | nil => intro l hs m _ _; simp [updateBlocks, sackMarks_nil]
  | cons blk blocks ih =>
    intro l hs m hblk hlen
    obtain ⟨hb1, hb1', hb2, hb2'⟩ := hblk blk (List.mem_cons_self _ _)
    obtain ⟨h1, h2⟩ := updateScan_eq blk lo hlo hb1 hb1' hb2 hb2' l 0 first hs m hfirst hlen
    unfold updateBlocks
    dsimp only
    generalize hr : updateScan blk l 0 first hs m = r at h1 h2
    obtain ⟨r1, r2, r3⟩ := r
    simp only at h1 h2
    subst h1 h2
    obtain ⟨g1, g2⟩ := ih (markList blk l first) r2 (m || anyInside blk l first)
      (fun b hb => hblk b (List.mem_cons_of_mem _ hb))
      (by rw [listBytes_markList]; exact hlen)
    rw [g1, g2, sackMarks_cons]
    refine ⟨rfl, ?_⟩
    simp only [List.any_cons, Bool.or_assoc, anyInside_markList]

theorem sackMarks_length (blocks : List (Nat × Nat)) : ∀ (l : List TcpTxItem) (begin : Nat),
    (sackMarks blocks l begin).length = l.length := by
  intro l
  induction l with
  | nil => intro _; rfl
  | cons x xs ih => intro begin; simp only [sackMarks, List.length_cons, ih]

theorem listBytes_sackMarks (blocks : List (Nat × Nat)) : ∀ (l : List TcpTxItem) (begin : Nat),
    listBytes (sackMarks blocks l begin) = listBytes l := by
  intro l
  induction l with
  | nil => intro _; rfl
  | cons x xs ih => intro begin; simp only [sackMarks, listBytes, ih]

theorem sackMarks_getElem (blocks : List (Nat × Nat)) :
    ∀ (l : List TcpTxItem) (begin i : Nat) (x : TcpTxItem), l[i]? = some x →
      (sackMarks blocks l begin)[i]? = some { x with m_sacked := (x.m_sacked
        || blocks.any (fun blk => decide (blk.1 ≤ begin + (listBytes (l.take i)).length
            ∧ begin + (listBytes (l.take i)).length + x.size ≤ blk.2))) } := by
  intro l
  induction l with
  | nil => intro begin i x h; simp at h
  | cons y ys ih =>
    intro begin i x h
    cases i with
    | zero =>
      simp only [List.getElem?_cons_zero, Option.some.injEq] at h
      subst h
      simp [sackMarks, listBytes]
    | succ i =>
      simp only [List.getElem?_cons_succ] at h
      have := ih (begin + y.size) i x h
      simp only [TcpTxItem.size, Nat.add_assoc] at this
      simp only [sackMarks, List.getElem?_cons_succ, List.take_succ_cons, listBytes,
        List.length_append, TcpTxItem.size, Nat.add_assoc, this]

theorem anyInside_iff (blk : Nat × Nat) : ∀ (l : List TcpTxItem) (begin : Nat),
    anyInside blk l begin = true ↔
      ∃ (i : Nat) (x : TcpTxItem), l[i]? = some x ∧
        blk.1 ≤ begin + (listBytes (l.take i)).length ∧
        begin + (listBytes (l.take i)).length + x.size ≤ blk.2 := by
  intro l
  induction l with
  | nil => intro begin; simp [anyInside]
  | cons y ys ih =>
    intro begin
    simp only [anyInside, Bool.or_eq_true, decide_eq_true_eq, ih, TcpTxItem.size]
    constructor
    · rintro (h | ⟨i, x, hx, h1, h2⟩)
      · exact ⟨0, y, by simp, by simpa [listBytes] using h.1, by simpa [listBytes] using h.2⟩
      · refine ⟨i + 1, x, by simpa using hx, ?_, ?_⟩
        · simp only [List.take_succ_cons, listBytes, List.length_append]
          omega
        · simp only [List.take_succ_cons, listBytes, List.length_append]
          omega
    · rintro ⟨i, x, hx, h1, h2⟩
      cases i with
      | zero =>
        simp only [List.getElem?_cons_zero, Option.some.injEq] at hx
        subst hx
        left
        simpa [listBytes] using And.intro h1 h2
      | succ i =>
        right
        simp only [List.getElem?_cons_succ] at hx
        simp only [List.take_succ_cons, listBytes, List.length_append] at h1 h2
        refine ⟨i, x, hx, ?_, ?_⟩
        · omega
        · omega

/-- `Update` in plain arithmetic, for sequence numbers that do not wrap: all of them lie
in a window `[lo, lo + 2^31)` below `2^32`. -/
theorem Update_eq (b : TcpTxBuffer) (blocks : List (Nat × Nat)) (lo : Nat)
    (hlo : lo + 2147483648 ≤ 4294967296) (hfirst : lo ≤ b.m_firstByteSeq)
    (hlast : b.m_firstByteSeq + (listBytes b.m_sentList).length < lo + 2147483648)
    (hblocks : ∀ blk ∈ blocks, lo ≤ blk.1 ∧ blk.1 < lo + 2147483648 ∧ lo ≤ blk.2
      ∧ blk.2 < lo + 2147483648) :
    Update blocks b =
      match sackMarks blocks b.m_sentList b.m_firstByteSeq with
      | [] => .error .undefined
      | head :: _ =>
        if head.m_sacked = false then
          .ok (blocks.any (fun blk => anyInside blk b.m_sentList b.m_firstByteSeq),
            { b with
              m_sentList := sackMarks blocks b.m_sentList b.m_firstByteSeq
              m_highestSack :=
                (updateBlocks b.m_firstByteSeq blocks (b.m_sentList, b.m_highestSack, false)).2.1 })
        else .error .assertion := by
  obtain ⟨h1, h2⟩ := updateBlocks_eq lo hlo b.m_firstByteSeq hfirst blocks b.m_sentList
    b.m_highestSack false hblocks hlast
  unfold Update
  dsimp only
  rw [h1, h2]
  simp only [Bool.false_or]

theorem sackMarks_idem (blocks : List (Nat × Nat)) : ∀ (l : List TcpTxItem) (begin : Nat),
    sackMarks blocks (sackMarks blocks l begin) begin = sackMarks blocks l begin := by
  intro l
  induction l with
  | nil => intro _; rfl
  | cons x xs ih =>
    intro begin
    simp only [sackMarks, TcpTxItem.size, ih, Bool.or_assoc, Bool.or_self]

theorem anyInside_sackMarks (blk : Nat × Nat) (blocks : List (Nat × Nat)) :
    ∀ (l : List TcpTxItem) (begin : Nat),
      anyInside blk (sackMarks blocks l begin) begin = anyInside blk l begin := by
  intro l
  induction l with
  | nil => intro _; rfl
  | cons x xs ih =>
    intro begin
    simp only [sackMarks, anyInside, TcpTxItem.size, ih]

theorem Update_marks (b : TcpTxBuffer) (blocks : List (Nat × Nat)) (lo : Nat)
    (hlo : lo + 2147483648 ≤ 4294967296) (hfirst : lo ≤ b.m_firstByteSeq)
    (hlast : b.m_firstByteSeq + (listBytes b.m_sentList).length < lo + 2147483648)
    (hblocks : ∀ blk ∈ blocks, lo ≤ blk.1 ∧ blk.1 < lo + 2147483648 ∧ lo ≤ blk.2
      ∧ blk.2 < lo + 2147483648)
    (modified : Bool) (b' : TcpTxBuffer) (h : Update blocks b = .ok (modified, b')) :
    modified = blocks.any (fun blk => anyInside blk b.m_sentList b.m_firstByteSeq) ∧
    b'.m_sentList = sackMarks blocks b.m_sentList b.m_firstByteSeq ∧
    b' = { b with m_sentList := b'.m_sentList, m_highestSack := b'.m_highestSack } := by
  rw [Update_eq b blocks lo hlo hfirst hlast hblocks] at h
  cases hs : sackMarks blocks b.m_sentList b.m_firstByteSeq with
  | nil => rw [hs] at h; cases h
  | cons hd tl =>
    rw [hs] at h
    by_cases hk : hd.m_sacked = false
    · simp only [hk, if_true, Except.ok.injEq, Prod.mk.injEq] at h
      obtain ⟨h1, h2⟩ := h
      subst h1 h2
      exact ⟨rfl, rfl, rfl⟩
    · simp only [hk, if_false] at h
      cases h

theorem seqAdd_seqAdd (f a c : Nat) : seqAdd (seqAdd f a) c = seqAdd f (a + c) := by
  unfold seqAdd; omega

theorem seqAdd_lt (f a : Nat) : seqAdd f a < 4294967296 := by
  unfold seqAdd; omega

theorem seqAdd_zero (f : Nat) (h : f < 4294967296) : seqAdd f 0 = f := by
  unfold seqAdd; omega

theorem seqGe_self (a : Nat) : seqGe a a := Or.inr rfl

theorem listBytes_cons_length (x : TcpTxItem) (xs : List TcpTxItem) :
    (listBytes (x :: xs)).length = x.size + (listBytes xs).length := by
  simp [listBytes, TcpTxItem.size]

/-- The search loop of `IsLost` stops at the item that begins at `seq`, when the items in
front of it are not empty and hold fewer than `2^31` bytes. -/
theorem isLostSearch_at (b : TcpTxBuffer) (seq d s : Nat) :
    ∀ (pre : List TcpTxItem) (x : TcpTxItem) (post : List TcpTxItem) (i begin : Nat),
      begin < 4294967296 → (∀ y ∈ pre, 0 < y.size) → (listBytes pre).length < 2147483648 →
      seq = seqAdd begin (listBytes pre).length →
      isLostSearch b seq d s (pre ++ x :: post) i begin = IsLostAt b seq (i + pre.length) d s := by
  intro pre
  induction pre with
  | nil =>
    intro x post i begin hb _ _ hseq
    rw [show (listBytes ([] : List TcpTxItem)).length = 0 from rfl, seqAdd_zero _ hb] at hseq
    subst hseq
    simp only [List.nil_append, isLostSearch, seqGe_self, if_true, List.length_nil, Nat.add_zero]
  | cons y ys ih =>
    intro x post i begin hb hpos hlen hseq
    rw [listBytes_cons_length] at hlen hseq
    have hy : 0 < y.size := hpos y (List.mem_cons_self _ _)
    have hn : ¬ seqGe begin seq := by
      rw [hseq]
      exact not_seqGe_add begin _ hb (by omega) (by omega)
    rw [List.cons_append]
    unfold isLostSearch
    rw [if_neg hn]
    rw [ih x post (i + 1) (seqAdd begin y.size) (seqAdd_lt _ _)
      (fun z hz => hpos z (List.mem_cons_of_mem _ hz)) (by omega)
      (by rw [seqAdd_seqAdd]; exact hseq)]
    rw [List.length_cons]
    congr 1
    omega

theorem getElem?_append_cons (pre post : List TcpTxItem) (x : TcpTxItem) :
    (pre ++ x :: post)[pre.length]? = some x := by
  rw [List.getElem?_append_right (Nat.le_refl _), Nat.sub_self, List.getElem?_cons_zero]

theorem IsLostAt_eq (b : TcpTxBuffer) (pre post : List TcpTxItem) (x : TcpTxItem)
    (seq d s : Nat) (hlist : b.m_sentList = pre ++ x :: post) :
    IsLostAt b seq pre.length d s =
      if x.m_lost = true then .ok true
      else if x.m_sacked = true then .ok false
      else isLostLoop b.m_highestSack d s (x :: post) pre.length seq 0 0 := by
  unfold IsLostAt
  rw [hlist, getElem?_append_cons]
  simp only [List.drop_left]

theorem length_le_listBytes : ∀ (l : List TcpTxItem), (∀ y ∈ l, 0 < y.size) →
    l.length ≤ (listBytes l).length := by
  intro l
  induction l with
  | nil => intro _; simp [listBytes]
  | cons z zs ih =>
    intro h
    have hz : 0 < z.size := h z (List.mem_cons_self _ _)
    have := ih (fun y hy => h y (List.mem_cons_of_mem _ hy))
    rw [listBytes_cons_length, List.length_cons]
    omega

/-- The loop of `NextSeg` stops at the first item that is neither retransmitted nor
SACKed and that `IsLost` reports lost. -/
theorem nextSegScan_found (b : TcpTxBuffer) (d s : Nat) (r : Bool) :
    ∀ (pre : List TcpTxItem) (x : TcpTxItem) (post : List TcpTxItem) (i begin s3 : Nat)
      (v : Bool),
      (∀ (j : Nat) (y : TcpTxItem), pre[j]? = some y → y.m_retrans = false →
        y.m_sacked = false →
        IsLostAt b (seqAdd begin (listBytes (pre.take j)).length) (i + j) d s = .ok false) →
      x.m_retrans = false → x.m_sacked = false →
      IsLostAt b (seqAdd begin (listBytes pre).length) (i + pre.length) d s = .ok true →
      begin < 4294967296 →
      ∃ (s3' : Nat) (v' : Bool),
        nextSegScan b d s r (pre ++ x :: post) i begin s3 v
          = .ok (some (seqAdd begin (listBytes pre).length), s3', v') := by
  intro pre
  induction pre with
  | nil =>
    intro x post i begin s3 v _ hr hs hl hb
    rw [show (listBytes ([] : List TcpTxItem)).length = 0 from rfl, seqAdd_zero _ hb] at hl ⊢
    rw [List.length_nil, Nat.add_zero] at hl
    refine ⟨s3, v, ?_⟩
    rw [List.nil_append]
    unfold nextSegScan
    rw [if_pos ⟨hr, hs⟩, hl]
  | cons y ys ih =>
    intro x post i begin s3 v hpre hr hs hl hb
    rw [listBytes_cons_length, ← seqAdd_seqAdd] at hl ⊢
    rw [List.length_cons, show i + (ys.length + 1) = (i + 1) + ys.length by omega] at hl
    have hrest : ∀ (j : Nat) (z : TcpTxItem), ys[j]? = some z → z.m_retrans = false →
        z.m_sacked = false →
        IsLostAt b (seqAdd (seqAdd begin y.size) (listBytes (ys.take j)).length) (i + 1 + j) d s
          = .ok false := by
      intro j z hz h1 h2
      have := hpre (j + 1) z (by simpa using hz) h1 h2
      rw [List.take_succ_cons, listBytes_cons_length, ← seqAdd_seqAdd,
        show i + (j + 1) = i + 1 + j by omega] at this
      exact this
    rw [List.cons_append]
    unfold nextSegScan
    by_cases he : y.m_retrans = false ∧ y.m_sacked = false
    · rw [if_pos he]
      have h0 := hpre 0 y (by simp) he.1 he.2
      rw [List.take_zero, show (listBytes ([] : List TcpTxItem)).length = 0 from rfl,
        seqAdd_zero _ hb, Nat.add_zero] at h0
      rw [h0]
      dsimp only
      split
      · exact ih x post (i + 1) (seqAdd begin y.size) begin true hrest hr hs hl (seqAdd_lt _ _)
      · exact ih x post (i + 1) (seqAdd begin y.size) s3 v hrest hr hs hl (seqAdd_lt _ _)
    · rw [if_neg he]
      exact ih x post (i + 1) (seqAdd begin y.size) s3 v hrest hr hs hl (seqAdd_lt _ _)

/-- The loop of `NextSeg` runs to the end of the list when `IsLost` reports no item that
is neither retransmitted nor SACKed as lost. -/
theorem nextSegScan_none (b : TcpTxBuffer) (d s : Nat) (r : Bool) :
    ∀ (l : List TcpTxItem) (i begin s3 : Nat) (v : Bool),
      (∀ (j : Nat) (y : TcpTxItem), l[j]? = some y → y.m_retrans = false →
        y.m_sacked = false →
        IsLostAt b (seqAdd begin (listBytes (l.take j)).length) (i + j) d s = .ok false) →
      begin < 4294967296 →
      ∃ (s3' : Nat) (v' : Bool),
        nextSegScan b d s r l i begin s3 v = .ok (none, s3', v') ∧
        (r = false → v' = v) := by
  intro l
  induction l with
  | nil =>
    intro i begin s3 v _ _
    exact ⟨s3, v, rfl, fun _ => rfl⟩
  | cons y ys ih =>
    intro i begin s3 v hpre hb
    have hrest : ∀ (j : Nat) (z : TcpTxItem), ys[j]? = some z → z.m_retrans = false →
        z.m_sacked = false →
        IsLostAt b (seqAdd (seqAdd begin y.size) (listBytes (ys.take j)).length) (i + 1 + j) d s
          = .ok false := by
      intro j z hz h1 h2
      have := hpre (j + 1) z (by simpa using hz) h1 h2
      rw [List.take_succ_cons, listBytes_cons_length, ← seqAdd_seqAdd,
        show i + (j + 1) = i + 1 + j by omega] at this
      exact this
    unfold nextSegScan
    by_cases he : y.m_retrans = false ∧ y.m_sacked = false
    · rw [if_pos he]
      have h0 := hpre 0 y (by simp) he.1 he.2
      rw [List.take_zero, show (listBytes ([] : List TcpTxItem)).length = 0 from rfl,
        seqAdd_zero _ hb, Nat.add_zero] at h0
      rw [h0]
      dsimp only
      by_cases h3 : s3 = 0 ∧ r = true
      · rw [if_pos h3]
        obtain ⟨s3', v', e, _⟩ := ih (i + 1) (seqAdd begin y.size) begin true hrest (seqAdd_lt _ _)
        exact ⟨s3', v', e, fun hr => by rw [hr] at h3; simp at h3⟩
      · rw [if_neg h3]
        exact ih (i + 1) (seqAdd begin y.size) s3 v hrest (seqAdd_lt _ _)
    · rw [if_neg he]
      exact ih (i + 1) (seqAdd begin y.size) s3 v hrest (seqAdd_lt _ _)

/-! ## Loss detection across operations -/

theorem IsLostAt_congr (b b' : TcpTxBuffer) (seq k d s : Nat)
    (h1 : b'.m_sentList = b.m_sentList) (h2 : b'.m_highestSack = b.m_highestSack) :
    IsLostAt b' seq k d s = IsLostAt b seq k d s := by
  unfold IsLostAt
  rw [h1, h2]

theorem isLostSearch_congr (b b' : TcpTxBuffer) (seq d s : Nat)
    (h1 : b'.m_sentList = b.m_sentList) (h2 : b'.m_highestSack = b.m_highestSack) :
    ∀ (l : List TcpTxItem) (i begin : Nat),
      isLostSearch b' seq d s l i begin = isLostSearch b seq d s l i begin := by
  intro l
  induction l with
  | nil => intro _ _; rfl
  | cons y ys ih =>
    intro i begin
    unfold isLostSearch
    rw [IsLostAt_congr b b' _ _ _ _ h1 h2, ih]

/-- `IsLost` reads the head sequence, the sent list and `m_highestSack` only. -/
theorem IsLost_congr (b b' : TcpTxBuffer) (seq d s : Nat)
    (h1 : b'.m_sentList = b.m_sentList) (h2 : b'.m_highestSack = b.m_highestSack)
    (h3 : b'.m_firstByteSeq = b.m_firstByteSeq) :
    IsLost b' seq d s = IsLost b seq d s := by
  unfold IsLost
  rw [h1, h2, h3, isLostSearch_congr b b' seq d s h1 h2]

theorem Add_sent (rnd : Nat) (p : List Nat) (b : TcpTxBuffer) :
    (Add rnd p b).2.m_sentList = b.m_sentList
      ∧ (Add rnd p b).2.m_highestSack = b.m_highestSack := by
  have hs : (seedEsQseq rnd b).m_sentList = b.m_sentList
      ∧ (seedEsQseq rnd b).m_highestSack = b.m_highestSack := by
    unfold seedEsQseq; split <;> exact ⟨rfl, rfl⟩
  have hq : ∀ q c, (Addqed q c).2.m_sentList = c.m_sentList
      ∧ (Addqed q c).2.m_highestSack = c.m_highestSack := by
    intro q c; unfold Addqed; split <;> [split; skip] <;> exact ⟨rfl, rfl⟩
  have ha : ∀ q c, (Addapp q c).2.m_sentList = c.m_sentList
      ∧ (Addapp q c).2.m_highestSack = c.m_highestSack := by
    intro q c; unfold Addapp; split <;> [split; skip] <;> exact ⟨rfl, rfl⟩
  unfold Add
  dsimp only
  split
  · show (Addapp p _).2.m_sentList = _ ∧ (Addapp p _).2.m_highestSack = _
    rw [(ha _ _).1, (ha _ _).2, (hq _ _).1, (hq _ _).2]
    exact hs
  · exact hs

/-- `Add` leaves every answer of `IsLost` as it is. -/
theorem IsLost_Add (rnd : Nat) (p : List Nat) (b : TcpTxBuffer) (seq d s : Nat) :
    IsLost (Add rnd p b).2 seq d s = IsLost b seq d s :=
  IsLost_congr b _ seq d s (Add_sent rnd p b).1 (Add_sent rnd p b).2 (Add_first rnd p b)

theorem isLostSearch_lost (b : TcpTxBuffer) (seq d s : Nat) :
    ∀ (l : List TcpTxItem) (i begin : Nat),
      isLostSearch b seq d s l i begin = .ok true →
      isLostSearch (SetSentListLost b) seq d s
        (l.map (fun item => { item with m_lost := true })) i begin = .ok true := by
  intro l
  induction l with
  | nil => intro i begin h; simp [isLostSearch] at h
  | cons y ys ih =>
    intro i begin h
    unfold isLostSearch at h
    rw [List.map_cons]
    unfold isLostSearch
    show (if seqGe begin seq then _ else isLostSearch _ _ _ _ _ _ (seqAdd begin y.size)) = _
    by_cases hge : seqGe begin seq
    · rw [if_pos hge] at h ⊢
      unfold IsLostAt at h ⊢
      show (match (b.m_sentList.map (fun item => { item with m_lost := true }))[i]? with
        | none => _ | some segment => _) = _
      rw [List.getElem?_map]
      cases hseg : b.m_sentList[i]? with
      | none => rw [hseg] at h; simp at h
      | some seg => simp
    · rw [if_neg hge] at h ⊢
      exact ih _ _ h

/-- Once `IsLost` answers `true`, it still does after `SetSentListLost`. -/
theorem IsLost_SetSentListLost (b : TcpTxBuffer) (seq d s : Nat)
    (h : IsLost b seq d s = .ok true) : IsLost (SetSentListLost b) seq d s = .ok true := by
  unfold IsLost at h ⊢
  show (if seqGe seq b.m_highestSack.2 then _ else
    isLostSearch (SetSentListLost b) seq d s
      (b.m_sentList.map (fun item => { item with m_lost := true })) 0 b.m_firstByteSeq) = _
  by_cases hge : seqGe seq b.m_highestSack.2
  · rw [if_pos hge] at h; simp at h
  · rw [if_neg hge] at h ⊢
    exact isLostSearch_lost b seq d s _ _ _ h

/-- `IsLost` for the item `x` that begins at `seq`, with the search loop resolved. -/
theorem IsLost_eq (b : TcpTxBuffer) (pre post : List TcpTxItem) (x : TcpTxItem) (d s : Nat)
    (hlist : b.m_sentList = pre ++ x :: post) (hpos : ∀ y ∈ pre, 0 < y.size)
    (hfirst : b.m_firstByteSeq < 4294967296) (hlen : (listBytes pre).length < 2147483648) :
    IsLost b (seqAdd b.m_firstByteSeq (listBytes pre).length) d s =
      if seqGe (seqAdd b.m_firstByteSeq (listBytes pre).length) b.m_highestSack.2 then .ok false
      else if x.m_lost = true then .ok true
      else if x.m_sacked = true then .ok false
      else isLostLoop b.m_highestSack d s (x :: post) pre.length
        (seqAdd b.m_firstByteSeq (listBytes pre).length) 0 0 := by
  unfold IsLost
  rw [hlist, isLostSearch_at b _ d s pre x post 0 _ hfirst hpos hlen rfl, Nat.zero_add,
    IsLostAt_eq b pre post x _ _ _ hlist]

/-- The counting loop of `IsLost` compares positions only: it gives the same answer when
the position of `it` and of `m_highestSack.first` are both moved by `c`. -/
theorem isLostLoop_shift (j c hs2 d s : Nat) :
    ∀ (l : List TcpTxItem) (i begin count bytes : Nat),
      isLostLoop (.atNode (j + c), hs2) d s l (i + c) begin count bytes
        = isLostLoop (.atNode j, hs2) d s l i begin count bytes := by
  intro l
  induction l with
  | nil => intro i begin count bytes; rfl
  | cons y ys ih =>
    intro i begin count bytes
    unfold isLostLoop
    have e : (SentIter.atNode (j + c) = SentIter.atNode (i + c)) ↔
        (SentIter.atNode j = SentIter.atNode i) := by
      constructor
      · intro h; injection h with h; congr 1; omega
      · intro h; injection h with h; congr 1; omega
    have e2 := ih (i + 1)
    rw [show i + 1 + c = i + c + 1 by omega] at e2
    simp only [e, e2]
    rfl

theorem isLostLoop_atEnd (hs2 d s : Nat) :
    ∀ (l : List TcpTxItem) (i i' begin count bytes : Nat),
      isLostLoop (.atEnd, hs2) d s l i begin count bytes
        = isLostLoop (.atEnd, hs2) d s l i' begin count bytes := by
  intro l
  induction l with
  | nil => intro i i' begin count bytes; rfl
  | cons y ys ih =>
    intro i i' begin count bytes
    unfold isLostLoop
    simp only [ih (i + 1) (i' + 1)]
    rfl

/-- The loop of `DiscardUpTo`, asked to remove no more than the bytes in front of the
item `x`, leaves `x` and what follows it in the sent list and at their sequence numbers;
`m_highestSack` keeps its sequence and its node. -/
theorem discardLoop_keeps (x : TcpTxItem) (post : List TcpTxItem) :
    ∀ (fuel : Nat) (now : Int) (offset : Nat) (b b1 : TcpTxBuffer) (pre : List TcpTxItem),
      b.m_sentList = pre ++ x :: post → offset ≤ (listBytes pre).length →
      b.m_firstByteSeq + (listBytes pre).length < 4294967296 →
      (∀ y ∈ pre, 0 < y.size) →
      discardLoop fuel now offset b = .ok b1 →
      ∃ pre1 : List TcpTxItem, b1.m_sentList = pre1 ++ x :: post ∧
        b1.m_firstByteSeq + (listBytes pre1).length
          = b.m_firstByteSeq + (listBytes pre).length ∧
        pre1.length ≤ pre.length ∧ (∀ y ∈ pre1, 0 < y.size) ∧
        b.m_firstByteSeq ≤ b1.m_firstByteSeq ∧
        b1.m_highestSack.2 = b.m_highestSack.2 ∧
        (b.m_highestSack.1 = .atEnd → b1.m_highestSack.1 = .atEnd) ∧
        (∀ j, b.m_highestSack.1 = .atNode j → pre.length ≤ j →
          b1.m_highestSack.1 = .atNode (j - (pre.length - pre1.length))) := by
  intro fuel
  induction fuel with
  | zero => intro now offset b b1 pre _ _ _ _ h; simp [discardLoop] at h
  | succ n ih =>
    intro now offset b b1 pre hlist hoff hlt hpos h
    unfold discardLoop at h
    by_cases hg : 0 < b.m_size ∧ 0 < add32 b.m_size b.m_stageSize ∧ 0 < offset
    · rw [if_pos hg] at h
      have hne : ¬ b.m_sentList = [] := by rw [hlist]; simp
      simp only [hne, if_false] at h
      cases pre with
      | nil =>
        have : (listBytes ([] : List TcpTxItem)).length = 0 := rfl
        omega
      | cons y ys =>
        have hcons : b.m_sentList = y :: (ys ++ x :: post) := by rw [hlist]; rfl
        rw [hcons] at h
        dsimp only at h
        rw [listBytes_cons_length] at hoff hlt
        have hy : 0 < y.size := hpos y (List.mem_cons_self _ _)
        by_cases hle : y.size ≤ offset
        · rw [if_pos hle] at h
          have hsub : sub32 offset y.size = offset - y.size := by unfold sub32; omega
          have hadd : seqAdd b.m_firstByteSeq y.size = b.m_firstByteSeq + y.size := by
            unfold seqAdd; omega
          by_cases hq : y.m_qided = true
          · simp only [hq, if_true] at h
            obtain ⟨pre1, r1, r2, r3, r4, r0, r5, r6, r7⟩ := ih now _ _ b1 ys rfl
              (by rw [hsub]; omega)
              (by show seqAdd b.m_firstByteSeq y.size + _ < _; rw [hadd]; omega)
              (fun z hz => hpos z (List.mem_cons_of_mem _ hz)) h
            refine ⟨pre1, r1, ?_, ?_, r4, ?_, r5, ?_, ?_⟩
            · rw [r2, listBytes_cons_length]
              show seqAdd b.m_firstByteSeq y.size + _ = _
              rw [hadd]; omega
            · rw [List.length_cons]; omega
            · have : seqAdd b.m_firstByteSeq y.size ≤ b1.m_firstByteSeq := r0
              rw [hadd] at this; omega
            · intro he
              apply r6
              show (b.m_highestSack.1.afterEdit (.erase 0)) = _
              rw [he]; rfl
            · intro j hj hjl
              rw [List.length_cons] at hjl ⊢
              have := r7 (j - 1) (by
                show (b.m_highestSack.1.afterEdit (.erase 0)) = _
                rw [hj]
                simp only [SentIter.afterEdit]
                rw [if_neg (by omega), if_pos (by omega)]) (by omega)
              rw [this]
              congr 1
              omega
          · simp only [hq, if_false] at h
            obtain ⟨pre1, r1, r2, r3, r4, r0, r5, r6, r7⟩ := ih now _ _ b1 ys rfl
              (by rw [hsub]; omega)
              (by show seqAdd b.m_firstByteSeq y.size + _ < _; rw [hadd]; omega)
              (fun z hz => hpos z (List.mem_cons_of_mem _ hz)) h
            refine ⟨pre1, r1, ?_, ?_, r4, ?_, r5, ?_, ?_⟩
            · rw [r2, listBytes_cons_length]
              show seqAdd b.m_firstByteSeq y.size + _ = _
              rw [hadd]; omega
            · rw [List.length_cons]; omega
            · have : seqAdd b.m_firstByteSeq y.size ≤ b1.m_firstByteSeq := r0
              rw [hadd] at this; omega
            · intro he
              apply r6
              show (b.m_highestSack.1.afterEdit (.erase 0)) = _
              rw [he]; rfl
            · intro j hj hjl
              rw [List.length_cons] at hjl ⊢
              have := r7 (j - 1) (by
                show (b.m_highestSack.1.afterEdit (.erase 0)) = _
                rw [hj]
                simp only [SentIter.afterEdit]
                rw [if_neg (by omega), if_pos (by omega)]) (by omega)
              rw [this]
              congr 1
              omega
        · rw [if_neg hle] at h
          have hadd : seqAdd b.m_firstByteSeq offset = b.m_firstByteSeq + offset := by
            unfold seqAdd; omega
          have hdrop : ({ y with m_packet := y.m_packet.drop offset } : TcpTxItem).size
              = y.size - offset := by
            simp [TcpTxItem.size]
          have hres : b1.m_sentList = ({ y with m_packet := y.m_packet.drop offset } :: ys)
                ++ x :: post
              ∧ b1.m_firstByteSeq = seqAdd b.m_firstByteSeq offset
              ∧ b1.m_highestSack = b.m_highestSack := by
            split at h
            · simp only [Except.ok.injEq] at h
              subst h
              exact ⟨rfl, rfl, rfl⟩
            · simp only [Except.ok.injEq] at h
              subst h
              exact ⟨rfl, rfl, rfl⟩
          obtain ⟨e1, e2, e3⟩ := hres
          refine ⟨{ y with m_packet := y.m_packet.drop offset } :: ys, e1, ?_, ?_, ?_, ?_, ?_, ?_,
            ?_⟩
          · rw [e2, hadd, listBytes_cons_length, hdrop, listBytes_cons_length]
            omega
          · simp
          · intro z hz
            rcases List.mem_cons.1 hz with hz | hz
            · rw [hz, hdrop]; omega
            · exact hpos z (List.mem_cons_of_mem _ hz)
          · rw [e2, hadd]; omega
          · rw [e3]
          · intro he; rw [e3]; exact he
          · intro j hj _
            rw [e3, hj]
            simp
    · rw [if_neg hg] at h
      simp only [Except.ok.injEq] at h
      subst h
      exact ⟨pre, hlist, rfl, Nat.le_refl _, hpos, Nat.le_refl _, rfl, fun he => he,
        fun j hj _ => by rw [hj]; simp⟩

/-- The statements of `DiscardUpTo` behind its loop, on a buffer whose counters are not
both zero and whose `m_highestSack.second` is above the head: the head sequence and
`m_highestSack` stay, and the only change to the sent list is the `m_sacked` flag of its
first item, which is cleared. -/
theorem discardTail_keeps (seq : Nat) (b : TcpTxBuffer) (pre post : List TcpTxItem)
    (x : TcpTxItem) (hlist : b.m_sentList = pre ++ x :: post)
    (hpos : ∀ y ∈ pre, 0 < y.size)
    (hnz : ¬ (b.m_size = 0 ∧ b.m_stageSize = 0))
    (hnr : ¬ seqLe b.m_highestSack.2 b.m_firstByteSeq) :
    ∃ (pre2 : List TcpTxItem) (x2 : TcpTxItem),
      (discardTail seq b).m_sentList = pre2 ++ x2 :: post ∧
      (discardTail seq b).m_firstByteSeq = b.m_firstByteSeq ∧
      (discardTail seq b).m_highestSack = b.m_highestSack ∧
      (listBytes pre2).length = (listBytes pre).length ∧ pre2.length = pre.length ∧
      (∀ y ∈ pre2, 0 < y.size) ∧
      x2.m_lost = x.m_lost ∧ (x.m_sacked = false → x2 = x) := by
  unfold discardTail
  dsimp only
  rw [if_neg hnz]
  cases pre with
  | nil =>
    have hl : b.m_sentList = x :: post := hlist
    rw [hl]
    dsimp only
    by_cases hs : x.m_sacked = true
    · rw [if_pos hs]
      dsimp only
      rw [if_neg hnr]
      exact ⟨[], { x with m_sacked := false }, rfl, rfl, rfl, rfl, rfl,
        (fun y hy => by cases hy), rfl, (fun hf => by rw [hf] at hs; cases hs)⟩
    · rw [if_neg hs, if_neg hnr]
      exact ⟨[], x, hl, rfl, rfl, rfl, rfl, (fun y hy => by cases hy), rfl, (fun _ => rfl)⟩
  | cons y ys =>
    have hl : b.m_sentList = y :: (ys ++ x :: post) := hlist
    rw [hl]
    dsimp only
    by_cases hs : y.m_sacked = true
    · rw [if_pos hs]
      dsimp only
      rw [if_neg hnr]
      refine ⟨{ y with m_sacked := false } :: ys, x, rfl, rfl, rfl, ?_, rfl, ?_, rfl,
        (fun _ => rfl)⟩
      · rw [listBytes_cons_length, listBytes_cons_length]; rfl
      · intro z hz
        rcases List.mem_cons.1 hz with hz | hz
        · rw [hz]; exact hpos y (List.mem_cons_self _ _)
        · exact hpos z (List.mem_cons_of_mem _ hz)
    · rw [if_neg hs, if_neg hnr]
      exact ⟨y :: ys, x, hl, rfl, rfl, rfl, rfl, hpos, rfl, (fun _ => rfl)⟩

/-- Once `IsLost` answers `true` for the item that begins at `seq`, it still does after a
`DiscardUpTo` that stops at or in front of `seq`. The sequence numbers do not wrap (they
lie in a window `[lo, lo + 2^31)` below `2^32`), the buffer satisfies its accounting
invariant, and `m_highestSack.first` is `end ()` or a node at or behind the item. -/
theorem IsLost_DiscardUpTo (b : TcpTxBuffer) (pre post : List TcpTxItem) (x : TcpTxItem)
    (d s lo : Nat) (hlist : b.m_sentList = pre ++ x :: post)
    (hpos : ∀ y ∈ pre, 0 < y.size) (hx : 0 < x.size)
    (hlo : lo + 2147483648 ≤ 4294967296) (hfirst : lo ≤ b.m_firstByteSeq)
    (hseq : b.m_firstByteSeq + (listBytes pre).length < lo + 2147483648)
    (hhs : lo ≤ b.m_highestSack.2 ∧ b.m_highestSack.2 < lo + 2147483648)
    (hiter : b.m_highestSack.1 = .atEnd ∨ ∃ j, b.m_highestSack.1 = .atNode j ∧ pre.length ≤ j)
    (hI : Inv b)
    (h : IsLost b (b.m_firstByteSeq + (listBytes pre).length) d s = .ok true)
    (fuel seq' : Nat) (now : Int) (b' : TcpTxBuffer) (hlo' : lo ≤ seq')
    (hle : seq' ≤ b.m_firstByteSeq + (listBytes pre).length)
    (hd : DiscardUpTo fuel seq' now b = .ok b') :
    IsLost b' (b.m_firstByteSeq + (listBytes pre).length) d s = .ok true := by
  have hsa : seqAdd b.m_firstByteSeq (listBytes pre).length
      = b.m_firstByteSeq + (listBytes pre).length := by unfold seqAdd; omega
  have h0 := h
  rw [← hsa, IsLost_eq b pre post x d s hlist hpos (by omega) (by omega), hsa] at h0
  have hbelow : b.m_firstByteSeq + (listBytes pre).length < b.m_highestSack.2 := by
    by_contra hc
    have : seqGe (b.m_firstByteSeq + (listBytes pre).length) b.m_highestSack.2 :=
      (seqGe_iff_of_window lo _ _ (by omega) hseq hhs.1 hhs.2).2 (by omega)
    rw [if_pos this] at h0
    cases h0
  have hnge : ¬ seqGe (b.m_firstByteSeq + (listBytes pre).length) b.m_highestSack.2 := by
    rw [seqGe_iff_of_window lo _ _ (by omega) hseq hhs.1 hhs.2]; omega
  rw [if_neg hnge] at h0
  unfold DiscardUpTo at hd
  by_cases hge : seqGe b.m_firstByteSeq seq'
  · rw [if_pos hge] at hd
    simp only [Except.ok.injEq] at hd
    subst hd
    exact h
  · rw [if_neg hge] at hd
    have hlt : b.m_firstByteSeq < seq' := by
      rw [seqGe_iff_of_window lo _ _ hfirst (by omega) hlo' (by omega)] at hge
      omega
    unfold DiscardUpToBody at hd
    rw [if_neg hge] at hd
    cases hloop : discardLoop fuel now (seqDiff seq' b.m_firstByteSeq) b with
    | error e => rw [hloop] at hd; cases hd
    | ok b1 =>
      rw [hloop] at hd
      dsimp only at hd
      have hb' : b' = discardTail seq' b1 := by
        split at hd
        · simp only [Except.ok.injEq] at hd; exact hd.symm
        · cases hd
      have hoff : seqDiff seq' b.m_firstByteSeq = seq' - b.m_firstByteSeq := by
        unfold seqDiff sub32; omega
      obtain ⟨pre1, r1, r2, r3, r4, r0, r5, r6, r7⟩ := discardLoop_keeps x post fuel now _ b b1
        pre hlist (by rw [hoff]; omega) (by omega) hpos hloop
      have hI1 : Inv b1 := discardLoop_inv _ _ _ _ _ hloop hI
      have hnz : ¬ (b1.m_size = 0 ∧ b1.m_stageSize = 0) := by
        rintro ⟨z1, z2⟩
        have hc := hI1.count
        unfold totalBytes at hc
        rw [z1, z2, r1, listBytes_append, List.length_append, listBytes_cons_length] at hc
        omega
      have hnr : ¬ seqLe b1.m_highestSack.2 b1.m_firstByteSeq := by
        rw [r5, seqLe_iff_of_window lo _ _ hhs.1 hhs.2 (by omega) (by omega)]
        omega
      obtain ⟨pre2, x2, k1, k2, k3, k4, k5, k6, k7, k8⟩ :=
        discardTail_keeps seq' b1 pre1 post x r1 r4 hnz hnr
      rw [← hb'] at k1 k2 k3
      have hsa' : seqAdd b'.m_firstByteSeq (listBytes pre2).length
          = b.m_firstByteSeq + (listBytes pre).length := by
        rw [k2, k4]; unfold seqAdd; omega
      rw [← hsa', IsLost_eq b' pre2 post x2 d s k1 k6 (by rw [k2]; omega) (by rw [k4]; omega),
        hsa', k3, r5, if_neg hnge, k7]
      by_cases hl : x.m_lost = true
      · rw [if_pos hl]
      · rw [if_neg hl] at h0 ⊢
        by_cases hsk : x.m_sacked = true
        · rw [if_pos hsk] at h0; cases h0
        · rw [if_neg hsk] at h0
          have hx2 : x2 = x := k8 (by simpa using hsk)
          rw [hx2, if_neg hsk, ← h0, k5]
          rcases hiter with he | ⟨j, hj, hjl⟩
          · have e1 : b1.m_highestSack = (.atEnd, b.m_highestSack.2) :=
              Prod.ext (r6 he) r5
            have e2 : b.m_highestSack = (.atEnd, b.m_highestSack.2) := Prod.ext he rfl
            rw [e1]
            conv => rhs; rw [e2]
            exact isLostLoop_atEnd _ _ _ _ _ _ _ _ _
          · have e1 : b1.m_highestSack
                = (.atNode (j - (pre.length - pre1.length)), b.m_highestSack.2) :=
              Prod.ext (r7 j hj hjl) r5
            have e2 : b.m_highestSack = (.atNode j, b.m_highestSack.2) := Prod.ext hj rfl
            rw [e1]
            conv => rhs; rw [e2]
            have := isLostLoop_shift (j - (pre.length - pre1.length)) (pre.length - pre1.length)
              b.m_highestSack.2 d s (x :: post) pre1.length
              (b.m_firstByteSeq + (listBytes pre).length) 0 0
            rw [show j - (pre.length - pre1.length) + (pre.length - pre1.length) = j by omega,
              show pre1.length + (pre.length - pre1.length) = pre.length by omega] at this
            exact this.symm

theorem markList_length (blk : Nat × Nat) : ∀ (l : List TcpTxItem) (begin : Nat),
    (markList blk l begin).length = l.length := by
  intro l
  induction l with
  | nil => intro _; rfl
  | cons x xs ih => intro begin; simp only [markList, List.length_cons, ih]

theorem listBytes_take_markList (blk : Nat × Nat) :
    ∀ (l : List TcpTxItem) (begin k : Nat),
      listBytes ((markList blk l begin).take k) = listBytes (l.take k) := by
  intro l
  induction l with
  | nil => intro _ _; simp [markList]
  | cons x xs ih =>
    intro begin k
    cases k with
    | zero => rfl
    | succ k => simp only [markList, List.take_succ_cons, listBytes, ih]

/-- What one scan of `Update` does to `m_highestSack`, for sequence numbers that do not
wrap: it leaves it, or moves it to the end of an item of the list, with a sequence that
is not lower than before. -/
theorem updateScan_highestSack (blk : Nat × Nat) (lo : Nat)
    (hlo : lo + 2147483648 ≤ 4294967296)
    (hb1 : lo ≤ blk.1) (hb1' : blk.1 < lo + 2147483648)
    (hb2 : lo ≤ blk.2) (hb2' : blk.2 < lo + 2147483648) :
    ∀ (l : List TcpTxItem) (i begin : Nat) (hs : SentIter × Nat) (m : Bool),
      lo ≤ begin → begin + (listBytes l).length < lo + 2147483648 →
      lo ≤ hs.2 → hs.2 < lo + 2147483648 →
      (updateScan blk l i begin hs m).2.1 = hs ∨
      (hs.2 ≤ (updateScan blk l i begin hs m).2.1.2 ∧
        ∃ n, n < l.length ∧
          (updateScan blk l i begin hs m).2.1.2 = begin + (listBytes (l.take (n + 1))).length ∧
          (updateScan blk l i begin hs m).2.1.1
            = (if n + 1 = l.length then SentIter.atEnd else SentIter.atNode (i + (n + 1)))) := by
  intro l
  induction l with
  | nil => intro i begin hs m _ _ _ _; left; rfl
  | cons x xs ih =>
    intro i begin hs m hb hlen hh1 hh2
    rw [listBytes_cons_length] at hlen
    have e : seqAdd begin x.size = begin + x.size := by unfold seqAdd; omega
    have c1 : seqGe begin blk.1 ↔ blk.1 ≤ begin :=
      seqGe_iff_of_window lo _ _ hb (by omega) hb1 hb1'
    have c2 : seqLe (begin + x.size) blk.2 ↔ begin + x.size ≤ blk.2 :=
      seqLe_iff_of_window lo _ _ (by omega) (by omega) hb2 hb2'
    have c3 : seqGt (begin + x.size) blk.2 ↔ blk.2 < begin + x.size :=
      seqGt_iff_of_window lo _ _ (by omega) (by omega) hb2 hb2'
    have c4 : seqLe hs.2 (begin + x.size) ↔ hs.2 ≤ begin + x.size :=
      seqLe_iff_of_window lo _ _ hh1 hh2 (by omega) (by omega)
    -- how a result for the rest of the list reads for the whole list
    have lift : ∀ (hs1 : SentIter × Nat) (m1 : Bool), hs.2 ≤ hs1.2 →
        (hs1 = hs ∨ (hs1.2 = begin + x.size
          ∧ hs1.1 = (if xs = [] then SentIter.atEnd else SentIter.atNode (i + 1)))) →
        lo ≤ hs1.2 → hs1.2 < lo + 2147483648 →
        (updateScan blk xs (i + 1) (begin + x.size) hs1 m1).2.1 = hs ∨
        (hs.2 ≤ (updateScan blk xs (i + 1) (begin + x.size) hs1 m1).2.1.2 ∧
          ∃ n, n < (x :: xs).length ∧
            (updateScan blk xs (i + 1) (begin + x.size) hs1 m1).2.1.2
              = begin + (listBytes ((x :: xs).take (n + 1))).length ∧
            (updateScan blk xs (i + 1) (begin + x.size) hs1 m1).2.1.1
              = (if n + 1 = (x :: xs).length then SentIter.atEnd
                 else SentIter.atNode (i + (n + 1)))) := by
      intro hs1 m1 hle hor g1 g2
      rcases ih (i + 1) (begin + x.size) hs1 m1 (by omega) (by omega) g1 g2 with h | ⟨h1, n, hn, h2, h3⟩
      · rw [h]
        rcases hor with h' | ⟨h1, h2⟩
        · left; exact h'
        · right
          refine ⟨hle, 0, by simp, ?_, ?_⟩
          · rw [h1]; simp [listBytes, TcpTxItem.size]
          · rw [h2]
            cases xs with
            | nil => simp
            | cons z zs => simp
      · right
        refine ⟨by omega, n + 1, by simp; omega, ?_, ?_⟩
        · rw [h2, List.take_succ_cons, listBytes_cons_length]; omega
        · rw [h3, List.length_cons]
          simp only [Nat.add_right_cancel_iff]
          rw [show i + 1 + (n + 1) = i + (n + 1 + 1) by omega]
    unfold updateScan
    rw [e]
    simp only [c1, c2, c3, c4]
    by_cases hin : blk.1 ≤ begin ∧ begin + x.size ≤ blk.2
    · rw [if_pos hin]
      by_cases hsk : x.m_sacked = true
      · rw [if_pos hsk]
        exact lift hs true (Nat.le_refl _) (Or.inl rfl) hh1 hh2
      · rw [if_neg hsk]
        dsimp only
        by_cases hle : hs.2 ≤ begin + x.size
        · rw [if_pos hle]
          exact lift _ true hle (Or.inr ⟨rfl, rfl⟩) (by show lo ≤ begin + x.size; omega)
            (by show begin + x.size < _; omega)
        · rw [if_neg hle]
          exact lift hs true (Nat.le_refl _) (Or.inl rfl) hh1 hh2
    · rw [if_neg hin]
      by_cases hgt : blk.2 < begin + x.size
      · rw [if_pos hgt]; left; rfl
      · rw [if_neg hgt]
        exact lift hs m (Nat.le_refl _) (Or.inl rfl) hh1 hh2

theorem listBytes_take_le (l : List TcpTxItem) (k : Nat) :
    (listBytes (l.take k)).length ≤ (listBytes l).length := by
  conv => rhs; rw [← List.take_append_drop k l]
  rw [listBytes_append, List.length_append]
  omega

/-- What `Update` does to `m_highestSack`, for sequence numbers that do not wrap: it
leaves it, or moves it behind an item of the sent list, with a sequence that is not lower
than before. -/
theorem updateBlocks_highestSack (lo : Nat) (hlo : lo + 2147483648 ≤ 4294967296)
    (first : Nat) (hfirst : lo ≤ first) :
    ∀ (blocks : List (Nat × Nat)) (l : List TcpTxItem) (hs : SentIter × Nat) (m : Bool),
      (∀ blk ∈ blocks, lo ≤ blk.1 ∧ blk.1 < lo + 2147483648 ∧ lo ≤ blk.2
        ∧ blk.2 < lo + 2147483648) →
      first + (listBytes l).length < lo + 2147483648 →
      lo ≤ hs.2 → hs.2 < lo + 2147483648 →
      (updateBlocks first blocks (l, hs, m)).2.1 = hs ∨
      (hs.2 ≤ (updateBlocks first blocks (l, hs, m)).2.1.2 ∧
        ∃ n, n < l.length ∧
          (updateBlocks first blocks (l, hs, m)).2.1.2
            = first + (listBytes (l.take (n + 1))).length ∧
          (updateBlocks first blocks (l, hs, m)).2.1.1
            = (if n + 1 = l.length then SentIter.atEnd else SentIter.atNode (n + 1))) := by
  intro blocks
  induction blocks with
  | nil => intro l hs m _ _ _ _; left; rfl
  | cons blk blocks ih =>
    intro l hs m hblk hlen hh1 hh2
    obtain ⟨hb1, hb1', hb2, hb2'⟩ := hblk blk (List.mem_cons_self _ _)
    obtain ⟨s1, -⟩ := updateScan_eq blk lo hlo hb1 hb1' hb2 hb2' l 0 first hs m hfirst hlen
    have s2 := updateScan_highestSack blk lo hlo hb1 hb1' hb2 hb2' l 0 first hs m hfirst hlen
      hh1 hh2
    unfold updateBlocks
    dsimp only
    generalize hr : updateScan blk l 0 first hs m = r at s1 s2
    obtain ⟨r1, hs1, m1⟩ := r
    simp only at s1 s2
    subst s1
    have hw : lo ≤ hs1.2 ∧ hs1.2 < lo + 2147483648 ∧ hs.2 ≤ hs1.2 := by
      rcases s2 with h | ⟨h1, n, -, h2, -⟩
      · rw [h]; exact ⟨hh1, hh2, Nat.le_refl _⟩
      · have := listBytes_take_le l (n + 1)
        omega
    rcases ih (markList blk l first) hs1 m1 (fun b hb => hblk b (List.mem_cons_of_mem _ hb))
      (by rw [listBytes_markList]; exact hlen) hw.1 hw.2.1 with h | ⟨h1, n, hn, h2, h3⟩
    · rw [h]
      rcases s2 with h' | ⟨g1, n, hn, g2, g3⟩
      · left; exact h'
      · right
        exact ⟨g1, n, hn, g2, by rw [g3, Nat.zero_add]⟩
    · right
      rw [markList_length] at hn h3
      rw [listBytes_take_markList] at h2
      exact ⟨by omega, n, hn, h2, h3⟩

/-- The counting loop of `IsLost` is monotone in the SACK information: when it answers
`true`, it still does with more items flagged, higher running totals, and an
`m_highestSack` at which the loop stops no earlier. -/
theorem isLostLoop_mono (blocks : List (Nat × Nat)) (hs hs' : SentIter × Nat) (d s lo : Nat)
    (hlo : lo + 2147483648 ≤ 4294967296) (hinv' : hs'.1 ≠ .invalid)
    (hw : lo ≤ hs.2 ∧ hs.2 < lo + 2147483648) (hw' : lo ≤ hs'.2 ∧ hs'.2 < lo + 2147483648) :
    ∀ (l : List TcpTxItem) (i begin c bt c' bt' : Nat),
      lo ≤ begin → begin + (listBytes l).length < lo + 2147483648 →
      c ≤ c' → bt ≤ bt' → c' + l.length < 4294967296 →
      bt' + (listBytes l).length < 4294967296 →
      (∀ n, n ≤ l.length →
        (hs'.1 = .atNode (i + n) ∨ hs'.2 ≤ begin + (listBytes (l.take n)).length) →
        (hs.1 = .atNode (i + n) ∨ hs.2 ≤ begin + (listBytes (l.take n)).length)) →
      isLostLoop hs d s l i begin c bt = .ok true →
      isLostLoop hs' d s (sackMarks blocks l begin) i begin c' bt' = .ok true := by
  intro l
  induction l with
  | nil =>
    intro i begin c bt c' bt' _ _ _ _ _ _ _ h
    unfold isLostLoop at h
    cases h1 : hs.1 with
    | atEnd => rw [h1] at h; cases h
    | invalid => rw [h1] at h; cases h
    | atNode j =>
      rw [h1] at h
      dsimp only at h
      split at h <;> cases h
  | cons y ys ih =>
    intro i begin c bt c' bt' hb hlen hc hbt hc' hbt' hE h
    rw [listBytes_cons_length] at hlen hbt'
    rw [List.length_cons] at hc'
    have e : seqAdd begin y.size = begin + y.size := by unfold seqAdd; omega
    have g1 : seqGe begin hs.2 ↔ hs.2 ≤ begin :=
      seqGe_iff_of_window lo _ _ hb (by omega) hw.1 hw.2
    have g2 : seqGe begin hs'.2 ↔ hs'.2 ≤ begin :=
      seqGe_iff_of_window lo _ _ hb (by omega) hw'.1 hw'.2
    unfold isLostLoop at h
    by_cases k1 : hs.1 = .invalid
    · rw [if_pos k1] at h; cases h
    rw [if_neg k1] at h
    by_cases k2 : hs.1 = .atNode i
    · rw [if_pos k2] at h; cases h
    rw [if_neg k2] at h
    by_cases k3 : seqGe begin hs.2
    · rw [if_pos k3] at h; cases h
    rw [if_neg k3, e] at h
    have hE0 := hE 0 (Nat.zero_le _)
    rw [List.take_zero, show (listBytes ([] : List TcpTxItem)).length = 0 from rfl,
      Nat.add_zero, Nat.add_zero] at hE0
    have k2' : ¬ hs'.1 = .atNode i := fun hh => by
      rcases hE0 (Or.inl hh) with h' | h'
      · exact k2 h'
      · exact k3 (g1.2 h')
    have k3' : ¬ seqGe begin hs'.2 := fun hh => by
      rcases hE0 (Or.inr (g2.1 hh)) with h' | h'
      · exact k2 h'
      · exact k3 (g1.2 h')
    have hEs : ∀ n, n ≤ ys.length →
        (hs'.1 = .atNode (i + 1 + n) ∨ hs'.2 ≤ begin + y.size + (listBytes (ys.take n)).length) →
        (hs.1 = .atNode (i + 1 + n) ∨ hs.2 ≤ begin + y.size + (listBytes (ys.take n)).length) := by
      intro n hn hh
      have := hE (n + 1) (by rw [List.length_cons]; omega)
      rw [List.take_succ_cons, listBytes_cons_length,
        show i + (n + 1) = i + 1 + n by omega,
        show begin + (y.size + (listBytes (ys.take n)).length)
          = begin + y.size + (listBytes (ys.take n)).length by omega] at this
      exact this hh
    have hrec := ih (i + 1) (begin + y.size)
    rw [sackMarks]
    unfold isLostLoop
    rw [if_neg hinv', if_neg k2', if_neg k3']
    dsimp only at h ⊢
    have a1 : add32 c' 1 = c' + 1 := by unfold add32; omega
    have a2 : add32 bt' y.size = bt' + y.size := by unfold add32; omega
    have a3 : add32 c 1 = c + 1 := by unfold add32; omega
    have a4 : add32 bt y.size = bt + y.size := by unfold add32; omega
    rw [a3, a4] at h
    simp only [TcpTxItem.size] at e a2 h hrec hEs ⊢
    rw [e, a1, a2]
    by_cases hsk : y.m_sacked = true
    · rw [if_pos hsk] at h
      rw [if_pos (by rw [hsk]; rfl)]
      by_cases ht' : d ≤ c' + 1 ∨ (sub32 d 1 * s) % 4294967296 < bt' + y.m_packet.length
      · rw [if_pos ht']
      · rw [if_neg ht']
        have ht : ¬ (d ≤ c + 1 ∨ (sub32 d 1 * s) % 4294967296 < bt + y.m_packet.length) := by
          omega
        rw [if_neg ht] at h
        exact hrec (c + 1) (bt + y.m_packet.length) (c' + 1) (bt' + y.m_packet.length)
          (by omega) (by unfold TcpTxItem.size at hlen; omega) (by omega)
          (by omega) (by omega) (by unfold TcpTxItem.size at hbt'; omega) hEs h
    · rw [if_neg hsk] at h
      by_cases hsk' : (y.m_sacked || blocks.any (fun blk =>
          decide (blk.1 ≤ begin ∧ begin + y.m_packet.length ≤ blk.2))) = true
      · rw [if_pos hsk']
        by_cases ht' : d ≤ c' + 1 ∨ (sub32 d 1 * s) % 4294967296 < bt' + y.m_packet.length
        · rw [if_pos ht']
        · rw [if_neg ht']
          exact hrec c bt (c' + 1) (bt' + y.m_packet.length) (by omega)
            (by unfold TcpTxItem.size at hlen; omega) (by omega)
            (by omega) (by omega) (by unfold TcpTxItem.size at hbt'; omega) hEs h
      · rw [if_neg hsk']
        exact hrec c bt c' bt' (by omega) (by unfold TcpTxItem.size at hlen; omega) (by omega)
          (by omega) (by omega) (by unfold TcpTxItem.size at hbt'; omega) hEs h

theorem sackMarks_append (blocks : List (Nat × Nat)) :
    ∀ (l1 l2 : List TcpTxItem) (begin : Nat),
      sackMarks blocks (l1 ++ l2) begin
        = sackMarks blocks l1 begin ++ sackMarks blocks l2 (begin + (listBytes l1).length) := by
  intro l1
  induction l1 with
  | nil => intro l2 begin; rfl
  | cons y ys ih =>
    intro l2 begin
    rw [List.cons_append, sackMarks, sackMarks, ih, listBytes_cons_length, List.cons_append,
      Nat.add_assoc]

theorem sackMarks_pos (blocks : List (Nat × Nat)) :
    ∀ (l : List TcpTxItem) (begin : Nat), (∀ y ∈ l, 0 < y.size) →
      ∀ y ∈ sackMarks blocks l begin, 0 < y.size := by
  intro l
  induction l with
  | nil => intro begin _ y hy; cases hy
  | cons z zs ih =>
    intro begin h y hy
    rw [sackMarks] at hy
    rcases List.mem_cons.1 hy with hy | hy
    · rw [hy]; exact h z (List.mem_cons_self _ _)
    · exact ih _ (fun w hw => h w (List.mem_cons_of_mem _ hw)) y hy

theorem Update_highestSack (b : TcpTxBuffer) (blocks : List (Nat × Nat)) (m : Bool)
    (b' : TcpTxBuffer) (h : Update blocks b = .ok (m, b')) :
    b'.m_highestSack
      = (updateBlocks b.m_firstByteSeq blocks (b.m_sentList, b.m_highestSack, false)).2.1 ∧
    b'.m_firstByteSeq = b.m_firstByteSeq := by
  unfold Update at h
  dsimp only at h
  split at h
  · cases h
  · split at h
    · simp only [Except.ok.injEq, Prod.mk.injEq] at h
      obtain ⟨-, h⟩ := h
      subst h
      exact ⟨rfl, rfl⟩
    · cases h

theorem isLostLoop_valid (hs : SentIter × Nat) (d s : Nat) (y : TcpTxItem)
    (ys : List TcpTxItem) (i begin c bt : Nat)
    (h : isLostLoop hs d s (y :: ys) i begin c bt = .ok true) : hs.1 ≠ .invalid := by
  intro hc
  unfold isLostLoop at h
  rw [if_pos hc] at h
  cases h

/-- Once `IsLost` answers `true` for the item that begins at `seq`, it still does after an
`Update` with blocks none of which covers the item. The sequence numbers do not wrap:
they lie in a window `[lo, lo + 2^31)` below `2^32`. -/
theorem IsLost_Update (b : TcpTxBuffer) (pre post : List TcpTxItem) (x : TcpTxItem)
    (d s lo : Nat) (hlist : b.m_sentList = pre ++ x :: post)
    (hpos : ∀ y ∈ b.m_sentList, 0 < y.size)
    (hlo : lo + 2147483648 ≤ 4294967296) (hfirst : lo ≤ b.m_firstByteSeq)
    (hlast : b.m_firstByteSeq + (listBytes b.m_sentList).length < lo + 2147483648)
    (hhs : lo ≤ b.m_highestSack.2 ∧ b.m_highestSack.2 < lo + 2147483648)
    (blocks : List (Nat × Nat))
    (hblocks : ∀ blk ∈ blocks, lo ≤ blk.1 ∧ blk.1 < lo + 2147483648 ∧ lo ≤ blk.2
      ∧ blk.2 < lo + 2147483648)
    (hcov : ∀ blk ∈ blocks, ¬ (blk.1 ≤ b.m_firstByteSeq + (listBytes pre).length
      ∧ b.m_firstByteSeq + (listBytes pre).length + x.size ≤ blk.2))
    (h : IsLost b (b.m_firstByteSeq + (listBytes pre).length) d s = .ok true)
    (m : Bool) (b' : TcpTxBuffer) (hU : Update blocks b = .ok (m, b')) :
    IsLost b' (b.m_firstByteSeq + (listBytes pre).length) d s = .ok true := by
  have hbl : (listBytes b.m_sentList).length
      = (listBytes pre).length + (x.size + (listBytes post).length) := by
    rw [hlist, listBytes_append, List.length_append, listBytes_cons_length]
  have hppre : ∀ y ∈ pre, 0 < y.size := fun y hy =>
    hpos y (by rw [hlist]; exact List.mem_append_left _ hy)
  have hsa : seqAdd b.m_firstByteSeq (listBytes pre).length
      = b.m_firstByteSeq + (listBytes pre).length := by unfold seqAdd; omega
  have h0 := h
  rw [← hsa, IsLost_eq b pre post x d s hlist hppre (by omega) (by omega), hsa] at h0
  have hbelow : b.m_firstByteSeq + (listBytes pre).length < b.m_highestSack.2 := by
    by_contra hc
    have : seqGe (b.m_firstByteSeq + (listBytes pre).length) b.m_highestSack.2 :=
      (seqGe_iff_of_window lo _ _ (by omega) (by omega) hhs.1 hhs.2).2 (by omega)
    rw [if_pos this] at h0
    cases h0
  have hnge : ¬ seqGe (b.m_firstByteSeq + (listBytes pre).length) b.m_highestSack.2 := by
    rw [seqGe_iff_of_window lo _ _ (by omega) (by omega) hhs.1 hhs.2]; omega
  rw [if_neg hnge] at h0
  obtain ⟨-, hl', -⟩ := Update_marks b blocks lo hlo hfirst hlast hblocks m b' hU
  obtain ⟨hhs', hf'⟩ := Update_highestSack b blocks m b' hU
  have hP := updateBlocks_highestSack lo hlo b.m_firstByteSeq hfirst blocks b.m_sentList
    b.m_highestSack false hblocks hlast hhs.1 hhs.2
  rw [← hhs'] at hP
  have hany : blocks.any (fun blk => decide (blk.1 ≤ b.m_firstByteSeq + (listBytes pre).length
      ∧ b.m_firstByteSeq + (listBytes pre).length + x.size ≤ blk.2)) = false := by
    rw [List.any_eq_false]
    intro blk hb
    simpa using hcov blk hb
  have hl2 : b'.m_sentList = sackMarks blocks pre b.m_firstByteSeq
      ++ x :: sackMarks blocks post (b.m_firstByteSeq + (listBytes pre).length + x.size) := by
    rw [hl', hlist, sackMarks_append, sackMarks, hany, TcpTxItem.sacked_or_false]
  have hw' : lo ≤ b'.m_highestSack.2 ∧ b'.m_highestSack.2 < lo + 2147483648
      ∧ b.m_highestSack.2 ≤ b'.m_highestSack.2 := by
    rcases hP with hP | ⟨g1, n, -, g2, -⟩
    · rw [hP]; exact ⟨hhs.1, hhs.2, Nat.le_refl _⟩
    · have := listBytes_take_le b.m_sentList (n + 1)
      omega
  have hnge' : ¬ seqGe (b.m_firstByteSeq + (listBytes pre).length) b'.m_highestSack.2 := by
    rw [seqGe_iff_of_window lo _ _ (by omega) (by omega) hw'.1 hw'.2.1]; omega
  have hsa' : seqAdd b'.m_firstByteSeq (listBytes (sackMarks blocks pre b.m_firstByteSeq)).length
      = b.m_firstByteSeq + (listBytes pre).length := by
    rw [hf', listBytes_sackMarks, hsa]
  rw [← hsa', IsLost_eq b' _ _ x d s hl2 (sackMarks_pos blocks pre _ hppre)
    (by rw [hf']; omega) (by rw [listBytes_sackMarks]; omega), hsa', if_neg hnge']
  by_cases hlost : x.m_lost = true
  · rw [if_pos hlost]
  · rw [if_neg hlost] at h0 ⊢
    by_cases hsk : x.m_sacked = true
    · rw [if_pos hsk] at h0; cases h0
    · rw [if_neg hsk] at h0 ⊢
      rw [sackMarks_length]
      have hinv' : b'.m_highestSack.1 ≠ .invalid := by
        rcases hP with hP | ⟨-, n, -, -, g3⟩
        · rw [hP]; exact isLostLoop_valid _ _ _ _ _ _ _ _ _ h0
        · rw [g3]; split <;> simp
      have hxl : (x :: post).length ≤ (listBytes (x :: post)).length :=
        length_le_listBytes _ (fun y hy => hpos y (by
          rw [hlist]; exact List.mem_append_right _ hy))
      rw [listBytes_cons_length] at hxl
      have key := isLostLoop_mono blocks b.m_highestSack b'.m_highestSack d s lo hlo hinv' hhs
        ⟨hw'.1, hw'.2.1⟩ (x :: post) pre.length (b.m_firstByteSeq + (listBytes pre).length)
        0 0 0 0 (by omega) (by rw [listBytes_cons_length]; omega) (Nat.le_refl _) (Nat.le_refl _)
        (by omega) (by rw [listBytes_cons_length]; omega)
        (by
          intro n hn hh
          rcases hP with hP | ⟨g1, p, hp, g2, g3⟩
          · rw [hP] at hh; exact hh
          · right
            rcases hh with hh | hh
            · rw [g3] at hh
              split at hh
              · cases hh
              · injection hh with hh
                have ht : b.m_sentList.take (pre.length + n) = pre ++ (x :: post).take n := by
                  rw [hlist, List.take_append]
                rw [hh, ht, listBytes_append, List.length_append] at g2
                omega
            · omega)
        h0
      rw [sackMarks, hany, TcpTxItem.sacked_or_false] at key
      exact key

theorem isLostLoop_append (hs : SentIter × Nat) (d s : Nat) (l2 : List TcpTxItem) :
    ∀ (l : List TcpTxItem) (i begin c bt : Nat),
      isLostLoop hs d s l i begin c bt = .ok true →
      isLostLoop hs d s (l ++ l2) i begin c bt = .ok true := by
  intro l
  induction l with
  | nil =>
    intro i begin c bt h
    unfold isLostLoop at h
    cases h1 : hs.1 with
    | atEnd => rw [h1] at h; cases h
    | invalid => rw [h1] at h; cases h
    | atNode j =>
      rw [h1] at h
      dsimp only at h
      split at h <;> cases h
  | cons y ys ih =>
    intro i begin c bt h
    rw [List.cons_append]
    unfold isLostLoop at h ⊢
    by_cases k1 : hs.1 = .invalid
    · rw [if_pos k1] at h; cases h
    rw [if_neg k1] at h ⊢
    by_cases k2 : hs.1 = .atNode i
    · rw [if_pos k2] at h; cases h
    rw [if_neg k2] at h ⊢
    by_cases k3 : seqGe begin hs.2
    · rw [if_pos k3] at h; cases h
    rw [if_neg k3] at h ⊢
    by_cases k4 : y.m_sacked = true
    · rw [if_pos k4] at h ⊢
      dsimp only at h ⊢
      split
      · rfl
      · rename_i k5
        rw [if_neg k5] at h
        exact ih _ _ _ _ h
    · rw [if_neg k4] at h ⊢
      exact ih _ _ _ _ h

theorem IsLostAt_append (b b' : TcpTxBuffer) (l2 : List TcpTxItem) (seq k d s : Nat)
    (h1 : b'.m_sentList = b.m_sentList ++ l2) (h2 : b'.m_highestSack = b.m_highestSack)
    (h : IsLostAt b seq k d s = .ok true) : IsLostAt b' seq k d s = .ok true := by
  unfold IsLostAt at h ⊢
  rw [h1, h2]
  cases hk : b.m_sentList[k]? with
  | none => rw [hk] at h; cases h
  | some seg =>
    have hlt : k < b.m_sentList.length := by
      by_contra hc
      rw [List.getElem?_eq_none (by omega)] at hk
      cases hk
    rw [hk] at h
    rw [List.getElem?_append_left hlt, hk]
    dsimp only at h ⊢
    by_cases g1 : seg.m_lost = true
    · rw [if_pos g1]
    · rw [if_neg g1] at h ⊢
      by_cases g2 : seg.m_sacked = true
      · rw [if_pos g2] at h; cases h
      · rw [if_neg g2] at h ⊢
        rw [List.drop_append_of_le_length (Nat.le_of_lt hlt)]
        exact isLostLoop_append _ _ _ _ _ _ _ _ _ h

theorem isLostSearch_append (b b' : TcpTxBuffer) (l2 : List TcpTxItem) (seq d s : Nat)
    (h1 : b'.m_sentList = b.m_sentList ++ l2) (h2 : b'.m_highestSack = b.m_highestSack) :
    ∀ (l : List TcpTxItem) (i begin : Nat),
      isLostSearch b seq d s l i begin = .ok true →
      isLostSearch b' seq d s (l ++ l2) i begin = .ok true := by
  intro l
  induction l with
  | nil => intro i begin h; simp [isLostSearch] at h
  | cons y ys ih =>
    intro i begin h
    rw [List.cons_append]
    unfold isLostSearch at h ⊢
    by_cases hge : seqGe begin seq
    · rw [if_pos hge] at h ⊢
      exact IsLostAt_append b b' l2 _ _ _ _ h1 h2 h
    · rw [if_neg hge] at h ⊢
      exact ih _ _ h

/-- Once `IsLost` answers `true`, it still does when items are appended to the sent
list. -/
theorem IsLost_append (b b' : TcpTxBuffer) (l2 : List TcpTxItem) (seq d s : Nat)
    (h1 : b'.m_sentList = b.m_sentList ++ l2) (h2 : b'.m_highestSack = b.m_highestSack)
    (h3 : b'.m_firstByteSeq = b.m_firstByteSeq)
    (h : IsLost b seq d s = .ok true) : IsLost b' seq d s = .ok true := by
  unfold IsLost at h ⊢
  rw [h2, h3, h1]
  by_cases hge : seqGe seq b.m_highestSack.2
  · rw [if_pos hge] at h; cases h
  · rw [if_neg hge] at h ⊢
    exact isLostSearch_append b b' l2 seq d s h1 h2 _ _ _ h

/-- Once `IsLost` answers `true`, it still does after an extraction of new data. -/
theorem IsLost_CopyFromSequence_new (b : TcpTxBuffer) (seq d s : Nat)
    (h : IsLost b seq d s = .ok true) (fuel n : Nat) (now : Int) (p : List Nat)
    (b' : TcpTxBuffer) (hn : n < 2147483648)
    (hc : CopyFromSequence fuel n (seqAdd b.m_firstByteSeq b.m_sentSize) now b = .ok (p, b'))
    (hp : p ≠ []) : IsLost b' seq d s = .ok true := by
  obtain ⟨x, bm, hN, -, -, hb', -⟩ := CopyFromSequence_new fuel n now b p b'
    (by omega) hc hp
  refine IsLost_append b b' [{ x with m_lost := false, m_lastSent := now }] seq d s ?_ ?_ ?_ h
  · rw [hb']
  · rw [hb']; exact hN.highestSack
  · rw [hb']; exact hN.first

/-! ## Rule (3) of `NextSeg` -/

/-- Once `seqPerRule3` holds a sequence other than 0, the loop of `NextSeg` keeps it. -/
theorem nextSegScan_keeps (b : TcpTxBuffer) (d s : Nat) (r : Bool) :
    ∀ (l : List TcpTxItem) (i begin s3 : Nat) (v : Bool),
      (∀ (j : Nat) (y : TcpTxItem), l[j]? = some y → y.m_retrans = false →
        y.m_sacked = false →
        IsLostAt b (seqAdd begin (listBytes (l.take j)).length) (i + j) d s = .ok false) →
      begin < 4294967296 → s3 ≠ 0 →
      nextSegScan b d s r l i begin s3 v = .ok (none, s3, v) := by
  intro l
  induction l with
  | nil => intro i begin s3 v _ _ _; rfl
  | cons y ys ih =>
    intro i begin s3 v hpre hb h3
    have hrest : ∀ (j : Nat) (z : TcpTxItem), ys[j]? = some z → z.m_retrans = false →
        z.m_sacked = false →
        IsLostAt b (seqAdd (seqAdd begin y.size) (listBytes (ys.take j)).length) (i + 1 + j) d s
          = .ok false := by
      intro j z hz h1 h2
      have := hpre (j + 1) z (by simpa using hz) h1 h2
      rw [List.take_succ_cons, listBytes_cons_length, ← seqAdd_seqAdd,
        show i + (j + 1) = i + 1 + j by omega] at this
      exact this
    unfold nextSegScan
    by_cases he : y.m_retrans = false ∧ y.m_sacked = false
    · rw [if_pos he]
      have h0 := hpre 0 y (by simp) he.1 he.2
      rw [List.take_zero, show (listBytes ([] : List TcpTxItem)).length = 0 from rfl,
        seqAdd_zero _ hb, Nat.add_zero] at h0
      rw [h0]
      dsimp only
      rw [if_neg (fun hc => h3 hc.1)]
      exact ih (i + 1) (seqAdd begin y.size) s3 v hrest (seqAdd_lt _ _) h3
    · rw [if_neg he]
      exact ih (i + 1) (seqAdd begin y.size) s3 v hrest (seqAdd_lt _ _) h3

/-- In recovery, when `IsLost` reports no candidate lost, the loop of `NextSeg` leaves in
`seqPerRule3` the sequence of the first item that is neither retransmitted nor SACKed,
provided that sequence is not 0. -/
theorem nextSegScan_rule3 (b : TcpTxBuffer) (d s : Nat) :
    ∀ (pre : List TcpTxItem) (x : TcpTxItem) (post : List TcpTxItem) (i begin : Nat),
      (∀ y ∈ pre, ¬ (y.m_retrans = false ∧ y.m_sacked = false)) →
      x.m_retrans = false → x.m_sacked = false →
      (∀ (j : Nat) (y : TcpTxItem), (pre ++ x :: post)[j]? = some y → y.m_retrans = false →
        y.m_sacked = false →
        IsLostAt b (seqAdd begin (listBytes ((pre ++ x :: post).take j)).length) (i + j) d s
          = .ok false) →
      begin < 4294967296 → seqAdd begin (listBytes pre).length ≠ 0 →
      nextSegScan b d s true (pre ++ x :: post) i begin 0 false
        = .ok (none, seqAdd begin (listBytes pre).length, true) := by
  intro pre
  induction pre with
  | nil =>
    intro x post i begin _ hr hs hall hb hnz
    rw [show (listBytes ([] : List TcpTxItem)).length = 0 from rfl, seqAdd_zero _ hb] at hnz ⊢
    rw [List.nil_append] at hall ⊢
    have hrest : ∀ (j : Nat) (z : TcpTxItem), post[j]? = some z → z.m_retrans = false →
        z.m_sacked = false →
        IsLostAt b (seqAdd (seqAdd begin x.size) (listBytes (post.take j)).length) (i + 1 + j)
          d s = .ok false := by
      intro j z hz h1 h2
      have := hall (j + 1) z (by simpa using hz) h1 h2
      rw [List.take_succ_cons, listBytes_cons_length, ← seqAdd_seqAdd,
        show i + (j + 1) = i + 1 + j by omega] at this
      exact this
    have h0 := hall 0 x (by simp) hr hs
    rw [List.take_zero, show (listBytes ([] : List TcpTxItem)).length = 0 from rfl,
      seqAdd_zero _ hb, Nat.add_zero] at h0
    unfold nextSegScan
    rw [if_pos ⟨hr, hs⟩, h0]
    dsimp only
    rw [if_pos ⟨rfl, rfl⟩]
    exact nextSegScan_keeps b d s true post (i + 1) (seqAdd begin x.size) begin true hrest
      (seqAdd_lt _ _) hnz
  | cons y ys ih =>
    intro x post i begin hpre hr hs hall hb hnz
    rw [listBytes_cons_length, ← seqAdd_seqAdd] at hnz ⊢
    have hrest : ∀ (j : Nat) (z : TcpTxItem), (ys ++ x :: post)[j]? = some z →
        z.m_retrans = false → z.m_sacked = false →
        IsLostAt b (seqAdd (seqAdd begin y.size) (listBytes ((ys ++ x :: post).take j)).length)
          (i + 1 + j) d s = .ok false := by
      intro j z hz h1 h2
      have := hall (j + 1) z (by simpa using hz) h1 h2
      rw [List.cons_append, List.take_succ_cons, listBytes_cons_length, ← seqAdd_seqAdd,
        show i + (j + 1) = i + 1 + j by omega] at this
      exact this
    rw [List.cons_append]
    unfold nextSegScan
    rw [if_neg (hpre y (List.mem_cons_self _ _))]
    exact ih x post (i + 1) (seqAdd begin y.size)
      (fun z hz => hpre z (List.mem_cons_of_mem _ hz)) hr hs hrest (seqAdd_lt _ _) hnz

/-- Rule (3) of `NextSeg` where it works: when `IsLost` reports no candidate lost and
there is no unsent data, `NextSeg` in recovery returns the sequence of the first item
that is neither retransmitted nor SACKed, provided that sequence is not 0; out of
recovery it returns no candidate. At `zeroHead`, where that sequence is 0, it returns the
second candidate. -/
theorem NextSeg_rule3 (b : TcpTxBuffer) (d s : Nat) (hfirst : b.m_firstByteSeq < 4294967296)
    (hnone : ∀ (j : Nat) (y : TcpTxItem), b.m_sentList[j]? = some y →
      y.m_retrans = false → y.m_sacked = false →
      IsLostAt b (beginSeq b j) j d s = .ok false)
    (hsent : SizeFromSequence b (seqAdd b.m_firstByteSeq b.m_sentSize) = 0) :
    NextSeg d s false b = .ok none ∧
    (∀ (pre post : List TcpTxItem) (x : TcpTxItem), b.m_sentList = pre ++ x :: post →
      (∀ y ∈ pre, ¬ (y.m_retrans = false ∧ y.m_sacked = false)) →
      x.m_retrans = false → x.m_sacked = false →
      seqAdd b.m_firstByteSeq (listBytes pre).length ≠ 0 →
      NextSeg d s true b = .ok (some (seqAdd b.m_firstByteSeq (listBytes pre).length))) := by
  have hpre : ∀ (j : Nat) (y : TcpTxItem), b.m_sentList[j]? = some y →
      y.m_retrans = false → y.m_sacked = false →
      IsLostAt b (seqAdd b.m_firstByteSeq (listBytes (b.m_sentList.take j)).length)
        (0 + j) d s = .ok false := by
    intro j y hy h1 h2
    rw [Nat.zero_add]
    exact hnone j y hy h1 h2
  constructor
  · obtain ⟨s3', v', e, hv⟩ := nextSegScan_none b d s false b.m_sentList 0 b.m_firstByteSeq 0
      false hpre hfirst
    unfold NextSeg
    rw [e]
    dsimp only
    rw [hsent, hv rfl]
    rfl
  · intro pre post x hlist hp hr hs hnz
    have e := nextSegScan_rule3 b d s pre x post 0 b.m_firstByteSeq hp hr hs
      (by rw [← hlist]; exact hpre) hfirst hnz
    rw [← hlist] at e
    unfold NextSeg
    rw [e]
    dsimp only
    rw [hsent]
    rfl

/-! ## The three sent counters -/

theorem SentBalanced.of_counters {b b' : TcpTxBuffer} (h : SentBalanced b)
    (e1 : b'.m_sentSize = b.m_sentSize) (e2 : b'.m_appsentSize = b.m_appsentSize)
    (e3 : b'.m_stagesentSize = b.m_stagesentSize) : SentBalanced b' := by
  unfold SentBalanced at *
  rw [e1, e2, e3]; exact h

theorem balanced_add_right (t a c k : Nat) (h : t = add32 a c) :
    add32 t k = add32 a (add32 c k) := by
  subst h; unfold add32; omega

theorem balanced_add_left (t a c k : Nat) (h : t = add32 a c) :
    add32 t k = add32 (add32 a k) c := by
  subst h; unfold add32; omega

theorem balanced_sub_right (t a c k : Nat) (h : t = add32 a c) :
    sub32 t k = add32 a (sub32 c k) := by
  subst h; unfold add32 sub32; omega

theorem balanced_sub_left (t a c k : Nat) (h : t = add32 a c) :
    sub32 t k = add32 (sub32 a k) c := by
  subst h; unfold add32 sub32; omega

theorem Add_balanced (rnd : Nat) (p : List Nat) (b : TcpTxBuffer) (h : SentBalanced b) :
    SentBalanced (Add rnd p b).2 := by
  have hs : ∀ c, (seedEsQseq rnd c).m_sentSize = c.m_sentSize
      ∧ (seedEsQseq rnd c).m_appsentSize = c.m_appsentSize
      ∧ (seedEsQseq rnd c).m_stagesentSize = c.m_stagesentSize := by
    intro c; unfold seedEsQseq; split <;> exact ⟨rfl, rfl, rfl⟩
  have hq : ∀ q c, (Addqed q c).2.m_sentSize = c.m_sentSize
      ∧ (Addqed q c).2.m_appsentSize = c.m_appsentSize
      ∧ (Addqed q c).2.m_stagesentSize = c.m_stagesentSize := by
    intro q c; unfold Addqed; split <;> [split; skip] <;> exact ⟨rfl, rfl, rfl⟩
  have ha : ∀ q c, (Addapp q c).2.m_sentSize = c.m_sentSize
      ∧ (Addapp q c).2.m_appsentSize = c.m_appsentSize
      ∧ (Addapp q c).2.m_stagesentSize = c.m_stagesentSize := by
    intro q c; unfold Addapp; split <;> [split; skip] <;> exact ⟨rfl, rfl, rfl⟩
  unfold Add
  dsimp only
  split
  · apply h.of_counters
    · show (Addapp p _).2.m_sentSize = _
      rw [(ha _ _).1, (hq _ _).1]; exact (hs b).1
    · show (Addapp p _).2.m_appsentSize = _
      rw [(ha _ _).2.1, (hq _ _).2.1]; exact (hs b).2.1
    · show (Addapp p _).2.m_stagesentSize = _
      rw [(ha _ _).2.2, (hq _ _).2.2]; exact (hs b).2.2
  · exact h.of_counters (hs b).1 (hs b).2.1 (hs b).2.2

theorem GetNewSegment_balanced (fuel n : Nat) (b : TcpTxBuffer) (i : Nat) (b' : TcpTxBuffer)
    (h : GetNewSegment fuel n b = .ok (i, b')) (hB : SentBalanced b) : SentBalanced b' := by
  unfold SentBalanced at *
  unfold GetNewSegment at h
  split at h
  · dsimp only at h
    split at h
    · cases h
    · split at h
      · cases h
      · simp only [Except.ok.injEq, Prod.mk.injEq] at h
        obtain ⟨-, h⟩ := h
        subst h
        exact balanced_add_right _ _ _ _ hB
  · dsimp only at h
    split at h
    · cases h
    · split at h
      · cases h
      · simp only [Except.ok.injEq, Prod.mk.injEq] at h
        obtain ⟨-, h⟩ := h
        subst h
        exact balanced_add_left _ _ _ _ hB

theorem Addqednew_sentCounters (item : TcpTxItem) (b : TcpTxBuffer) (item' : TcpTxItem)
    (b' : TcpTxBuffer) (h : Addqednew item b = .ok (item', b')) :
    b'.m_sentSize = b.m_sentSize ∧ b'.m_appsentSize = b.m_appsentSize
      ∧ b'.m_stagesentSize = b.m_stagesentSize := by
  unfold Addqednew at h
  split at h
  · dsimp only at h
    split at h
    · cases h
    · simp only [Except.ok.injEq, Prod.mk.injEq] at h
      obtain ⟨-, h⟩ := h
      subst h
      exact ⟨rfl, rfl, rfl⟩
  · simp only [Except.ok.injEq, Prod.mk.injEq] at h
    obtain ⟨-, h⟩ := h
    subst h
    exact ⟨rfl, rfl, rfl⟩

theorem resegmented_sentCounters (list : List TcpTxItem) (edits : List ListEdit)
    (b : TcpTxBuffer) :
    (resegmented list edits b).m_sentSize = b.m_sentSize
      ∧ (resegmented list edits b).m_appsentSize = b.m_appsentSize
      ∧ (resegmented list edits b).m_stagesentSize = b.m_stagesentSize := by
  unfold resegmented
  dsimp only
  split <;> exact ⟨rfl, rfl, rfl⟩

theorem GetTransmittedSegment_balanced (fuel n seq : Nat) (b : TcpTxBuffer) (i : Nat)
    (b' : TcpTxBuffer) (h : GetTransmittedSegment fuel n seq b = .ok (i, b'))
    (hB : SentBalanced b) : SentBalanced b' := by
  unfold GetTransmittedSegment at h
  split at h
  · cases h
  · split at h
    · cases h
    · split at h
      · cases h
      · rename_i list j edits hg
        obtain ⟨r1, r2, r3⟩ := resegmented_sentCounters list edits b
        split at h
        · cases h
        · split at h
          · split at h
            · cases h
            · rename_i item' b2 ha
              obtain ⟨a1, a2, a3⟩ := Addqednew_sentCounters _ _ _ _ ha
              simp only [Except.ok.injEq, Prod.mk.injEq] at h
              obtain ⟨-, h⟩ := h
              subst h
              exact hB.of_counters (by show b2.m_sentSize = _; rw [a1, r1])
                (by show b2.m_appsentSize = _; rw [a2, r2])
                (by show b2.m_stagesentSize = _; rw [a3, r3])
          · simp only [Except.ok.injEq, Prod.mk.injEq] at h
            obtain ⟨-, h⟩ := h
            subst h
            exact hB.of_counters r1 r2 r3

theorem finishCopy_balanced (s i : Nat) (now : Int) (b : TcpTxBuffer) (p : List Nat)
    (b' : TcpTxBuffer) (h : finishCopy s i now b = .ok (p, b')) (hB : SentBalanced b) :
    SentBalanced b' := by
  obtain ⟨x, -, -, -, hb⟩ := finishCopy_ok _ _ _ _ _ _ h
  subst hb
  exact hB

theorem CopyFromSequence_balanced : ∀ (fuel n seq : Nat) (now : Int) (b : TcpTxBuffer)
    (p : List Nat) (b' : TcpTxBuffer),
    CopyFromSequence fuel n seq now b = .ok (p, b') → SentBalanced b → SentBalanced b' := by
  intro fuel
  induction fuel with
  | zero => intro n seq now b p b' h; simp [CopyFromSequence] at h
  | succ k ih =>
    intro n seq now b p b' h hB
    unfold CopyFromSequence at h
    by_cases hgt : seqGt b.m_firstByteSeq seq
    · simp only [hgt, if_true, Except.ok.injEq, Prod.mk.injEq] at h
      rw [← h.2]; exact hB
    · simp only [hgt, if_false] at h
      by_cases hz : min n (SizeFromSequence b seq) = 0
      · simp only [hz, if_true, Except.ok.injEq, Prod.mk.injEq] at h
        rw [← h.2]; exact hB
      · simp only [hz, if_false] at h
        by_cases hsent : seqGe (seqAdd b.m_firstByteSeq b.m_sentSize)
            (seqAdd seq (min n (SizeFromSequence b seq)))
        · simp only [hsent, if_true] at h
          split at h
          · simp at h
          · rename_i i b2 hg
            have g1 := GetTransmittedSegment_balanced _ _ _ _ _ _ hg hB
            split at h
            · simp at h
            · exact finishCopy_balanced _ _ _ _ _ _ h g1
        · simp only [hsent, if_false] at h
          generalize (if 0 < b.m_qednum then
              min (min n (SizeFromSequence b seq)) (sub32 b.m_size b.m_appsentSize)
            else min (min n (SizeFromSequence b seq)) (sub32 b.m_stageSize b.m_stagesentSize))
            = s' at h
          have hBc : SentBalanced (chooseStage b) := hB
          by_cases hle : seqLe (seqAdd (chooseStage b).m_firstByteSeq (chooseStage b).m_sentSize)
              seq
          · simp only [hle, if_true] at h
            split at h
            · simp at h
            · split at h
              · simp at h
              · rename_i i bm hg
                have g1 := GetNewSegment_balanced _ _ _ _ _ hg hBc
                split at h
                · simp at h
                · split at h
                  · exact finishCopy_balanced _ _ _ _ _ _ h g1
                  · simp at h
          · simp only [hle, if_false] at h
            split at h
            · split at h
              · simp at h
              · rename_i i bm hg
                exact ih _ _ _ _ _ _ h (GetNewSegment_balanced _ _ _ _ _ hg hBc)
            · simp at h

theorem discardLoop_balanced : ∀ (fuel : Nat) (now : Int) (offset : Nat) (b b' : TcpTxBuffer),
    discardLoop fuel now offset b = .ok b' → SentBalanced b → SentBalanced b' := by
  intro fuel
  induction fuel with
  | zero => intro now offset b b' h; simp [discardLoop] at h
  | succ k ih =>
    intro now offset b b' h hB
    unfold discardLoop at h
    split at h
    · dsimp only at h
      split at h
      · simp at h
      · rename_i b2 hfill
        have hB2 : SentBalanced b2 := by
          split at hfill
          · split at hfill
            · simp at hfill
            · rename_i pp b3 hc
              split at hfill
              · simp at hfill
              · simp only [Except.ok.injEq] at hfill
                subst hfill
                exact CopyFromSequence_balanced _ _ _ _ _ _ _ hc hB
          · simp only [Except.ok.injEq] at hfill
            subst hfill; exact hB
        split at h
        · simp at h
        · rename_i item rest hlist
          split at h
          · apply ih _ _ _ _ h
            by_cases hq : item.m_qided = true
            · simp only [hq, if_true]
              exact balanced_sub_right _ _ _ _ hB2
            · simp only [hq, if_false]
              exact balanced_sub_left _ _ _ _ hB2
          · simp only [Except.ok.injEq] at h
            subst h
            by_cases hq : item.m_qided = true
            · simp only [hq, if_true]
              exact balanced_sub_right _ _ _ _ hB2
            · simp only [hq, if_false]
              exact balanced_sub_left _ _ _ _ hB2
    · simp only [Except.ok.injEq] at h
      subst h; exact hB

theorem discardTail_balanced (seq : Nat) (b : TcpTxBuffer) (hB : SentBalanced b) :
    SentBalanced (discardTail seq b) := by
  unfold discardTail
  dsimp only
  have h1 : SentBalanced (if b.m_size = 0 ∧ b.m_stageSize = 0 then { b with m_firstByteSeq := seq }
      else b) := by
    split
    · exact hB
    · exact hB
  generalize (if b.m_size = 0 ∧ b.m_stageSize = 0 then { b with m_firstByteSeq := seq }
      else b) = c at h1
  have h2 : SentBalanced (match c.m_sentList with
      | [] => c
      | head :: rest =>
        if head.m_sacked = true then
          { c with m_sentList := { head with m_sacked := false } :: rest }
        else c) := by
    split
    · exact h1
    · split
      · exact h1
      · exact h1
  generalize (match c.m_sentList with
      | [] => c
      | head :: rest =>
        if head.m_sacked = true then
          { c with m_sentList := { head with m_sacked := false } :: rest }
        else c) = d at h2
  split
  · exact h2.of_counters rfl rfl rfl
  · exact h2

theorem DiscardUpTo_balanced (fuel seq : Nat) (now : Int) (b b' : TcpTxBuffer)
    (h : DiscardUpTo fuel seq now b = .ok b') (hB : SentBalanced b) : SentBalanced b' := by
  unfold DiscardUpTo at h
  split at h
  · simp only [Except.ok.injEq] at h
    subst h; exact hB
  · split at h
    · simp at h
    · rename_i b2 hbody
      split at h
      · simp only [Except.ok.injEq] at h
        subst h
        unfold DiscardUpToBody at hbody
        split at hbody
        · simp only [Except.ok.injEq] at hbody
          subst hbody; exact hB
        · split at hbody
          · simp at hbody
          · rename_i b3 hl
            simp only [Except.ok.injEq] at hbody
            subst hbody
            exact discardTail_balanced _ _ (discardLoop_balanced _ _ _ _ _ hl hB)
      · simp at h

theorem Update_balanced (blocks : List (Nat × Nat)) (b : TcpTxBuffer) (m : Bool)
    (b' : TcpTxBuffer) (h : Update blocks b = .ok (m, b')) (hB : SentBalanced b) :
    SentBalanced b' := by
  unfold Update at h
  dsimp only at h
  split at h
  · simp at h
  · split at h
    · simp only [Except.ok.injEq, Prod.mk.injEq] at h
      obtain ⟨-, h⟩ := h
      subst h
      exact hB
    · simp at h

theorem SetSentListLost_balanced (b : TcpTxBuffer) (hB : SentBalanced b) :
    SentBalanced (SetSentListLost b) := hB

theorem ResetLastSegmentSent_balanced (b : TcpTxBuffer) (hB : SentBalanced b) :
    SentBalanced (ResetLastSegmentSent b) := by
  unfold ResetLastSegmentSent
  split
  · exact hB
  · dsimp only
    split
    · exact balanced_sub_left _ _ _ _ hB
    · exact balanced_sub_right _ _ _ _ hB

theorem Reachable.balanced {b : TcpTxBuffer} (h : Reachable b) : SentBalanced b := by
  induction h with
  | create n qheader red maxBuffer hn hq hr hm => rfl
  | add rnd p b hp _ ih => exact Add_balanced rnd p b ih
  | copy fuel numBytes seq now b p b' _ hc ih => exact CopyFromSequence_balanced _ _ _ _ _ _ _ hc ih
  | discard fuel seq now b b' hseq _ hd ih => exact DiscardUpTo_balanced _ _ _ _ _ hd ih

/-! ## The units `Add` creates -/

theorem headerArray_take (len qh c1 c2 f : Nat) (h16 : 16 ≤ qh) (hle : qh ≤ len) :
    (headerArray len c1 c2 f).take qh = headerStamp c1 c2 f ++ List.replicate (qh - 16) 0 := by
  unfold headerArray
  rw [List.take_take, Nat.min_eq_left hle]
  have hs : (headerStamp c1 c2 f).length = 16 := rfl
  rw [List.take_append_eq_append_take, hs, List.take_of_length_le (by rw [hs]; exact h16),
    List.take_replicate]
  congr 2
  omega

/-- What an accepted `Add` of a non-empty payload queues when nothing wraps and the header
has at least its sixteen stamped bytes: the two items, byte by byte. -/
theorem Add_accept_packets (rnd : Nat) (p : List Nat) (b : TcpTxBuffer)
    (hp : 0 < p.length)
    (hlt : 5 * (p.length + b.m_qheader + b.m_red) < 4294967296)
    (hacc : (Add rnd p b).1 = true) (h16 : 16 ≤ b.m_qheader) :
    (Add rnd p b).2.m_appList = b.m_appList ++
      [{ TcpTxItem.new with
          m_qided := false
          m_packet := headerStamp b.m_stageQseq b.m_sendQseq (128 + 64 + b.m_qheader / 4)
            ++ List.replicate (b.m_qheader - 16) 0 ++ p ++ List.replicate b.m_red 0 }] ∧
    (Add rnd p b).2.m_qidList = b.m_qidList ++
      [{ TcpTxItem.new with
          m_qided := true
          m_packet := headerStamp (seedEsQseq rnd b).m_esQseq b.m_stageQseq
              (128 + b.m_qheader / 4)
            ++ List.replicate (b.m_qheader - 16) 0
            ++ Encode p (List.replicate (p.length + b.m_red) 0) }] := by
  have hg := (Add_fst_iff rnd p b).1 hacc
  obtain ⟨h1, h2, h3, h4, h5, h6, h7, h8, h9, h10⟩ := seedEsQseq_frame rnd b
  have hA : Available (addEntry rnd b) = Available b := by
    simp only [Available, addEntry, h1, h2, h3]
  have hqh : (addEntry rnd b).m_qheader = b.m_qheader := h4
  have hrd : (addEntry rnd b).m_red = b.m_red := h5
  have hst : (addEntry rnd b).m_stageQseq = b.m_stageQseq := by
    unfold addEntry seedEsQseq; split <;> rfl
  have hsq : (addEntry rnd b).m_sendQseq = b.m_sendQseq := by
    unfold addEntry seedEsQseq; split <;> rfl
  have hes : (addEntry rnd b).m_esQseq = (seedEsQseq rnd b).m_esQseq := rfl
  have hg' := hg
  rw [Nat.mod_eq_of_lt hlt] at hg'
  have hadd : add32 p.length b.m_red = p.length + b.m_red := by unfold add32; omega
  have hqlen : (Encode p (List.replicate (p.length + b.m_red) 0)).length
      = p.length + b.m_red := by
    rw [Encode_length, List.length_replicate]
  have hgq : ((Encode p (List.replicate (p.length + b.m_red) 0)).length
      + (addEntry rnd b).m_qheader + (addEntry rnd b).m_red) % 4294967296
        ≤ Available (addEntry rnd b) := by
    rw [hqlen, hqh, hrd, hA]; omega
  have hQ : Addqed (Encode p (List.replicate (p.length + b.m_red) 0)) (addEntry rnd b)
      = (true, pushQid { TcpTxItem.new with
          m_qided := true
          m_packet := headerStamp (seedEsQseq rnd b).m_esQseq b.m_stageQseq
              (128 + b.m_qheader / 4)
            ++ List.replicate (b.m_qheader - 16) 0
            ++ Encode p (List.replicate (p.length + b.m_red) 0) }
          (p.length + b.m_qheader + b.m_red) (addEntry rnd b)) := by
    unfold Addqed
    rw [if_pos hgq, if_pos (by rw [hqlen]; omega)]
    dsimp only
    rw [hqh, hst, hes, headerArray_take _ _ _ _ _ h16 (Nat.le_refl _)]
    unfold pushQid
    have hlen : (headerStamp (seedEsQseq rnd b).m_esQseq b.m_stageQseq (128 + b.m_qheader / 4)
        ++ List.replicate (b.m_qheader - 16) 0
        ++ Encode p (List.replicate (p.length + b.m_red) 0)).length
        = p.length + b.m_qheader + b.m_red := by
      rw [List.length_append, List.length_append, hqlen, List.length_replicate]
      have : (headerStamp (seedEsQseq rnd b).m_esQseq b.m_stageQseq
        (128 + b.m_qheader / 4)).length = 16 := rfl
      omega
    rw [hlen]
    simp only [hqh, hst, hes]
  have hq2 : (pushQid { TcpTxItem.new with
          m_qided := true
          m_packet := headerStamp (seedEsQseq rnd b).m_esQseq b.m_stageQseq
              (128 + b.m_qheader / 4)
            ++ List.replicate (b.m_qheader - 16) 0
            ++ Encode p (List.replicate (p.length + b.m_red) 0) }
          (p.length + b.m_qheader + b.m_red) (addEntry rnd b)).m_qheader = b.m_qheader := h4
  generalize hy : ({ TcpTxItem.new with
          m_qided := true
          m_packet := headerStamp (seedEsQseq rnd b).m_esQseq b.m_stageQseq
              (128 + b.m_qheader / 4)
            ++ List.replicate (b.m_qheader - 16) 0
            ++ Encode p (List.replicate (p.length + b.m_red) 0) } : TcpTxItem) = y at hQ hq2 ⊢
  have hr2 : (pushQid y (p.length + b.m_qheader + b.m_red) (addEntry rnd b)).m_red
      = b.m_red := h5
  have hst2 : (pushQid y (p.length + b.m_qheader + b.m_red) (addEntry rnd b)).m_stageQseq
      = b.m_stageQseq := hst
  have hsq2 : (pushQid y (p.length + b.m_qheader + b.m_red) (addEntry rnd b)).m_sendQseq
      = b.m_sendQseq := hsq
  have hAv : p.length + b.m_qheader + b.m_red
      ≤ Available (pushQid y (p.length + b.m_qheader + b.m_red) (addEntry rnd b)) := by
    have : Available (pushQid y (p.length + b.m_qheader + b.m_red) (addEntry rnd b))
        = sub32 (sub32 b.m_maxBuffer b.m_size)
            (add32 b.m_stageSize (p.length + b.m_qheader + b.m_red)) := by
      simp only [Available, pushQid, addEntry, h1, h2, h3]
    rw [this, sub32_add32, sub32_of_le _ _ (sub32_lt _ _) (by unfold Available at hg'; omega)]
    unfold Available at hg'; omega
  have hP : Addapp p (pushQid y (p.length + b.m_qheader + b.m_red) (addEntry rnd b))
      = (true, pushApp { TcpTxItem.new with
          m_qided := false
          m_packet := headerStamp b.m_stageQseq b.m_sendQseq (128 + 64 + b.m_qheader / 4)
            ++ List.replicate (b.m_qheader - 16) 0 ++ p ++ List.replicate b.m_red 0 }
          (p.length + b.m_qheader + b.m_red)
          (pushQid y (p.length + b.m_qheader + b.m_red) (addEntry rnd b))) := by
    unfold Addapp
    rw [hq2, hr2, hst2, hsq2, Nat.mod_eq_of_lt (by omega : p.length + b.m_qheader + b.m_red
      < 4294967296), if_pos hAv, if_pos hp]
    dsimp only
    rw [headerArray_take _ _ _ _ _ h16 (by omega), List.take_replicate,
      Nat.min_eq_left (by omega : b.m_red ≤ p.length + b.m_qheader + b.m_red)]
    unfold pushApp
    have hlen : (headerStamp b.m_stageQseq b.m_sendQseq (128 + 64 + b.m_qheader / 4)
        ++ List.replicate (b.m_qheader - 16) 0 ++ p ++ List.replicate b.m_red 0).length
        = p.length + b.m_qheader + b.m_red := by
      rw [List.length_append, List.length_append, List.length_append, List.length_replicate,
        List.length_replicate]
      have : (headerStamp b.m_stageQseq b.m_sendQseq (128 + 64 + b.m_qheader / 4)).length
        = 16 := rfl
      omega
    rw [hlen]
    simp only [hq2, hr2, hst2, hsq2]
  rw [Add_eq, if_pos hg, hadd, hQ]
  dsimp only
  rw [hP]
  constructor
  · simp only [advanceQseq, pushApp, pushQid, addEntry, h8]
  · simp only [advanceQseq, pushApp, pushQid, addEntry, h9]

theorem headerStamp_zero (c1 c2 f n : Nat) (rest : List Nat) (i : Nat) (h13 : 13 ≤ i)
    (hi : i < 16 + n) :
    (headerStamp c1 c2 f ++ List.replicate n 0 ++ rest)[i]? = some 0 := by
  by_cases h : i < 16
  · interval_cases i <;> simp [headerStamp]
  · have hs : (headerStamp c1 c2 f).length = 16 := rfl
    rw [List.append_assoc, List.getElem?_append_right (by rw [hs]; omega), hs,
      List.getElem?_append_left (by rw [List.length_replicate]; omega),
      List.getElem?_replicate]
    rw [if_pos (by omega)]

theorem headerStamp_drop (c1 c2 f qh : Nat) (rest : List Nat) (h16 : 16 ≤ qh) :
    (headerStamp c1 c2 f ++ List.replicate (qh - 16) 0 ++ rest).drop qh = rest := by
  have hs : (headerStamp c1 c2 f).length = 16 := rfl
  apply List.drop_left'
  rw [List.length_append, hs, List.length_replicate]
  omega

theorem sixteen_le_of_multiple (n : Nat) (hmul : n % 16 = 0) (hpos : 0 < n) : 16 ≤ n := by
  omega


/-! ## The stream a new segment is taken from -/

theorem MergeItems_qided (t1 t2 : TcpTxItem) : (MergeItems t1 t2).m_qided = t1.m_qided := by
  unfold MergeItems
  dsimp only
  split <;> split <;> split <;> split <;> rfl

theorem GetPacketFromList_tags : ∀ (fuel : Nat) (list : List TcpTxItem)
    (start n seq : Nat) (edits : List ListEdit) (list' : List TcpTxItem) (i : Nat)
    (edits' : List ListEdit),
    GetPacketFromList fuel list start n seq edits = .ok (list', i, edits') →
    (∀ x ∈ list, x.m_qided = true) → ∀ x ∈ list', x.m_qided = true := by
  intro fuel
  induction fuel with
  | zero => intro list start n seq edits list' i edits' h; simp [GetPacketFromList] at h
  | succ k ih =>
    intro list start n seq edits list' i edits' h hall
    unfold GetPacketFromList at h
    cases hfind : findItem seq list start 0 with
    | none => simp [hfind] at h
    | some r =>
      obtain ⟨j, bg⟩ := r
      simp only [hfind] at h
      cases hcur : list[j]? with
      | none => simp [hcur] at h
      | some cur =>
        simp only [hcur] at h
        have hc : cur.m_qided = true := hall cur (List.getElem?_mem hcur)
        have hsplit : ∀ (m : Nat), ∀ x ∈ list.take j ++
            (SplitItems TcpTxItem.new cur m).1 :: (SplitItems TcpTxItem.new cur m).2
              :: list.drop (j + 1), x.m_qided = true := by
          intro m x hx
          rw [List.mem_append, List.mem_cons, List.mem_cons] at hx
          rcases hx with hx | hx | hx | hx
          · exact hall x (List.mem_of_mem_take hx)
          · rw [hx]; exact hc
          · rw [hx]; exact hc
          · exact hall x (List.mem_of_mem_drop hx)
        split at h
        · split at h
          · split at h
            · simp only [Except.ok.injEq, Prod.mk.injEq] at h
              obtain ⟨h1, -, -⟩ := h
              subst h1
              exact hall
            · split at h
              · simp only [Except.ok.injEq, Prod.mk.injEq] at h
                obtain ⟨h1, -, -⟩ := h
                subst h1
                exact hsplit n
              · simp at h
          · cases hnext : list[j + 1]? with
            | none =>
              simp only [hnext, Except.ok.injEq, Prod.mk.injEq] at h
              obtain ⟨h1, -, -⟩ := h
              subst h1
              exact hall
            | some next =>
              simp only [hnext] at h
              apply ih _ _ _ _ _ _ _ _ h
              intro x hx
              rw [List.mem_append, List.mem_cons] at hx
              rcases hx with hx | hx | hx
              · exact hall x (List.mem_of_mem_take hx)
              · rw [hx, MergeItems_qided]; exact hc
              · exact hall x (List.mem_of_mem_drop hx)
        · split at h
          · exact ih _ _ _ _ _ _ _ _ h (hsplit _)
          · simp at h

theorem mem_set_tags (l : List TcpTxItem) (i : Nat) (a : TcpTxItem)
    (hall : ∀ x ∈ l, x.m_qided = true) (ha : a.m_qided = true) :
    ∀ x ∈ l.set i a, x.m_qided = true := by
  intro x hx
  rcases List.mem_or_eq_of_mem_set hx with h | h
  · exact hall x h
  · rw [h]; exact ha

theorem resegmented_tags (list : List TcpTxItem) (edits : List ListEdit) (b : TcpTxBuffer) :
    (resegmented list edits b).m_sentList = list
      ∧ (resegmented list edits b).m_qednum = b.m_qednum
      ∧ (resegmented list edits b).m_appList = b.m_appList := by
  unfold resegmented
  dsimp only
  split <;> exact ⟨rfl, rfl, rfl⟩

theorem Addqednew_tags (item : TcpTxItem) (b : TcpTxBuffer) (item' : TcpTxItem)
    (b' : TcpTxBuffer) (h : Addqednew item b = .ok (item', b')) :
    item'.m_qided = item.m_qided ∧ b'.m_sentList = b.m_sentList ∧ b'.m_qednum = b.m_qednum
      ∧ b'.m_appList = b.m_appList := by
  unfold Addqednew at h
  split at h
  · dsimp only at h
    split at h
    · cases h
    · simp only [Except.ok.injEq, Prod.mk.injEq] at h
      obtain ⟨h1, h2⟩ := h
      subst h1; subst h2
      exact ⟨rfl, rfl, rfl, rfl⟩
  · simp only [Except.ok.injEq, Prod.mk.injEq] at h
    obtain ⟨h1, h2⟩ := h
    subst h1; subst h2
    exact ⟨rfl, rfl, rfl, rfl⟩

theorem GetTransmittedSegment_tags (fuel n seq : Nat) (b : TcpTxBuffer) (i : Nat)
    (b' : TcpTxBuffer) (h : GetTransmittedSegment fuel n seq b = .ok (i, b'))
    (hA : AllAux b) : AllAux b' ∧ b'.m_appList = b.m_appList := by
  unfold GetTransmittedSegment at h
  split at h
  · cases h
  · split at h
    · cases h
    · split at h
      · cases h
      · rename_i list j edits hg
        have hl := GetPacketFromList_tags _ _ _ _ _ _ _ _ _ hg hA.2
        obtain ⟨r1, r2, r3⟩ := resegmented_tags list edits b
        split at h
        · cases h
        · rename_i item hitem
          have hit : item.m_qided = true := hl item (List.getElem?_mem hitem)
          split at h
          · split at h
            · cases h
            · rename_i item' b2 ha
              obtain ⟨a1, a2, a3, a4⟩ := Addqednew_tags _ _ _ _ ha
              simp only [Except.ok.injEq, Prod.mk.injEq] at h
              obtain ⟨-, h⟩ := h
              subst h
              refine ⟨⟨?_, ?_⟩, ?_⟩
              · show b2.m_qednum = 0
                rw [a3, r2]; exact hA.1
              · show ∀ x ∈ b2.m_sentList.set j item', x.m_qided = true
                rw [a2, r1]
                exact mem_set_tags _ _ _ hl (by rw [a1]; exact hit)
              · show b2.m_appList = _
                rw [a4, r3]
          · simp only [Except.ok.injEq, Prod.mk.injEq] at h
            obtain ⟨-, h⟩ := h
            subst h
            exact ⟨⟨by rw [r2]; exact hA.1, by rw [r1]; exact hl⟩, r3⟩

/-- `GetNewSegment` takes its item from `m_qidList` when `m_stage` is 1 and from
`m_appList` otherwise; the other pending list is not touched. -/
theorem GetNewSegment_source (fuel n : Nat) (b : TcpTxBuffer) (i : Nat) (b' : TcpTxBuffer)
    (h : GetNewSegment fuel n b = .ok (i, b')) :
    (b.m_stage = 1 → b'.m_appList = b.m_appList) ∧
    (b.m_stage ≠ 1 → b'.m_qidList = b.m_qidList) := by
  unfold GetNewSegment at h
  split at h
  · rename_i hs
    dsimp only at h
    split at h
    · cases h
    · split at h
      · cases h
      · simp only [Except.ok.injEq, Prod.mk.injEq] at h
        obtain ⟨-, h⟩ := h
        subst h
        exact ⟨fun _ => rfl, fun hn => absurd hs hn⟩
  · rename_i hs
    dsimp only at h
    split at h
    · cases h
    · split at h
      · cases h
      · simp only [Except.ok.injEq, Prod.mk.injEq] at h
        obtain ⟨-, h⟩ := h
        subst h
        exact ⟨fun hn => absurd hn hs, fun _ => rfl⟩

theorem finishCopy_tags (s i : Nat) (now : Int) (b : TcpTxBuffer) (p : List Nat)
    (b' : TcpTxBuffer) (h : finishCopy s i now b = .ok (p, b')) (hA : AllAux b) :
    AllAux b' ∧ b'.m_appList = b.m_appList ∧ b'.m_qidList = b.m_qidList := by
  obtain ⟨x, hx, -, -, hb⟩ := finishCopy_ok _ _ _ _ _ _ h
  subst hb
  refine ⟨⟨hA.1, ?_⟩, rfl, rfl⟩
  exact mem_set_tags _ _ _ hA.2 (hA.2 x (List.getElem?_mem hx))

theorem GetNewSegment_tags (fuel n : Nat) (b : TcpTxBuffer) (i : Nat) (b' : TcpTxBuffer)
    (h : GetNewSegment fuel n b = .ok (i, b')) (hA : AllAux b) (hs : b.m_stage = 1) :
    AllAux b' ∧ b'.m_appList = b.m_appList := by
  obtain ⟨-, -, x, hx⟩ := GetNewSegment_ok _ _ _ _ _ h
  refine ⟨⟨?_, ?_⟩, (GetNewSegment_source _ _ _ _ _ h).1 hs⟩
  · rw [hx.qednum, if_pos hs]; exact hA.1
  · intro y hy
    rw [hx.sentList, List.mem_append, List.mem_singleton] at hy
    rcases hy with hy | hy
    · exact hA.2 y hy
    · rw [hy, hx.tag]
      simp [hs]

theorem CopyFromSequence_tags : ∀ (fuel n seq : Nat) (now : Int) (b : TcpTxBuffer)
    (p : List Nat) (b' : TcpTxBuffer),
    CopyFromSequence fuel n seq now b = .ok (p, b') → AllAux b →
    AllAux b' ∧ b'.m_appList = b.m_appList := by
  intro fuel
  induction fuel with
  | zero => intro n seq now b p b' h; simp [CopyFromSequence] at h
  | succ k ih =>
    intro n seq now b p b' h hA
    unfold CopyFromSequence at h
    by_cases hgt : seqGt b.m_firstByteSeq seq
    · simp only [hgt, if_true, Except.ok.injEq, Prod.mk.injEq] at h
      rw [← h.2]; exact ⟨hA, rfl⟩
    · simp only [hgt, if_false] at h
      by_cases hz : min n (SizeFromSequence b seq) = 0
      · simp only [hz, if_true, Except.ok.injEq, Prod.mk.injEq] at h
        rw [← h.2]; exact ⟨hA, rfl⟩
      · simp only [hz, if_false] at h
        by_cases hsent : seqGe (seqAdd b.m_firstByteSeq b.m_sentSize)
            (seqAdd seq (min n (SizeFromSequence b seq)))
        · simp only [hsent, if_true] at h
          split at h
          · simp at h
          · rename_i i b2 hg
            obtain ⟨g1, g2⟩ := GetTransmittedSegment_tags _ _ _ _ _ _ hg hA
            split at h
            · simp at h
            · rename_i outItem hout
              have hA3 : AllAux { b2 with
                  m_sentList := b2.m_sentList.set i ({ outItem with m_retrans := true }) } :=
                ⟨g1.1, mem_set_tags _ _ _ g1.2 (g1.2 outItem (List.getElem?_mem hout))⟩
              obtain ⟨f1, f2, -⟩ := finishCopy_tags _ _ _ _ _ _ h hA3
              exact ⟨f1, by rw [f2]; exact g2⟩
        · simp only [hsent, if_false] at h
          generalize (if 0 < b.m_qednum then
              min (min n (SizeFromSequence b seq)) (sub32 b.m_size b.m_appsentSize)
            else min (min n (SizeFromSequence b seq)) (sub32 b.m_stageSize b.m_stagesentSize))
            = s' at h
          have hAc : AllAux (chooseStage b) := hA
          have hst : (chooseStage b).m_stage = 1 := by
            unfold chooseStage
            simp [hA.1]
          have hap : (chooseStage b).m_appList = b.m_appList := rfl
          by_cases hle : seqLe (seqAdd (chooseStage b).m_firstByteSeq (chooseStage b).m_sentSize)
              seq
          · simp only [hle, if_true] at h
            split at h
            · simp at h
            · split at h
              · simp at h
              · rename_i i bm hg
                obtain ⟨g1, g2⟩ := GetNewSegment_tags _ _ _ _ _ hg hAc hst
                split at h
                · simp at h
                · split at h
                  · obtain ⟨f1, f2, -⟩ := finishCopy_tags _ _ _ _ _ _ h g1
                    exact ⟨f1, by rw [f2, g2, hap]⟩
                  · simp at h
          · simp only [hle, if_false] at h
            split at h
            · split at h
              · simp at h
              · rename_i i bm hg
                obtain ⟨g1, g2⟩ := GetNewSegment_tags _ _ _ _ _ hg hAc hst
                obtain ⟨f1, f2⟩ := ih _ _ _ _ _ _ h g1
                exact ⟨f1, by rw [f2, g2, hap]⟩
            · simp at h

theorem Add_tags (rnd : Nat) (p : List Nat) (b : TcpTxBuffer) :
    (Add rnd p b).2.m_qednum = b.m_qednum := by
  have hs : (seedEsQseq rnd b).m_qednum = b.m_qednum := by
    unfold seedEsQseq; split <;> rfl
  have hq : ∀ q c, (Addqed q c).2.m_qednum = c.m_qednum := by
    intro q c; unfold Addqed; split <;> [split; skip] <;> rfl
  have ha : ∀ q c, (Addapp q c).2.m_qednum = c.m_qednum := by
    intro q c; unfold Addapp; split <;> [split; skip] <;> rfl
  unfold Add
  dsimp only
  split
  · show (Addapp p _).2.m_qednum = _
    rw [ha, hq]; exact hs
  · exact hs

theorem updateScan_tags (blk : Nat × Nat) : ∀ (l : List TcpTxItem) (i begin : Nat)
    (hs : SentIter × Nat) (m : Bool), (∀ x ∈ l, x.m_qided = true) →
    ∀ x ∈ (updateScan blk l i begin hs m).1, x.m_qided = true := by
  intro l
  induction l with
  | nil => intro i begin hs m hall; exact hall
  | cons a as ih =>
    intro i begin hs m hall
    have ha : a.m_qided = true := hall a (List.mem_cons_self _ _)
    have has : ∀ x ∈ as, x.m_qided = true := fun x hx => hall x (List.mem_cons_of_mem _ hx)
    unfold updateScan
    split
    · split
      · intro x hx
        rw [List.mem_cons] at hx
        rcases hx with hx | hx
        · rw [hx]; exact ha
        · exact ih _ _ _ _ has x hx
      · intro x hx
        rw [List.mem_cons] at hx
        rcases hx with hx | hx
        · rw [hx]; exact ha
        · exact ih _ _ _ _ has x hx
    · split
      · exact hall
      · intro x hx
        rw [List.mem_cons] at hx
        rcases hx with hx | hx
        · rw [hx]; exact ha
        · exact ih _ _ _ _ has x hx

theorem updateBlocks_tags (first : Nat) : ∀ (blocks : List (Nat × Nat))
    (acc : List TcpTxItem × (SentIter × Nat) × Bool), (∀ x ∈ acc.1, x.m_qided = true) →
    ∀ x ∈ (updateBlocks first blocks acc).1, x.m_qided = true := by
  intro blocks
  induction blocks with
  | nil => intro acc h; exact h
  | cons blk rest ih =>
    intro acc h
    unfold updateBlocks
    exact ih _ (updateScan_tags blk _ _ _ _ _ h)

theorem Update_tags (blocks : List (Nat × Nat)) (b : TcpTxBuffer) (m : Bool)
    (b' : TcpTxBuffer) (h : Update blocks b = .ok (m, b')) (hA : AllAux b) : AllAux b' := by
  have ht := updateBlocks_tags b.m_firstByteSeq blocks (b.m_sentList, b.m_highestSack, false)
    hA.2
  unfold Update at h
  dsimp only at h
  split at h
  · simp at h
  · split at h
    · simp only [Except.ok.injEq, Prod.mk.injEq] at h
      obtain ⟨-, h⟩ := h
      subst h
      exact ⟨hA.1, ht⟩
    · simp at h

theorem ResetLastSegmentSent_tags (b : TcpTxBuffer) (hA : AllAux b) :
    AllAux (ResetLastSegmentSent b) := by
  unfold ResetLastSegmentSent
  split
  · exact hA
  · dsimp only
    split
    · exact ⟨hA.1, fun x hx => hA.2 x (List.mem_of_mem_dropLast hx)⟩
    · exact ⟨hA.1, fun x hx => hA.2 x (List.mem_of_mem_dropLast hx)⟩

theorem NeverAcked.allAux {b : TcpTxBuffer} (h : NeverAcked b) : AllAux b := by
  induction h with
  | create n qheader red => exact ⟨rfl, fun x hx => by cases hx⟩
  | setMax n b _ ih => exact ih
  | setHead seq b b' _ hs ih =>
    unfold SetHeadSequence at hs
    dsimp only at hs
    split at hs
    · simp only [Except.ok.injEq] at hs
      subst hs
      exact ih
    · cases hs
  | add rnd p b _ ih =>
    exact ⟨by rw [Add_tags]; exact ih.1, by rw [(Add_sent rnd p b).1]; exact ih.2⟩
  | copy fuel numBytes seq now b p b' _ hc ih => exact (CopyFromSequence_tags _ _ _ _ _ _ _ hc ih).1
  | update blocks b modified b' _ hu ih => exact Update_tags _ _ _ _ hu ih
  | lost b _ ih =>
    refine ⟨ih.1, ?_⟩
    intro x hx
    unfold SetSentListLost at hx
    simp only [List.mem_map] at hx
    obtain ⟨y, hy, e⟩ := hx
    rw [← e]
    exact ih.2 y hy
  | resetLast b _ ih => exact ResetLastSegmentSent_tags b ih

theorem CopyFromSequence_new_source (fuel n : Nat) (now : Int) (b : TcpTxBuffer) (p : List Nat)
    (b1 : TcpTxBuffer)
    (hs : min n (SizeFromSequence b (seqAdd b.m_firstByteSeq b.m_sentSize)) < 2147483648)
    (h : CopyFromSequence fuel n (seqAdd b.m_firstByteSeq b.m_sentSize) now b = .ok (p, b1))
    (hp : p ≠ []) :
    (0 < b.m_qednum → b1.m_qidList = b.m_qidList) ∧
    (b.m_qednum = 0 → b1.m_appList = b.m_appList) := by
  have hge : ¬ seqGt b.m_firstByteSeq (seqAdd b.m_firstByteSeq b.m_sentSize) := by
    intro hgt
    cases fuel with
    | zero => simp [CopyFromSequence] at h
    | succ k =>
      unfold CopyFromSequence at h
      simp only [hgt, if_true, Except.ok.injEq, Prod.mk.injEq] at h
      exact hp h.1.symm
  have hz : ¬ min n (SizeFromSequence b (seqAdd b.m_firstByteSeq b.m_sentSize)) = 0 := by
    intro hz
    cases fuel with
    | zero => simp [CopyFromSequence] at h
    | succ k =>
      unfold CopyFromSequence at h
      simp only [hge, if_false, hz, if_true, Except.ok.injEq, Prod.mk.injEq] at h
      exact hp h.1.symm
  have hnew := not_seqGe_add (seqAdd b.m_firstByteSeq b.m_sentSize) _
    (by unfold seqAdd; omega) (Nat.pos_of_ne_zero hz) hs
  cases fuel with
  | zero => simp [CopyFromSequence] at h
  | succ k =>
    unfold CopyFromSequence at h
    simp only [hge, if_false] at h
    simp only [hz, if_false, hnew] at h
    have hf : (chooseStage b).m_firstByteSeq = b.m_firstByteSeq := rfl
    have hss : (chooseStage b).m_sentSize = b.m_sentSize := rfl
    have hle : seqLe (seqAdd b.m_firstByteSeq b.m_sentSize)
        (seqAdd b.m_firstByteSeq b.m_sentSize) := by
      unfold seqLe seqGt; omega
    simp only [hf, hss, hle, if_true, ne_eq, not_true_eq_false, if_false] at h
    split at h
    · simp at h
    · rename_i i bm hg
      obtain ⟨g1, g2⟩ := GetNewSegment_source _ _ _ _ _ hg
      split at h
      · simp at h
      · split at h
        · obtain ⟨y, -, -, -, hy4⟩ := finishCopy_ok _ _ _ _ _ _ h
          have e1 : b1.m_qidList = bm.m_qidList := by rw [hy4]
          have e2 : b1.m_appList = bm.m_appList := by rw [hy4]
          constructor
          · intro hq
            rw [e1]
            exact g2 (by unfold chooseStage; simp [hq])
          · intro hq
            rw [e2]
            exact g1 (by unfold chooseStage; simp [hq])
        · simp at h

/-! ## Acknowledgement of the item in front of a SACKed one -/

/-- One turn of the loop of `DiscardUpTo` that removes exactly the head item. -/
theorem discardLoop_one (b : TcpTxBuffer) (y : TcpTxItem) (rest : List TcpTxItem)
    (fuel : Nat) (now : Int) (hlist : b.m_sentList = y :: rest) (hy : 0 < y.size)
    (hsize : 0 < b.m_size)
    (hcount : 0 < add32 b.m_size b.m_stageSize) :
    ∃ b1 : TcpTxBuffer, discardLoop (fuel + 2) now y.size b = .ok b1 ∧
      b1.m_sentList = rest ∧ b1.m_firstByteSeq = seqAdd b.m_firstByteSeq y.size ∧
      b1.m_highestSack = (b.m_highestSack.1.afterEdit (.erase 0), b.m_highestSack.2) := by
  have h0 : sub32 y.size y.size = 0 := by unfold sub32; omega
  have hne : ¬ b.m_sentList = [] := by rw [hlist]; simp
  unfold discardLoop
  rw [if_pos ⟨hsize, hcount, hy⟩]
  simp only [hne, if_false]
  rw [hlist]
  dsimp only
  rw [if_pos (Nat.le_refl _), h0]
  unfold discardLoop
  by_cases hq : y.m_qided = true
  · simp only [hq, if_true]
    rw [if_neg (by omega)]
    exact ⟨_, rfl, rfl, rfl, rfl⟩
  · simp only [hq, if_false]
    rw [if_neg (by omega)]
    exact ⟨_, rfl, rfl, rfl, rfl⟩

/-- The statements of `DiscardUpTo` behind its loop, when the head is already at `seq`
and `m_highestSack.second` lies behind it: the SACK flag of the head item is cleared. -/
theorem discardTail_head (b : TcpTxBuffer) (head : TcpTxItem) (rest : List TcpTxItem)
    (hl : b.m_sentList = head :: rest)
    (hnr : ¬ seqLe b.m_highestSack.2 b.m_firstByteSeq) :
    (discardTail b.m_firstByteSeq b).m_sentList = { head with m_sacked := false } :: rest ∧
    (discardTail b.m_firstByteSeq b).m_firstByteSeq = b.m_firstByteSeq ∧
    (discardTail b.m_firstByteSeq b).m_highestSack = b.m_highestSack := by
  unfold discardTail
  dsimp only
  by_cases hz : b.m_size = 0 ∧ b.m_stageSize = 0
  · rw [if_pos hz]
    dsimp only
    rw [hl]
    dsimp only
    by_cases hs : head.m_sacked = true
    · rw [if_pos hs]
      dsimp only
      rw [if_neg hnr]
      exact ⟨rfl, rfl, rfl⟩
    · rw [if_neg hs]
      dsimp only
      rw [if_neg hnr]
      have hf : head.m_sacked = false := by simpa using hs
      refine ⟨?_, rfl, rfl⟩
      show head :: rest = _
      congr 1
      cases head
      simp only at hf
      subst hf
      rfl
  · rw [if_neg hz, hl]
    dsimp only
    by_cases hs : head.m_sacked = true
    · rw [if_pos hs]
      dsimp only
      rw [if_neg hnr]
      exact ⟨rfl, rfl, rfl⟩
    · rw [if_neg hs, if_neg hnr]
      have hf : head.m_sacked = false := by simpa using hs
      refine ⟨?_, rfl, rfl⟩
      rw [hl]
      congr 1
      cases head
      simp only at hf
      subst hf
      rfl

/-- `BytesInFlight` on a sent list of two items that are not SACKed, with
`m_highestSack.first` at the second one: each item counts unless it is flagged lost. -/
theorem BytesInFlight_two (b : TcpTxBuffer) (v w : TcpTxItem) (x d s : Nat)
    (hl : b.m_sentList = [v, w]) (hv : v.m_sacked = false) (hw : w.m_sacked = false)
    (hhs : b.m_highestSack = (.atNode 1, x)) (hx : ¬ seqGe b.m_firstByteSeq x)
    (hlen : v.size + w.size < 4294967296) :
    BytesInFlight d s b
      = .ok ((if v.m_lost = true then 0 else v.size) + (if w.m_lost = true then 0 else w.size)) := by
  have e0 : IsLostAt b b.m_firstByteSeq 0 d s = .ok (v.m_lost) := by
    unfold IsLostAt
    rw [hl, hhs]
    simp only [List.getElem?_cons_zero, List.drop_zero, hv]
    by_cases hlost : v.m_lost = true
    · rw [if_pos hlost, hlost]
    · rw [if_neg hlost, if_neg (by simp)]
      unfold isLostLoop
      rw [if_neg (by simp), if_neg (by simp), if_neg hx]
      simp only [hv, Bool.false_eq_true, if_false]
      unfold isLostLoop
      rw [if_neg (by simp), if_pos rfl]
      simp only [Bool.not_eq_true] at hlost
      rw [hlost]
  have e1 : IsLostAt b (seqAdd b.m_firstByteSeq v.size) 1 d s = .ok (w.m_lost) := by
    unfold IsLostAt
    rw [hl, hhs]
    simp only [List.getElem?_cons_succ, List.getElem?_cons_zero, List.drop_succ_cons,
      List.drop_zero, hw]
    by_cases hlost : w.m_lost = true
    · rw [if_pos hlost, hlost]
    · rw [if_neg hlost, if_neg (by simp)]
      unfold isLostLoop
      rw [if_neg (by simp), if_pos rfl]
      simp only [Bool.not_eq_true] at hlost
      rw [hlost]
  unfold BytesInFlight
  rw [hl]
  unfold bytesInFlightLoop
  rw [if_pos hv, e0]
  unfold bytesInFlightLoop
  rw [if_pos hw]
  simp only [Nat.zero_add]
  rw [e1]
  unfold bytesInFlightLoop
  have a0 : add32 0 v.size = v.size := by unfold add32; omega
  have a1 : add32 v.size w.size = v.size + w.size := by unfold add32; omega
  have a2 : add32 0 w.size = w.size := by unfold add32; omega
  cases hvl : v.m_lost <;> cases hwl : w.m_lost <;> simp [a0, a1, a2, hw]

/-! ## Small facts used by the recovery operations -/

theorem seqLt_iff_seqGt (a b : Nat) : seqLt a b ↔ seqGt b a := by
  unfold seqLt seqGt; omega

theorem getLast?_append_single (pre : List TcpTxItem) (x : TcpTxItem) :
    (pre ++ [x]).getLast? = some x := by
  simp

theorem dropLast_append_single (pre : List TcpTxItem) (x : TcpTxItem) :
    (pre ++ [x]).dropLast = pre := by
  simp


/-! ## The reset of the sent list -/

theorem clearMoved_markBack (x : TcpTxItem) : clearMoved (markBack x) = markBack x := rfl

theorem markLast_concat (l : List TcpTxItem) (x : TcpTxItem) :
    markLast (l ++ [x]) = l ++ [markBack x] := by
  unfold markLast
  rw [getLast?_append_single, dropLast_append_single]

theorem trimmedBack_concat (l : List TcpTxItem) (x : TcpTxItem) :
    trimmedBack (l ++ [x]) = l.map markBack ++ [clearMoved x] := by
  unfold trimmedBack
  rw [getLast?_append_single, dropLast_append_single]

theorem eq_nil_or_concat_items (l : List TcpTxItem) :
    l = [] ∨ ∃ (t : List TcpTxItem) (x : TcpTxItem), l = t ++ [x] := by
  rcases List.eq_nil_or_concat l with h | ⟨t, x, h⟩
  · exact Or.inl h
  · exact Or.inr ⟨t, x, by rw [h]; simp⟩

theorem markLast_length (l : List TcpTxItem) : (markLast l).length = l.length := by
  rcases eq_nil_or_concat_items l with h | ⟨t, x, h⟩
  · rw [h]; rfl
  · rw [h, markLast_concat]; simp

theorem trimmedBack_markLast (t : List TcpTxItem) :
    trimmedBack (markLast t) = t.map markBack := by
  rcases eq_nil_or_concat_items t with h | ⟨t', y, h⟩
  · rw [h]; rfl
  · rw [h, markLast_concat, trimmedBack_concat, clearMoved_markBack]
    simp

theorem markLast_append (keep t : List TcpTxItem) (ht : t ≠ []) :
    markLast (keep ++ t) = keep ++ markLast t := by
  rcases eq_nil_or_concat_items t with h | ⟨t', y, h⟩
  · exact absurd h ht
  · rw [h, ← List.append_assoc, markLast_concat, markLast_concat, List.append_assoc]

theorem markLast_ne_nil (t : List TcpTxItem) (ht : t ≠ []) : markLast t ≠ [] := by
  intro h
  have := markLast_length t
  rw [h] at this
  exact ht (List.length_eq_zero.1 this.symm)

/-- One turn of the loop of `ResetSentList` on a sent list `pre ++ [x]`. -/
theorem resetSentStep_eq (b : TcpTxBuffer) (pre : List TcpTxItem) (x : TcpTxItem)
    (hl : b.m_sentList = pre ++ [x]) :
    (resetSentStep b).m_sentList = markLast pre ∧
    (resetSentStep b).m_appList
      = [clearMoved x].filter (fun y => !y.m_qided) ++ b.m_appList ∧
    (resetSentStep b).m_qidList
      = [clearMoved x].filter (fun y => y.m_qided) ++ b.m_qidList ∧
    (resetSentStep b).m_firstByteSeq = b.m_firstByteSeq ∧
    (resetSentStep b).m_size = b.m_size ∧
    (resetSentStep b).m_stageSize = b.m_stageSize ∧
    (resetSentStep b).m_esQseq = b.m_esQseq ∧
    (resetSentStep b).m_stageQseq = b.m_stageQseq ∧
    (resetSentStep b).m_sendQseq = b.m_sendQseq := by
  unfold resetSentStep
  rw [hl, getLast?_append_single, dropLast_append_single]
  dsimp only
  by_cases hq : x.m_qided = true
  · rw [if_pos hq]
    have hf : [clearMoved x].filter (fun y => !y.m_qided) = [] := by
      simp [clearMoved, hq]
    have ht : [clearMoved x].filter (fun y => y.m_qided) = [clearMoved x] := by
      simp [clearMoved, hq]
    rw [hf, ht]
    rcases eq_nil_or_concat_items pre with h | ⟨t, y, h⟩
    · subst h
      exact ⟨rfl, rfl, rfl, rfl, rfl, rfl, rfl, rfl, rfl⟩
    · subst h
      rw [getLast?_append_single, dropLast_append_single, markLast_concat]
      exact ⟨rfl, rfl, rfl, rfl, rfl, rfl, rfl, rfl, rfl⟩
  · rw [if_neg hq]
    have hq' : x.m_qided = false := by simpa using hq
    have hf : [clearMoved x].filter (fun y => !y.m_qided) = [clearMoved x] := by
      simp [clearMoved, hq']
    have ht : [clearMoved x].filter (fun y => y.m_qided) = [] := by
      simp [clearMoved, hq']
    rw [hf, ht]
    rcases eq_nil_or_concat_items pre with h | ⟨t, y, h⟩
    · subst h
      exact ⟨rfl, rfl, rfl, rfl, rfl, rfl, rfl, rfl, rfl⟩
    · subst h
      rw [getLast?_append_single, dropLast_append_single, markLast_concat]
      exact ⟨rfl, rfl, rfl, rfl, rfl, rfl, rfl, rfl, rfl⟩

/-- The loop of `ResetSentList` on a sent list `keep ++ trim`, asked to keep
`keep.length` items, with enough turns for `trim`. -/
theorem resetSentLoop_eq : ∀ (n : Nat) (b : TcpTxBuffer) (keep trim : List TcpTxItem)
    (k : Nat), b.m_sentList = keep ++ trim → k = keep.length → trim.length ≤ n →
    (resetSentLoop n k b).m_sentList = (if trim = [] then keep else markLast keep) ∧
    (resetSentLoop n k b).m_appList
      = (trimmedBack trim).filter (fun y => !y.m_qided) ++ b.m_appList ∧
    (resetSentLoop n k b).m_qidList
      = (trimmedBack trim).filter (fun y => y.m_qided) ++ b.m_qidList ∧
    (resetSentLoop n k b).m_firstByteSeq = b.m_firstByteSeq ∧
    (resetSentLoop n k b).m_size = b.m_size ∧
    (resetSentLoop n k b).m_stageSize = b.m_stageSize ∧
    (resetSentLoop n k b).m_esQseq = b.m_esQseq ∧
    (resetSentLoop n k b).m_stageQseq = b.m_stageQseq ∧
    (resetSentLoop n k b).m_sendQseq = b.m_sendQseq := by
  intro n
  induction n with
  | zero =>
    intro b keep trim k hl hk hn
    have ht : trim = [] := List.length_eq_zero.1 (Nat.le_zero.1 hn)
    subst ht
    unfold resetSentLoop
    rw [if_pos rfl, List.append_nil] at *
    exact ⟨hl, rfl, rfl, rfl, rfl, rfl, rfl, rfl, rfl⟩
  | succ m ih =>
    intro b keep trim k hl hk hn
    unfold resetSentLoop
    rcases eq_nil_or_concat_items trim with ht | ⟨t, x, ht⟩
    · subst ht
      rw [List.append_nil] at hl
      rw [if_neg (by rw [hl, hk]; omega), if_pos rfl]
      exact ⟨hl, rfl, rfl, rfl, rfl, rfl, rfl, rfl, rfl⟩
    · subst ht
      have hlen : k < b.m_sentList.length := by
        rw [hl, hk]; simp
      rw [if_pos hlen, if_neg (by simp)]
      have hl' : b.m_sentList = (keep ++ t) ++ [x] := by rw [hl, List.append_assoc]
      obtain ⟨s1, s2, s3, s4, s5, s6, s7, s8, s9⟩ := resetSentStep_eq b (keep ++ t) x hl'
      have htl : t.length ≤ m := by
        simp only [List.length_append, List.length_singleton] at hn
        omega
      rw [trimmedBack_concat, List.filter_append, List.filter_append, List.append_assoc,
        List.append_assoc, ← s2, ← s3, ← s4, ← s5, ← s6, ← s7, ← s8, ← s9]
      by_cases hte : t = []
      · subst hte
        rw [List.append_nil] at s1
        obtain ⟨r1, r2, r3, r4⟩ := ih (resetSentStep b) (markLast keep) [] k
          (by rw [s1, List.append_nil]) (by rw [markLast_length]; exact hk) (Nat.zero_le _)
        rw [if_pos rfl] at r1
        refine ⟨r1, ?_, ?_, r4⟩
        · rw [r2]; rfl
        · rw [r3]; rfl
      · rw [markLast_append keep t hte] at s1
        obtain ⟨r1, r2, r3, r4⟩ := ih (resetSentStep b) keep (markLast t) k s1 hk
          (by rw [markLast_length]; exact htl)
        rw [if_neg (markLast_ne_nil t hte)] at r1
        rw [trimmedBack_markLast] at r2 r3
        exact ⟨r1, r2, r3, r4⟩

theorem resetSentLoop_noop (n k : Nat) (b : TcpTxBuffer) (h : ¬ k < b.m_sentList.length) :
    resetSentLoop n k b = b := by
  cases n with
  | zero => rfl
  | succ m =>
    unfold resetSentLoop
    rw [if_neg h]

/-- The lists `ResetSentList (keepItems)` leaves, and the members it does not touch. -/
theorem ResetSentList_lists (keepItems : Nat) (b : TcpTxBuffer) :
    (ResetSentList keepItems b).m_sentList
      = (if keepItems < b.m_sentList.length then markLast (b.m_sentList.take keepItems)
         else b.m_sentList) ∧
    (ResetSentList keepItems b).m_appList
      = (trimmedBack (b.m_sentList.drop keepItems)).filter (fun y => !y.m_qided)
        ++ b.m_appList ∧
    (ResetSentList keepItems b).m_qidList
      = (trimmedBack (b.m_sentList.drop keepItems)).filter (fun y => y.m_qided)
        ++ b.m_qidList ∧
    (ResetSentList keepItems b).m_firstByteSeq = b.m_firstByteSeq ∧
    (ResetSentList keepItems b).m_size = b.m_size ∧
    (ResetSentList keepItems b).m_stageSize = b.m_stageSize ∧
    (ResetSentList keepItems b).m_esQseq = b.m_esQseq ∧
    (ResetSentList keepItems b).m_stageQseq = b.m_stageQseq ∧
    (ResetSentList keepItems b).m_sendQseq = b.m_sendQseq := by
  unfold ResetSentList
  dsimp only
  by_cases hk : keepItems < b.m_sentList.length
  · have hdrop : b.m_sentList.drop keepItems ≠ [] := by
      intro h
      have := congrArg List.length h
      rw [List.length_drop] at this
      simp only [List.length_nil] at this
      omega
    obtain ⟨r1, r2⟩ := resetSentLoop_eq b.m_sentList.length b (b.m_sentList.take keepItems)
      (b.m_sentList.drop keepItems) keepItems (List.take_append_drop _ _).symm
      (by rw [List.length_take]; omega) (by rw [List.length_drop]; omega)
    rw [if_neg hdrop] at r1
    rw [if_pos hk]
    exact ⟨r1, r2⟩
  · rw [resetSentLoop_noop _ _ _ hk, if_neg hk,
      List.drop_eq_nil_of_le (by omega : b.m_sentList.length ≤ keepItems)]
    exact ⟨rfl, rfl, rfl, rfl, rfl, rfl, rfl, rfl, rfl⟩

theorem markBack_body (x : TcpTxItem) :
    ((markBack x).m_packet, (markBack x).m_qided, (markBack x).m_lastSent)
      = (x.m_packet, x.m_qided, x.m_lastSent) := rfl

theorem markLast_body (l : List TcpTxItem) :
    (markLast l).map (fun x => (x.m_packet, x.m_qided, x.m_lastSent))
      = l.map (fun x => (x.m_packet, x.m_qided, x.m_lastSent)) := by
  rcases eq_nil_or_concat_items l with h | ⟨t, x, h⟩
  · rw [h]; rfl
  · rw [h, markLast_concat, List.map_append, List.map_append]
    rfl

theorem trimmedBack_body (l : List TcpTxItem) :
    (trimmedBack l).map (fun x => (x.m_packet, x.m_qided, x.m_lastSent))
      = l.map (fun x => (x.m_packet, x.m_qided, x.m_lastSent)) := by
  rcases eq_nil_or_concat_items l with h | ⟨t, x, h⟩
  · rw [h]; rfl
  · rw [h, trimmedBack_concat, List.map_append, List.map_append, List.map_map]
    rfl

theorem trimmedBack_flags (l : List TcpTxItem) :
    ∀ x ∈ trimmedBack l, x.m_retrans = false ∧ x.m_sacked = false := by
  rcases eq_nil_or_concat_items l with h | ⟨t, y, h⟩
  · rw [h]; intro x hx; cases hx
  · rw [h, trimmedBack_concat]
    intro x hx
    rw [List.mem_append, List.mem_map, List.mem_singleton] at hx
    rcases hx with ⟨z, -, hz⟩ | hx
    · rw [← hz]; exact ⟨rfl, rfl⟩
    · rw [hx]; exact ⟨rfl, rfl⟩

theorem trimmedBack_qid_packets (l : List TcpTxItem) :
    ((trimmedBack l).filter (fun y => y.m_qided)).map (fun y => y.m_packet)
      = (l.filter (fun y => y.m_qided)).map (fun y => y.m_packet) := by
  have key : ∀ (l : List TcpTxItem) (f : TcpTxItem → TcpTxItem),
      (∀ y, (f y).m_qided = y.m_qided ∧ (f y).m_packet = y.m_packet) →
      ((l.map f).filter (fun y => y.m_qided)).map (fun y => y.m_packet)
        = (l.filter (fun y => y.m_qided)).map (fun y => y.m_packet) := by
    intro l f hf
    induction l with
    | nil => rfl
    | cons a as ih =>
      rw [List.map_cons, List.filter_cons, List.filter_cons, (hf a).1]
      split
      · rw [List.map_cons, List.map_cons, ih, (hf a).2]
      · exact ih
  rcases eq_nil_or_concat_items l with h | ⟨t, x, h⟩
  · rw [h]; rfl
  · rw [h, trimmedBack_concat, List.filter_append, List.filter_append, List.map_append,
      List.map_append, key t markBack (fun y => ⟨rfl, rfl⟩)]
    congr 1
    exact key [x] clearMoved (fun y => ⟨rfl, rfl⟩)
/-! ## Lemmas for the wrapped guard, the SACK option and the bytes in flight -/

theorem Addqed_reject (q : List Nat) (b : TcpTxBuffer)
    (hg : ¬ (q.length + b.m_qheader + b.m_red) % 4294967296 ≤ Available b) :
    Addqed q b = (false, b) := by
  simp [Addqed, hg]

/-- An `Add` whose `5 *` guard wraps: on a fresh buffer of the default capacity, a
payload of 858993420 bytes is accepted and both `Addqed` and `Addapp` reject. -/
theorem Add_wrapped (rnd : Nat) (p : List Nat) (hp : p.length = 858993420) :
    (Add rnd p freshBuffer).1 = true ∧
    (Addqed (Encode p (List.replicate (add32 p.length freshBuffer.m_red) 0))
      (addEntry rnd freshBuffer)).1 = false ∧
    (Addapp p (Addqed (Encode p (List.replicate (add32 p.length freshBuffer.m_red) 0))
      (addEntry rnd freshBuffer)).2).1 = false ∧
    (Add rnd p freshBuffer).2.m_appList = [] ∧ (Add rnd p freshBuffer).2.m_qidList = [] := by
  have hq : (Encode p (List.replicate (add32 p.length freshBuffer.m_red) 0)).length
      = 858993444 := by
    rw [Encode_length, List.length_replicate, hp]; rfl
  have hg : (5 * (p.length + freshBuffer.m_qheader + freshBuffer.m_red)) % 4294967296
      ≤ Available freshBuffer := by
    rw [hp]; decide
  have e1 : (addEntry rnd freshBuffer).m_qheader = 16 := rfl
  have e2 : (addEntry rnd freshBuffer).m_red = 24 := rfl
  have e3 : Available (addEntry rnd freshBuffer) = 32768 := by
    show sub32 (sub32 32768 0) 0 = 32768
    decide
  have e4 : (addEntry rnd freshBuffer).m_appList = [] := rfl
  have e5 : (addEntry rnd freshBuffer).m_qidList = [] := rfl
  have hQ := Addqed_reject (Encode p (List.replicate (add32 p.length freshBuffer.m_red) 0))
    (addEntry rnd freshBuffer) (by rw [hq, e1, e2, e3]; decide)
  have hP := Addapp_reject p (addEntry rnd freshBuffer) (by rw [hp, e1, e2, e3]; decide)
  refine ⟨(Add_fst_iff rnd p freshBuffer).2 hg, by rw [hQ], by rw [hQ, hP], ?_, ?_⟩
  · rw [Add_eq, if_pos hg, hQ]
    dsimp only
    rw [hP]
    exact e4
  · rw [Add_eq, if_pos hg, hQ]
    dsimp only
    rw [hP]
    exact e5

theorem Encode_ones (k : Nat) :
    Encode (List.replicate k 1) (List.replicate k 0) = List.replicate k 50 := by
  unfold Encode
  simp

theorem craftBackward_prefix (list : List TcpTxItem) (first available : Nat)
    (optSize : Nat → Nat) :
    ∀ (it bg : Nat) (blocks out : List (Nat × Nat)),
      craftBackward list first available optSize it bg blocks = .ok out →
      ∃ more, out = blocks ++ more := by
  intro it
  induction it with
  | zero =>
    intro bg blocks out h
    unfold craftBackward at h
    split at h
    · cases h
    · cases h; exact ⟨[], by simp⟩
  | succ it ih =>
    intro bg blocks out h
    unfold craftBackward at h
    split at h
    · split at h
      · cases h; exact ⟨[], by simp⟩
      · split at h
        · cases h
        · dsimp only at h
          split at h
          · obtain ⟨more, hm⟩ := ih _ _ _ h
            exact ⟨[_] ++ more, by rw [hm, List.append_assoc]⟩
          · cases h
    · cases h; exact ⟨[], by simp⟩

theorem craftScan_first (list : List TcpTxItem) (first seq available : Nat)
    (optSize : Nat → Nat) :
    ∀ (l : List TcpTxItem) (it bg : Nat) (blocks : List (Nat × Nat)), bg < 4294967296 →
      craftScan list first seq available optSize l it bg = .ok (some blocks) →
      ∃ (j : Nat) (item : TcpTxItem), l[j]? = some item ∧ item.m_sacked = false ∧
        it + j ≠ 0 ∧ ¬ seqGt seq (seqAdd bg (listBytes (l.take j)).length) ∧
        (∀ (k : Nat) (x : TcpTxItem), k < j → l[k]? = some x →
          x.m_sacked = true ∨ it + k = 0
            ∨ seqGt seq (seqAdd bg (listBytes (l.take k)).length)) ∧
        blocks.head? = some (seqAdd bg (listBytes (l.take j)).length,
          seqAdd (seqAdd bg (listBytes (l.take j)).length) item.size) := by
  intro l
  induction l with
  | nil =>
    intro it bg blocks _ h
    unfold craftScan at h
    cases h
  | cons item rest ih =>
    intro it bg blocks hbg h
    have step : ∀ (c : item.m_sacked = true ∨ it = 0 ∨ seqGt seq bg),
        craftScan list first seq available optSize rest (it + 1) (seqAdd bg item.size)
          = .ok (some blocks) →
        ∃ (j : Nat) (y : TcpTxItem), (item :: rest)[j]? = some y ∧ y.m_sacked = false ∧
          it + j ≠ 0 ∧ ¬ seqGt seq (seqAdd bg (listBytes ((item :: rest).take j)).length) ∧
          (∀ (k : Nat) (x : TcpTxItem), k < j → (item :: rest)[k]? = some x →
            x.m_sacked = true ∨ it + k = 0
              ∨ seqGt seq (seqAdd bg (listBytes ((item :: rest).take k)).length)) ∧
          blocks.head? = some (seqAdd bg (listBytes ((item :: rest).take j)).length,
            seqAdd (seqAdd bg (listBytes ((item :: rest).take j)).length) y.size) := by
      intro c h'
      obtain ⟨j, y, h1, h2, h3, h4, h5, h6⟩ := ih _ _ _ (seqAdd_lt _ _) h'
      have hb : ∀ k, seqAdd bg (listBytes ((item :: rest).take (k + 1))).length
          = seqAdd (seqAdd bg item.size) (listBytes (rest.take k)).length := by
        intro k
        rw [List.take_succ_cons, listBytes_cons_length, seqAdd_seqAdd]
      refine ⟨j + 1, y, by simpa using h1, h2, by omega, by rw [hb]; exact h4, ?_,
        by rw [hb]; exact h6⟩
      intro k x hk hx
      cases k with
      | zero =>
        have hx' : x = item := by simpa using hx.symm
        subst hx'
        have h0 : seqAdd bg (listBytes ((x :: rest).take 0)).length = bg := by
          simpa [listBytes] using seqAdd_zero bg hbg
        rw [h0]
        simpa using c
      | succ k =>
        rw [hb]
        have := h5 k x (by omega) (by simpa using hx)
        rcases this with t | t | t
        · exact Or.inl t
        · exact Or.inr (Or.inl (by omega))
        · exact Or.inr (Or.inr t)
    unfold craftScan at h
    dsimp only at h
    split at h
    · rename_i c
      exact step (by rcases c with c | c; exact Or.inl c; exact Or.inr (Or.inl c)) h
    · rename_i c
      split at h
      · rename_i c2
        exact step (Or.inr (Or.inr c2)) h
      · rename_i c2
        have h0 : seqAdd bg (listBytes ((item :: rest).take 0)).length = bg := by
          simpa [listBytes] using seqAdd_zero bg hbg
        split at h
        · cases h
        · rename_i out hout
          cases h
          obtain ⟨more, hm⟩ := craftBackward_prefix _ _ _ _ _ _ _ _ hout
          refine ⟨0, item, by simp, by simpa using fun hs => c (Or.inl hs), ?_, ?_, ?_, ?_⟩
          · intro hz; exact c (Or.inr (by omega))
          · rw [h0]; exact c2
          · intro k x hk; omega
          · rw [h0, hm]; rfl

theorem bytesInFlightLoop_lost (b : TcpTxBuffer) (d s : Nat)
    (hall : ∀ x ∈ b.m_sentList, x.m_lost = true) :
    ∀ (l : List TcpTxItem) (i begin size : Nat), b.m_sentList.drop i = l →
      bytesInFlightLoop b d s l i begin size = .ok size := by
  intro l
  induction l with
  | nil => intro i begin size _; rfl
  | cons item rest ih =>
    intro i begin size hl
    have hi : b.m_sentList[i]? = some item := by
      have := congrArg List.head? hl
      rw [List.head?_drop] at this
      exact this
    have hrest : b.m_sentList.drop (i + 1) = rest := by
      have := congrArg List.tail hl
      rw [List.tail_drop] at this
      exact this
    have hlost : item.m_lost = true := hall item (List.getElem?_mem hi)
    unfold bytesInFlightLoop
    split
    · have e : IsLostAt b begin i d s = .ok true := by
        unfold IsLostAt
        rw [hi]
        dsimp only
        rw [if_pos hlost]
      rw [e]
      dsimp only
      rw [if_neg (by simp [hlost])]
      exact ih _ _ _ hrest
    · exact ih _ _ _ hrest
/-! ## The byte count of the three lists -/

theorem SameBytes.refl (b : TcpTxBuffer) : SameBytes b b := ⟨rfl, rfl, rfl, rfl⟩

theorem SameBytes.trans {a b c : TcpTxBuffer} (h1 : SameBytes a b) (h2 : SameBytes b c) :
    SameBytes a c :=
  ⟨h2.total.trans h1.total, h2.size.trans h1.size, h2.stageSize.trans h1.stageSize,
   h2.first.trans h1.first⟩

theorem SameBytes.of_lists {b b' : TcpTxBuffer}
    (e1 : (listBytes b'.m_sentList).length = (listBytes b.m_sentList).length)
    (e2 : (listBytes b'.m_appList).length = (listBytes b.m_appList).length)
    (e3 : (listBytes b'.m_qidList).length = (listBytes b.m_qidList).length)
    (e4 : b'.m_size = b.m_size) (e5 : b'.m_stageSize = b.m_stageSize)
    (e6 : b'.m_firstByteSeq = b.m_firstByteSeq) : SameBytes b b' :=
  ⟨by unfold totalBytes; rw [e1, e2, e3], e4, e5, e6⟩

theorem Counted.of_same {b b' : TcpTxBuffer} (h : Counted b) (hs : SameBytes b b') :
    Counted b' := by
  unfold Counted at *
  rw [hs.total, hs.size, hs.stageSize]
  exact h

theorem NewSegment.sameBytes {b : TcpTxBuffer} {x : TcpTxItem} {b' : TcpTxBuffer}
    (h : NewSegment b x b') : SameBytes b b' := by
  have hs : (listBytes b'.m_sentList).length = (listBytes b.m_sentList).length + x.size := by
    rw [h.sentList, listBytes_append]; simp [listBytes, TcpTxItem.size]
  have hp := h.pending
  refine ⟨?_, h.size, h.stageSize, h.first⟩
  unfold totalBytes
  rw [hs]
  omega

theorem GetTransmittedSegment_same (fuel n seq : Nat) (b : TcpTxBuffer) (i : Nat)
    (b' : TcpTxBuffer) (h : GetTransmittedSegment fuel n seq b = .ok (i, b')) :
    SameBytes b b' := by
  unfold GetTransmittedSegment at h
  split at h
  · simp at h
  · split at h
    · simp at h
    · split at h
      · simp at h
      · rename_i list j edits hg
        obtain ⟨hb, hj, -⟩ := GetPacketFromList_bytes _ _ _ _ _ _ _ _ _ hg
        obtain ⟨r1, r2, r3, r4, r5, r6, r7, r8, r9, r10⟩ := resegmented_frame list edits b
        have hR : SameBytes b (resegmented list edits b) :=
          SameBytes.of_lists (by rw [r1, hb]) (by rw [r2]) (by rw [r3]) r6 r7 r10
        split at h
        · simp at h
        · rename_i item hitem
          split at h
          · split at h
            · simp at h
            · rename_i item' b2 ha
              obtain ⟨a1, a2, a3, a4, a5, a6, a7, a8, a9, a10, a11⟩ := Addqednew_ok _ _ _ _ ha
              simp only [Except.ok.injEq, Prod.mk.injEq] at h
              obtain ⟨h1, h2⟩ := h
              subst h2; subst h1
              refine hR.trans (SameBytes.of_lists ?_ ?_ ?_ a7 a8 a11)
              · show (listBytes (b2.m_sentList.set j item')).length = _
                rw [a2, r1]
                exact listBytes_set_length _ _ _ _ hitem a1
              · show (listBytes b2.m_appList).length = _
                rw [a3]
              · show (listBytes b2.m_qidList).length = _
                rw [a4]
          · simp only [Except.ok.injEq, Prod.mk.injEq] at h
            obtain ⟨h1, h2⟩ := h
            subst h2; subst h1
            exact hR

theorem finishCopy_same (s i : Nat) (now : Int) (b : TcpTxBuffer) (p : List Nat)
    (b' : TcpTxBuffer) (h : finishCopy s i now b = .ok (p, b')) : SameBytes b b' := by
  obtain ⟨x, hx, -, -, hb⟩ := finishCopy_ok _ _ _ _ _ _ h
  subst hb
  exact SameBytes.of_lists (listBytes_set_length _ _ _ _ hx rfl) rfl rfl rfl rfl rfl

/-- A `CopyFromSequence` that returns leaves the number of bytes in the three lists, the
head sequence, `m_size` and `m_stageSize` as they were. -/
theorem CopyFromSequence_same : ∀ (fuel n seq : Nat) (now : Int) (b : TcpTxBuffer)
    (p : List Nat) (b' : TcpTxBuffer),
    CopyFromSequence fuel n seq now b = .ok (p, b') → SameBytes b b' := by
  intro fuel
  induction fuel with
  | zero => intro n seq now b p b' h; simp [CopyFromSequence] at h
  | succ k ih =>
    intro n seq now b p b' h
    unfold CopyFromSequence at h
    by_cases hgt : seqGt b.m_firstByteSeq seq
    · simp only [hgt, if_true, Except.ok.injEq, Prod.mk.injEq] at h
      rw [← h.2]; exact SameBytes.refl b
    · simp only [hgt, if_false] at h
      by_cases hz : min n (SizeFromSequence b seq) = 0
      · simp only [hz, if_true, Except.ok.injEq, Prod.mk.injEq] at h
        rw [← h.2]; exact SameBytes.refl b
      · simp only [hz, if_false] at h
        by_cases hsent : seqGe (seqAdd b.m_firstByteSeq b.m_sentSize)
            (seqAdd seq (min n (SizeFromSequence b seq)))
        · simp only [hsent, if_true] at h
          split at h
          · simp at h
          · rename_i i b2 hg
            have g1 := GetTransmittedSegment_same _ _ _ _ _ _ hg
            split at h
            · simp at h
            · rename_i outItem hout
              have f1 := finishCopy_same _ _ _ _ _ _ h
              have m1 : SameBytes b2
                  { b2 with
                    m_sentList := b2.m_sentList.set i ({ outItem with m_retrans := true }) } :=
                SameBytes.of_lists (listBytes_set_length _ _ _ _ hout rfl) rfl rfl rfl rfl rfl
              exact (g1.trans m1).trans f1
        · simp only [hsent, if_false] at h
          generalize (if 0 < b.m_qednum then
              min (min n (SizeFromSequence b seq)) (sub32 b.m_size b.m_appsentSize)
            else min (min n (SizeFromSequence b seq)) (sub32 b.m_stageSize b.m_stagesentSize))
            = s' at h
          have hc : SameBytes b (chooseStage b) := ⟨rfl, rfl, rfl, rfl⟩
          by_cases hle : seqLe (seqAdd (chooseStage b).m_firstByteSeq (chooseStage b).m_sentSize)
              seq
          · simp only [hle, if_true] at h
            split at h
            · simp at h
            · split at h
              · simp at h
              · rename_i i bm hg
                obtain ⟨-, -, x, hx⟩ := GetNewSegment_ok _ _ _ _ _ hg
                split at h
                · simp at h
                · split at h
                  · exact (hc.trans hx.sameBytes).trans (finishCopy_same _ _ _ _ _ _ h)
                  · simp at h
          · simp only [hle, if_false] at h
            split at h
            · split at h
              · simp at h
              · rename_i i bm hg
                obtain ⟨-, -, x, hx⟩ := GetNewSegment_ok _ _ _ _ _ hg
                exact (hc.trans hx.sameBytes).trans (ih _ _ _ _ _ _ h)
            · simp at h

theorem updateScan_bytes (blk : Nat × Nat) : ∀ (l : List TcpTxItem) (i begin : Nat)
    (hs : SentIter × Nat) (m : Bool), listBytes (updateScan blk l i begin hs m).1 = listBytes l := by
  intro l
  induction l with
  | nil => intro i begin hs m; rfl
  | cons a as ih =>
    intro i begin hs m
    unfold updateScan
    split
    · split
      · simp only [listBytes, ih]
      · simp only [listBytes, ih]
    · split
      · rfl
      · simp only [listBytes, ih]

theorem updateBlocks_bytes (first : Nat) : ∀ (blocks : List (Nat × Nat))
    (acc : List TcpTxItem × (SentIter × Nat) × Bool),
    listBytes (updateBlocks first blocks acc).1 = listBytes acc.1 := by
  intro blocks
  induction blocks with
  | nil => intro acc; rfl
  | cons blk rest ih =>
    intro acc
    unfold updateBlocks
    rw [ih, updateScan_bytes]

theorem Update_same (blocks : List (Nat × Nat)) (b : TcpTxBuffer) (m : Bool)
    (b' : TcpTxBuffer) (h : Update blocks b = .ok (m, b')) : SameBytes b b' := by
  have hb := updateBlocks_bytes b.m_firstByteSeq blocks (b.m_sentList, b.m_highestSack, false)
  unfold Update at h
  dsimp only at h
  split at h
  · simp at h
  · split at h
    · simp only [Except.ok.injEq, Prod.mk.injEq] at h
      obtain ⟨-, h⟩ := h
      subst h
      exact SameBytes.of_lists (by show (listBytes _).length = _; rw [hb]) rfl rfl rfl rfl rfl
    · simp at h

theorem listBytes_lost (l : List TcpTxItem) :
    listBytes (l.map (fun item => { item with m_lost := true })) = listBytes l := by
  induction l with
  | nil => rfl
  | cons a as ih => simp only [List.map, listBytes, ih]

theorem SetSentListLost_same (b : TcpTxBuffer) : SameBytes b (SetSentListLost b) :=
  SameBytes.of_lists (congrArg List.length (listBytes_lost b.m_sentList)) rfl rfl rfl rfl rfl

theorem listBytes_dropLast (l : List TcpTxItem) (x : TcpTxItem) (h : l.getLast? = some x) :
    (listBytes l.dropLast).length + x.size = (listBytes l).length := by
  rcases eq_nil_or_concat_items l with hl | ⟨t, y, hl⟩
  · subst hl; simp at h
  · subst hl
    rw [getLast?_append_single] at h
    cases h
    rw [dropLast_append_single, listBytes_append]
    simp [listBytes, TcpTxItem.size]

theorem ResetLastSegmentSent_same (b : TcpTxBuffer) : SameBytes b (ResetLastSegmentSent b) := by
  unfold ResetLastSegmentSent
  split
  · exact SameBytes.refl b
  · rename_i item hitem
    have hd := listBytes_dropLast _ _ hitem
    dsimp only
    split
    · refine ⟨?_, rfl, rfl, rfl⟩
      unfold totalBytes
      dsimp only
      rw [listBytes_cons_length]
      omega
    · refine ⟨?_, rfl, rfl, rfl⟩
      unfold totalBytes
      dsimp only
      rw [listBytes_cons_length]
      omega

theorem listBytes_relabel_last (l : List TcpTxItem) (back : TcpTxItem)
    (h : l.getLast? = some back) :
    (listBytes (l.dropLast ++
      [{ back with m_lost := true, m_sacked := false, m_retrans := false }])).length
      = (listBytes l).length := by
  have hd := listBytes_dropLast _ _ h
  rw [listBytes_append, List.length_append]
  simp only [listBytes, List.append_nil]
  unfold TcpTxItem.size at hd
  omega

theorem resetSentStep_same (b : TcpTxBuffer) : SameBytes b (resetSentStep b) := by
  unfold resetSentStep
  split
  · exact SameBytes.refl b
  · rename_i item hitem
    have hd := listBytes_dropLast _ _ hitem
    dsimp only
    split
    · split
      · rename_i back hback
        have hr := listBytes_relabel_last _ _ hback
        refine ⟨?_, rfl, rfl, rfl⟩
        unfold totalBytes
        dsimp only
        rw [hr, listBytes_cons_length]
        unfold TcpTxItem.size at *
        dsimp only
        omega
      · refine ⟨?_, rfl, rfl, rfl⟩
        unfold totalBytes
        dsimp only
        rw [listBytes_cons_length]
        unfold TcpTxItem.size at *
        dsimp only
        omega
    · split
      · rename_i back hback
        have hr := listBytes_relabel_last _ _ hback
        refine ⟨?_, rfl, rfl, rfl⟩
        unfold totalBytes
        dsimp only
        rw [hr, listBytes_cons_length]
        unfold TcpTxItem.size at *
        dsimp only
        omega
      · refine ⟨?_, rfl, rfl, rfl⟩
        unfold totalBytes
        dsimp only
        rw [listBytes_cons_length]
        unfold TcpTxItem.size at *
        dsimp only
        omega

theorem resetSentLoop_same : ∀ (n k : Nat) (b : TcpTxBuffer),
    SameBytes b (resetSentLoop n k b) := by
  intro n
  induction n with
  | zero => intro k b; exact SameBytes.refl b
  | succ m ih =>
    intro k b
    unfold resetSentLoop
    split
    · exact (resetSentStep_same b).trans (ih _ _)
    · exact SameBytes.refl b

theorem ResetSentList_same (keepItems : Nat) (b : TcpTxBuffer) :
    SameBytes b (ResetSentList keepItems b) :=
  (resetSentLoop_same b.m_sentList.length keepItems b).trans ⟨rfl, rfl, rfl, rfl⟩

theorem Addqed_counted (q : List Nat) (b : TcpTxBuffer) (h : Counted b) :
    Counted (Addqed q b).2 ∧ totalBytes b ≤ totalBytes (Addqed q b).2 := by
  unfold Counted at *
  unfold Addqed
  split
  · split
    · dsimp only
      unfold totalBytes at *
      dsimp only
      rw [listBytes_append]
      simp only [listBytes, List.append_nil, List.length_append, add32]
      exact ⟨by omega, by omega⟩
    · exact ⟨h, le_refl _⟩
  · exact ⟨h, le_refl _⟩

theorem Addapp_counted (p : List Nat) (b : TcpTxBuffer) (h : Counted b) :
    Counted (Addapp p b).2 ∧ totalBytes b ≤ totalBytes (Addapp p b).2 := by
  unfold Counted at *
  unfold Addapp
  split
  · split
    · dsimp only
      unfold totalBytes at *
      dsimp only
      rw [listBytes_append]
      simp only [listBytes, List.append_nil, List.length_append, add32]
      exact ⟨by omega, by omega⟩
    · exact ⟨h, le_refl _⟩
  · exact ⟨h, le_refl _⟩

theorem Add_counted (rnd : Nat) (p : List Nat) (b : TcpTxBuffer) (h : Counted b) :
    Counted (Add rnd p b).2 ∧ totalBytes b ≤ totalBytes (Add rnd p b).2 := by
  obtain ⟨h1, h2, h3, h4, h5, h6, h7, h8, h9, h10⟩ := seedEsQseq_frame rnd b
  have hS : SameBytes b (seedEsQseq rnd b) :=
    SameBytes.of_lists (by rw [h7]) (by rw [h8]) (by rw [h9]) h2 h3 h6
  rw [Add_eq]
  split
  · have hE : SameBytes b (addEntry rnd b) :=
      hS.trans (SameBytes.of_lists rfl rfl rfl rfl rfl rfl)
    obtain ⟨c1, c2⟩ := Addqed_counted (Encode p (List.replicate (add32 p.length b.m_red) 0))
      (addEntry rnd b) (h.of_same hE)
    obtain ⟨d1, d2⟩ := Addapp_counted p
      (Addqed (Encode p (List.replicate (add32 p.length b.m_red) 0)) (addEntry rnd b)).2 c1
    have hT : totalBytes (addEntry rnd b) = totalBytes b := hE.total
    have hQ : ∀ c : TcpTxBuffer, SameBytes c (advanceQseq c) := fun c =>
      SameBytes.of_lists rfl rfl rfl rfl rfl rfl
    exact ⟨d1.of_same (hQ _), by rw [(hQ _).total]; omega⟩
  · exact ⟨h.of_same hS, by rw [hS.total]⟩

theorem shrink_trans {a b c : TcpTxBuffer}
    (h1 : (Counted a → Counted b) ∧ totalBytes b ≤ totalBytes a)
    (h2 : (Counted b → Counted c) ∧ totalBytes c ≤ totalBytes b) :
    (Counted a → Counted c) ∧ totalBytes c ≤ totalBytes a :=
  ⟨fun h => h2.1 (h1.1 h), le_trans h2.2 h1.2⟩

theorem shrink_of_same {a b : TcpTxBuffer} (h : SameBytes a b) :
    (Counted a → Counted b) ∧ totalBytes b ≤ totalBytes a :=
  ⟨fun hC => hC.of_same h, le_of_eq h.total⟩

theorem Counted.shrinks {b b' : TcpTxBuffer} (k : Nat)
    (hs : (listBytes b'.m_sentList).length + k = (listBytes b.m_sentList).length)
    (ha : b'.m_appList = b.m_appList) (hq : b'.m_qidList = b.m_qidList)
    (hc : (b'.m_size = b.m_size ∧ b'.m_stageSize = sub32 b.m_stageSize k) ∨
          (b'.m_size = sub32 b.m_size k ∧ b'.m_stageSize = b.m_stageSize)) :
    (Counted b → Counted b') ∧ totalBytes b' ≤ totalBytes b := by
  unfold Counted totalBytes
  rw [ha, hq]
  refine ⟨?_, by omega⟩
  intro h
  rcases hc with ⟨c1, c2⟩ | ⟨c1, c2⟩
  · rw [c1, c2]; unfold sub32; omega
  · rw [c1, c2]; unfold sub32; omega

theorem discardLoop_counted : ∀ (fuel : Nat) (now : Int) (offset : Nat) (b b' : TcpTxBuffer),
    discardLoop fuel now offset b = .ok b' →
    (Counted b → Counted b') ∧ totalBytes b' ≤ totalBytes b := by
  intro fuel
  induction fuel with
  | zero => intro now offset b b' h; simp [discardLoop] at h
  | succ k ih =>
    intro now offset b b' h
    unfold discardLoop at h
    split at h
    · dsimp only at h
      split at h
      · simp at h
      · rename_i b2 hfill
        have hI2 : SameBytes b b2 := by
          split at hfill
          · split at hfill
            · simp at hfill
            · rename_i pp b3 hc
              split at hfill
              · simp at hfill
              · simp only [Except.ok.injEq] at hfill
                subst hfill
                exact CopyFromSequence_same _ _ _ _ _ _ _ hc
          · simp only [Except.ok.injEq] at hfill
            subst hfill; exact SameBytes.refl b
        refine shrink_trans (shrink_of_same hI2) ?_
        split at h
        · simp at h
        · rename_i item rest hlist
          have hsz : (listBytes b2.m_sentList).length = item.size + (listBytes rest).length := by
            rw [hlist]; simp [listBytes, TcpTxItem.size]
          split at h
          · rename_i hle
            refine shrink_trans ?_ (ih _ _ _ _ h)
            by_cases hq : item.m_qided = true
            · simp only [hq, if_true]
              exact Counted.shrinks item.size
                (by rw [hsz]; show (listBytes rest).length + _ = _; omega)
                rfl rfl (Or.inl ⟨rfl, rfl⟩)
            · simp only [hq, if_false]
              exact Counted.shrinks item.size
                (by rw [hsz]; show (listBytes rest).length + _ = _; omega)
                rfl rfl (Or.inr ⟨rfl, rfl⟩)
          · rename_i hnle
            simp only [Except.ok.injEq] at h
            subst h
            have hd : (listBytes ({ item with m_packet := item.m_packet.drop offset } :: rest)).length
                + offset = (listBytes b2.m_sentList).length := by
              rw [hsz]; simp [listBytes, TcpTxItem.size] at *; omega
            by_cases hq : item.m_qided = true
            · simp only [hq, if_true]
              exact Counted.shrinks offset hd rfl rfl (Or.inl ⟨rfl, rfl⟩)
            · simp only [hq, if_false]
              exact Counted.shrinks offset hd rfl rfl (Or.inr ⟨rfl, rfl⟩)
    · simp only [Except.ok.injEq] at h
      subst h; exact ⟨id, le_refl _⟩

theorem discardTail_total (seq : Nat) (b : TcpTxBuffer) :
    totalBytes (discardTail seq b) = totalBytes b ∧ (discardTail seq b).m_size = b.m_size ∧
    (discardTail seq b).m_stageSize = b.m_stageSize := by
  unfold discardTail
  dsimp only
  by_cases hz : b.m_size = 0 ∧ b.m_stageSize = 0
  · rw [if_pos hz]
    dsimp only
    cases hl : b.m_sentList with
    | nil =>
      dsimp only
      split <;> exact ⟨by simp [totalBytes, hl], rfl, rfl⟩
    | cons head rest =>
      dsimp only
      by_cases hs : head.m_sacked = true
      · rw [if_pos hs]
        split <;> exact ⟨by simp [totalBytes, listBytes, hl], rfl, rfl⟩
      · rw [if_neg hs]
        split <;> exact ⟨by simp [totalBytes, listBytes, hl], rfl, rfl⟩
  · rw [if_neg hz]
    cases hl : b.m_sentList with
    | nil =>
      dsimp only
      split <;> exact ⟨by simp [totalBytes, hl], rfl, rfl⟩
    | cons head rest =>
      dsimp only
      by_cases hs : head.m_sacked = true
      · rw [if_pos hs]
        split <;> exact ⟨by simp [totalBytes, listBytes, hl], rfl, rfl⟩
      · rw [if_neg hs]
        split <;> exact ⟨by simp [totalBytes, listBytes, hl], rfl, rfl⟩

/-- `DiscardUpTo` keeps the two byte counters in step with the lists and adds no byte. -/
theorem DiscardUpTo_counted (fuel seq : Nat) (now : Int) (b b' : TcpTxBuffer)
    (h : DiscardUpTo fuel seq now b = .ok b') :
    (Counted b → Counted b') ∧ totalBytes b' ≤ totalBytes b := by
  unfold DiscardUpTo at h
  split at h
  · simp only [Except.ok.injEq] at h; subst h; exact ⟨id, le_refl _⟩
  · split at h
    · simp at h
    · rename_i b2 hbody
      split at h
      · simp only [Except.ok.injEq] at h
        subst h
        unfold DiscardUpToBody at hbody
        split at hbody
        · simp only [Except.ok.injEq] at hbody; subst hbody; exact ⟨id, le_refl _⟩
        · split at hbody
          · simp at hbody
          · rename_i b3 hloop
            simp only [Except.ok.injEq] at hbody
            subst hbody
            obtain ⟨l1, l2⟩ := discardLoop_counted _ _ _ _ _ hloop
            obtain ⟨t1, t2, t3⟩ := discardTail_total seq b3
            refine ⟨fun hC => ?_, by rw [t1]; exact l2⟩
            have := l1 hC
            unfold Counted at *
            rw [t1, t2, t3]
            exact this
      · simp at h

theorem Exercised.counted {b : TcpTxBuffer} (h : Exercised b) : Counted b := by
  induction h with
  | create n qheader red => rfl
  | add rnd p b _ ih => exact (Add_counted rnd p b ih).1
  | copy fuel numBytes seq now b p b' _ hc ih =>
    exact ih.of_same (CopyFromSequence_same _ _ _ _ _ _ _ hc)
  | discard fuel seq now b b' _ hd ih => exact (DiscardUpTo_counted _ _ _ _ _ hd).1 ih
  | update blocks b m b' _ hu ih => exact ih.of_same (Update_same _ _ _ _ hu)
  | lost b _ ih => exact ih.of_same (SetSentListLost_same b)
  | resetLast b _ ih => exact ih.of_same (ResetLastSegmentSent_same b)
  | resetSent k b _ ih => exact ih.of_same (ResetSentList_same k b)

theorem Counted.span {b : TcpTxBuffer} (h : Counted b) :
    totalBytes b % 4294967296 = seqDiff (TailSequence b) (HeadSequence b) := by
  unfold Counted at h
  unfold seqDiff TailSequence HeadSequence sub32 seqAdd
  omega
/-! ## Locating a range: the search inside the window of the sequence numbers -/

theorem seqLt_seqAdd_iff (bg a c : Nat) (ha : a < 2147483648) (hc : c < 2147483648) :
    seqLt (seqAdd bg a) (seqAdd bg c) ↔ a < c := by
  unfold seqLt seqGt seqAdd; omega

theorem seqGt_seqAdd_iff (bg a c : Nat) (ha : a < 2147483648) (hc : c < 2147483648) :
    seqGt (seqAdd bg a) (seqAdd bg c) ↔ c < a := by
  unfold seqGt seqAdd; omega

theorem seqLe_end_iff (seq n s : Nat) (hn : n ≤ 2147483648) (hs : s < 2147483648)
    (hs0 : 0 < s) : seqLe (seqAdd seq n) (seqAdd seq s) ↔ n ≤ s := by
  unfold seqLe seqGt seqAdd; omega

theorem seqLt_self_add (seq s : Nat) (hseq : seq < 4294967296) (hs : s < 2147483648) :
    seqLt seq (seqAdd seq s) ↔ 0 < s := by
  unfold seqLt seqGt seqAdd; omega

theorem seqAdd_seqDiff (seq bg : Nat) (hseq : seq < 4294967296) :
    seqAdd bg (seqDiff seq bg) = seq := by
  unfold seqAdd seqDiff sub32; omega

theorem seqDiff_window (seq bg s : Nat) (hseq : seq < 4294967296) (hbg : bg < 4294967296)
    (hs : s < 2147483648) (hgt : seqGt seq bg) (hlt : seqLt seq (seqAdd bg s)) :
    0 < seqDiff seq bg ∧ seqDiff seq bg < s := by
  unfold seqLt seqGt seqAdd at *
  unfold seqDiff sub32
  omega

theorem getElem?_after (pre : List TcpTxItem) (cur : TcpTxItem) (post : List TcpTxItem) :
    (pre ++ cur :: post)[pre.length]? = some cur := by
  rw [List.getElem?_append_right (le_refl _)]
  simp

theorem getElem?_after_one (pre : List TcpTxItem) (cur : TcpTxItem) (post : List TcpTxItem) :
    (pre ++ cur :: post)[pre.length + 1]? = post[0]? := by
  rw [List.getElem?_append_right (by omega)]
  simp

theorem take_before (pre l : List TcpTxItem) : (pre ++ l).take pre.length = pre :=
  List.take_left' rfl

theorem drop_after_one (pre : List TcpTxItem) (cur : TcpTxItem) (post : List TcpTxItem) :
    (pre ++ cur :: post).drop (pre.length + 1) = post := by
  have : pre ++ cur :: post = (pre ++ [cur]) ++ post := by simp
  rw [this]
  exact List.drop_left' (by simp)

theorem drop_after_two (pre : List TcpTxItem) (cur next : TcpTxItem) (post : List TcpTxItem) :
    (pre ++ cur :: next :: post).drop (pre.length + 2) = post := by
  have : pre ++ cur :: next :: post = (pre ++ [cur, next]) ++ post := by simp
  rw [this]
  exact List.drop_left' (by simp)

/-- What `findItem` returns: the item it stops at, the items it skipped in front of it,
and the sequence at which the item begins. The search of a list with the same skipped
items in front resumes behind them. -/
theorem findItem_some (seq : Nat) : ∀ (l : List TcpTxItem) (start k i bg : Nat),
    start < 4294967296 → findItem seq l start k = some (i, bg) →
    ∃ (pre : List TcpTxItem) (cur : TcpTxItem) (post : List TcpTxItem),
      l = pre ++ cur :: post ∧ i = k + pre.length ∧
      bg = seqAdd start (listBytes pre).length ∧ seqLt seq (seqAdd bg cur.size) ∧
      ∀ l' : List TcpTxItem, findItem seq (pre ++ l') start k = findItem seq l' bg (k + pre.length) := by
  intro l
  induction l with
  | nil => intro start k i bg _ h; simp [findItem] at h
  | cons x xs ih =>
    intro start k i bg hstart h
    unfold findItem at h
    split at h
    · rename_i hlt
      simp only [Option.some.injEq, Prod.mk.injEq] at h
      obtain ⟨h1, h2⟩ := h
      subst h1; subst h2
      refine ⟨[], x, xs, rfl, rfl, ?_, hlt, fun l' => rfl⟩
      simp [listBytes, seqAdd_zero _ hstart]
    · rename_i hnlt
      obtain ⟨pre, cur, post, e1, e2, e3, e4, e5⟩ := ih _ _ _ _ (seqAdd_lt _ _) h
      refine ⟨x :: pre, cur, post, by rw [e1]; rfl, by rw [e2]; simp; omega, ?_, e4, ?_⟩
      · rw [e3, listBytes_cons_length, seqAdd_seqAdd]
      · intro l'
        show findItem seq (x :: (pre ++ l')) start k = _
        have hk : k + (x :: pre).length = k + 1 + pre.length := by
          rw [List.length_cons]; omega
        rw [findItem, if_neg hnlt, e5 l', hk]

/-- Inside the window: `findItem` stops at the item that holds the byte at offset
`δ` from the start of the list. -/
theorem findItem_offset : ∀ (l : List TcpTxItem) (start k δ : Nat),
    start < 4294967296 → (listBytes l).length < 2147483648 → δ < (listBytes l).length →
    ∃ (pre : List TcpTxItem) (cur : TcpTxItem) (post : List TcpTxItem),
      l = pre ++ cur :: post ∧
      findItem (seqAdd start δ) l start k
        = some (k + pre.length, seqAdd start (listBytes pre).length) ∧
      (listBytes pre).length ≤ δ ∧ δ < (listBytes pre).length + cur.size := by
  intro l
  induction l with
  | nil => intro start k δ _ _ h; simp [listBytes] at h
  | cons x xs ih =>
    intro start k δ hstart hL hδ
    rw [listBytes_cons_length] at hL hδ
    have hs0 : start = seqAdd start 0 := (seqAdd_zero _ hstart).symm
    by_cases hx : δ < x.size
    · refine ⟨[], x, xs, rfl, ?_, by simp [listBytes], by simpa [listBytes] using hx⟩
      unfold findItem
      rw [if_pos ((seqLt_seqAdd_iff start δ x.size (by omega) (by omega)).2 hx)]
      simp [listBytes, seqAdd_zero _ hstart]
    · obtain ⟨pre, cur, post, e1, e2, e3, e4⟩ :=
        ih (seqAdd start x.size) (k + 1) (δ - x.size) (seqAdd_lt _ _) (by omega) (by omega)
      have hseq : seqAdd (seqAdd start x.size) (δ - x.size) = seqAdd start δ := by
        rw [seqAdd_seqAdd]; congr 1; omega
      rw [hseq] at e2
      refine ⟨x :: pre, cur, post, by rw [e1]; rfl, ?_, ?_, ?_⟩
      · unfold findItem
        rw [if_neg (fun h => hx ((seqLt_seqAdd_iff start δ x.size (by omega) (by omega)).1 h)),
          e2, listBytes_cons_length, seqAdd_seqAdd]
        congr 2
        simp; omega
      · rw [listBytes_cons_length]; omega
      · rw [listBytes_cons_length]; omega

/-- The aligned case of `GetPacketFromList`: `seq` is the beginning of the item `cur`
behind the skipped items `pre`. Inside the window the call returns the position of `cur`
after it has merged or split what is needed; the items in front stay, and the item
returned holds the first `n` bytes behind them when there are that many. -/
theorem locate_aligned (seq start n : Nat) (pre : List TcpTxItem) (hseq : seq < 4294967296)
    (hn : n ≤ 2147483648)
    (SK : ∀ l' : List TcpTxItem,
      findItem seq (pre ++ l') start 0 = findItem seq l' seq (0 + pre.length)) :
    ∀ (fuel : Nat) (post : List TcpTxItem) (cur : TcpTxItem) (edits : List ListEdit),
      0 < cur.size → (listBytes (cur :: post)).length < 2147483648 → post.length < fuel →
      ∃ (list' : List TcpTxItem) (edits' : List ListEdit) (item : TcpTxItem),
        GetPacketFromList fuel (pre ++ cur :: post) start n seq edits
          = .ok (list', pre.length, edits') ∧
        list'.take pre.length = pre ∧ list'[pre.length]? = some item ∧
        (n ≤ (listBytes (cur :: post)).length →
          item.m_packet = (listBytes (cur :: post)).take n) := by
  intro fuel
  induction fuel with
  | zero => intro post cur edits _ _ h; omega
  | succ f ih =>
    intro post cur edits h0 hL hfuel
    have hsz : cur.size < 2147483648 := by
      rw [listBytes_cons_length] at hL; omega
    have hfind : findItem seq (pre ++ cur :: post) start 0 = some (pre.length, seq) := by
      rw [SK, findItem, if_pos ((seqLt_self_add seq cur.size hseq hsz).2 h0), Nat.zero_add]
    rw [GetPacketFromList, hfind]
    dsimp only
    rw [getElem?_after]
    dsimp only
    rw [if_pos rfl]
    by_cases hle : n ≤ cur.size
    · rw [if_pos ((seqLe_end_iff seq n cur.size hn hsz h0).2 hle)]
      by_cases heq : n = cur.size
      · rw [if_pos heq]
        refine ⟨_, _, cur, rfl, take_before _ _, getElem?_after _ _ _, fun _ => ?_⟩
        show cur.m_packet = (cur.m_packet ++ listBytes post).take n
        rw [heq]
        exact (List.take_left' rfl).symm
      · rw [if_neg heq, if_pos (by omega)]
        simp only [SplitItems]
        rw [take_before, drop_after_one]
        refine ⟨_, _, _, rfl, take_before _ _, getElem?_after _ _ _, fun _ => ?_⟩
        show cur.m_packet.take n = (cur.m_packet ++ listBytes post).take n
        rw [List.take_append_of_le_length hle]
    · rw [if_neg (fun h => hle ((seqLe_end_iff seq n cur.size hn hsz h0).1 h))]
      rw [getElem?_after_one]
      cases post with
      | nil =>
        refine ⟨_, _, cur, rfl, take_before _ _, getElem?_after _ _ _, fun hc => ?_⟩
        rw [listBytes_cons_length] at hc
        simp [listBytes] at hc
        omega
      | cons next post' =>
        rw [List.getElem?_cons_zero]
        dsimp only
        rw [take_before, drop_after_two]
        have hm : (MergeItems cur next).m_packet = cur.m_packet ++ next.m_packet :=
          MergeItems_packet cur next
        have hb : listBytes (MergeItems cur next :: post') = listBytes (cur :: next :: post') := by
          simp only [listBytes, hm, List.append_assoc]
        have := ih post' (MergeItems cur next) (edits ++ [.erase (pre.length + 1)])
          (by unfold TcpTxItem.size at *; rw [hm, List.length_append]; omega)
          (by rw [hb]; exact hL) (by simpa using hfuel)
        rw [hb] at this
        exact this

theorem seqGt_irrefl (a : Nat) : ¬ seqGt a a := by
  unfold seqGt; omega

/-- The case of `GetPacketFromList` in which `seq` lies inside the item `cur`: the item is
split at `seq` and the call goes on in the aligned case. -/
theorem locate_inside (seq start n : Nat) (pre : List TcpTxItem) (cur : TcpTxItem)
    (post : List TcpTxItem) (bg fuel : Nat) (edits : List ListEdit)
    (hseq : seq < 4294967296) (hbg : bg < 4294967296) (hn : n ≤ 2147483648)
    (SK : ∀ l' : List TcpTxItem,
      findItem seq (pre ++ l') start 0 = findItem seq l' bg (0 + pre.length))
    (hfound : seqLt seq (seqAdd bg cur.size)) (hgt : seqGt seq bg)
    (hL : (listBytes (cur :: post)).length < 2147483648)
    (hfuel : post.length + 1 < fuel) :
    ∃ (list' : List TcpTxItem) (edits' : List ListEdit) (item : TcpTxItem),
      GetPacketFromList fuel (pre ++ cur :: post) start n seq edits
        = .ok (list', pre.length + 1, edits') ∧
      listBytes (list'.take (pre.length + 1))
        = listBytes pre ++ cur.m_packet.take (seqDiff seq bg) ∧
      list'[pre.length + 1]? = some item ∧
      (seqDiff seq bg + n ≤ (listBytes (cur :: post)).length →
        item.m_packet = ((listBytes (cur :: post)).drop (seqDiff seq bg)).take n) := by
  obtain ⟨f, rfl⟩ : ∃ f, fuel = f + 1 := ⟨fuel - 1, by omega⟩
  have hsz : cur.size < 2147483648 := by
    rw [listBytes_cons_length] at hL; omega
  obtain ⟨hd0, hd⟩ := seqDiff_window seq bg cur.size hseq hbg hsz hgt hfound
  have hfind : findItem seq (pre ++ cur :: post) start 0 = some (pre.length, bg) := by
    rw [SK, findItem, if_pos hfound, Nat.zero_add]
  have hne : ¬ seq = bg := fun h => seqGt_irrefl bg (h ▸ hgt)
  rw [GetPacketFromList, hfind]
  dsimp only
  rw [getElem?_after]
  dsimp only
  rw [if_neg hne, if_pos hgt]
  simp only [SplitItems]
  rw [take_before, drop_after_one, List.append_cons]
  have hfs : ({ TcpTxItem.new with
      m_packet := cur.m_packet.take (seqDiff seq bg)
      m_qided := cur.m_qided
      m_sacked := cur.m_sacked
      m_lastSent := cur.m_lastSent
      m_retrans := cur.m_retrans
      m_lost := cur.m_lost } : TcpTxItem).size = seqDiff seq bg := by
    unfold TcpTxItem.size at *
    simp only [List.length_take]
    omega
  have SK2 : ∀ l' : List TcpTxItem,
      findItem seq ((pre ++ [{ TcpTxItem.new with
        m_packet := cur.m_packet.take (seqDiff seq bg)
        m_qided := cur.m_qided
        m_sacked := cur.m_sacked
        m_lastSent := cur.m_lastSent
        m_retrans := cur.m_retrans
        m_lost := cur.m_lost }]) ++ l') start 0
        = findItem seq l' seq (0 + (pre ++ [{ TcpTxItem.new with
        m_packet := cur.m_packet.take (seqDiff seq bg)
        m_qided := cur.m_qided
        m_sacked := cur.m_sacked
        m_lastSent := cur.m_lastSent
        m_retrans := cur.m_retrans
        m_lost := cur.m_lost }]).length) := by
    intro l'
    rw [List.append_assoc, List.singleton_append, SK, findItem, hfs, seqAdd_seqDiff seq bg hseq,
      if_neg (fun h => h.2 rfl), List.length_append, List.length_singleton, Nat.add_assoc]
  have hrest : listBytes ({ cur with m_packet := cur.m_packet.drop (seqDiff seq bg) } :: post)
      = (listBytes (cur :: post)).drop (seqDiff seq bg) := by
    show cur.m_packet.drop _ ++ listBytes post = (cur.m_packet ++ listBytes post).drop _
    rw [List.drop_append_of_le_length (by unfold TcpTxItem.size at hd; omega)]
  obtain ⟨list', edits', item, r1, r2, r3, r4⟩ := locate_aligned seq start n _ hseq hn SK2 f post
    { cur with m_packet := cur.m_packet.drop (seqDiff seq bg) }
    (edits ++ [.insertBefore pre.length])
    (by unfold TcpTxItem.size at *; simp only [List.length_drop]; omega)
    (by rw [hrest, List.length_drop]; omega) (by omega)
  rw [List.length_append, List.length_singleton] at r1 r2 r3
  refine ⟨list', edits', item, r1, ?_, r3, fun hc => ?_⟩
  · rw [r2, listBytes_append]
    simp [listBytes]
  · rw [hrest] at r4
    exact r4 (by rw [List.length_drop]; omega)

/-- Inside the window of the sequence numbers (a list of fewer than `2^31` bytes, a
request for at most `2^31` bytes, 32-bit sequence numbers), `GetPacketFromList` with
fuel for every item of the list and two more calls returns an item or raises the fatal
error. -/
theorem locate_in_window (fuel : Nat) (list : List TcpTxItem) (start n seq : Nat)
    (edits : List ListEdit) (hstart : start < 4294967296) (hseq : seq < 4294967296)
    (hL : (listBytes list).length < 2147483648) (hn : n ≤ 2147483648)
    (hfuel : list.length + 2 ≤ fuel) :
    (∃ r, GetPacketFromList fuel list start n seq edits = .ok r) ∨
    GetPacketFromList fuel list start n seq edits = .error .fatal := by
  cases hf : findItem seq list start 0 with
  | none =>
    obtain ⟨f, rfl⟩ : ∃ f, fuel = f + 1 := ⟨fuel - 1, by omega⟩
    right
    rw [GetPacketFromList, hf]
  | some r =>
    obtain ⟨i, bg⟩ := r
    obtain ⟨pre, cur, post, e1, e2, e3, e4, e5⟩ := findItem_some seq list start 0 i bg hstart hf
    subst e1
    have hbg : bg < 4294967296 := by rw [e3]; exact seqAdd_lt _ _
    have hLc : (listBytes (cur :: post)).length < 2147483648 := by
      rw [listBytes_append, List.length_append] at hL; omega
    have hsz : cur.size < 2147483648 := by
      rw [listBytes_cons_length] at hLc; omega
    have hlen : (pre ++ cur :: post).length = pre.length + post.length + 1 := by
      simp; omega
    by_cases h1 : seq = bg
    · subst h1
      have h0 : 0 < cur.size := (seqLt_self_add seq cur.size hseq hsz).1 e4
      obtain ⟨list', edits', item, r1, -⟩ := locate_aligned seq start n pre hseq hn e5 fuel post
        cur edits h0 hLc (by omega)
      exact Or.inl ⟨_, r1⟩
    · by_cases h2 : seqGt seq bg
      · obtain ⟨list', edits', item, r1, -⟩ := locate_inside seq start n pre cur post bg fuel edits
          hseq hbg hn e5 e4 h2 hLc (by omega)
        exact Or.inl ⟨_, r1⟩
      · obtain ⟨f, rfl⟩ : ∃ f, fuel = f + 1 := ⟨fuel - 1, by omega⟩
        right
        rw [GetPacketFromList, hf]
        dsimp only
        rw [e2, Nat.zero_add, getElem?_after]
        dsimp only
        rw [if_neg h1, if_neg h2]

/-- Inside the window, a range that lies in the list is returned exactly. -/
theorem locate_exact (fuel : Nat) (list : List TcpTxItem) (start n δ : Nat)
    (edits : List ListEdit) (hstart : start < 4294967296)
    (hL : (listBytes list).length < 2147483648) (hn : 0 < n)
    (hfit : δ + n ≤ (listBytes list).length) (hfuel : list.length + 2 ≤ fuel) :
    ∃ (list' : List TcpTxItem) (i : Nat) (edits' : List ListEdit) (item : TcpTxItem),
      GetPacketFromList fuel list start n (seqAdd start δ) edits = .ok (list', i, edits') ∧
      list'[i]? = some item ∧
      (listBytes (list'.take i)).length = δ ∧
      item.m_packet = ((listBytes list).drop δ).take n := by
  obtain ⟨pre, cur, post, e1, e2, e3, e4⟩ := findItem_offset list start 0 δ hstart hL (by omega)
  obtain ⟨pre2, cur2, post2, g1, g2, g3, g4, g5⟩ := findItem_some (seqAdd start δ) list start 0 _ _
    hstart e2
  have hpre : pre2 = pre := by
    have h1 : pre2.length = pre.length := by omega
    have h2 := e1.symm.trans g1
    have := congrArg (List.take pre.length) h2
    rw [take_before, ← h1, take_before] at this
    exact this.symm
  subst hpre
  have hcp : cur2 :: post2 = cur :: post := by
    have := e1.symm.trans g1
    exact (List.append_cancel_left this).symm
  have hcur : cur2 = cur := (List.cons.inj hcp).1
  have hpost : post2 = post := (List.cons.inj hcp).2
  subst hcur; subst hpost
  subst e1
  have hseq : seqAdd start δ < 4294967296 := seqAdd_lt _ _
  have hLc : (listBytes (cur2 :: post2)).length < 2147483648 := by
    rw [listBytes_append, List.length_append] at hL; omega
  have hsz : cur2.size < 2147483648 := by
    rw [listBytes_cons_length] at hLc; omega
  have hlen : (pre2 ++ cur2 :: post2).length = pre2.length + post2.length + 1 := by
    simp; omega
  have hbytes : listBytes (pre2 ++ cur2 :: post2) = listBytes pre2 ++ listBytes (cur2 :: post2) :=
    listBytes_append _ _
  rw [hbytes, List.length_append] at hfit hL
  by_cases h1 : δ = (listBytes pre2).length
  · have h0 : 0 < cur2.size := by omega
    have hb : seqAdd start (listBytes pre2).length = seqAdd start δ := by rw [h1]
    rw [hb] at g5
    obtain ⟨list', edits', item, r1, r2, r3, r4⟩ := locate_aligned (seqAdd start δ) start n pre2
      hseq (by omega) g5 fuel post2 cur2 edits h0 hLc (by omega)
    refine ⟨list', pre2.length, edits', item, r1, r3, by rw [r2, h1], ?_⟩
    rw [r4 (by omega), hbytes, h1, List.drop_left' rfl]
  · have hgt : seqGt (seqAdd start δ) (seqAdd start (listBytes pre2).length) :=
      (seqGt_seqAdd_iff start δ _ (by omega) (by omega)).2 (by omega)
    have hd : seqDiff (seqAdd start δ) (seqAdd start (listBytes pre2).length)
        = δ - (listBytes pre2).length := by
      unfold seqDiff sub32 seqAdd; omega
    rw [← g3] at hgt hd g5
    obtain ⟨list', edits', item, r1, r2, r3, r4⟩ := locate_inside (seqAdd start δ) start n pre2
      cur2 post2 _ fuel edits hseq (by rw [g3]; exact seqAdd_lt _ _) (by omega) g5 g4 hgt hLc
      (by omega)
    rw [hd] at r2 r4
    refine ⟨list', pre2.length + 1, edits', item, r1, r3, ?_, ?_⟩
    · rw [r2, List.length_append, List.length_take]
      unfold TcpTxItem.size at e4
      omega
    · rw [r4 (by omega), hbytes]
      congr 1
      have : δ = (listBytes pre2).length + (δ - (listBytes pre2).length) := by omega
      conv_rhs => rw [this]
      rw [List.drop_append]

theorem locate_wide (x : TcpTxItem) (hx : x.size = 2147483648) (fuel : Nat) :
    (listBytes [x]).length = 2147483648 ∧
    GetPacketFromList (fuel + 1) [x] 0 1 0 [] = .error .fatal := by
  have hf : findItem 0 [x] 0 0 = none := by
    rw [findItem, hx, if_neg (by decide), findItem]
  refine ⟨?_, by rw [GetPacketFromList, hf]⟩
  rw [listBytes_cons_length, hx]
  rfl

/-! # The claims -/

theorem not_seqGt_of_seqGe (a b : Nat) (h : seqGe a b) : ¬ seqGt b a := by
  unfold seqGe seqGt at h
  unfold seqGt
  omega

theorem reachable_oneUnit : Reachable oneUnit :=
  Reachable.add 7 [1, 2, 3, 4, 5, 6, 7, 8, 9, 10] (TcpTxBuffer.create 1000 16 24) (by decide)
    (Reachable.create 1000 16 24 32768 (by decide) (by decide) (by decide) (by decide))

/-- C1, as stated, fails: with one 50-byte unit on each pending list and nothing sent,
`CopyFromSequence (200, head)` is asked for `min (200, tail - head) = 100` bytes and
returns 50, the bytes of the redundancy unit alone. -/
theorem extract_shorter_than_clamp :
    seqGe 1000 (HeadSequence oneUnit) ∧
    min 200 (seqDiff (TailSequence oneUnit) 1000) = 100 ∧
    (CopyFromSequence 10 200 1000 5 oneUnit).map (fun r => r.1.length) = .ok 50 := by
  decide

/-- C1 (amended): for every buffer state and every `seq >= HeadSequence ()`, a
`CopyFromSequence (n, seq)` that returns hands back exactly
`min (n, SizeFromSequence (seq))` bytes when the range is already sent in full
(`m_firstByteSeq + m_sentSize >= seq + s`) and when it begins in front of the first
unsent byte and reaches beyond it (in a state in which the byte accounting `Inv` holds,
as in every state reached by `Add`, `CopyFromSequence` and `DiscardUpTo`); and, when
`seq` is the first unsent byte and the range is not already sent, exactly that size cut
to the unsent bytes of the stream that is served: `m_size - m_appsentSize` when
`m_qednum > 0`, `m_stageSize - m_stagesentSize` otherwise. In no state does it hand
back more than `min (n, SizeFromSequence (seq))` bytes. -/
theorem extract_length (fuel n seq : Nat) (now : Int) (b : TcpTxBuffer) (p : List Nat)
    (b' : TcpTxBuffer) (hseq : seqGe seq (HeadSequence b))
    (h : CopyFromSequence fuel n seq now b = .ok (p, b')) :
    p.length ≤ min n (SizeFromSequence b seq) ∧
    (seqGe (seqAdd (HeadSequence b) b.m_sentSize) (seqAdd seq (min n (SizeFromSequence b seq))) →
      p.length = min n (SizeFromSequence b seq)) ∧
    (Inv b → HeadSequence b < 4294967296 →
      seqGt (seqAdd (HeadSequence b) b.m_sentSize) seq →
      p.length = min n (SizeFromSequence b seq)) ∧
    (seq = seqAdd (HeadSequence b) b.m_sentSize →
      ¬ seqGe (seqAdd (HeadSequence b) b.m_sentSize)
          (seqAdd seq (min n (SizeFromSequence b seq))) →
      p.length = min (min n (SizeFromSequence b seq))
        (if 0 < b.m_qednum then sub32 b.m_size b.m_appsentSize
         else sub32 b.m_stageSize b.m_stagesentSize)) := by
  have hge : ¬ seqGt b.m_firstByteSeq seq := not_seqGt_of_seqGe _ _ hseq
  refine ⟨CopyFromSequence_le _ _ _ _ _ _ _ h, ?_, ?_, ?_⟩
  · intro hsent
    exact CopyFromSequence_sent _ _ _ _ _ _ _ hsent hge h
  · intro hI hf hin
    exact CopyFromSequence_inside _ _ _ _ _ _ _ hI hf hge hin h
  · intro hs hnew
    subst hs
    obtain ⟨x, bm, -, -, hpk, -, hsz, -⟩ :=
      CopyFromSequence_new_of fuel n now b p b' hge hnew h
    rw [← hpk]
    show x.size = _
    rw [hsz]
    split <;> rfl

/-- C1 (amended), at concrete inputs: the extraction of 200 bytes from `oneUnit`, whose
head is 1000 with nothing sent, returns the 50 unsent redundancy bytes; in `dataSent`
(head 1010, 50 bytes sent, 40 unsent), the 30 bytes asked for at 1050 straddle the first
unsent byte, 1060, and 30 bytes are returned. -/
theorem extract_length_witness :
    (seqGe 1000 (HeadSequence oneUnit) ∧
     CopyFromSequence 10 200 1000 5 oneUnit = .ok (oneUnitSent.1, oneUnitSent.2) ∧
     1000 = seqAdd (HeadSequence oneUnit) oneUnit.m_sentSize ∧
     ¬ seqGe (seqAdd (HeadSequence oneUnit) oneUnit.m_sentSize)
        (seqAdd 1000 (min 200 (SizeFromSequence oneUnit 1000))) ∧
     oneUnitSent.1.length = 50 ∧
     oneUnitSent.1.length = min (min 200 (SizeFromSequence oneUnit 1000))
        (if 0 < oneUnit.m_qednum then sub32 oneUnit.m_size oneUnit.m_appsentSize
         else sub32 oneUnit.m_stageSize oneUnit.m_stagesentSize)) ∧
    (seqGe 1050 (HeadSequence dataSent.2) ∧
     CopyFromSequence 10 30 1050 9 dataSent.2 = .ok (straddled.1, straddled.2) ∧
     Inv dataSent.2 ∧
     seqAdd (HeadSequence dataSent.2) dataSent.2.m_sentSize = 1060 ∧
     seqGt (seqAdd (HeadSequence dataSent.2) dataSent.2.m_sentSize) 1050 ∧
     ¬ seqGe (seqAdd (HeadSequence dataSent.2) dataSent.2.m_sentSize)
        (seqAdd 1050 (min 30 (SizeFromSequence dataSent.2 1050))) ∧
     min 30 (SizeFromSequence dataSent.2 1050) = 30 ∧
     straddled.1.length = min 30 (SizeFromSequence dataSent.2 1050)) :=
  have hI : Inv dataSent.2 := ⟨by decide, by decide, by decide, by decide, by decide⟩
  ⟨⟨by decide, by decide, by decide, by decide, by decide,
    (extract_length 10 200 1000 5 oneUnit oneUnitSent.1 oneUnitSent.2 (by decide)
      (by decide)).2.2.2 (by decide) (by decide)⟩,
   ⟨by decide, by decide, hI, by decide, by decide, by decide, by decide,
    (extract_length 10 30 1050 9 dataSent.2 straddled.1 straddled.2 (by decide)
      (by decide)).2.2.1 hI (by decide) (by decide)⟩⟩

/-- C2, as stated, fails: on `twoUnits` both pending lists are non-empty before the first
and before the second call (2 and 1 items left in between), and two consecutive
extractions of 43 new bytes both move a redundancy unit (tag `true`) to the sent
list. -/
theorem two_extracts_same_stream :
    twoUnits.m_appList.length = 2 ∧ twoUnits.m_qidList.length = 2 ∧
    twoUnitsRun = .ok (43, 43, [true, true], 2, 1) := by
  decide

/-- C2 (amended): two consecutive extractions of new data (each from the first unsent
byte, each asking for fewer than `2^31` bytes and returning a non-empty payload) each
append one item to the sent list, and the two items carry different stream tags if and
only if `m_qednum` is exactly one before the first call: then the first item is a data
unit and the second a redundancy unit. -/
theorem alternation_iff_one_credit (b : TcpTxBuffer) (hq : b.m_qednum < 4294967296)
    (fuel n1 n2 : Nat) (now1 now2 : Int) (p1 p2 : List Nat) (b1 b2 : TcpTxBuffer)
    (hn1 : n1 < 2147483648) (hn2 : n2 < 2147483648)
    (h1 : CopyFromSequence fuel n1 (seqAdd (HeadSequence b) b.m_sentSize) now1 b = .ok (p1, b1))
    (hp1 : p1 ≠ [])
    (h2 : CopyFromSequence fuel n2 (seqAdd (HeadSequence b1) b1.m_sentSize) now2 b1
      = .ok (p2, b2))
    (hp2 : p2 ≠ []) :
    ∃ x1 x2 : TcpTxItem,
      b1.m_sentList = b.m_sentList ++ [x1] ∧ b2.m_sentList = b1.m_sentList ++ [x2] ∧
      (x1.m_qided ≠ x2.m_qided ↔ b.m_qednum = 1) ∧
      (b.m_qednum = 1 → x1.m_qided = false ∧ x2.m_qided = true) := by
  obtain ⟨x1, bm1, hx1, -, -, hb1, -, -, -⟩ :=
    CopyFromSequence_new fuel n1 now1 b p1 b1 (by omega) h1 hp1
  obtain ⟨x2, bm2, hx2, -, -, hb2, -, -, -⟩ :=
    CopyFromSequence_new fuel n2 now2 b1 p2 b2 (by omega) h2 hp2
  have t1 := hx1.tag
  have t2 := hx2.tag
  have q1 : b1.m_qednum = bm1.m_qednum := by rw [hb1]
  have q1' := hx1.qednum
  have s0 : (chooseStage b).m_stage = if 0 < b.m_qednum then 0 else 1 := rfl
  have s1 : (chooseStage b1).m_stage = if 0 < b1.m_qednum then 0 else 1 := rfl
  have c0 : (chooseStage b).m_qednum = b.m_qednum := rfl
  refine ⟨{ x1 with m_lost := false, m_lastSent := now1 },
    { x2 with m_lost := false, m_lastSent := now2 }, by rw [hb1], by rw [hb2], ?_, ?_⟩
  · show x1.m_qided ≠ x2.m_qided ↔ _
    rw [t1, t2, s0, s1, q1, q1', s0, c0]
    by_cases hz : b.m_qednum = 0
    · simp [hz]
    · by_cases ho : b.m_qednum = 1
      · simp [ho, sub32]
      · have hpos : 0 < b.m_qednum := by omega
        have hsub : sub32 b.m_qednum 1 = b.m_qednum - 1 := by unfold sub32; omega
        have hpos2 : 0 < b.m_qednum - 1 := by omega
        simp [hpos, hsub, hpos2, ho]
  · intro ho
    show x1.m_qided = false ∧ x2.m_qided = true
    rw [t1, t2, s0, s1, q1, q1', s0, c0]
    simp [ho, sub32]

/-- C2 (amended), at a concrete input: from `creditState` (`m_qednum = 1`) the data
unit is taken first and the redundancy bytes second. -/
theorem alternation_iff_one_credit_witness :
    creditState.m_qednum < 4294967296 ∧ creditState.m_qednum = 1 ∧
    CopyFromSequence 10 200 (seqAdd (HeadSequence creditState) creditState.m_sentSize) 3
      creditState = .ok (dataSent.1, dataSent.2) ∧
    CopyFromSequence 10 200 (seqAdd (HeadSequence dataSent.2) dataSent.2.m_sentSize) 4
      dataSent.2 = .ok (bothSent.1, bothSent.2) ∧
    ∃ x1 x2 : TcpTxItem,
      dataSent.2.m_sentList = creditState.m_sentList ++ [x1] ∧
      bothSent.2.m_sentList = dataSent.2.m_sentList ++ [x2] ∧
      (x1.m_qided ≠ x2.m_qided ↔ creditState.m_qednum = 1) ∧
      (creditState.m_qednum = 1 → x1.m_qided = false ∧ x2.m_qided = true) :=
  ⟨by decide, by decide, by decide, by decide,
   alternation_iff_one_credit creditState (by decide) 10 200 200 3 4 dataSent.1 bothSent.1
     dataSent.2 bothSent.2 (by decide) (by decide) (by decide) (by decide) (by decide)
     (by decide)⟩

/-- C3: in every reachable state, when an extraction of new data (from the first unsent
byte `HeadSequence () + m_sentSize`) returns a non-empty payload `p`, the extraction of
`p.length` bytes from the same sequence that follows returns `p` again, and the item `x`
it leaves at the end of the sent list (behind the `m_sentSize` bytes sent before, so
spanning the range asked for) holds `p` and is flagged `m_retrans`. -/
theorem extract_again_same_payload (b : TcpTxBuffer) (hR : Reachable b) (fuel n : Nat)
    (now now2 : Int) (p : List Nat) (b1 : TcpTxBuffer)
    (h1 : CopyFromSequence fuel n (seqAdd (HeadSequence b) b.m_sentSize) now b = .ok (p, b1))
    (hp : p ≠ []) :
    ∃ x : TcpTxItem,
      CopyFromSequence fuel p.length (seqAdd (HeadSequence b) b.m_sentSize) now2 b1
        = .ok (p, { b1 with m_sentList := b.m_sentList ++ [x] }) ∧
      x.m_packet = p ∧ x.m_retrans = true ∧
      (listBytes b.m_sentList).length = b.m_sentSize :=
  extract_twice b hR fuel n now now2 p b1 h1 hp

/-- C3, at a concrete input: the first extraction from `oneUnit` and its repetition. -/
theorem extract_again_same_payload_witness :
    Reachable oneUnit ∧
    CopyFromSequence 10 200 (seqAdd (HeadSequence oneUnit) oneUnit.m_sentSize) 5 oneUnit
      = .ok (oneUnitSent.1, oneUnitSent.2) ∧
    oneUnitSent.1 ≠ [] ∧
    ∃ x : TcpTxItem,
      CopyFromSequence 10 oneUnitSent.1.length
          (seqAdd (HeadSequence oneUnit) oneUnit.m_sentSize) 6 oneUnitSent.2
        = .ok (oneUnitSent.1, { oneUnitSent.2 with m_sentList := oneUnit.m_sentList ++ [x] }) ∧
      x.m_packet = oneUnitSent.1 ∧ x.m_retrans = true ∧
      (listBytes oneUnit.m_sentList).length = oneUnit.m_sentSize :=
  ⟨reachable_oneUnit, by decide, by decide,
   extract_again_same_payload oneUnit reachable_oneUnit 10 200 5 6 oneUnitSent.1
     oneUnitSent.2 (by decide) (by decide)⟩

/-- C4, as stated, fails: with 100 bytes available, a header of 16 and 24 redundancy
bytes, a one-byte payload satisfies `5 * (len + header) = 85 <= 100` and `Add` rejects
it, because the guard also counts the redundancy bytes (`5 * 41 = 205`). -/
theorem enqueue_rejected_within_spec_bound :
    5 * (([7] : List Nat).length + smallBuffer.m_qheader) ≤ Available smallBuffer ∧
    (Add 0 [7] smallBuffer).1 = false := by
  decide

/-- C4 (amended): for every buffer state and payload, `Add` returns `true` if and only if
`5 * (len + m_qheader + m_red)`, computed in 32-bit unsigned arithmetic, is at most
`Available ()`; it returns `false` otherwise. -/
theorem enqueue_accepts_iff (rnd : Nat) (p : List Nat) (b : TcpTxBuffer) :
    (Add rnd p b).1 = true ↔
      (5 * (p.length + b.m_qheader + b.m_red)) % 4294967296 ≤ Available b :=
  Add_fst_iff rnd p b

/-- C5: for every payload of length `n > 0` that `Add` accepts, with
`5 * (n + m_qheader + m_red) < 2^32`, `Available ()` decreases by exactly
`2 * (n + m_qheader + m_red)`, `TailSequence ()` advances by the same amount (in
sequence arithmetic) and `HeadSequence ()` is unchanged. -/
theorem enqueue_capacity_delta (rnd : Nat) (p : List Nat) (b : TcpTxBuffer)
    (hp : 0 < p.length)
    (hlt : 5 * (p.length + b.m_qheader + b.m_red) < 4294967296)
    (hacc : (Add rnd p b).1 = true) :
    Available (Add rnd p b).2 + 2 * (p.length + b.m_qheader + b.m_red) = Available b ∧
    TailSequence (Add rnd p b).2
      = seqAdd (TailSequence b) (2 * (p.length + b.m_qheader + b.m_red)) ∧
    HeadSequence (Add rnd p b).2 = HeadSequence b :=
  Add_accept_delta rnd p b hp hlt hacc

/-- C5, at a concrete input: a ten-byte payload on a fresh buffer. -/
theorem enqueue_capacity_delta_witness :
    0 < ([1, 2, 3, 4, 5, 6, 7, 8, 9, 10] : List Nat).length ∧
    5 * (10 + 16 + 24) < 4294967296 ∧
    (Add 7 [1, 2, 3, 4, 5, 6, 7, 8, 9, 10] (TcpTxBuffer.create 1000 16 24)).1 = true ∧
    Available oneUnit + 2 * (10 + 16 + 24) = Available (TcpTxBuffer.create 1000 16 24) ∧
    TailSequence oneUnit = seqAdd (TailSequence (TcpTxBuffer.create 1000 16 24))
      (2 * (10 + 16 + 24)) ∧
    HeadSequence oneUnit = HeadSequence (TcpTxBuffer.create 1000 16 24) :=
  ⟨by decide, by decide, by decide,
   enqueue_capacity_delta 7 [1, 2, 3, 4, 5, 6, 7, 8, 9, 10] (TcpTxBuffer.create 1000 16 24)
     (by decide) (by decide) (by decide)⟩

/-- C6, as stated, fails: `Add` of the empty payload on a fresh buffer returns `true`,
appends one item to `m_qidList` and none to `m_appList` (`Addapp` queues nothing for
an empty packet, while the encoded packet handed to `Addqed` has `m_red` bytes). -/
theorem enqueue_empty_payload_one_segment :
    (Add 0 [] (TcpTxBuffer.create 0 16 24)).1 = true ∧
    (Add 0 [] (TcpTxBuffer.create 0 16 24)).2.m_appList = [] ∧
    (Add 0 [] (TcpTxBuffer.create 0 16 24)).2.m_qidList.length = 1 := by
  decide

/-- C6 (amended): every `Add` that returns `true` for a non-empty payload with
`5 * (len + m_qheader + m_red) < 2^32` appends exactly one item, tagged as data, to
`m_appList` and exactly one item, tagged as redundancy, to `m_qidList`. -/
theorem enqueue_appends_one_each (rnd : Nat) (p : List Nat) (b : TcpTxBuffer)
    (hp : 0 < p.length)
    (hlt : 5 * (p.length + b.m_qheader + b.m_red) < 4294967296)
    (hacc : (Add rnd p b).1 = true) :
    ∃ x y : TcpTxItem, x.m_qided = false ∧ y.m_qided = true ∧
      (Add rnd p b).2.m_appList = b.m_appList ++ [x] ∧
      (Add rnd p b).2.m_qidList = b.m_qidList ++ [y] :=
  Add_accept_lists rnd p b hp hlt hacc

/-- C6 (amended), at a concrete input: a ten-byte payload on a fresh buffer. -/
theorem enqueue_appends_one_each_witness :
    0 < ([1, 2, 3, 4, 5, 6, 7, 8, 9, 10] : List Nat).length ∧
    5 * (10 + 16 + 24) < 4294967296 ∧
    (Add 7 [1, 2, 3, 4, 5, 6, 7, 8, 9, 10] (TcpTxBuffer.create 1000 16 24)).1 = true ∧
    ∃ x y : TcpTxItem, x.m_qided = false ∧ y.m_qided = true ∧
      oneUnit.m_appList = (TcpTxBuffer.create 1000 16 24).m_appList ++ [x] ∧
      oneUnit.m_qidList = (TcpTxBuffer.create 1000 16 24).m_qidList ++ [y] :=
  ⟨by decide, by decide, by decide,
   enqueue_appends_one_each 7 [1, 2, 3, 4, 5, 6, 7, 8, 9, 10] (TcpTxBuffer.create 1000 16 24)
     (by decide) (by decide) (by decide)⟩

/-- C8, evaluated where the code fails: `bothSent` is reached from a fresh buffer by one
`Add`, an extraction of ten bytes, their acknowledgement and two extractions. Its head
is 1010 and 90 bytes are sent (a 50-byte data unit, then 40 redundancy bytes).
`DiscardUpTo (1100)` removes the data unit, leaves the loop because `m_size` is now zero,
and stops with the head at 1060 and the 40 redundancy bytes still in the sent list; the
closing `NS_ASSERT (m_firstByteSeq >= seq)` fails. -/
theorem discard_stops_short :
    creditRun = .ok creditState ∧
    CopyFromSequence 10 200 1010 3 creditState = .ok (dataSent.1, dataSent.2) ∧
    CopyFromSequence 10 200 1060 4 dataSent.2 = .ok (bothSent.1, bothSent.2) ∧
    HeadSequence bothSent.2 = 1010 ∧ bothSent.2.m_sentSize = 90 ∧
    seqLt (HeadSequence bothSent.2) 1100 ∧
    seqLe 1100 (seqAdd (HeadSequence bothSent.2) bothSent.2.m_sentSize) ∧
    (DiscardUpToBody 10 1100 5 bothSent.2).map
        (fun c => (HeadSequence c, (listBytes c.m_sentList).length, c.m_size, c.m_stageSize))
      = .ok (1060, 40, 0, 40) ∧
    DiscardUpTo 10 1100 5 bothSent.2 = .error .assertion := by
  decide

/-- C9: for every buffer state and every `seq <= HeadSequence ()`, `DiscardUpTo (seq)`
returns the buffer unchanged: lists, flags, counters, head, tail and `m_highestSack`. -/
theorem discard_noop (fuel seq : Nat) (now : Int) (b : TcpTxBuffer)
    (h : seqLe seq (HeadSequence b)) : DiscardUpTo fuel seq now b = .ok b := by
  have hge : seqGe b.m_firstByteSeq seq := seqGe_of_seqLe _ _ h
  simp [DiscardUpTo, hge]

/-- C9, at a concrete input: sequence 900 on a buffer whose head is 1000. -/
theorem discard_noop_witness :
    seqLe 900 (HeadSequence bothSent.2) ∧ DiscardUpTo 10 900 5 bothSent.2 = .ok bothSent.2 :=
  ⟨by decide, discard_noop 10 900 5 bothSent.2 (by decide)⟩

/-- C10: for every item `t` and every offset `0 < k < t.size`, `SplitItems` at `k`
followed by `MergeItems` of the two fragments gives back `t`: payload, `m_sacked`,
`m_lost`, `m_retrans`, `m_lastSent` (and the stream tag). The first fragment is written
into any item `t1`, as `SplitItems` overwrites every field of it. -/
theorem split_merge_roundtrip (t1 t : TcpTxItem) (k : Nat) (_h0 : 0 < k) (_hk : k < t.size) :
    MergeItems (SplitItems t1 t k).1 (SplitItems t1 t k).2 = t := by
  cases t with
  | mk pk lost retrans lastSent sacked qided =>
    simp only [SplitItems, MergeItems]
    cases sacked <;> cases retrans <;> cases lost <;> simp

/-- C10, at a concrete input: a five-byte item with every flag set, split at 2. -/
theorem split_merge_roundtrip_witness :
    0 < 2 ∧ 2 < sampleItem.size ∧
    MergeItems (SplitItems TcpTxItem.new sampleItem 2).1
      (SplitItems TcpTxItem.new sampleItem 2).2 = sampleItem :=
  ⟨by decide, by decide, split_merge_roundtrip TcpTxItem.new sampleItem 2 (by decide) (by decide)⟩

/-! ## Claims C11 to C20 -/

theorem reachable_oneUnitSent : Reachable oneUnitSent.2 :=
  Reachable.copy 10 200 1000 5 oneUnit oneUnitSent.1 oneUnitSent.2 reachable_oneUnit (by decide)

theorem Reachable.tail_counts {b : TcpTxBuffer} (hR : Reachable b) :
    seqDiff (TailSequence b) (HeadSequence b) = totalBytes b := by
  have hI := hR.toInv
  have hf := hR.first_lt
  have h := tail_diff b.m_firstByteSeq b.m_size b.m_stageSize 0 (totalBytes b) hI.count
    (Nat.zero_le _)
  rw [seqAdd_zero _ hf] at h
  exact h

/-- C11, evaluated where the code fails: `bothSent` is reached from a fresh buffer by
`Add`, `CopyFromSequence` and `DiscardUpTo`; its sent list holds a 50-byte data item and
a 40-byte redundancy item and `m_sentSize = m_appsentSize + m_stagesentSize = 50 + 40`.
`ResetLastSegmentSent` takes the size of the item it moves from `m_sentSize` and from the
counter of that item's stream, and keeps the equation. `ResetSentList (0)` takes, for
every item it moves, the size of the item that is last afterwards (50, for the moved
40-byte redundancy item) from `m_sentSize` and from the counter of the moved item's
stream, and zeroes that counter and `m_sentSize` when the list is empty: it ends with an
empty sent list, `m_sentSize = 0`, `m_appsentSize = 0` and
`m_stagesentSize = 2^32 - 10`. -/
theorem reset_unbalances_sent_counters :
    creditRun = .ok creditState ∧
    CopyFromSequence 10 200 1010 3 creditState = .ok (dataSent.1, dataSent.2) ∧
    CopyFromSequence 10 200 1060 4 dataSent.2 = .ok (bothSent.1, bothSent.2) ∧
    bothSent.2.m_sentList.map (fun x => (x.size, x.m_qided)) = [(50, false), (40, true)] ∧
    bothSent.2.m_sentSize = add32 bothSent.2.m_appsentSize bothSent.2.m_stagesentSize ∧
    (ResetLastSegmentSent bothSent.2).m_sentSize
      = add32 (ResetLastSegmentSent bothSent.2).m_appsentSize
          (ResetLastSegmentSent bothSent.2).m_stagesentSize ∧
    (ResetSentList 0 bothSent.2).m_sentList = [] ∧
    (ResetSentList 0 bothSent.2).m_sentSize = 0 ∧
    (ResetSentList 0 bothSent.2).m_appsentSize = 0 ∧
    (ResetSentList 0 bothSent.2).m_stagesentSize = 4294967286 ∧
    (ResetSentList 0 bothSent.2).m_sentSize
      ≠ add32 (ResetSentList 0 bothSent.2).m_appsentSize
          (ResetSentList 0 bothSent.2).m_stagesentSize := by
  decide

/-- C12, as stated, fails: after the first extraction from `oneUnit` the tail is 100
bytes behind the head, while the two pending lists hold 50 bytes; the other 50 are in the
sent list. -/
theorem tail_counts_sent_bytes :
    CopyFromSequence 10 200 1000 5 oneUnit = .ok (oneUnitSent.1, oneUnitSent.2) ∧
    seqDiff (TailSequence oneUnitSent.2) (HeadSequence oneUnitSent.2) = 100 ∧
    (listBytes oneUnitSent.2.m_appList).length + (listBytes oneUnitSent.2.m_qidList).length
      = 50 ∧
    (listBytes oneUnitSent.2.m_sentList).length = 50 := by
  decide

/-- C12 (amended): in every state reached from a fresh buffer by `Add`,
`CopyFromSequence` and `DiscardUpTo`, `TailSequence () - HeadSequence ()` is the number
of bytes (headers included) of the items held in the sent list and in the two pending
lists together. -/
theorem tail_minus_head_counts_all (b : TcpTxBuffer) (hR : Reachable b) :
    seqDiff (TailSequence b) (HeadSequence b)
      = (listBytes b.m_sentList).length + (listBytes b.m_appList).length
        + (listBytes b.m_qidList).length :=
  hR.tail_counts

/-- C12 (amended), at a concrete input: `oneUnitSent`, 50 bytes sent and 50 pending. -/
theorem tail_minus_head_counts_all_witness :
    Reachable oneUnitSent.2 ∧
    seqDiff (TailSequence oneUnitSent.2) (HeadSequence oneUnitSent.2)
      = (listBytes oneUnitSent.2.m_sentList).length
        + (listBytes oneUnitSent.2.m_appList).length
        + (listBytes oneUnitSent.2.m_qidList).length :=
  ⟨reachable_oneUnitSent, tail_minus_head_counts_all oneUnitSent.2 reachable_oneUnitSent⟩

/-- C13, evaluated where the code fails: `unequalSent` is reached from a fresh buffer by
two `Add` and two `CopyFromSequence`; its sent list holds a 50-byte and a 43-byte item
and `m_sentSize = 93`. `ResetLastSegmentSent` moves the 43-byte item back and leaves
`m_sentSize = 50`, the size of the sent list. `ResetSentList (1)` moves the same item
back and takes the size of the item that stays, 50, from `m_sentSize`: the sent list
holds 50 bytes and `m_sentSize` is 43, which the `NS_ASSERT (sentSize ==
tcpTxBuf.m_sentSize)` of `operator<<` rejects. -/
theorem reset_miscounts_sent_bytes :
    unequalRun = .ok unequalSent ∧
    unequalSent.m_sentList.map (fun x => x.size) = [50, 43] ∧
    (listBytes unequalSent.m_sentList).length = unequalSent.m_sentSize ∧
    (listBytes (ResetLastSegmentSent unequalSent).m_sentList).length
      = (ResetLastSegmentSent unequalSent).m_sentSize ∧
    (ResetSentList 1 unequalSent).m_sentList.map (fun x => x.size) = [50] ∧
    (listBytes (ResetSentList 1 unequalSent).m_sentList).length = 50 ∧
    (ResetSentList 1 unequalSent).m_sentSize = 43 := by
  decide

/-- C14: for a non-empty sent list and SACK blocks none of which covers its head, with
sequence numbers that do not wrap (the head, the end of the sent list and the bounds of
every block lie in a window `[lo, lo + 2^31)` below `2^32`): `Update` returns when the
head is not flagged `m_sacked` (otherwise its closing `NS_ASSERT` fails), and then an
item of the sent list is flagged `m_sacked` if and only if it was flagged before or its
byte range lies inside one of the blocks. Nothing else changes: the items keep packet,
size and every other flag, the list keeps its length, and of the members of the buffer
only `m_sentList` and `m_highestSack` differ. -/
theorem sack_marks_exactly (b : TcpTxBuffer) (blocks : List (Nat × Nat)) (lo : Nat)
    (hlo : lo + 2147483648 ≤ 4294967296) (hfirst : lo ≤ b.m_firstByteSeq)
    (hlast : b.m_firstByteSeq + (listBytes b.m_sentList).length < lo + 2147483648)
    (hblocks : ∀ blk ∈ blocks, lo ≤ blk.1 ∧ blk.1 < lo + 2147483648 ∧ lo ≤ blk.2
      ∧ blk.2 < lo + 2147483648)
    (head : TcpTxItem) (rest : List TcpTxItem) (hne : b.m_sentList = head :: rest)
    (hcover : ∀ blk ∈ blocks,
      ¬ (blk.1 ≤ b.m_firstByteSeq ∧ b.m_firstByteSeq + head.size ≤ blk.2)) :
    (head.m_sacked = true → Update blocks b = .error .assertion) ∧
    (head.m_sacked = false →
      ∃ (modified : Bool) (b' : TcpTxBuffer), Update blocks b = .ok (modified, b') ∧
        b' = { b with m_sentList := b'.m_sentList, m_highestSack := b'.m_highestSack } ∧
        b'.m_sentList.length = b.m_sentList.length ∧
        ∀ (i : Nat) (x : TcpTxItem), b.m_sentList[i]? = some x →
          ∃ y : TcpTxItem, b'.m_sentList[i]? = some y ∧
            y = { x with m_sacked := y.m_sacked } ∧
            (y.m_sacked = true ↔ x.m_sacked = true ∨ ∃ blk ∈ blocks,
              blk.1 ≤ b.m_firstByteSeq + (listBytes (b.m_sentList.take i)).length ∧
              b.m_firstByteSeq + (listBytes (b.m_sentList.take i)).length + x.size
                ≤ blk.2)) := by
  have hany : blocks.any (fun blk => decide (blk.1 ≤ b.m_firstByteSeq
      ∧ b.m_firstByteSeq + head.size ≤ blk.2)) = false := by
    rw [List.any_eq_false]
    intro blk hb
    simpa using hcover blk hb
  have hU := Update_eq b blocks lo hlo hfirst hlast hblocks
  have hsm : sackMarks blocks b.m_sentList b.m_firstByteSeq
      = head :: sackMarks blocks rest (b.m_firstByteSeq + head.size) := by
    rw [hne]
    simp only [sackMarks, hany, TcpTxItem.sacked_or_false]
  rw [hsm] at hU
  constructor
  · intro hs
    rw [hU]
    simp [hs]
  · intro hs
    simp only [hs, if_true] at hU
    obtain ⟨-, hl, hfr⟩ := Update_marks b blocks lo hlo hfirst hlast hblocks _ _ hU
    refine ⟨_, _, hU, hfr, ?_, ?_⟩
    · rw [hl, sackMarks_length]
    · intro i x hx
      refine ⟨{ x with m_sacked := (x.m_sacked || blocks.any (fun blk =>
          decide (blk.1 ≤ b.m_firstByteSeq + (listBytes (b.m_sentList.take i)).length
            ∧ b.m_firstByteSeq + (listBytes (b.m_sentList.take i)).length + x.size
              ≤ blk.2))) }, ?_, rfl, ?_⟩
      · rw [hl]
        exact sackMarks_getElem blocks b.m_sentList b.m_firstByteSeq i x hx
      · simp only [Bool.or_eq_true, List.any_eq_true, decide_eq_true_eq]

/-- C14, at a concrete input: the block `[1050, 1093)` on `unequalSent` (head 1000, a
50-byte and a 43-byte item). -/
theorem sack_marks_exactly_witness :
    (unequalSent.m_sentList.headD TcpTxItem.new).m_sacked = false ∧
    ((unequalSent.m_sentList.headD TcpTxItem.new).m_sacked = true →
      Update [(1050, 1093)] unequalSent = .error .assertion) ∧
    ((unequalSent.m_sentList.headD TcpTxItem.new).m_sacked = false →
      ∃ (modified : Bool) (b' : TcpTxBuffer),
        Update [(1050, 1093)] unequalSent = .ok (modified, b') ∧
        b' = { unequalSent with m_sentList := b'.m_sentList,
                                m_highestSack := b'.m_highestSack } ∧
        b'.m_sentList.length = unequalSent.m_sentList.length ∧
        ∀ (i : Nat) (x : TcpTxItem), unequalSent.m_sentList[i]? = some x →
          ∃ y : TcpTxItem, b'.m_sentList[i]? = some y ∧
            y = { x with m_sacked := y.m_sacked } ∧
            (y.m_sacked = true ↔ x.m_sacked = true ∨ ∃ blk ∈ [(1050, 1093)],
              blk.1 ≤ unequalSent.m_firstByteSeq
                + (listBytes (unequalSent.m_sentList.take i)).length ∧
              unequalSent.m_firstByteSeq
                + (listBytes (unequalSent.m_sentList.take i)).length + x.size ≤ blk.2)) :=
  ⟨by decide,
   sack_marks_exactly unequalSent [(1050, 1093)] 0 (by decide) (by decide) (by decide)
     (by decide) (unequalSent.m_sentList.headD TcpTxItem.new) unequalSent.m_sentList.tail
     (by decide) (by decide)⟩

/-- C15, as stated, fails: the block `[1050, 1093)` covers the second item of
`unequalSent`; `Update` flags it and returns `true`. The same block applied to the
resulting state changes nothing, no item and no member of the buffer, and `Update`
returns `true` again. -/
theorem sack_again_returns_true :
    Update [(1050, 1093)] unequalSent = .ok (true, sackedOnce) ∧
    sackedOnce.m_sentList.map (fun x => x.m_sacked) = [false, true] ∧
    Update [(1050, 1093)] sackedOnce = .ok (true, sackedOnce) := by
  decide

/-- C15 (amended): with sequence numbers that do not wrap (as in C14), an `Update` that
returns gives `true` if and only if some item of the sent list lies inside one of the
blocks, whether or not that item was flagged `m_sacked` before; `Update` with the same
blocks on the resulting state returns the same value and leaves the sent list as it
is. -/
theorem sack_returns_covered (b : TcpTxBuffer) (blocks : List (Nat × Nat)) (lo : Nat)
    (hlo : lo + 2147483648 ≤ 4294967296) (hfirst : lo ≤ b.m_firstByteSeq)
    (hlast : b.m_firstByteSeq + (listBytes b.m_sentList).length < lo + 2147483648)
    (hblocks : ∀ blk ∈ blocks, lo ≤ blk.1 ∧ blk.1 < lo + 2147483648 ∧ lo ≤ blk.2
      ∧ blk.2 < lo + 2147483648)
    (modified : Bool) (b' : TcpTxBuffer) (h : Update blocks b = .ok (modified, b')) :
    (modified = true ↔ ∃ blk ∈ blocks, ∃ (i : Nat) (x : TcpTxItem),
      b.m_sentList[i]? = some x ∧
      blk.1 ≤ b.m_firstByteSeq + (listBytes (b.m_sentList.take i)).length ∧
      b.m_firstByteSeq + (listBytes (b.m_sentList.take i)).length + x.size ≤ blk.2) ∧
    ∃ b'' : TcpTxBuffer, Update blocks b' = .ok (modified, b'') ∧
      b''.m_sentList = b'.m_sentList := by
  obtain ⟨hm, hl, hfr⟩ := Update_marks b blocks lo hlo hfirst hlast hblocks _ _ h
  have hf' : b'.m_firstByteSeq = b.m_firstByteSeq := by rw [hfr]
  constructor
  · rw [hm, List.any_eq_true]
    constructor
    · rintro ⟨blk, hb, hin⟩
      exact ⟨blk, hb, (anyInside_iff blk _ _).1 hin⟩
    · rintro ⟨blk, hb, hin⟩
      exact ⟨blk, hb, (anyInside_iff blk _ _).2 hin⟩
  · have hfirst' : lo ≤ b'.m_firstByteSeq := by rw [hf']; exact hfirst
    have hlast' : b'.m_firstByteSeq + (listBytes b'.m_sentList).length < lo + 2147483648 := by
      rw [hf', hl, listBytes_sackMarks]; exact hlast
    have hU := Update_eq b' blocks lo hlo hfirst' hlast' hblocks
    have hU0 := Update_eq b blocks lo hlo hfirst hlast hblocks
    rw [h] at hU0
    rw [hl, hf', sackMarks_idem] at hU
    cases hs : sackMarks blocks b.m_sentList b.m_firstByteSeq with
    | nil => rw [hs] at hU0; cases hU0
    | cons hd tl =>
      rw [hs] at hU0 hU
      by_cases hk : hd.m_sacked = false
      · simp only [hk, if_true] at hU
        obtain ⟨v, st, hv⟩ : ∃ v st, Update blocks b' = .ok (v, st) := ⟨_, _, hU⟩
        obtain ⟨hm', hl', -⟩ := Update_marks b' blocks lo hlo hfirst' hlast' hblocks _ _ hv
        refine ⟨st, ?_, ?_⟩
        · rw [hv, hm', hm, hl, hf']
          simp only [anyInside_sackMarks]
        · rw [hl', hl, hf', sackMarks_idem]
      · simp only [hk, if_false] at hU0
        cases hU0

/-- C15 (amended), at a concrete input: the block `[1050, 1093)` on `unequalSent`. -/
theorem sack_returns_covered_witness :
    Update [(1050, 1093)] unequalSent = .ok (true, sackedOnce) ∧
    ((true = true ↔ ∃ blk ∈ [(1050, 1093)], ∃ (i : Nat) (x : TcpTxItem),
      unequalSent.m_sentList[i]? = some x ∧
      blk.1 ≤ unequalSent.m_firstByteSeq + (listBytes (unequalSent.m_sentList.take i)).length ∧
      unequalSent.m_firstByteSeq + (listBytes (unequalSent.m_sentList.take i)).length + x.size
        ≤ blk.2) ∧
    ∃ b'' : TcpTxBuffer, Update [(1050, 1093)] sackedOnce = .ok (true, b'') ∧
      b''.m_sentList = sackedOnce.m_sentList) :=
  ⟨by decide,
   sack_returns_covered unequalSent [(1050, 1093)] 0 (by decide) (by decide) (by decide)
     (by decide) true sackedOnce (by decide)⟩

/-- C16, as stated, fails: `allLost` holds one sent item, which begins at sequence 1000
and is flagged `m_lost`. The overload of `IsLost` that is given the item returns `true`
at once; `IsLost (1000, 3, 1000)` returns `false`, because no SACK has arrived and its
first test, `seq >= m_highestSack.second`, holds. -/
theorem lost_flag_without_sack :
    startedRun.map (fun r => r.2) = .ok started ∧
    allLost.m_firstByteSeq = 1000 ∧
    allLost.m_sentList.map (fun x => x.m_lost) = [true] ∧
    allLost.m_highestSack = (.atEnd, 0) ∧
    IsLostAt allLost 1000 0 3 1000 = .ok true ∧
    IsLost allLost 1000 3 1000 = .ok false := by
  decide

/-- C16 (amended): for every buffer state, every `dupThresh` and `segmentSize`, and every
item `x` of the sent list that is flagged `m_lost` and begins at a sequence `seq` below
`m_highestSack.second` (the non-empty items `pre` in front of it holding fewer than
`2^31` bytes), `IsLost (seq, dupThresh, segmentSize)` returns `true`. -/
theorem lost_flag_below_highest_sack (b : TcpTxBuffer) (pre post : List TcpTxItem)
    (x : TcpTxItem) (dupThresh segmentSize : Nat)
    (hlist : b.m_sentList = pre ++ x :: post)
    (hpos : ∀ y ∈ pre, 0 < y.size)
    (hfirst : b.m_firstByteSeq < 4294967296)
    (hlen : (listBytes pre).length < 2147483648)
    (hlost : x.m_lost = true)
    (hbelow : seqLt (seqAdd b.m_firstByteSeq (listBytes pre).length) b.m_highestSack.2) :
    IsLost b (seqAdd b.m_firstByteSeq (listBytes pre).length) dupThresh segmentSize
      = .ok true := by
  have hn : ¬ seqGe (seqAdd b.m_firstByteSeq (listBytes pre).length) b.m_highestSack.2 := by
    unfold seqLt at hbelow
    unfold seqGe
    tauto
  unfold IsLost
  rw [if_neg hn, hlist, isLostSearch_at b _ dupThresh segmentSize pre x post 0 _ hfirst hpos
    hlen rfl]
  rw [Nat.zero_add, IsLostAt_eq b pre post x _ _ _ hlist, if_pos hlost]

/-- C16 (amended), at a concrete input: the first item of `sackedOnce`, flagged lost by
`SetSentListLost`, begins at 1000, below `m_highestSack.second = 1093`. -/
theorem lost_flag_below_highest_sack_witness :
    (SetSentListLost sackedOnce).m_sentList
      = [] ++ (SetSentListLost sackedOnce).m_sentList.headD TcpTxItem.new
          :: (SetSentListLost sackedOnce).m_sentList.tail ∧
    ((SetSentListLost sackedOnce).m_sentList.headD TcpTxItem.new).m_lost = true ∧
    seqLt (seqAdd (SetSentListLost sackedOnce).m_firstByteSeq
      (listBytes ([] : List TcpTxItem)).length) (SetSentListLost sackedOnce).m_highestSack.2 ∧
    IsLost (SetSentListLost sackedOnce)
      (seqAdd (SetSentListLost sackedOnce).m_firstByteSeq
        (listBytes ([] : List TcpTxItem)).length) 3 1000 = .ok true :=
  ⟨by decide, by decide, by decide,
   lost_flag_below_highest_sack (SetSentListLost sackedOnce) []
     (SetSentListLost sackedOnce).m_sentList.tail
     ((SetSentListLost sackedOnce).m_sentList.headD TcpTxItem.new) 3 1000
     (by decide) (by decide) (by decide) (by decide) (by decide) (by decide)⟩

/-- C18, as stated, fails for two of the operations it names. Extraction: in
`lostSacked` the item at 1000 is flagged lost and lies below `m_highestSack.second`, so
`IsLost (1000, 3, 1000)` is `true`; `CopyFromSequence (50, 1000)` retransmits the item,
which clears `m_lost` (the item stays in the sent list, not SACKed), and `IsLost` is
`false` afterwards. `ResetLastSegmentSent`: in `sackedOnce` the item at 1000 has one
SACKed item behind it and `IsLost (1000, 1, 1000)` is `true`; `ResetLastSegmentSent`
takes that SACKed item out of the sent list, the item at 1000 stays as it is, and
`IsLost` is `false` afterwards. -/
theorem loss_forgotten :
    Update [(1050, 1093)] (SetSentListLost unequalSent) = .ok (true, lostSacked) ∧
    IsLost lostSacked 1000 3 1000 = .ok true ∧
    (CopyFromSequence 10 50 1000 9 lostSacked).map
        (fun r => (r.2.m_firstByteSeq, r.2.m_sentList.map (fun x => (x.size, x.m_sacked))))
      = .ok (1000, [(50, false), (43, true)]) ∧
    (CopyFromSequence 10 50 1000 9 lostSacked).bind (fun r => IsLost r.2 1000 3 1000)
      = .ok false ∧
    IsLost sackedOnce 1000 1 1000 = .ok true ∧
    (ResetLastSegmentSent sackedOnce).m_firstByteSeq = 1000 ∧
    (ResetLastSegmentSent sackedOnce).m_sentList.map (fun x => (x.size, x.m_sacked))
      = [(50, false)] ∧
    (ResetLastSegmentSent sackedOnce).m_sentList.head? = sackedOnce.m_sentList.head? ∧
    IsLost (ResetLastSegmentSent sackedOnce) 1000 1 1000 = .ok false := by
  decide

/-- C18 (amended): let `x` be the item of the sent list that begins at `seq`, with
`IsLost (seq, dupThresh, segmentSize)` `true`; the items of the sent list are not empty
and the sequence numbers do not wrap (the head, the end of the sent list and
`m_highestSack.second` lie in a window `[lo, lo + 2^31)` below `2^32`). Then `IsLost` is
still `true` after `Add`; after `SetSentListLost`; after a `CopyFromSequence` that
extracts new data (from the first unsent byte, fewer than `2^31` bytes, a non-empty
payload); after an `Update` with blocks (in the window) none of which covers `x`; and
after a `DiscardUpTo (seq')` with `seq' <= seq`, so that `x` is not removed, on a buffer
that satisfies its accounting invariant and whose `m_highestSack.first` is `end ()` or a
node at or behind `x`. -/
theorem loss_kept (b : TcpTxBuffer) (pre post : List TcpTxItem) (x : TcpTxItem)
    (dupThresh segmentSize lo : Nat) (hlist : b.m_sentList = pre ++ x :: post)
    (hpos : ∀ y ∈ b.m_sentList, 0 < y.size)
    (hlo : lo + 2147483648 ≤ 4294967296) (hfirst : lo ≤ b.m_firstByteSeq)
    (hlast : b.m_firstByteSeq + (listBytes b.m_sentList).length < lo + 2147483648)
    (hhs : lo ≤ b.m_highestSack.2 ∧ b.m_highestSack.2 < lo + 2147483648)
    (h : IsLost b (b.m_firstByteSeq + (listBytes pre).length) dupThresh segmentSize
      = .ok true) :
    (∀ (rnd : Nat) (p : List Nat),
      IsLost (Add rnd p b).2 (b.m_firstByteSeq + (listBytes pre).length) dupThresh segmentSize
        = .ok true) ∧
    IsLost (SetSentListLost b) (b.m_firstByteSeq + (listBytes pre).length) dupThresh
      segmentSize = .ok true ∧
    (∀ (fuel n : Nat) (now : Int) (p : List Nat) (b' : TcpTxBuffer), n < 2147483648 →
      CopyFromSequence fuel n (seqAdd b.m_firstByteSeq b.m_sentSize) now b = .ok (p, b') →
      p ≠ [] →
      IsLost b' (b.m_firstByteSeq + (listBytes pre).length) dupThresh segmentSize
        = .ok true) ∧
    (∀ (blocks : List (Nat × Nat)) (modified : Bool) (b' : TcpTxBuffer),
      (∀ blk ∈ blocks, lo ≤ blk.1 ∧ blk.1 < lo + 2147483648 ∧ lo ≤ blk.2
        ∧ blk.2 < lo + 2147483648) →
      (∀ blk ∈ blocks, ¬ (blk.1 ≤ b.m_firstByteSeq + (listBytes pre).length
        ∧ b.m_firstByteSeq + (listBytes pre).length + x.size ≤ blk.2)) →
      Update blocks b = .ok (modified, b') →
      IsLost b' (b.m_firstByteSeq + (listBytes pre).length) dupThresh segmentSize
        = .ok true) ∧
    (∀ (fuel seq' : Nat) (now : Int) (b' : TcpTxBuffer),
      Inv b →
      (b.m_highestSack.1 = .atEnd ∨ ∃ j, b.m_highestSack.1 = .atNode j ∧ pre.length ≤ j) →
      lo ≤ seq' → seq' ≤ b.m_firstByteSeq + (listBytes pre).length →
      DiscardUpTo fuel seq' now b = .ok b' →
      IsLost b' (b.m_firstByteSeq + (listBytes pre).length) dupThresh segmentSize
        = .ok true) := by
  have hbl : (listBytes b.m_sentList).length
      = (listBytes pre).length + (x.size + (listBytes post).length) := by
    rw [hlist, listBytes_append, List.length_append, listBytes_cons_length]
  have hppre : ∀ y ∈ pre, 0 < y.size := fun y hy =>
    hpos y (by rw [hlist]; exact List.mem_append_left _ hy)
  have hx : 0 < x.size := hpos x (by rw [hlist]; simp)
  refine ⟨?_, ?_, ?_, ?_, ?_⟩
  · intro rnd p
    rw [IsLost_Add]
    exact h
  · exact IsLost_SetSentListLost b _ _ _ h
  · intro fuel n now p b' hn hc hp
    exact IsLost_CopyFromSequence_new b _ _ _ h fuel n now p b' hn hc hp
  · intro blocks modified b' hblocks hcov hU
    exact IsLost_Update b pre post x dupThresh segmentSize lo hlist hpos hlo hfirst hlast hhs
      blocks hblocks hcov h modified b' hU
  · intro fuel seq' now b' hI hiter hlo' hle hD
    exact IsLost_DiscardUpTo b pre post x dupThresh segmentSize lo hlist hppre hx hlo hfirst
      (by omega) hhs hiter hI h fuel seq' now b' hlo' hle hD

/-- C18 (amended), at a concrete input: in `threeSacked` the item at 1010 has one SACKed
item behind it and `IsLost (1010, 1, 1000)` is `true`; it stays `true` after an `Add`,
after `SetSentListLost`, after the extraction of the 43 unsent redundancy bytes, after
the block `[1020, 1050)` is applied again, and after `DiscardUpTo (1010)`, which removes
the item in front and makes 1010 the head. -/
theorem loss_kept_witness :
    threeRun = .ok threeSacked ∧
    threeSacked.m_firstByteSeq + (listBytes (threeSacked.m_sentList.take 1)).length = 1010 ∧
    seqAdd threeSacked.m_firstByteSeq threeSacked.m_sentSize = 1050 ∧
    IsLost threeSacked
      (threeSacked.m_firstByteSeq + (listBytes (threeSacked.m_sentList.take 1)).length)
      1 1000 = .ok true ∧
    (CopyFromSequence 10 43 1050 8 threeSacked).map (fun r => r.1.length) = .ok 43 ∧
    (Update [(1020, 1050)] threeSacked).map (fun r => r.1) = .ok true ∧
    (DiscardUpTo 10 1010 7 threeSacked).map (fun c => c.m_firstByteSeq) = .ok 1010 ∧
    ((∀ (rnd : Nat) (p : List Nat),
      IsLost (Add rnd p threeSacked).2
        (threeSacked.m_firstByteSeq + (listBytes (threeSacked.m_sentList.take 1)).length)
        1 1000 = .ok true) ∧
    IsLost (SetSentListLost threeSacked)
      (threeSacked.m_firstByteSeq + (listBytes (threeSacked.m_sentList.take 1)).length)
      1 1000 = .ok true ∧
    (∀ (p : List Nat) (b' : TcpTxBuffer),
      CopyFromSequence 10 43 (seqAdd threeSacked.m_firstByteSeq threeSacked.m_sentSize) 8
        threeSacked = .ok (p, b') → p ≠ [] →
      IsLost b'
        (threeSacked.m_firstByteSeq + (listBytes (threeSacked.m_sentList.take 1)).length)
        1 1000 = .ok true) ∧
    (∀ (modified : Bool) (b' : TcpTxBuffer),
      Update [(1020, 1050)] threeSacked = .ok (modified, b') →
      IsLost b'
        (threeSacked.m_firstByteSeq + (listBytes (threeSacked.m_sentList.take 1)).length)
        1 1000 = .ok true) ∧
    (∀ b' : TcpTxBuffer, DiscardUpTo 10 1010 7 threeSacked = .ok b' →
      IsLost b'
        (threeSacked.m_firstByteSeq + (listBytes (threeSacked.m_sentList.take 1)).length)
        1 1000 = .ok true)) :=
  ⟨by decide, by decide, by decide, by decide, by decide, by decide, by decide,
   fun rnd p =>
     (loss_kept threeSacked (threeSacked.m_sentList.take 1)
       (threeSacked.m_sentList.drop 2) (threeSacked.m_sentList.getD 1 TcpTxItem.new) 1 1000 0
       (by decide) (by decide) (by decide) (by decide) (by decide) (by decide)
       (by decide)).1 rnd p,
   (loss_kept threeSacked (threeSacked.m_sentList.take 1)
     (threeSacked.m_sentList.drop 2) (threeSacked.m_sentList.getD 1 TcpTxItem.new) 1 1000 0
     (by decide) (by decide) (by decide) (by decide) (by decide) (by decide)
     (by decide)).2.1,
   fun p b' hc hp =>
     (loss_kept threeSacked (threeSacked.m_sentList.take 1)
       (threeSacked.m_sentList.drop 2) (threeSacked.m_sentList.getD 1 TcpTxItem.new) 1 1000 0
       (by decide) (by decide) (by decide) (by decide) (by decide) (by decide)
       (by decide)).2.2.1 10 43 8 p b' (by decide) hc hp,
   fun modified b' hU =>
     (loss_kept threeSacked (threeSacked.m_sentList.take 1)
       (threeSacked.m_sentList.drop 2) (threeSacked.m_sentList.getD 1 TcpTxItem.new) 1 1000 0
       (by decide) (by decide) (by decide) (by decide) (by decide) (by decide)
       (by decide)).2.2.2.1 [(1020, 1050)] modified b' (by decide) (by decide) hU,
   fun b' hD =>
     (loss_kept threeSacked (threeSacked.m_sentList.take 1)
       (threeSacked.m_sentList.drop 2) (threeSacked.m_sentList.getD 1 TcpTxItem.new) 1 1000 0
       (by decide) (by decide) (by decide) (by decide) (by decide) (by decide)
       (by decide)).2.2.2.2 10 1010 7 b'
       ⟨by decide, by decide, by decide, by decide, by decide⟩ (Or.inl (by decide))
       (by decide) (by decide) hD⟩

theorem split_at_getElem (l : List TcpTxItem) (k : Nat) (x : TcpTxItem) (h : l[k]? = some x) :
    l = l.take k ++ x :: l.drop (k + 1) ∧ (l.take k).length = k := by
  have hk : k < l.length := by
    by_contra hc
    rw [List.getElem?_eq_none (by omega)] at h
    cases h
  exact ⟨listBytes_split_at l k x h, by rw [List.length_take]; omega⟩

/-- C19: `NextSeg` follows the order of RFC 6675. (1) If the item at position `k` of the
sent list is neither retransmitted nor SACKed and `IsLost` reports it lost, and `IsLost`
reports no earlier such item lost, `NextSeg` returns the sequence at which item `k`
begins. (2) If `IsLost` reports no such item lost and there is unsent data
(`TailSequence () > HeadSequence () + m_sentSize`), it returns
`HeadSequence () + m_sentSize`. `NextSeg` is a function of the buffer that returns a
sequence only: the method is `const` and there is no buffer afterwards that could
differ. -/
theorem next_seg_order (b : TcpTxBuffer) (dupThresh segmentSize : Nat) (isRecovery : Bool)
    (hfirst : b.m_firstByteSeq < 4294967296) :
    (∀ (k : Nat) (x : TcpTxItem), b.m_sentList[k]? = some x →
      x.m_retrans = false → x.m_sacked = false →
      IsLostAt b (beginSeq b k) k dupThresh segmentSize = .ok true →
      (∀ (j : Nat) (y : TcpTxItem), j < k → b.m_sentList[j]? = some y →
        y.m_retrans = false → y.m_sacked = false →
        IsLostAt b (beginSeq b j) j dupThresh segmentSize = .ok false) →
      NextSeg dupThresh segmentSize isRecovery b = .ok (some (beginSeq b k))) ∧
    ((∀ (j : Nat) (y : TcpTxItem), b.m_sentList[j]? = some y →
        y.m_retrans = false → y.m_sacked = false →
        IsLostAt b (beginSeq b j) j dupThresh segmentSize = .ok false) →
      seqGt (TailSequence b) (seqAdd (HeadSequence b) b.m_sentSize) →
      NextSeg dupThresh segmentSize isRecovery b
        = .ok (some (seqAdd (HeadSequence b) b.m_sentSize))) := by
  constructor
  · intro k x hx hr hs hl hbefore
    obtain ⟨hsplit, hk⟩ := split_at_getElem _ k x hx
    have hpre : ∀ (j : Nat) (y : TcpTxItem), (b.m_sentList.take k)[j]? = some y →
        y.m_retrans = false → y.m_sacked = false →
        IsLostAt b (seqAdd b.m_firstByteSeq (listBytes ((b.m_sentList.take k).take j)).length)
          (0 + j) dupThresh segmentSize = .ok false := by
      intro j y hy h1 h2
      have hjk : j < k := by
        by_contra hc
        rw [List.getElem?_eq_none (by rw [hk]; omega)] at hy
        cases hy
      rw [List.getElem?_take_of_lt hjk] at hy
      rw [List.take_take, Nat.min_eq_left (Nat.le_of_lt hjk), Nat.zero_add]
      exact hbefore j y hjk hy h1 h2
    obtain ⟨s3', v', e⟩ := nextSegScan_found b dupThresh segmentSize isRecovery
      (b.m_sentList.take k) x (b.m_sentList.drop (k + 1)) 0 b.m_firstByteSeq 0 false hpre hr hs
      (by rw [hk, Nat.zero_add]; exact hl) hfirst
    rw [← hsplit] at e
    unfold NextSeg
    rw [e]
    rfl
  · intro hnone hun
    have hpre : ∀ (j : Nat) (y : TcpTxItem), b.m_sentList[j]? = some y →
        y.m_retrans = false → y.m_sacked = false →
        IsLostAt b (seqAdd b.m_firstByteSeq (listBytes (b.m_sentList.take j)).length)
          (0 + j) dupThresh segmentSize = .ok false := by
      intro j y hy h1 h2
      rw [Nat.zero_add]
      exact hnone j y hy h1 h2
    obtain ⟨s3', v', e, -⟩ := nextSegScan_none b dupThresh segmentSize isRecovery
      b.m_sentList 0 b.m_firstByteSeq 0 false hpre hfirst
    have hsz : 0 < SizeFromSequence b (seqAdd b.m_firstByteSeq b.m_sentSize) := by
      unfold SizeFromSequence
      have hge : seqGe (TailSequence b) (seqAdd b.m_firstByteSeq b.m_sentSize) := Or.inl hun
      rw [if_pos hge]
      have h1 : TailSequence b < 4294967296 := seqAdd_lt _ _
      have h2 := seqAdd_lt b.m_firstByteSeq b.m_sentSize
      unfold seqGt at hun
      unfold HeadSequence at hun
      unfold seqDiff sub32
      omega
    unfold NextSeg
    rw [e]
    simp only [hsz, if_true]
    rfl

/-- C19, at concrete inputs: in `allLost` the one sent item is flagged lost and `NextSeg`
returns its sequence, 1000; in `started` nothing is lost, 50 bytes are unsent and
`NextSeg` returns the first unsent sequence, 1050. -/
theorem next_seg_order_witness :
    allLost.m_firstByteSeq < 4294967296 ∧
    started.m_firstByteSeq < 4294967296 ∧
    beginSeq allLost 0 = 1000 ∧
    seqAdd (HeadSequence started) started.m_sentSize = 1050 ∧
    NextSeg 3 1000 false allLost = .ok (some (beginSeq allLost 0)) ∧
    NextSeg 3 1000 false started
      = .ok (some (seqAdd (HeadSequence started) started.m_sentSize)) :=
  ⟨by decide, by decide, by decide, by decide,
   (next_seg_order allLost 3 1000 false (by decide)).1 0
     (allLost.m_sentList.headD TcpTxItem.new) (by decide) (by decide) (by decide) (by decide)
     (fun j _ hj => absurd hj (Nat.not_lt_zero j)),
   (next_seg_order started 3 1000 false (by decide)).2
     (fun j y hy _ _ => by
       cases j with
       | zero => decide
       | succ j =>
         have hl : started.m_sentList.length = 1 := by decide
         rw [List.getElem?_eq_none (by omega)] at hy
         cases hy)
     (by decide)⟩

/-- C20, evaluated where the code fails: in `zeroHead` the head sequence is 0, the sent
list holds two items (at sequences 0 and 43) that are neither retransmitted nor SACKed,
`IsLost` reports neither lost and there is no unsent data. `NextSeg` in recovery
returns 43, the second item: `seqPerRule3` is taken as unset while its value is 0, so the
first item, which begins at 0, is overwritten by the next candidate. In `oneHead`, the
same run one sequence number later, `NextSeg` returns the first item. Out of recovery it
returns no candidate in both. -/
theorem next_seg_skips_sequence_zero :
    drainRun 4294967210 = .ok zeroHead ∧
    HeadSequence zeroHead = 0 ∧
    zeroHead.m_sentList.map (fun x => (x.size, x.m_retrans, x.m_sacked))
      = [(43, false, false), (43, false, false)] ∧
    IsLostAt zeroHead 0 0 3 1000 = .ok false ∧
    IsLostAt zeroHead 43 1 3 1000 = .ok false ∧
    SizeFromSequence zeroHead (seqAdd (HeadSequence zeroHead) zeroHead.m_sentSize) = 0 ∧
    NextSeg 3 1000 true zeroHead = .ok (some 43) ∧
    NextSeg 3 1000 false zeroHead = .ok none ∧
    drainRun 4294967211 = .ok oneHead ∧
    HeadSequence oneHead = 1 ∧
    NextSeg 3 1000 true oneHead = .ok (some 1) ∧
    NextSeg 3 1000 false oneHead = .ok none := by
  decide


/-! ## Claims C21 to C30 -/

/-- C21, as stated, fails: in `midSacked` the sent list holds three redundancy units of
50, 43 and 45 bytes from sequence 1000 on, and `Update` has flagged the second one;
`BytesInFlight` counts 95 bytes, the first and the third. `DiscardUpTo (1050)` removes
the first unit and clears the SACK flag of the second one, which is the head of the sent
list now; `BytesInFlight` counts 88 bytes afterwards, the second unit and the third. -/
theorem discard_clears_sack_of_head :
    midSackRun = .ok midSacked ∧
    HeadSequence midSacked = 1000 ∧
    midSacked.m_sentList.map (fun x => (x.size, x.m_sacked))
      = [(50, false), (43, true), (45, false)] ∧
    BytesInFlight 3 1000 midSacked = .ok 95 ∧
    DiscardUpTo 10 1050 4 midSacked = .ok midAcked ∧
    HeadSequence midAcked = 1050 ∧
    midAcked.m_sentList.map (fun x => (x.size, x.m_sacked)) = [(43, false), (45, false)] ∧
    BytesInFlight 3 1000 midAcked = .ok 88 := by
  decide

/-- C21 (amended): let the sent list hold three non-empty items `u1`, `u2`, `u3` of which
`u3` is not flagged `m_sacked` (and `u2` is, or is not), with `m_highestSack` as `Update`
stores it when it flags `u2` (the node behind `u2`, the sequence at which `u2` ends), sequence
numbers that do not wrap, and the guard of the loop of `DiscardUpTo` true (`m_size > 0`
and `m_size + m_stageSize > 0`). Then `DiscardUpTo` of the sequence at which `u1` ends
returns, the head is that sequence, the sent list holds `u2` with its SACK flag cleared
and `u3` as it was, and `BytesInFlight` counts the bytes of `u2`, and those of `u3`,
unless the item is flagged lost. -/
theorem discard_unmarks_new_head (b : TcpTxBuffer) (u1 u2 u3 : TcpTxItem) (fuel : Nat)
    (now : Int) (dupThresh segmentSize : Nat)
    (hlist : b.m_sentList = [u1, u2, u3]) (h1 : 0 < u1.size) (h2 : 0 < u2.size)
    (hlen : u1.size + u2.size + u3.size < 2147483648)
    (hwrap : b.m_firstByteSeq + u1.size + u2.size + u3.size < 4294967296)
    (hs3 : u3.m_sacked = false)
    (hhs : b.m_highestSack = (.atNode 2, b.m_firstByteSeq + u1.size + u2.size))
    (hsize : 0 < b.m_size) (hcount : 0 < add32 b.m_size b.m_stageSize) :
    ∃ b' : TcpTxBuffer,
      DiscardUpTo (fuel + 2) (b.m_firstByteSeq + u1.size) now b = .ok b' ∧
      HeadSequence b' = b.m_firstByteSeq + u1.size ∧
      b'.m_sentList = [{ u2 with m_sacked := false }, u3] ∧
      BytesInFlight dupThresh segmentSize b'
        = .ok ((if u2.m_lost = true then 0 else u2.size)
            + (if u3.m_lost = true then 0 else u3.size)) := by
  obtain ⟨b1, hloop, l1, f1, k1⟩ := discardLoop_one b u1 [u2, u3] fuel now hlist h1 hsize hcount
  have hadd : seqAdd b.m_firstByteSeq u1.size = b.m_firstByteSeq + u1.size := by
    unfold seqAdd; omega
  rw [hadd] at f1
  have hk : b1.m_highestSack = (.atNode 1, b.m_firstByteSeq + u1.size + u2.size) := by
    rw [k1, hhs]; rfl
  have hnr : ¬ seqLe b1.m_highestSack.2 b1.m_firstByteSeq := by
    rw [hk, f1]
    unfold seqLe seqGt
    simp only [not_not]
    left
    omega
  obtain ⟨t1, t2, t3⟩ := discardTail_head b1 _ _ l1 hnr
  have hng : ¬ seqGe b.m_firstByteSeq (b.m_firstByteSeq + u1.size) := by
    unfold seqGe seqGt; omega
  have hd : seqDiff (b.m_firstByteSeq + u1.size) b.m_firstByteSeq = u1.size := by
    unfold seqDiff sub32; omega
  have hD : DiscardUpTo (fuel + 2) (b.m_firstByteSeq + u1.size) now b
      = .ok (discardTail b1.m_firstByteSeq b1) := by
    unfold DiscardUpTo DiscardUpToBody
    rw [if_neg hng, if_neg hng, hd, hloop]
    dsimp only
    rw [← f1, if_pos (by rw [t2]; right; rfl)]
  refine ⟨_, hD, ?_, t1, ?_⟩
  · show (discardTail b1.m_firstByteSeq b1).m_firstByteSeq = _
    rw [t2, f1]
  · have hx : ¬ seqGe (discardTail b1.m_firstByteSeq b1).m_firstByteSeq
        (b.m_firstByteSeq + u1.size + u2.size) := by
      rw [t2, f1]
      unfold seqGe seqGt; omega
    have hb := BytesInFlight_two (discardTail b1.m_firstByteSeq b1) { u2 with m_sacked := false }
      u3 (b.m_firstByteSeq + u1.size + u2.size) dupThresh segmentSize t1 rfl hs3
      (by rw [t3, hk]) hx
      (by show u2.size + u3.size < 4294967296; omega)
    exact hb

/-- C21 (amended), at a concrete input: `midSacked`, whose second item `Update` has
flagged. -/
theorem discard_unmarks_new_head_witness :
    midSacked.m_sentList
      = [midSacked.m_sentList.headD TcpTxItem.new,
         midSacked.m_sentList.tail.headD TcpTxItem.new,
         midSacked.m_sentList.tail.tail.headD TcpTxItem.new] ∧
    (midSacked.m_sentList.tail.headD TcpTxItem.new).m_sacked = true ∧
    midSacked.m_highestSack = (.atNode 2, 1093) ∧
    ∃ b' : TcpTxBuffer,
      DiscardUpTo (8 + 2)
        (midSacked.m_firstByteSeq + (midSacked.m_sentList.headD TcpTxItem.new).size) 4
        midSacked = .ok b' ∧
      HeadSequence b'
        = midSacked.m_firstByteSeq + (midSacked.m_sentList.headD TcpTxItem.new).size ∧
      b'.m_sentList
        = [{ midSacked.m_sentList.tail.headD TcpTxItem.new with m_sacked := false },
           midSacked.m_sentList.tail.tail.headD TcpTxItem.new] ∧
      BytesInFlight 3 1000 b'
        = .ok ((if (midSacked.m_sentList.tail.headD TcpTxItem.new).m_lost = true then 0
                else (midSacked.m_sentList.tail.headD TcpTxItem.new).size)
            + (if (midSacked.m_sentList.tail.tail.headD TcpTxItem.new).m_lost = true then 0
               else (midSacked.m_sentList.tail.tail.headD TcpTxItem.new).size)) :=
  ⟨by decide, by decide, by decide,
   discard_unmarks_new_head midSacked (midSacked.m_sentList.headD TcpTxItem.new)
     (midSacked.m_sentList.tail.headD TcpTxItem.new)
     (midSacked.m_sentList.tail.tail.headD TcpTxItem.new) 8 4 3 1000
     (by decide) (by decide) (by decide) (by decide) (by decide) (by decide) (by decide)
     (by decide) (by decide)⟩

/-- C22: for every buffer state and every `keepItems`, `ResetSentList (keepItems)` leaves
in the sent list its first `min (keepItems, size)` items, in their order, with their
bytes, stream tags and time stamps; when something is taken off, the item that is last
afterwards is flagged lost and its `m_sacked` and `m_retrans` are cleared (`markLast`),
the other items that stay are untouched. The items taken off (`trimmedBack`, which keeps
bytes, tags and time stamps) are put, in their order, in front of the pending list of
their stream, each with `m_retrans` and `m_sacked` cleared. `m_highestSack` is
`(end (), 0)`, and `HeadSequence ()` and `TailSequence ()` are unchanged. -/
theorem reset_trims_ledger (keepItems : Nat) (b : TcpTxBuffer) :
    (ResetSentList keepItems b).m_sentList
      = (if keepItems < b.m_sentList.length then markLast (b.m_sentList.take keepItems)
         else b.m_sentList) ∧
    (ResetSentList keepItems b).m_sentList.map (fun x => (x.m_packet, x.m_qided, x.m_lastSent))
      = (b.m_sentList.take (min keepItems b.m_sentList.length)).map
          (fun x => (x.m_packet, x.m_qided, x.m_lastSent)) ∧
    (ResetSentList keepItems b).m_sentList.dropLast
      = (b.m_sentList.take (min keepItems b.m_sentList.length)).dropLast ∧
    (ResetSentList keepItems b).m_appList
      = (trimmedBack (b.m_sentList.drop keepItems)).filter (fun y => !y.m_qided)
        ++ b.m_appList ∧
    (ResetSentList keepItems b).m_qidList
      = (trimmedBack (b.m_sentList.drop keepItems)).filter (fun y => y.m_qided)
        ++ b.m_qidList ∧
    (trimmedBack (b.m_sentList.drop keepItems)).map
        (fun x => (x.m_packet, x.m_qided, x.m_lastSent))
      = (b.m_sentList.drop keepItems).map (fun x => (x.m_packet, x.m_qided, x.m_lastSent)) ∧
    (∀ x ∈ trimmedBack (b.m_sentList.drop keepItems),
      x.m_retrans = false ∧ x.m_sacked = false) ∧
    (ResetSentList keepItems b).m_highestSack = (.atEnd, 0) ∧
    HeadSequence (ResetSentList keepItems b) = HeadSequence b ∧
    TailSequence (ResetSentList keepItems b) = TailSequence b := by
  obtain ⟨r1, r2, r3, r4, r5, r6, -⟩ := ResetSentList_lists keepItems b
  have hmin : b.m_sentList.take (min keepItems b.m_sentList.length)
      = b.m_sentList.take keepItems := by
    rcases Nat.le_total keepItems b.m_sentList.length with h | h
    · rw [Nat.min_eq_left h]
    · rw [Nat.min_eq_right h, List.take_of_length_le h, List.take_of_length_le (Nat.le_refl _)]
  refine ⟨r1, ?_, ?_, r2, r3, trimmedBack_body _, trimmedBack_flags _, rfl, r4, ?_⟩
  · rw [r1, hmin]
    split
    · exact markLast_body _
    · rename_i h
      rw [List.take_of_length_le (by omega)]
  · rw [r1, hmin]
    split
    · rcases eq_nil_or_concat_items (b.m_sentList.take keepItems) with h | ⟨t, x, h⟩
      · rw [h]; rfl
      · rw [h, markLast_concat, dropLast_append_single, dropLast_append_single]
    · rename_i h
      rw [List.take_of_length_le (by omega)]
  · show seqAdd (seqAdd (ResetSentList keepItems b).m_firstByteSeq
      (ResetSentList keepItems b).m_size) (ResetSentList keepItems b).m_stageSize = _
    rw [r4, r5, r6]
    rfl

/-- C23, as stated, fails: in `oneUnitSent` the sent list holds one redundancy unit, with
the bytes the extraction returned. `ResetSentList (0)` puts it on `m_qidList` with those
bytes, and `m_esQseq` and `m_stageQseq` are 8 and 1 as before; `Addqednew` on the same
item would have made other bytes of it and moved the counters to 9 and 2. -/
theorem reset_requeues_same_bytes :
    oneUnitSent.2.m_sentList.map (fun x => (x.m_qided, x.m_packet)) = [(true, oneUnitSent.1)] ∧
    oneUnitSent.2.m_qidList = [] ∧
    (oneUnitSent.2.m_esQseq, oneUnitSent.2.m_stageQseq) = (8, 1) ∧
    (ResetSentList 0 oneUnitSent.2).m_sentList = [] ∧
    (ResetSentList 0 oneUnitSent.2).m_qidList.map (fun x => x.m_packet) = [oneUnitSent.1] ∧
    ((ResetSentList 0 oneUnitSent.2).m_esQseq, (ResetSentList 0 oneUnitSent.2).m_stageQseq)
      = (8, 1) ∧
    regeneratedUnit = .ok (false, 9, 2) := by
  decide

/-- C23 (amended): `ResetSentList` regenerates nothing. The redundancy items it takes off
the sent list are put in front of `m_qidList`, in their order, with the bytes they held in
the sent list, and the counters `m_esQseq`, `m_stageQseq` and `m_sendQseq`, which
`Addqednew` and `Add` stamp into a header, are not moved. -/
theorem reset_keeps_ledger_bytes (keepItems : Nat) (b : TcpTxBuffer) :
    (ResetSentList keepItems b).m_qidList.map (fun x => x.m_packet)
      = ((b.m_sentList.drop keepItems).filter (fun x => x.m_qided)).map (fun x => x.m_packet)
        ++ b.m_qidList.map (fun x => x.m_packet) ∧
    (ResetSentList keepItems b).m_esQseq = b.m_esQseq ∧
    (ResetSentList keepItems b).m_stageQseq = b.m_stageQseq ∧
    (ResetSentList keepItems b).m_sendQseq = b.m_sendQseq := by
  obtain ⟨-, -, r3, -, -, -, r7, r8, r9⟩ := ResetSentList_lists keepItems b
  refine ⟨?_, r7, r8, r9⟩
  rw [r3, List.map_append, trimmedBack_qid_packets]

/-- C24: `ResetLastSegmentSent` on an empty sent list changes nothing. On a sent list
`pre ++ [x]` it leaves `pre` in the sent list and puts `x`, as it is, at the front of the
pending list of its stream (`m_appList` when `m_qided` is `false`, `m_qidList`
otherwise); `m_sentSize` and the sent counter of that stream lose the size of `x` (in
`uint32_t`), the other pending list and the other sent counter stay, and so do
`HeadSequence ()`, `TailSequence ()` and every other member but `m_highestSack.first`,
which follows the removal of the node. -/
theorem reset_last_moves_one (b : TcpTxBuffer) :
    (b.m_sentList = [] → ResetLastSegmentSent b = b) ∧
    (∀ (pre : List TcpTxItem) (x : TcpTxItem), b.m_sentList = pre ++ [x] →
      (ResetLastSegmentSent b).m_sentList = pre ∧
      (ResetLastSegmentSent b).m_sentSize = sub32 b.m_sentSize x.size ∧
      (x.m_qided = false →
        (ResetLastSegmentSent b).m_appList = x :: b.m_appList ∧
        (ResetLastSegmentSent b).m_qidList = b.m_qidList ∧
        (ResetLastSegmentSent b).m_appsentSize = sub32 b.m_appsentSize x.size ∧
        (ResetLastSegmentSent b).m_stagesentSize = b.m_stagesentSize) ∧
      (x.m_qided = true →
        (ResetLastSegmentSent b).m_qidList = x :: b.m_qidList ∧
        (ResetLastSegmentSent b).m_appList = b.m_appList ∧
        (ResetLastSegmentSent b).m_stagesentSize = sub32 b.m_stagesentSize x.size ∧
        (ResetLastSegmentSent b).m_appsentSize = b.m_appsentSize) ∧
      HeadSequence (ResetLastSegmentSent b) = HeadSequence b ∧
      TailSequence (ResetLastSegmentSent b) = TailSequence b ∧
      ResetLastSegmentSent b =
        { b with
          m_sentList := (ResetLastSegmentSent b).m_sentList
          m_sentSize := (ResetLastSegmentSent b).m_sentSize
          m_appsentSize := (ResetLastSegmentSent b).m_appsentSize
          m_stagesentSize := (ResetLastSegmentSent b).m_stagesentSize
          m_appList := (ResetLastSegmentSent b).m_appList
          m_qidList := (ResetLastSegmentSent b).m_qidList
          m_highestSack := (b.m_highestSack.1.afterEdit (.erase pre.length),
                            b.m_highestSack.2) }) := by
  constructor
  · intro h
    unfold ResetLastSegmentSent
    rw [h]
    rfl
  · intro pre x h
    unfold ResetLastSegmentSent
    rw [h, getLast?_append_single, dropLast_append_single]
    dsimp only
    have hl : (pre ++ [x]).length - 1 = pre.length := by simp
    rw [hl]
    by_cases hq : x.m_qided = true
    · rw [if_neg (by simp [hq])]
      refine ⟨rfl, rfl, ?_, ?_, rfl, rfl, rfl⟩
      · intro hf; rw [hf] at hq; cases hq
      · intro _; exact ⟨rfl, rfl, rfl, rfl⟩
    · have hf : x.m_qided = false := by simpa using hq
      rw [if_pos hf]
      refine ⟨rfl, rfl, ?_, ?_, rfl, rfl, rfl⟩
      · intro _; exact ⟨rfl, rfl, rfl, rfl⟩
      · intro ht; rw [ht] at hf; cases hf

/-- C24, at concrete inputs: `oneUnit` has nothing sent; in `unequalSent` the 43-byte
redundancy item is the last of two sent items. -/
theorem reset_last_moves_one_witness :
    oneUnit.m_sentList = [] ∧ ResetLastSegmentSent oneUnit = oneUnit ∧
    unequalSent.m_sentList = unequalSent.m_sentList.dropLast
      ++ [unequalSent.m_sentList.getLastD TcpTxItem.new] ∧
    (unequalSent.m_sentList.getLastD TcpTxItem.new).size = 43 ∧
    (ResetLastSegmentSent unequalSent).m_sentList = unequalSent.m_sentList.dropLast ∧
    (ResetLastSegmentSent unequalSent).m_sentSize = sub32 unequalSent.m_sentSize 43 :=
  ⟨by decide, (reset_last_moves_one oneUnit).1 (by decide), by decide, by decide,
   ((reset_last_moves_one unequalSent).2 unequalSent.m_sentList.dropLast
      (unequalSent.m_sentList.getLastD TcpTxItem.new) (by decide)).1,
   ((reset_last_moves_one unequalSent).2 unequalSent.m_sentList.dropLast
      (unequalSent.m_sentList.getLastD TcpTxItem.new) (by decide)).2.1⟩

/-- C25: for every buffer state, every `numBytes` and every `seq` below
`HeadSequence ()` (in the serial order of `SequenceNumber32`), `CopyFromSequence`
returns the empty packet and leaves the buffer as it is. -/
theorem extract_before_head_is_empty (fuel numBytes seq : Nat) (now : Int) (b : TcpTxBuffer)
    (h : seqLt seq (HeadSequence b)) :
    CopyFromSequence (fuel + 1) numBytes seq now b = .ok ([], b) := by
  have hg : seqGt b.m_firstByteSeq seq := (seqLt_iff_seqGt _ _).1 h
  unfold CopyFromSequence
  rw [if_pos hg]

/-- C25, at a concrete input: sequence 999 on `oneUnitSent`, whose head is 1000. -/
theorem extract_before_head_is_empty_witness :
    seqLt 999 (HeadSequence oneUnitSent.2) ∧
    CopyFromSequence 1 200 999 6 oneUnitSent.2 = .ok ([], oneUnitSent.2) :=
  ⟨by decide, extract_before_head_is_empty 0 200 999 6 oneUnitSent.2 (by decide)⟩

/-- C26: `SetHeadSequence (seq)` fails, at its `NS_ASSERT`, if and only if the sent list
is not empty. When the sent list is empty it returns, `HeadSequence ()` is `seq`,
`TailSequence ()` is `seq + m_size + m_stageSize`, which is `seq` plus the bytes of the
two pending lists when the counters are consistent with the lists, `m_highestSack` is
`(end (), 0)` and nothing else has changed. -/
theorem set_head_needs_empty_ledger (seq : Nat) (b : TcpTxBuffer) :
    ((∃ e, SetHeadSequence seq b = .error e) ↔ b.m_sentList ≠ []) ∧
    (b.m_sentList ≠ [] → SetHeadSequence seq b = .error .assertion) ∧
    (b.m_sentList = [] →
      SetHeadSequence seq b
        = .ok { b with m_firstByteSeq := seq, m_highestSack := (.atEnd, 0) } ∧
      ∀ b', SetHeadSequence seq b = .ok b' →
        HeadSequence b' = seq ∧
        TailSequence b' = seqAdd (seqAdd seq b.m_size) b.m_stageSize ∧
        (Inv b → TailSequence b'
          = seqAdd seq ((listBytes b.m_appList).length + (listBytes b.m_qidList).length)) ∧
        b'.m_highestSack = (.atEnd, 0)) := by
  have hne : b.m_sentList ≠ [] → SetHeadSequence seq b = .error .assertion := by
    intro h
    unfold SetHeadSequence
    dsimp only
    rw [if_neg (by simpa [List.length_eq_zero] using h)]
  have he : b.m_sentList = [] → SetHeadSequence seq b
      = .ok { b with m_firstByteSeq := seq, m_highestSack := (.atEnd, 0) } := by
    intro h
    unfold SetHeadSequence
    dsimp only
    rw [if_pos (by rw [h]; rfl)]
  refine ⟨⟨?_, fun h => ⟨_, hne h⟩⟩, hne, fun h => ⟨he h, ?_⟩⟩
  · rintro ⟨e, h⟩ hnil
    rw [he hnil] at h
    cases h
  · intro b' hb
    rw [he h] at hb
    simp only [Except.ok.injEq] at hb
    subst hb
    refine ⟨rfl, rfl, ?_, rfl⟩
    intro hI
    have hc := hI.count
    unfold totalBytes at hc
    rw [h] at hc
    simp only [listBytes, List.length_nil, Nat.zero_add] at hc
    show seqAdd (seqAdd seq b.m_size) b.m_stageSize = _
    rw [← hc]
    unfold seqAdd
    omega

/-- C26, at concrete inputs: `oneUnit` has nothing sent and two 50-byte units pending;
`oneUnitSent` has one item in its sent list. -/
theorem set_head_needs_empty_ledger_witness :
    oneUnit.m_sentList = [] ∧
    SetHeadSequence 5000 oneUnit
      = .ok { oneUnit with m_firstByteSeq := 5000, m_highestSack := (.atEnd, 0) } ∧
    oneUnitSent.2.m_sentList ≠ [] ∧
    SetHeadSequence 5000 oneUnitSent.2 = .error .assertion :=
  ⟨by decide, ((set_head_needs_empty_ledger 5000 oneUnit).2.2 (by decide)).1, by decide,
   (set_head_needs_empty_ledger 5000 oneUnitSent.2).2.1 (by decide)⟩

/-- C27: for a header size that is a positive multiple of 16 and an accepted `Add` of a
non-empty payload (with `5 * (size + m_qheader + m_red)` below `2^32`), one item `x` is
appended to `m_appList` and one item `y` to `m_qidList`. Both begin with `m_qheader`
header bytes: `Q`, `T`, `C`, `S`, then two counters in big-endian order (for `x`:
`m_stageQseq`, then `m_sendQseq`, as they were before the call; for `y`: `m_esQseq`,
seeded by `rand ()` when it was 0, then `m_stageQseq`), and zero in bytes 13 to
`m_qheader - 1`; what follows the header is the payload and `m_red` zero bytes in `x`,
the encoded payload in `y`. -/
theorem enqueue_header_layout (rnd : Nat) (p : List Nat) (b : TcpTxBuffer)
    (hmul : b.m_qheader % 16 = 0) (hpos : 0 < b.m_qheader) (hp : p ≠ [])
    (hlt : 5 * (p.length + b.m_qheader + b.m_red) < 4294967296)
    (hacc : (Add rnd p b).1 = true) :
    ∃ x y : TcpTxItem,
      (Add rnd p b).2.m_appList = b.m_appList ++ [x] ∧ x.m_qided = false ∧
      (Add rnd p b).2.m_qidList = b.m_qidList ++ [y] ∧ y.m_qided = true ∧
      x.m_packet.take 4 = [81, 84, 67, 83] ∧
      (x.m_packet.drop 4).take 4 = bigEndian32 b.m_stageQseq ∧
      (x.m_packet.drop 8).take 4 = bigEndian32 b.m_sendQseq ∧
      (∀ i, 13 ≤ i → i < b.m_qheader → x.m_packet[i]? = some 0) ∧
      x.m_packet.drop b.m_qheader = p ++ List.replicate b.m_red 0 ∧
      y.m_packet.take 4 = [81, 84, 67, 83] ∧
      (y.m_packet.drop 4).take 4
        = bigEndian32 (if b.m_esQseq = 0 then rnd else b.m_esQseq) ∧
      (y.m_packet.drop 8).take 4 = bigEndian32 b.m_stageQseq ∧
      (∀ i, 13 ≤ i → i < b.m_qheader → y.m_packet[i]? = some 0) ∧
      y.m_packet.drop b.m_qheader = Encode p (List.replicate (p.length + b.m_red) 0) := by
  have h16 := sixteen_le_of_multiple _ hmul hpos
  have hp0 : 0 < p.length := List.length_pos.2 hp
  obtain ⟨hx, hy⟩ := Add_accept_packets rnd p b hp0 hlt hacc h16
  have hes : (seedEsQseq rnd b).m_esQseq = if b.m_esQseq = 0 then rnd else b.m_esQseq := by
    unfold seedEsQseq; split <;> rfl
  refine ⟨_, _, hx, rfl, hy, rfl, rfl, rfl, rfl, ?_, ?_, rfl, ?_, rfl, ?_, ?_⟩
  · intro i h13 hi
    show (headerStamp _ _ _ ++ List.replicate (b.m_qheader - 16) 0 ++ p
      ++ List.replicate b.m_red 0)[i]? = some 0
    rw [List.append_assoc _ p]
    exact headerStamp_zero _ _ _ _ _ i h13 (by omega)
  · show (headerStamp _ _ _ ++ List.replicate (b.m_qheader - 16) 0 ++ p
      ++ List.replicate b.m_red 0).drop b.m_qheader = _
    rw [List.append_assoc _ p]
    exact headerStamp_drop _ _ _ _ _ h16
  · rw [← hes]; rfl
  · intro i h13 hi
    exact headerStamp_zero _ _ _ _ _ i h13 (by omega)
  · exact headerStamp_drop _ _ _ _ _ h16

/-- C27, at a concrete input: the `Add` of a ten-byte payload that makes `oneUnit`. -/
theorem enqueue_header_layout_witness :
    ∃ x y : TcpTxItem,
      oneUnit.m_appList = [] ++ [x] ∧ x.m_qided = false ∧
      oneUnit.m_qidList = [] ++ [y] ∧ y.m_qided = true ∧
      x.m_packet.take 4 = [81, 84, 67, 83] ∧
      (x.m_packet.drop 4).take 4 = bigEndian32 0 ∧
      (x.m_packet.drop 8).take 4 = bigEndian32 0 ∧
      (∀ i, 13 ≤ i → i < 16 → x.m_packet[i]? = some 0) ∧
      x.m_packet.drop 16 = [1, 2, 3, 4, 5, 6, 7, 8, 9, 10] ++ List.replicate 24 0 ∧
      y.m_packet.take 4 = [81, 84, 67, 83] ∧
      (y.m_packet.drop 4).take 4 = bigEndian32 (if (0 : Nat) = 0 then 7 else 0) ∧
      (y.m_packet.drop 8).take 4 = bigEndian32 0 ∧
      (∀ i, 13 ≤ i → i < 16 → y.m_packet[i]? = some 0) ∧
      y.m_packet.drop 16
        = Encode [1, 2, 3, 4, 5, 6, 7, 8, 9, 10] (List.replicate (10 + 24) 0) :=
  enqueue_header_layout 7 [1, 2, 3, 4, 5, 6, 7, 8, 9, 10] (TcpTxBuffer.create 1000 16 24)
    (by decide) (by decide) (by decide) (by decide) (by decide)

/-- C28, as stated, fails: with `HEADERSIZE` 256, a positive multiple of 16 that the
attribute accepts, `Add` of a three-byte payload is accepted and byte 12 of the data item
is `128 + 64 + 256 / 4 = 256`, stored in a `uint8_t`: 0, while
`0x80 | (1 << 6) | (256 / 4)` is 192. -/
theorem flag_byte_wraps_at_256 :
    (Add 7 [1, 2, 3] (TcpTxBuffer.create 1000 256 24)).1 = true ∧
    wideHeaderUnit.m_appList.map (fun x => (x.m_qided, x.m_packet.take 16))
      = [(false, [81, 84, 67, 83, 0, 0, 0, 0, 0, 0, 0, 0, 0, 0, 0, 0])] ∧
    (128 + 64 + 256 / 4) % 256 = 0 ∧
    flagByte 1 256 = 192 := by
  refine ⟨by decide, ?_, by decide, by decide⟩
  have h := (Add_accept_packets 7 [1, 2, 3] (TcpTxBuffer.create 1000 256 24) (by decide)
    (by decide) (by decide) (by decide)).1
  show (Add 7 [1, 2, 3] (TcpTxBuffer.create 1000 256 24)).2.m_appList.map _ = _
  rw [h]
  rfl

/-- C28 (amended): for a header size that is a positive multiple of 16 and an accepted
`Add` of a non-empty payload (with `5 * (size + m_qheader + m_red)` below `2^32`), byte 12
of the item appended to `m_appList` is `128 + 64 + m_qheader / 4` and byte 12 of the item
appended to `m_qidList` is `128 + m_qheader / 4`, both reduced modulo 256; this is
`0x80 | (streamFlag << 6) | (m_qheader / 4)` with `streamFlag` 1 for the data item when
`m_qheader` is below 256, and with `streamFlag` 0 for the redundancy item when
`m_qheader` is below 512. -/
theorem enqueue_flag_byte (rnd : Nat) (p : List Nat) (b : TcpTxBuffer)
    (hmul : b.m_qheader % 16 = 0) (hpos : 0 < b.m_qheader) (hp : p ≠ [])
    (hlt : 5 * (p.length + b.m_qheader + b.m_red) < 4294967296)
    (hacc : (Add rnd p b).1 = true) :
    ∃ x y : TcpTxItem,
      (Add rnd p b).2.m_appList = b.m_appList ++ [x] ∧ x.m_qided = false ∧
      (Add rnd p b).2.m_qidList = b.m_qidList ++ [y] ∧ y.m_qided = true ∧
      x.m_packet[12]? = some ((128 + 64 + b.m_qheader / 4) % 256) ∧
      y.m_packet[12]? = some ((128 + b.m_qheader / 4) % 256) ∧
      (b.m_qheader < 256 → x.m_packet[12]? = some (flagByte 1 b.m_qheader)) ∧
      (b.m_qheader < 512 → y.m_packet[12]? = some (flagByte 0 b.m_qheader)) := by
  have h16 := sixteen_le_of_multiple _ hmul hpos
  have hp0 : 0 < p.length := List.length_pos.2 hp
  obtain ⟨hx, hy⟩ := Add_accept_packets rnd p b hp0 hlt hacc h16
  refine ⟨_, _, hx, rfl, hy, rfl, rfl, rfl, ?_, ?_⟩
  · intro h
    have e : (128 + 64 + b.m_qheader / 4) % 256 = flagByte 1 b.m_qheader := by
      obtain ⟨k, hk⟩ : ∃ k, b.m_qheader = 16 * k := ⟨b.m_qheader / 16, by omega⟩
      rw [hk]
      have hk1 : k < 16 := by omega
      interval_cases k <;> rfl
    rw [← e]; rfl
  · intro h
    have e : (128 + b.m_qheader / 4) % 256 = flagByte 0 b.m_qheader := by
      obtain ⟨k, hk⟩ : ∃ k, b.m_qheader = 16 * k := ⟨b.m_qheader / 16, by omega⟩
      rw [hk]
      have hk1 : k < 32 := by omega
      interval_cases k <;> rfl
    rw [← e]; rfl

/-- C28 (amended), at a concrete input: the `Add` that makes `oneUnit`, with a 16-byte
header: the flag bytes are `0xC4` and `0x84`. -/
theorem enqueue_flag_byte_witness :
    ∃ x y : TcpTxItem,
      oneUnit.m_appList = [] ++ [x] ∧ x.m_qided = false ∧
      oneUnit.m_qidList = [] ++ [y] ∧ y.m_qided = true ∧
      x.m_packet[12]? = some ((128 + 64 + 16 / 4) % 256) ∧
      y.m_packet[12]? = some ((128 + 16 / 4) % 256) ∧
      ((16 : Nat) < 256 → x.m_packet[12]? = some (flagByte 1 16)) ∧
      ((16 : Nat) < 512 → y.m_packet[12]? = some (flagByte 0 16)) :=
  enqueue_flag_byte 7 [1, 2, 3, 4, 5, 6, 7, 8, 9, 10] (TcpTxBuffer.create 1000 16 24)
    (by decide) (by decide) (by decide) (by decide) (by decide)

/-- C29: `Encode (p, q)` on a payload `p` of bytes and a packet `q` at least as long
gives a packet of the size of `q` whose byte `i` is byte `i` of `p` plus 49 modulo 256
for every `i` below the size of `p`, and 49 behind. The result depends on `p` and on the
size of `q` only, and subtracting 49 modulo 256 from its first `p->GetSize ()` bytes
gives `p` back. -/
theorem encode_adds_49 (p q : List Nat) (hb : ∀ x ∈ p, x < 256) (hl : p.length ≤ q.length) :
    (Encode p q).length = q.length ∧
    (∀ (i x : Nat), p[i]? = some x → (Encode p q)[i]? = some ((x + 49) % 256)) ∧
    (∀ i : Nat, p.length ≤ i → i < q.length → (Encode p q)[i]? = some 49) ∧
    (∀ q' : List Nat, q'.length = q.length → Encode p q' = Encode p q) ∧
    ((Encode p q).take p.length).map (fun y => (y + 256 - 49) % 256) = p := by
  have he : Encode p q = p.map (fun x => (x + 49) % 256)
      ++ List.replicate (q.length - p.length) 49 := by
    unfold Encode
    rw [List.take_of_length_le hl, List.map_append, List.map_replicate]
  refine ⟨Encode_length p q, ?_, ?_, ?_, ?_⟩
  · intro i x hx
    have hi : i < p.length := by
      by_contra hc
      rw [List.getElem?_eq_none (by omega)] at hx
      cases hx
    rw [he, List.getElem?_append_left (by rw [List.length_map]; exact hi), List.getElem?_map,
      hx]
    rfl
  · intro i h1 h2
    rw [he, List.getElem?_append_right (by rw [List.length_map]; exact h1), List.length_map,
      List.getElem?_replicate, if_pos (by omega)]
  · intro q' hq
    unfold Encode
    rw [hq]
  · rw [he, List.take_left' (by rw [List.length_map]), List.map_map]
    have hid : ∀ x ∈ p, ((fun y => (y + 256 - 49) % 256) ∘ (fun x => (x + 49) % 256)) x
        = id x := by
      intro x hx
      have := hb x hx
      show ((x + 49) % 256 + 256 - 49) % 256 = x
      omega
    rw [List.map_congr_left hid, List.map_id]

/-- C29, at a concrete input: the payload `[1, 250, 255]` and a six-byte packet. -/
theorem encode_adds_49_witness :
    Encode [1, 250, 255] [9, 9, 9, 9, 9, 9] = [50, 43, 48, 49, 49, 49] ∧
    ((Encode [1, 250, 255] [9, 9, 9, 9, 9, 9]).take 3).map (fun y => (y + 256 - 49) % 256)
      = [1, 250, 255] :=
  ⟨by decide,
   (encode_adds_49 [1, 250, 255] [9, 9, 9, 9, 9, 9] (by decide) (by decide)).2.2.2.2⟩

/-- C30: the stream a new-data extraction serves is decided by `m_qednum` alone. For
every buffer state, whatever `m_stage` holds, a `CopyFromSequence` from the first unsent
byte (fewer than `2^31` bytes asked, a non-empty payload returned) appends one item to
the sent list, and that item is a data item (`m_qided` false) if and only if `m_qednum`
is above 0 at the call: then it is taken from `m_appList`, `m_qidList` stays as it is
and `m_qednum` goes down by one; with `m_qednum` 0 it is taken from `m_qidList`,
`m_appList` stays as it is and `m_qednum` stays 0. Hence in every state reached from the
constructor without `DiscardUpTo` and `ResetSentList`, `m_qednum` is 0, the sent list
holds no data item, and every such extraction takes its item from `m_qidList`. -/
theorem stream_chosen_by_credit (b : TcpTxBuffer) :
    (∀ (fuel n : Nat) (now : Int) (p : List Nat) (b1 : TcpTxBuffer), n < 2147483648 →
      CopyFromSequence fuel n (seqAdd (HeadSequence b) b.m_sentSize) now b = .ok (p, b1) →
      p ≠ [] →
      ∃ x : TcpTxItem, b1.m_sentList = b.m_sentList ++ [x] ∧ x.m_packet = p ∧
        (x.m_qided = false ↔ 0 < b.m_qednum) ∧
        (0 < b.m_qednum →
          b1.m_qidList = b.m_qidList ∧
          (listBytes b1.m_appList).length + p.length = (listBytes b.m_appList).length ∧
          b1.m_qednum = sub32 b.m_qednum 1) ∧
        (b.m_qednum = 0 →
          b1.m_appList = b.m_appList ∧
          (listBytes b1.m_qidList).length + p.length = (listBytes b.m_qidList).length ∧
          b1.m_qednum = 0)) ∧
    (NeverAcked b →
      b.m_qednum = 0 ∧ (∀ y ∈ b.m_sentList, y.m_qided = true) ∧
      ∀ (fuel n : Nat) (now : Int) (p : List Nat) (b1 : TcpTxBuffer), n < 2147483648 →
        CopyFromSequence fuel n (seqAdd (HeadSequence b) b.m_sentSize) now b = .ok (p, b1) →
        p ≠ [] →
        ∃ x : TcpTxItem, b1.m_sentList = b.m_sentList ++ [x] ∧ x.m_qided = true ∧
          b1.m_appList = b.m_appList ∧ ∀ y ∈ b1.m_sentList, y.m_qided = true) := by
  have key : ∀ (fuel n : Nat) (now : Int) (p : List Nat) (b1 : TcpTxBuffer), n < 2147483648 →
      CopyFromSequence fuel n (seqAdd (HeadSequence b) b.m_sentSize) now b = .ok (p, b1) →
      p ≠ [] →
      ∃ x : TcpTxItem, b1.m_sentList = b.m_sentList ++ [x] ∧ x.m_packet = p ∧
        (x.m_qided = false ↔ 0 < b.m_qednum) ∧
        (0 < b.m_qednum →
          b1.m_qidList = b.m_qidList ∧
          (listBytes b1.m_appList).length + p.length = (listBytes b.m_appList).length ∧
          b1.m_qednum = sub32 b.m_qednum 1) ∧
        (b.m_qednum = 0 →
          b1.m_appList = b.m_appList ∧
          (listBytes b1.m_qidList).length + p.length = (listBytes b.m_qidList).length ∧
          b1.m_qednum = 0) := by
    intro fuel n now p b1 hn h hp
    obtain ⟨x, bm, hx, -, hpk, hb1, -, -, -⟩ :=
      CopyFromSequence_new fuel n now b p b1 (by omega) h hp
    obtain ⟨s1, s2⟩ := CopyFromSequence_new_source fuel n now b p b1 (by omega) h hp
    have hst : (chooseStage b).m_stage = if 0 < b.m_qednum then 0 else 1 := rfl
    have hqn : (chooseStage b).m_qednum = b.m_qednum := rfl
    have hpend := hx.pending
    have hxs : x.size = p.length := by rw [← hpk]; rfl
    have e1 : b1.m_qidList = bm.m_qidList := by rw [hb1]
    have e2 : b1.m_appList = bm.m_appList := by rw [hb1]
    have e3 : b1.m_qednum = bm.m_qednum := by rw [hb1]
    rw [← e1, ← e2, hxs] at hpend
    have hpend' : (listBytes b1.m_appList).length + (listBytes b1.m_qidList).length + p.length
        = (listBytes b.m_appList).length + (listBytes b.m_qidList).length := hpend
    refine ⟨{ x with m_lost := false, m_lastSent := now }, by rw [hb1], hpk, ?_, ?_, ?_⟩
    · show x.m_qided = false ↔ _
      rw [hx.tag, hst]
      by_cases hq : 0 < b.m_qednum
      · simp [hq]
      · simp [hq]
    · intro hq
      refine ⟨s1 hq, ?_, ?_⟩
      · rw [s1 hq] at hpend'; omega
      · rw [e3, hx.qednum, hst, if_pos hq, if_neg (by decide : ¬ (0 : Nat) = 1), hqn]
    · intro hq
      refine ⟨s2 hq, ?_, ?_⟩
      · rw [s2 hq] at hpend'; omega
      · rw [e3, hx.qednum, hst, if_neg (by omega : ¬ 0 < b.m_qednum), if_pos rfl, hqn, hq]
  refine ⟨key, ?_⟩
  intro hN
  obtain ⟨hq, hall⟩ := hN.allAux
  refine ⟨hq, hall, ?_⟩
  intro fuel n now p b1 hn h hp
  obtain ⟨x, hx1, -, hx3, -, hx5⟩ := key fuel n now p b1 hn h hp
  have hxq : x.m_qided = true := by
    by_contra hc
    have hf : x.m_qided = false := by simpa using hc
    have := hx3.1 hf
    omega
  refine ⟨x, hx1, hxq, (hx5 hq).1, ?_⟩
  intro y hy
  rw [hx1, List.mem_append, List.mem_singleton] at hy
  rcases hy with hy | hy
  · exact hall y hy
  · rw [hy]; exact hxq

/-- C30, at concrete inputs: `creditState` has `m_qednum = 1` and the extraction that
leads to `dataSent` takes the 50-byte data unit; `oneUnit` is reached by one `Add` and
the extraction that leads to `oneUnitSent` takes the 50-byte redundancy unit. -/
theorem stream_chosen_by_credit_witness :
    creditState.m_qednum = 1 ∧
    (∃ x : TcpTxItem, dataSent.2.m_sentList = creditState.m_sentList ++ [x] ∧
      x.m_packet = dataSent.1 ∧ (x.m_qided = false ↔ 0 < creditState.m_qednum) ∧
      (0 < creditState.m_qednum →
        dataSent.2.m_qidList = creditState.m_qidList ∧
        (listBytes dataSent.2.m_appList).length + dataSent.1.length
          = (listBytes creditState.m_appList).length ∧
        dataSent.2.m_qednum = sub32 creditState.m_qednum 1) ∧
      (creditState.m_qednum = 0 →
        dataSent.2.m_appList = creditState.m_appList ∧
        (listBytes dataSent.2.m_qidList).length + dataSent.1.length
          = (listBytes creditState.m_qidList).length ∧
        dataSent.2.m_qednum = 0)) ∧
    NeverAcked oneUnit ∧
    (oneUnit.m_qednum = 0 ∧ (∀ y ∈ oneUnit.m_sentList, y.m_qided = true) ∧
      ∀ (fuel n : Nat) (now : Int) (p : List Nat) (b1 : TcpTxBuffer), n < 2147483648 →
        CopyFromSequence fuel n (seqAdd (HeadSequence oneUnit) oneUnit.m_sentSize) now oneUnit
          = .ok (p, b1) →
        p ≠ [] →
        ∃ x : TcpTxItem, b1.m_sentList = oneUnit.m_sentList ++ [x] ∧ x.m_qided = true ∧
          b1.m_appList = oneUnit.m_appList ∧ ∀ y ∈ b1.m_sentList, y.m_qided = true) ∧
    oneUnitSent.2.m_sentList.map (fun x => (x.size, x.m_qided)) = [(50, true)] :=
  ⟨by decide,
   (stream_chosen_by_credit creditState).1 10 200 3 dataSent.1 dataSent.2 (by decide)
     (by decide) (by decide),
   NeverAcked.add 7 [1, 2, 3, 4, 5, 6, 7, 8, 9, 10] _ (NeverAcked.create 1000 16 24),
   (stream_chosen_by_credit oneUnit).2
     (NeverAcked.add 7 [1, 2, 3, 4, 5, 6, 7, 8, 9, 10] _ (NeverAcked.create 1000 16 24)),
   by decide⟩
/-! ## Claims C31 to C40 -/

/-- C31, as stated, fails: a queue of one item of `2^31` bytes covers `[0, 2^31)`, and
with `listStart = targetSeq = 0` and `numBytes = 1` the range lies in it; the search of
`GetPacketFromList` tests `seq < beginOfCurrentPacket + size` in the serial order of
`SequenceNumber32`, in which `0 < 2^31` is false, so the item is passed over and the call
ends in the fatal error. -/
theorem locate_misses_wide_item :
    (listBytes [{ TcpTxItem.new with m_packet := List.replicate 2147483648 0 }]).length
      = 2147483648 ∧
    ¬ seqLt 0 (seqAdd 0 2147483648) ∧
    GetPacketFromList 3 [{ TcpTxItem.new with m_packet := List.replicate 2147483648 0 }] 0 1 0 []
      = .error .fatal :=
  ⟨(locate_wide { TcpTxItem.new with m_packet := List.replicate 2147483648 0 }
     (List.length_replicate _ _) 2).1, by decide,
   (locate_wide { TcpTxItem.new with m_packet := List.replicate 2147483648 0 }
     (List.length_replicate _ _) 2).2⟩

/-- C31 (amended): for every list of fewer than `2^31` bytes that begins at the 32-bit
sequence `listStart`, every offset `δ` and every `numBytes > 0` with
`δ + numBytes` at most the bytes of the list, `GetPacketFromList`, asked for `numBytes`
bytes at `listStart + δ` (with fuel for every item of the list and two more calls),
returns the position of an item of exactly `numBytes` bytes, with `δ` bytes in front of
it in the list, whose packet is bytes `[δ, δ + numBytes)` of the bytes of the list; the
bytes of the list are the same before and after the call. -/
theorem locate_range_exact (fuel : Nat) (list : List TcpTxItem) (listStart numBytes δ : Nat)
    (edits : List ListEdit) (hstart : listStart < 4294967296)
    (hL : (listBytes list).length < 2147483648) (hn : 0 < numBytes)
    (hfit : δ + numBytes ≤ (listBytes list).length) (hfuel : list.length + 2 ≤ fuel) :
    ∃ (list' : List TcpTxItem) (i : Nat) (edits' : List ListEdit) (item : TcpTxItem),
      GetPacketFromList fuel list listStart numBytes (seqAdd listStart δ) edits
        = .ok (list', i, edits') ∧
      list'[i]? = some item ∧ item.size = numBytes ∧
      (listBytes (list'.take i)).length = δ ∧
      item.m_packet = ((listBytes list).drop δ).take numBytes ∧
      listBytes list' = listBytes list := by
  obtain ⟨list', i, edits', item, r1, r2, r3, r4⟩ :=
    locate_exact fuel list listStart numBytes δ edits hstart hL hn hfit hfuel
  obtain ⟨hb, -, -⟩ := GetPacketFromList_bytes _ _ _ _ _ _ _ _ _ r1
  refine ⟨list', i, edits', item, r1, r2, ?_, r3, r4, hb⟩
  unfold TcpTxItem.size
  rw [r4, List.length_take, List.length_drop]
  omega

/-- C31 (amended), at a concrete input: items of 3, 2 and 4 bytes from sequence 1000;
five bytes are asked for at 1002. -/
theorem locate_range_exact_witness :
    ∃ (list' : List TcpTxItem) (i : Nat) (edits' : List ListEdit) (item : TcpTxItem),
      GetPacketFromList 5
        [{ TcpTxItem.new with m_packet := [1, 2, 3] }, { TcpTxItem.new with m_packet := [4, 5] },
         { TcpTxItem.new with m_packet := [6, 7, 8, 9] }] 1000 5 (seqAdd 1000 2) []
        = .ok (list', i, edits') ∧
      list'[i]? = some item ∧ item.size = 5 ∧
      (listBytes (list'.take i)).length = 2 ∧
      item.m_packet = ((listBytes
        [{ TcpTxItem.new with m_packet := [1, 2, 3] }, { TcpTxItem.new with m_packet := [4, 5] },
         { TcpTxItem.new with m_packet := [6, 7, 8, 9] }]).drop 2).take 5 ∧
      listBytes list' = listBytes
        [{ TcpTxItem.new with m_packet := [1, 2, 3] }, { TcpTxItem.new with m_packet := [4, 5] },
         { TcpTxItem.new with m_packet := [6, 7, 8, 9] }] :=
  locate_range_exact 5 _ 1000 5 2 [] (by decide) (by decide) (by decide) (by decide) (by decide)

/-- C32: in every state reached from the constructor by `Add`, `CopyFromSequence`,
`DiscardUpTo`, `Update`, `SetSentListLost`, `ResetLastSegmentSent` and `ResetSentList`,
the bytes held by `m_sentList`, `m_appList` and `m_qidList` number
`TailSequence () - HeadSequence ()` modulo `2^32`. `Add` takes no byte away,
`DiscardUpTo` adds none, and the other five operations leave the number of bytes as it
is. -/
theorem queued_bytes_span_head_to_tail (b : TcpTxBuffer) (h : Exercised b) :
    totalBytes b % 4294967296 = seqDiff (TailSequence b) (HeadSequence b) ∧
    (∀ (rnd : Nat) (p : List Nat), totalBytes b ≤ totalBytes (Add rnd p b).2) ∧
    (∀ (fuel seq : Nat) (now : Int) (b' : TcpTxBuffer),
      DiscardUpTo fuel seq now b = .ok b' → totalBytes b' ≤ totalBytes b) ∧
    (∀ (fuel n seq : Nat) (now : Int) (p : List Nat) (b' : TcpTxBuffer),
      CopyFromSequence fuel n seq now b = .ok (p, b') → totalBytes b' = totalBytes b) ∧
    (∀ (blocks : List (Nat × Nat)) (m : Bool) (b' : TcpTxBuffer),
      Update blocks b = .ok (m, b') → totalBytes b' = totalBytes b) ∧
    totalBytes (SetSentListLost b) = totalBytes b ∧
    totalBytes (ResetLastSegmentSent b) = totalBytes b ∧
    (∀ keepItems : Nat, totalBytes (ResetSentList keepItems b) = totalBytes b) :=
  ⟨h.counted.span,
   fun rnd p => (Add_counted rnd p b h.counted).2,
   fun _ _ _ _ hd => (DiscardUpTo_counted _ _ _ _ _ hd).2,
   fun _ _ _ _ _ _ hc => (CopyFromSequence_same _ _ _ _ _ _ _ hc).total,
   fun _ _ _ hu => (Update_same _ _ _ _ hu).total,
   (SetSentListLost_same b).total, (ResetLastSegmentSent_same b).total,
   fun k => (ResetSentList_same k b).total⟩

/-- C32, at a concrete input: the state after `Add` of ten bytes, one extraction and
`ResetSentList (0)`. -/
theorem queued_bytes_span_head_to_tail_witness :
    Exercised (ResetSentList 0 oneUnitSent.2) ∧
    totalBytes (ResetSentList 0 oneUnitSent.2) = 100 ∧
    totalBytes (ResetSentList 0 oneUnitSent.2) % 4294967296
      = seqDiff (TailSequence (ResetSentList 0 oneUnitSent.2))
          (HeadSequence (ResetSentList 0 oneUnitSent.2)) :=
  have h : Exercised (ResetSentList 0 oneUnitSent.2) :=
    Exercised.resetSent 0 _
      (Exercised.copy 10 200 1000 5 oneUnit oneUnitSent.1 oneUnitSent.2
        (Exercised.add 7 [1, 2, 3, 4, 5, 6, 7, 8, 9, 10] _ (Exercised.create 1000 16 24))
        (by decide))
  ⟨h, by decide, (queued_bytes_span_head_to_tail _ h).1⟩

/-- C33, evaluated where the code fails: `retransmitted` is reached from a fresh buffer by
one `Add` and two `CopyFromSequence` of the same 50 bytes; its one sent item is flagged
`m_retrans`. `ResetLastSegmentSent` puts that item back on `m_qidList` with the flag
set, and the extraction of new data that follows takes it and fails at
`NS_ASSERT (outItem->m_retrans == false)`. `ResetSentList (0)`, which clears the flag of
the item it puts back, is followed by the same extraction without a fault. -/
theorem requeued_segment_trips_assertion :
    retransmittedRun = .ok retransmitted ∧
    retransmitted.m_sentList.map (fun x => (x.size, x.m_retrans)) = [(50, true)] ∧
    (ResetLastSegmentSent retransmitted).m_sentList = [] ∧
    (ResetLastSegmentSent retransmitted).m_qidList.map (fun x => (x.size, x.m_retrans))
      = [(50, true)] ∧
    seqAdd (HeadSequence (ResetLastSegmentSent retransmitted))
      (ResetLastSegmentSent retransmitted).m_sentSize = 1000 ∧
    CopyFromSequence 10 50 1000 3 (ResetLastSegmentSent retransmitted) = .error .assertion ∧
    (ResetSentList 0 retransmitted).m_qidList.map (fun x => (x.size, x.m_retrans))
      = [(50, false)] ∧
    (CopyFromSequence 10 50 1000 3 (ResetSentList 0 retransmitted)).map
        (fun r => r.1.length) = .ok 50 := by
  decide

/-- C34, evaluated where the code fails: in `bothSent` the sent list holds a 50-byte data
item and a 40-byte redundancy item, and `m_size = 50`, `m_stageSize = 40` count them.
The extraction of the 90 bytes in one call merges the two items into one item of 90
bytes with the tag of the first: the data-tagged bytes are 90 and the redundancy-tagged
bytes 0, while `m_size` and `m_stageSize` are 50 and 40 as before. `DiscardUpTo (1100)`
then takes the 90 bytes from `m_size`, which wraps to `2^32 - 40`: the three lists are
empty and neither counter is 0. -/
theorem merge_mixes_streams :
    bothSent.2.m_sentList.map (fun x => (x.size, x.m_qided)) = [(50, false), (40, true)] ∧
    (bothSent.2.m_size, bothSent.2.m_stageSize) = (50, 40) ∧
    bothSent.2.m_appList = [] ∧ bothSent.2.m_qidList = [] ∧
    (CopyFromSequence 10 90 1010 7 bothSent.2).map (fun r => r.1.length) = .ok 90 ∧
    mergedSent.m_sentList.map (fun x => (x.size, x.m_qided)) = [(90, false)] ∧
    mergedSent.m_appList = [] ∧ mergedSent.m_qidList = [] ∧
    (mergedSent.m_size, mergedSent.m_stageSize) = (50, 40) ∧
    DiscardUpTo 10 1100 8 mergedSent = .ok mergedAcked ∧
    mergedAcked.m_sentList = [] ∧ mergedAcked.m_appList = [] ∧ mergedAcked.m_qidList = [] ∧
    (mergedAcked.m_size, mergedAcked.m_stageSize) = (4294967256, 40) := by
  decide

/-- C35, evaluated where the code fails: in `sackedOnce` the second of two sent items
(50 and 43 bytes from 1000 on) is SACKed, and `Update` has stored
`m_highestSack = (end (), 1093)`, the position behind the item and the sequence at which
it ends; `GetHighestSacked` computes `(the item, 1050)` on the same list. The extraction
of the first ten bytes again splits the first item and stores the value of
`GetHighestSacked`: `m_highestSack` goes from `(end (), 1093)` to `(the item, 1050)`.
For the 40 bytes at 1010, which the extraction did not touch, `IsLost` with
`dupThresh = 1` is `false` with the recomputed mark and `true` with the mark `Update`
had stored. -/
theorem highest_sack_two_ways :
    Update [(1050, 1093)] unequalSent = .ok (true, sackedOnce) ∧
    sackedOnce.m_sentList.map (fun x => (x.size, x.m_sacked)) = [(50, false), (43, true)] ∧
    sackedOnce.m_highestSack = (.atEnd, 1093) ∧
    GetHighestSacked sackedOnce = (.atNode 1, 1050) ∧
    (CopyFromSequence 10 10 1000 7 sackedOnce).map (fun r => r.1.length) = .ok 10 ∧
    resplit.m_sentList.map (fun x => (x.size, x.m_sacked))
      = [(10, false), (40, false), (43, true)] ∧
    resplit.m_highestSack = (.atNode 2, 1050) ∧
    IsLost resplit 1010 1 1000 = .ok false ∧
    IsLost { resplit with m_highestSack := sackedOnce.m_highestSack } 1010 1 1000
      = .ok true := by
  decide

/-- C36, as stated, fails: on a fresh buffer of the default capacity 32768 (header 16,
redundancy 24), a payload of 858993420 bytes gives `5 * (858993420 + 40) = 2^32 + 4`,
which wraps to 4 and passes the guard of `Add`; `Addqed` and `Addapp` both reject, and `Add`
returns `true` with nothing queued. -/
theorem enqueue_true_queues_nothing :
    (858993420 : Nat) < 4294967296 ∧
    (5 * (858993420 + freshBuffer.m_qheader + freshBuffer.m_red)) % 4294967296 = 4 ∧
    (Add 0 (List.replicate 858993420 0) freshBuffer).1 = true ∧
    (Addqed (Encode (List.replicate 858993420 0)
        (List.replicate (add32 (List.replicate 858993420 0).length freshBuffer.m_red) 0))
      (addEntry 0 freshBuffer)).1 = false ∧
    (Add 0 (List.replicate 858993420 0) freshBuffer).2.m_appList = [] ∧
    (Add 0 (List.replicate 858993420 0) freshBuffer).2.m_qidList = [] := by
  obtain ⟨h1, h2, -, h4, h5⟩ := Add_wrapped 0 (List.replicate 858993420 0)
    (List.length_replicate _ _)
  exact ⟨by decide, by decide, h1, h2, h4, h5⟩

/-- C36 (amended): for every non-empty payload with `5 * (size + m_qheader + m_red)` below
`2^32`, whenever `Add` returns `true`, `Addqed` (on the encoded payload) and `Addapp` both
returned `true`, and one item was appended to `m_qidList` and one to `m_appList`. -/
theorem enqueue_true_means_both_queued (rnd : Nat) (p : List Nat) (b : TcpTxBuffer)
    (hp : p ≠ []) (hlt : 5 * (p.length + b.m_qheader + b.m_red) < 4294967296)
    (hacc : (Add rnd p b).1 = true) :
    (Addqed (Encode p (List.replicate (add32 p.length b.m_red) 0)) (addEntry rnd b)).1 = true ∧
    (Addapp p (Addqed (Encode p (List.replicate (add32 p.length b.m_red) 0))
      (addEntry rnd b)).2).1 = true ∧
    (Add rnd p b).2.m_qidList.length = b.m_qidList.length + 1 ∧
    (Add rnd p b).2.m_appList.length = b.m_appList.length + 1 := by
  have hp0 : 0 < p.length := List.length_pos.2 hp
  have hg := (Add_fst_iff rnd p b).1 hacc
  obtain ⟨h1, h2, h3, h4, h5, h6, h7, h8, h9, h10⟩ := seedEsQseq_frame rnd b
  have hA : Available (addEntry rnd b) = Available b := by
    simp only [Available, addEntry, h1, h2, h3]
  have hqh : (addEntry rnd b).m_qheader = b.m_qheader := h4
  have hrd : (addEntry rnd b).m_red = b.m_red := h5
  have hg' := hg
  rw [Nat.mod_eq_of_lt hlt] at hg'
  have hqlen : (Encode p (List.replicate (add32 p.length b.m_red) 0)).length
      = p.length + b.m_red := by
    rw [Encode_length, List.length_replicate]; unfold add32; omega
  obtain ⟨y, hy1, hy2, hy3⟩ := Addqed_accept
    (Encode p (List.replicate (add32 p.length b.m_red) 0)) (addEntry rnd b) (by omega)
    (by rw [hqlen, hqh, hrd, hA]; omega)
  have hsum : b.m_qheader + (p.length + b.m_red) = p.length + b.m_qheader + b.m_red := by omega
  rw [hqlen, hqh, hsum] at hy3 hy2
  have hq2 : (pushQid y (p.length + b.m_qheader + b.m_red) (addEntry rnd b)).m_qheader
      = b.m_qheader := h4
  have hr2 : (pushQid y (p.length + b.m_qheader + b.m_red) (addEntry rnd b)).m_red
      = b.m_red := h5
  obtain ⟨x, hx1, hx2, hx3⟩ := Addapp_accept p
    (pushQid y (p.length + b.m_qheader + b.m_red) (addEntry rnd b))
    hp0 (by rw [hq2, hr2]; omega)
    (by
      rw [hq2, hr2]
      have : Available (pushQid y (p.length + b.m_qheader + b.m_red) (addEntry rnd b))
          = sub32 (sub32 b.m_maxBuffer b.m_size)
              (add32 b.m_stageSize (p.length + b.m_qheader + b.m_red)) := by
        simp only [Available, pushQid, addEntry, h1, h2, h3]
      rw [this, sub32_add32, sub32_of_le _ _ (sub32_lt _ _) (by unfold Available at hg'; omega)]
      unfold Available at hg'; omega)
  rw [hq2, hr2] at hx3
  obtain ⟨x', y', -, -, ha, hq⟩ := Add_accept_lists rnd p b hp0 hlt hacc
  refine ⟨by rw [hy3], by rw [hy3, hx3], ?_, ?_⟩
  · rw [hq]; simp
  · rw [ha]; simp

/-- C36 (amended), at a concrete input: the `Add` of a ten-byte payload that makes
`oneUnit`. -/
theorem enqueue_true_means_both_queued_witness :
    (Add 7 [1, 2, 3, 4, 5, 6, 7, 8, 9, 10] (TcpTxBuffer.create 1000 16 24)).1 = true ∧
    (Addqed (Encode [1, 2, 3, 4, 5, 6, 7, 8, 9, 10]
        (List.replicate (add32 10 (TcpTxBuffer.create 1000 16 24).m_red) 0))
      (addEntry 7 (TcpTxBuffer.create 1000 16 24))).1 = true ∧
    (Addapp [1, 2, 3, 4, 5, 6, 7, 8, 9, 10]
      (Addqed (Encode [1, 2, 3, 4, 5, 6, 7, 8, 9, 10]
          (List.replicate (add32 10 (TcpTxBuffer.create 1000 16 24).m_red) 0))
        (addEntry 7 (TcpTxBuffer.create 1000 16 24))).2).1 = true ∧
    oneUnit.m_qidList.length = (TcpTxBuffer.create 1000 16 24).m_qidList.length + 1 ∧
    oneUnit.m_appList.length = (TcpTxBuffer.create 1000 16 24).m_appList.length + 1 :=
  ⟨by decide,
   enqueue_true_means_both_queued 7 [1, 2, 3, 4, 5, 6, 7, 8, 9, 10]
     (TcpTxBuffer.create 1000 16 24) (by decide) (by decide) (by decide)⟩

/-- C37, as stated, fails: on a list of one item of one byte at sequence 0, asked for
`2^31 + 1` bytes at sequence 0, the test `seq + numBytes <= beginOfCurrentPacket + size`
holds in the serial order (`2^31 + 1 <= 1`), `numBytes` is neither the size of the item
nor below it, and no branch of the loop body returns or moves the iterator: the loop
spins. -/
theorem locate_spins_on_wide_request :
    seqLe (seqAdd 0 2147483649) (seqAdd 0 1) ∧
    GetPacketFromList 5 [{ TcpTxItem.new with m_packet := [1] }] 0 2147483649 0 []
      = .error .diverges := by
  decide

/-- C37 (amended): for every list of fewer than `2^31` bytes, every 32-bit `listStart`
and `seq` and every `numBytes` up to `2^31`, `GetPacketFromList` (with fuel for every
item of the list and two more calls) ends: it returns an item or raises the fatal
error. -/
theorem locate_range_terminates (fuel : Nat) (list : List TcpTxItem)
    (listStart numBytes seq : Nat) (edits : List ListEdit) (hstart : listStart < 4294967296)
    (hseq : seq < 4294967296) (hL : (listBytes list).length < 2147483648)
    (hn : numBytes ≤ 2147483648) (hfuel : list.length + 2 ≤ fuel) :
    (∃ r, GetPacketFromList fuel list listStart numBytes seq edits = .ok r) ∨
    GetPacketFromList fuel list listStart numBytes seq edits = .error .fatal :=
  locate_in_window fuel list listStart numBytes seq edits hstart hseq hL hn hfuel

/-- C37 (amended), at a concrete input: items of 3, 2 and 4 bytes from sequence 1000;
twenty bytes are asked for at 1002, more than the list holds. -/
theorem locate_range_terminates_witness :
    GetPacketFromList 5
      [{ TcpTxItem.new with m_packet := [1, 2, 3] }, { TcpTxItem.new with m_packet := [4, 5] },
       { TcpTxItem.new with m_packet := [6, 7, 8, 9] }] 1000 20 1002 [] ≠ .error .fuel ∧
    ((∃ r, GetPacketFromList 5
      [{ TcpTxItem.new with m_packet := [1, 2, 3] }, { TcpTxItem.new with m_packet := [4, 5] },
       { TcpTxItem.new with m_packet := [6, 7, 8, 9] }] 1000 20 1002 [] = .ok r) ∨
    GetPacketFromList 5
      [{ TcpTxItem.new with m_packet := [1, 2, 3] }, { TcpTxItem.new with m_packet := [4, 5] },
       { TcpTxItem.new with m_packet := [6, 7, 8, 9] }] 1000 20 1002 [] = .error .fatal) :=
  ⟨by decide,
   locate_range_terminates 5 _ 1000 20 1002 [] (by decide) (by decide) (by decide) (by decide)
     (by decide)⟩

/-- C38: `Addqednew` on an item `p` of at least `m_qheader` bytes (and at least the
sixteen bytes the function stamps, which a header size that is a positive multiple of 16
implies) returns; the item keeps its flags and its size. Its new bytes are the first
`m_qheader` bytes of a fresh header (`Q`, `T`, `C`, `S`, then `m_esQseq` and
`m_stageQseq` in big-endian order, the flag byte `128 + m_qheader / 4` and zeros) and,
behind them, the encoding of a payload of ones, 50 in every byte. For a header of
sixteen bytes or more the tag, the two counters, the flag byte and the zero bytes are at
their places. `m_esQseq` and `m_stageQseq` advance by one and no other member of the
buffer changes, so `m_sentSize`, `m_size`, `m_stageSize`, the head and the tail sequence
are as before. Written back at the position of `p`, the item leaves the size of the sent
list, in items and in bytes, as it was. -/
theorem regenerate_in_place (p : TcpTxItem) (b : TcpTxBuffer) (h16 : 16 ≤ p.size)
    (hsz : b.m_qheader ≤ p.size) :
    ∃ (q : TcpTxItem) (b' : TcpTxBuffer),
      Addqednew p b = .ok (q, b') ∧
      b' = { b with m_esQseq := add32 b.m_esQseq 1, m_stageQseq := add32 b.m_stageQseq 1 } ∧
      b'.m_sentSize = b.m_sentSize ∧ b'.m_size = b.m_size ∧ b'.m_stageSize = b.m_stageSize ∧
      HeadSequence b' = HeadSequence b ∧ TailSequence b' = TailSequence b ∧
      b'.m_sentList = b.m_sentList ∧
      q = { p with m_packet := q.m_packet } ∧
      q.m_packet
        = ([81, 84, 67, 83,
            b.m_esQseq / 16777216 % 256, b.m_esQseq / 65536 % 256, b.m_esQseq / 256 % 256,
            b.m_esQseq % 256,
            b.m_stageQseq / 16777216 % 256, b.m_stageQseq / 65536 % 256,
            b.m_stageQseq / 256 % 256, b.m_stageQseq % 256,
            (128 + b.m_qheader / 4) % 256, 0, 0, 0]
            ++ List.replicate (p.size - 16) 0).take b.m_qheader
          ++ List.replicate (p.size - b.m_qheader) 50 ∧
      (16 ≤ b.m_qheader →
        q.m_packet.take 4 = [81, 84, 67, 83] ∧
        (q.m_packet.drop 4).take 4 = bigEndian32 b.m_esQseq ∧
        (q.m_packet.drop 8).take 4 = bigEndian32 b.m_stageQseq ∧
        q.m_packet[12]? = some ((128 + b.m_qheader / 4) % 256) ∧
        (∀ i, 13 ≤ i → i < b.m_qheader → q.m_packet[i]? = some 0) ∧
        q.m_packet.drop b.m_qheader = List.replicate (p.size - b.m_qheader) 50) ∧
      q.size = p.size ∧
      ∀ i : Nat, b.m_sentList[i]? = some p →
        (b.m_sentList.set i q)[i]? = some q ∧
        (b.m_sentList.set i q).length = b.m_sentList.length ∧
        (listBytes (b.m_sentList.set i q)).length = (listBytes b.m_sentList).length := by
  have hpos : 0 < p.size := by omega
  have hlen : ((headerArray p.size b.m_esQseq b.m_stageQseq (128 + b.m_qheader / 4)).take
        b.m_qheader ++ List.replicate (p.size - b.m_qheader) 50).length = p.size := by
    rw [List.length_append, List.length_take, headerArray_length, List.length_replicate]
    omega
  have harr : headerArray p.size b.m_esQseq b.m_stageQseq (128 + b.m_qheader / 4)
      = [81, 84, 67, 83,
          b.m_esQseq / 16777216 % 256, b.m_esQseq / 65536 % 256, b.m_esQseq / 256 % 256,
          b.m_esQseq % 256,
          b.m_stageQseq / 16777216 % 256, b.m_stageQseq / 65536 % 256,
          b.m_stageQseq / 256 % 256, b.m_stageQseq % 256,
          (128 + b.m_qheader / 4) % 256, 0, 0, 0]
          ++ List.replicate (p.size - 16) 0 := by
    unfold headerArray
    rw [List.take_of_length_le]
    · rfl
    · rw [List.length_append, List.length_replicate]
      show 16 + (p.size - 16) ≤ p.size
      omega
  refine ⟨{ p with m_packet :=
      (headerArray p.size b.m_esQseq b.m_stageQseq (128 + b.m_qheader / 4)).take b.m_qheader
        ++ List.replicate (p.size - b.m_qheader) 50 }, _, ?_, rfl, rfl, rfl, rfl, rfl, rfl, rfl,
    rfl, ?_, ?_, hlen, ?_⟩
  · unfold Addqednew
    rw [if_pos hpos]
    dsimp only
    rw [if_neg (by omega), Encode_ones]
  · show _ ++ _ = _
    rw [harr]
  · intro hq
    have hpk : ({ p with m_packet :=
        (headerArray p.size b.m_esQseq b.m_stageQseq (128 + b.m_qheader / 4)).take b.m_qheader
          ++ List.replicate (p.size - b.m_qheader) 50 } : TcpTxItem).m_packet
        = headerStamp b.m_esQseq b.m_stageQseq (128 + b.m_qheader / 4)
          ++ List.replicate (b.m_qheader - 16) 0
          ++ List.replicate (p.size - b.m_qheader) 50 := by
      show _ ++ _ = _
      rw [headerArray_take _ _ _ _ _ hq hsz]
    rw [hpk]
    refine ⟨rfl, rfl, rfl, rfl, ?_, ?_⟩
    · intro i h13 hi
      exact headerStamp_zero _ _ _ _ _ i h13 (by omega)
    · exact headerStamp_drop _ _ _ _ _ hq
  · intro i hi
    have hi' : i < b.m_sentList.length := by
      by_contra hc
      rw [List.getElem?_eq_none (by omega)] at hi
      cases hi
    refine ⟨?_, List.length_set _ _ _, listBytes_set_length _ _ _ _ hi hlen⟩
    rw [List.getElem?_set_self hi']

/-- C38, at a concrete input: the one sent item of `oneUnitSent`, 50 bytes, with the
16-byte header of that buffer, whose counters `m_esQseq` and `m_stageQseq` are 8 and 1:
the new bytes are the header with these counters and the flag byte 132, then 34 bytes
of 50. -/
theorem regenerate_in_place_witness :
    (oneUnitSent.2.m_esQseq, oneUnitSent.2.m_stageQseq, oneUnitSent.2.m_qheader) = (8, 1, 16) ∧
    (Addqednew (oneUnitSent.2.m_sentList.headD TcpTxItem.new) oneUnitSent.2).map
        (fun r => (r.1.m_packet, r.2.m_esQseq, r.2.m_stageQseq))
      = .ok ([81, 84, 67, 83, 0, 0, 0, 8, 0, 0, 0, 1, 132, 0, 0, 0] ++ List.replicate 34 50,
             9, 2) ∧
    ∃ (q : TcpTxItem) (b' : TcpTxBuffer),
      Addqednew (oneUnitSent.2.m_sentList.headD TcpTxItem.new) oneUnitSent.2 = .ok (q, b') ∧
      b' = { oneUnitSent.2 with m_esQseq := add32 oneUnitSent.2.m_esQseq 1,
                                m_stageQseq := add32 oneUnitSent.2.m_stageQseq 1 } ∧
      b'.m_sentSize = oneUnitSent.2.m_sentSize ∧ b'.m_size = oneUnitSent.2.m_size ∧
      b'.m_stageSize = oneUnitSent.2.m_stageSize ∧
      HeadSequence b' = HeadSequence oneUnitSent.2 ∧
      TailSequence b' = TailSequence oneUnitSent.2 ∧
      b'.m_sentList = oneUnitSent.2.m_sentList ∧
      q = { oneUnitSent.2.m_sentList.headD TcpTxItem.new with m_packet := q.m_packet } ∧
      q.m_packet
        = ([81, 84, 67, 83,
            oneUnitSent.2.m_esQseq / 16777216 % 256, oneUnitSent.2.m_esQseq / 65536 % 256,
            oneUnitSent.2.m_esQseq / 256 % 256, oneUnitSent.2.m_esQseq % 256,
            oneUnitSent.2.m_stageQseq / 16777216 % 256,
            oneUnitSent.2.m_stageQseq / 65536 % 256,
            oneUnitSent.2.m_stageQseq / 256 % 256, oneUnitSent.2.m_stageQseq % 256,
            (128 + oneUnitSent.2.m_qheader / 4) % 256, 0, 0, 0]
            ++ List.replicate ((oneUnitSent.2.m_sentList.headD TcpTxItem.new).size - 16) 0).take
              oneUnitSent.2.m_qheader
          ++ List.replicate
            ((oneUnitSent.2.m_sentList.headD TcpTxItem.new).size - oneUnitSent.2.m_qheader) 50 ∧
      (16 ≤ oneUnitSent.2.m_qheader →
        q.m_packet.take 4 = [81, 84, 67, 83] ∧
        (q.m_packet.drop 4).take 4 = bigEndian32 oneUnitSent.2.m_esQseq ∧
        (q.m_packet.drop 8).take 4 = bigEndian32 oneUnitSent.2.m_stageQseq ∧
        q.m_packet[12]? = some ((128 + oneUnitSent.2.m_qheader / 4) % 256) ∧
        (∀ i, 13 ≤ i → i < oneUnitSent.2.m_qheader → q.m_packet[i]? = some 0) ∧
        q.m_packet.drop oneUnitSent.2.m_qheader = List.replicate
          ((oneUnitSent.2.m_sentList.headD TcpTxItem.new).size - oneUnitSent.2.m_qheader) 50) ∧
      q.size = (oneUnitSent.2.m_sentList.headD TcpTxItem.new).size ∧
      ∀ i : Nat, oneUnitSent.2.m_sentList[i]?
          = some (oneUnitSent.2.m_sentList.headD TcpTxItem.new) →
        (oneUnitSent.2.m_sentList.set i q)[i]? = some q ∧
        (oneUnitSent.2.m_sentList.set i q).length = oneUnitSent.2.m_sentList.length ∧
        (listBytes (oneUnitSent.2.m_sentList.set i q)).length
          = (listBytes oneUnitSent.2.m_sentList).length :=
  ⟨by decide, by decide,
   regenerate_in_place (oneUnitSent.2.m_sentList.headD TcpTxItem.new) oneUnitSent.2
     (by decide) (by decide)⟩

/-- C39, as stated, fails: in `fourSacked` (head 1000, sent items of 50, 43, 45 and 42
bytes, the third one SACKed, so `m_highestSack` is the fourth item at 1138), the item at
`[1050, 1093)` is the first one that is not the head, not sacked and at or after
`seq = 1000`, but the first block `CraftSackOption` returns is `[1138, 1180)`, the item
at the highest-SACKed mark; the third block, `[1050, 1093)`, covers an item that is not
sacked. -/
theorem sack_option_starts_at_mark :
    fourRun = .ok fourSacked ∧
    fourSacked.m_firstByteSeq = 1000 ∧
    fourSacked.m_sentList.map (fun x => (x.size, x.m_sacked))
      = [(50, false), (43, false), (45, true), (42, false)] ∧
    fourSacked.m_highestSack = (.atNode 3, 1138) ∧
    ¬ seqGt 1000 1050 ∧
    CraftSackOption sackOptionSize 1000 40 fourSacked
      = .ok (some [(1138, 1180), (1093, 1138), (1050, 1093)]) := by
  decide

/-- C39 (amended): when `CraftSackOption` returns an option, its first block is the
range of the first item of the sent list, at or behind the item `m_highestSack`
designates (the first item when it designates none), that is not the head, not sacked
and does not begin before `seq`. -/
theorem sack_option_first_block (optSize : Nat → Nat) (seq available : Nat)
    (b : TcpTxBuffer) (blocks : List (Nat × Nat))
    (hstart : (scanStart b).2 < 4294967296)
    (h : CraftSackOption optSize seq available b = .ok (some blocks)) :
    ∃ (j : Nat) (item : TcpTxItem), (scanStart b).1 ≤ j ∧ b.m_sentList[j]? = some item ∧
      item.m_sacked = false ∧ j ≠ 0 ∧ ¬ seqGt seq (scanBegin b j) ∧
      (∀ (k : Nat) (x : TcpTxItem), (scanStart b).1 ≤ k → k < j →
        b.m_sentList[k]? = some x →
          x.m_sacked = true ∨ k = 0 ∨ seqGt seq (scanBegin b k)) ∧
      blocks.head? = some (scanBegin b j, seqAdd (scanBegin b j) item.size) := by
  have key : ∀ (i bg : Nat), scanStart b = (i, bg) →
      craftScan b.m_sentList b.m_firstByteSeq seq available optSize (b.m_sentList.drop i) i bg
        = .ok (some blocks) →
      ∃ (j : Nat) (item : TcpTxItem), (scanStart b).1 ≤ j ∧ b.m_sentList[j]? = some item ∧
        item.m_sacked = false ∧ j ≠ 0 ∧ ¬ seqGt seq (scanBegin b j) ∧
        (∀ (k : Nat) (x : TcpTxItem), (scanStart b).1 ≤ k → k < j →
          b.m_sentList[k]? = some x →
            x.m_sacked = true ∨ k = 0 ∨ seqGt seq (scanBegin b k)) ∧
        blocks.head? = some (scanBegin b j, seqAdd (scanBegin b j) item.size) := by
    intro i bg hs hc
    have hbg : bg < 4294967296 := by rw [hs] at hstart; exact hstart
    obtain ⟨j, item, h1, h2, h3, h4, h5, h6⟩ := craftScan_first _ _ _ _ _ _ _ _ _ hbg hc
    have hsb : ∀ k, scanBegin b (i + k)
        = seqAdd bg (listBytes ((b.m_sentList.drop i).take k)).length := by
      intro k
      unfold scanBegin
      rw [hs]
      dsimp only
      rw [Nat.add_sub_cancel_left]
    refine ⟨i + j, item, by rw [hs]; dsimp only; omega, ?_, h2, h3, by rw [hsb]; exact h4, ?_,
      by rw [hsb]; exact h6⟩
    · rw [← h1, List.getElem?_drop]
    · intro k x hk1 hk2 hx
      rw [hs] at hk1
      dsimp only at hk1
      obtain ⟨d, rfl⟩ := Nat.exists_eq_add_of_le hk1
      rw [hsb]
      exact h5 d x (by omega) (by rw [List.getElem?_drop]; exact hx)
  unfold CraftSackOption at h
  split at h
  · rename_i he
    have hs : scanStart b = (0, b.m_firstByteSeq) := by unfold scanStart; rw [he]
    exact key 0 _ hs (by simpa using h)
  · rename_i i he
    split at h
    · have hs : scanStart b = (i, b.m_highestSack.2) := by unfold scanStart; rw [he]
      exact key i _ hs h
    · cases h
  · cases h

/-- C39 (amended), at a concrete input: `fourSacked`, where the scan starts at the fourth
item, and `midSacked`, where two blocks are returned. -/
theorem sack_option_first_block_witness :
    CraftSackOption sackOptionSize 1000 40 fourSacked
      = .ok (some [(1138, 1180), (1093, 1138), (1050, 1093)]) ∧
    scanStart fourSacked = (3, 1138) ∧
    ∃ (j : Nat) (item : TcpTxItem), (scanStart fourSacked).1 ≤ j ∧
      fourSacked.m_sentList[j]? = some item ∧
      item.m_sacked = false ∧ j ≠ 0 ∧ ¬ seqGt 1000 (scanBegin fourSacked j) ∧
      (∀ (k : Nat) (x : TcpTxItem), (scanStart fourSacked).1 ≤ k → k < j →
        fourSacked.m_sentList[k]? = some x →
          x.m_sacked = true ∨ k = 0 ∨ seqGt 1000 (scanBegin fourSacked k)) ∧
      [(1138, 1180), (1093, 1138), (1050, 1093)].head?
        = some (scanBegin fourSacked j, seqAdd (scanBegin fourSacked j) item.size) :=
  ⟨by decide, by decide,
   sack_option_first_block sackOptionSize 1000 40 fourSacked
     [(1138, 1180), (1093, 1138), (1050, 1093)] (by decide) (by decide)⟩

/-- C40: for every buffer state, every `dupThresh` and every `segmentSize`,
`BytesInFlight` on the state `SetSentListLost` leaves returns 0: every item of the sent
list is flagged lost, so `IsLost` answers `true` for it at once and
`m_retrans && !m_lost` is false. -/
theorem all_lost_nothing_in_flight (b : TcpTxBuffer) (dupThresh segmentSize : Nat) :
    (∀ x ∈ (SetSentListLost b).m_sentList, x.m_lost = true) ∧
    BytesInFlight dupThresh segmentSize (SetSentListLost b) = .ok 0 := by
  have hall : ∀ x ∈ (SetSentListLost b).m_sentList, x.m_lost = true := by
    intro x hx
    unfold SetSentListLost at hx
    simp only [List.mem_map] at hx
    obtain ⟨y, -, e⟩ := hx
    rw [← e]
  refine ⟨hall, ?_⟩
  unfold BytesInFlight
  exact bytesInFlightLoop_lost _ _ _ hall _ _ _ _ (List.drop_zero _)

end QTcp
